import Mathlib

/-!
# Cassette I/O and game sound of xtrs: a shallow embedding of `trs_cassette.c`

The C module keeps its session in file-level statics and talks to the host
through stdio, a control file, the OSS sound device and the emulator's event
scheduler.  Here the statics become one record `Cassette`, every C function
becomes a function on that record, and the host becomes explicit data:

* a stdio stream is a `FILE` value (contents seen through the stream, position,
  access mode); the host's files are written back when the stream is closed;
* `double` quantities are rationals (`ℚ`) and the arithmetic on durations is
  exact: the properties stated of it do not depend on how a tie rounds, and
  `wav_nsamples_f64` gives lines 693-695 with every operation rounded to
  binary64 (`fl64`); the `float` estimators of the wave reader are rounded to
  binary32 at every operation (`fl32`);
* `int` is `Int`, `unsigned long` and `tstate_t` are naturals reduced modulo
  `2 ^ 64`, `Uint` modulo `2 ^ 32`, `Ushort` modulo `2 ^ 16`;
* the build modelled is the Linux one (`HAVE_OSS`, `OSS_SOUND` set; `USESOX`,
  `SB_SOUND`, `CASSDEBUG` unset), so `sb_address` is always `0`;
* signal masking (`sigprocmask`) has no counterpart: the model is sequential.
-/

namespace Xtrs

/-! ## Constants of `trs_cassette.c` -/

@[simp] def CLOSE : Int := 0
@[simp] def READ : Int := 1
@[simp] def WRITE : Int := 2
@[simp] def SOUND : Int := 3
@[simp] def FAILED : Int := 4

@[simp] def CAS_FORMAT : Int := 1
@[simp] def CPT_FORMAT : Int := 2
@[simp] def WAV_FORMAT : Int := 3
@[simp] def DIRECT_FORMAT : Int := 4
@[simp] def DEBUG_FORMAT : Int := 5
@[simp] def AUTODETECT_FORMAT : Int := 6

@[simp] def DEFAULT_SAMPLE_RATE : Int := 11025
@[simp] def NOISE_FLOOR : Int := 64
@[simp] def DEFAULT_FILENAME : String := "cassette.cas"
@[simp] def DSP_FILENAME : String := "/dev/dsp"
@[simp] def DEFAULT_FORMAT : Int := CAS_FORMAT
@[simp] def FLUSH : Int := 4
@[simp] def EOF : Int := -1

@[simp] def CAS_MAXSTATES : Nat := 8
@[simp] def ST_INITIAL : Int := 0
@[simp] def ST_LOGOTCLK : Int := 1
@[simp] def ST_LOGOTDAT : Int := 2
@[simp] def ST_HIGH : Int := 3
@[simp] def ST_LOTHRESH : ℚ := 1250
@[simp] def ST_HITHRESH : ℚ := 282

@[simp] def WAVE_FORMAT_PCM : Int := 1
@[simp] def WAVE_FORMAT_MONO : Int := 1
@[simp] def WAVE_FORMAT_8BIT : Int := 8
@[simp] def WAVE_RIFFSIZE_OFFSET : Int := 0x04
@[simp] def WAVE_RIFF_OFFSET : Int := 0x08
@[simp] def WAVE_DATAID_OFFSET : Int := 0x24
@[simp] def WAVE_DATASIZE_OFFSET : Int := 0x28
@[simp] def WAVE_DATA_OFFSET : Int := 0x2c

/-- The largest `unsigned long` (LP64), the value of `(unsigned long) -1`. -/
@[simp] def ULONG_MAX : Nat := 2 ^ 64 - 1

/-! ## Machine arithmetic -/

/-- Conversion of a `double` to an integer: the fractional part is discarded
(truncation toward zero). -/
def trunc (x : ℚ) : Int := if 0 ≤ x then ⌊x⌋ else -⌊-x⌋

/-- The cast `(unsigned long) x` of a `double`.  C defines it when the truncated
value is representable; outside that range the model wraps modulo `2 ^ 64`. -/
def to_ulong (x : ℚ) : Nat := (trunc x % 2 ^ 64).toNat

/-- An `unsigned long` stored into a `long`: two's complement reinterpretation. -/
def to_long (n : Nat) : Int := if n % 2 ^ 64 < 2 ^ 63 then (n % 2 ^ 64 : Nat) else (n % 2 ^ 64 : Nat) - 2 ^ 64

/-- A `long` or `int` converted to `unsigned long`. -/
def ulong_of_int (i : Int) : Nat := (i % 2 ^ 64).toNat

/-- A value converted to `Uint` (32 bits). -/
def to_uint (i : Int) : Nat := (i % 2 ^ 32).toNat

/-- A value converted to `Ushort` (16 bits). -/
def to_ushort (i : Int) : Nat := (i % 2 ^ 16).toNat

/-- A `Uint` stored into an `int`: two's complement reinterpretation. -/
def int_of_uint (n : Nat) : Int := if n % 2 ^ 32 < 2 ^ 31 then (n % 2 ^ 32 : Nat) else (n % 2 ^ 32 : Nat) - 2 ^ 32

/-- The cast `(int) x` of a `double`. -/
def to_int (x : ℚ) : Int := int_of_uint (to_uint (trunc x))

/-- Round to the nearest integer, a tie to the even neighbour: the rounding
of IEEE 754 arithmetic in its default mode. -/
def round_even (t : ℚ) : Int :=
  if t - ⌊t⌋ < 1 / 2 then ⌊t⌋
  else if 1 / 2 < t - ⌊t⌋ then ⌊t⌋ + 1
  else if ⌊t⌋ % 2 = 0 then ⌊t⌋ else ⌊t⌋ + 1

/-- The value nearest to `x` in a binary floating-point format of `p`
significant bits whose least normal exponent is `emin`, a tie going to the even
significand; below `2 ^ emin` the spacing stays that of the least binade
(subnormal numbers).  Overflow is not modelled. -/
def fl_round (p : Nat) (emin : Int) (x : ℚ) : ℚ :=
  (round_even (x / 2 ^ (max (Int.log 2 |x|) emin - (p - 1 : Nat))) : ℚ)
    * 2 ^ (max (Int.log 2 |x|) emin - (p - 1 : Nat))

/-- The result of an operation on `float` (IEEE 754 binary32) whose exact
value is `x`. -/
def fl32 (x : ℚ) : ℚ := fl_round 24 (-126) x

/-- Unsigned subtraction of two `tstate_t` values. -/
def tsub (a b : Nat) : Nat := (a + 2 ^ 64 - b % 2 ^ 64) % 2 ^ 64

/-- Unsigned addition of two `tstate_t` values. -/
def tadd (a b : Nat) : Nat := (a + b) % 2 ^ 64

/-! ## Host files and stdio streams -/

/-- An open stdio stream: the file contents as seen through the stream, the
file position, and what the stream may be used for. -/
structure FILE where
  /-- identity of the stream among the host's open streams -/
  id : Nat
  name : String
  data : List Nat
  pos : Nat
  /-- opened with "r" or "r+" -/
  rd : Bool
  /-- opened with "r+" or "w" -/
  wr : Bool
  /-- the device behind the stream rejects every write -/
  full : Bool
deriving DecidableEq, Repr

/-- The host as the module sees it. -/
structure Host where
  /-- named files and their contents -/
  files : List (String × List Nat)
  /-- names that cannot be opened for writing -/
  unwritable : List String
  /-- names whose streams reject every write -/
  full : List String
  /-- identities of the streams currently open -/
  opened : List Nat
  next_id : Nat
  /-- what `fscanf` finds in `.cassette.ctl`: nothing usable, or a file name, a
  position and possibly a format -/
  control : Option (String × Int × Option Int)
  /-- `.cassette.ctl` cannot be opened for writing -/
  control_locked : Bool
  /-- `SNDCTL_DSP_SETFMT` succeeds and grants `AFMT_U8` -/
  dsp_fmt_ok : Bool
  /-- `SNDCTL_DSP_STEREO` succeeds and grants mono -/
  dsp_mono_ok : Bool
  /-- the rate `SNDCTL_DSP_SPEED` settles on, if the call succeeds -/
  dsp_speed : Option Int
  /-- `SNDCTL_DSP_SETFRAGMENT` succeeds -/
  dsp_frag_ok : Bool
deriving DecidableEq, Repr

/-- Contents of a byte list after storing `b` at offset `pos`; a gap past the
end of the file reads as zeros. -/
def poke (data : List Nat) (pos : Nat) (b : Nat) : List Nat :=
  data.take pos ++ List.replicate (pos - data.length) 0 ++ b :: data.drop (pos + 1)

/-- The libc call `putc(c, f)`: returns the byte written, or `EOF`. -/
def putc (c : Int) (f : FILE) : Int × FILE :=
  if f.wr && !f.full then
    (c % 256, { f with data := poke f.data f.pos (c % 256).toNat, pos := f.pos + 1 })
  else (EOF, f)

/-- The libc call `getc(f)`: returns the next byte, or `EOF`. -/
def getc (f : FILE) : Int × FILE :=
  if f.rd then
    match f.data.drop f.pos with
    | [] => (EOF, f)
    | c :: _ => ((c : Int), { f with pos := f.pos + 1 })
  else (EOF, f)

/-- The libc call `fseek(f, offset, 0)`. -/
def fseek (f : FILE) (offset : Int) : FILE :=
  if 0 ≤ offset then { f with pos := offset.toNat } else f

/-- The libc call `ftell(f)`. -/
def ftell (f : FILE) : Int := f.pos

/-- The libc call `fputs(s, f)` for the bytes of `s`; negative on failure. -/
def fputs (s : List Nat) (f : FILE) : Int × FILE :=
  match s with
  | [] => (0, f)
  | c :: cs =>
    let r := putc c f
    if r.1 = EOF then (EOF, r.2) else fputs cs r.2

/-- Replace the contents of the host file `name`. -/
def Host.store (h : Host) (name : String) (data : List Nat) : Host :=
  { h with files := (name, data) :: h.files.filter (fun e => e.1 != name) }

/-- The libc call `fopen(name, "r")`. -/
def fopen_r (name : String) (h : Host) : Option FILE × Host :=
  match h.files.lookup name with
  | none => (none, h)
  | some d =>
    (some { id := h.next_id, name := name, data := d, pos := 0, rd := true, wr := false,
            full := h.full.contains name },
     { h with opened := h.next_id :: h.opened, next_id := h.next_id + 1 })

/-- The libc call `fopen(name, "r+")`. -/
def fopen_rplus (name : String) (h : Host) : Option FILE × Host :=
  match h.files.lookup name with
  | none => (none, h)
  | some d =>
    if h.unwritable.contains name then (none, h)
    else
      (some { id := h.next_id, name := name, data := d, pos := 0, rd := true, wr := true,
              full := h.full.contains name },
       { h with opened := h.next_id :: h.opened, next_id := h.next_id + 1 })

/-- The libc call `fopen(name, "w")`: the file is created or truncated. -/
def fopen_w (name : String) (h : Host) : Option FILE × Host :=
  if h.unwritable.contains name then (none, h)
  else
    (some { id := h.next_id, name := name, data := [], pos := 0, rd := false, wr := true,
            full := h.full.contains name },
     { (h.store name []) with opened := h.next_id :: h.opened, next_id := h.next_id + 1 })

/-- The libc call `fclose(f)`: what was written reaches the host file. -/
def fclose (f : FILE) (h : Host) : Host :=
  let h1 := if f.wr then h.store f.name f.data else h
  { h1 with opened := h1.opened.erase f.id }

/-- Run `a`, and `b` only if `a` did not fail: the chain of
`if (... < 0) return -1;` statements. -/
def and_then (a b : FILE → Int × FILE) (f : FILE) : Int × FILE :=
  let r := a f
  if r.1 < 0 then (-1, r.2) else b r.2

/-- Put a 2-byte quantity to a file in little-endian order; -1 on error, 0
otherwise. -/
def put_twobyte (n : Nat) (f : FILE) : Int × FILE :=
  let r := putc ((n % 256 : Nat) : Int) f
  if r.1 = -1 then (-1, r.2)
  else
    let r := putc ((n / 256 % 256 : Nat) : Int) r.2
    if r.1 = -1 then (-1, r.2) else (0, r.2)

/-- Put a 4-byte quantity to a file in little-endian order; -1 on error, 0
otherwise. -/
def put_fourbyte (n : Nat) (f : FILE) : Int × FILE :=
  let r := putc ((n % 256 : Nat) : Int) f
  if r.1 = -1 then (-1, r.2)
  else
    let r := putc ((n / 256 % 256 : Nat) : Int) r.2
    if r.1 = -1 then (-1, r.2)
    else
      let r := putc ((n / 65536 % 256 : Nat) : Int) r.2
      if r.1 = -1 then (-1, r.2)
      else
        let r := putc ((n / 16777216 % 256 : Nat) : Int) r.2
        if r.1 = -1 then (-1, r.2) else (0, r.2)

/-- Get a 2-byte quantity from a file in little-endian order: the status (-1
on error, 0 otherwise), the quantity, and the stream. -/
def get_twobyte (f : FILE) : Int × Nat × FILE :=
  let r0 := getc f
  if r0.1 = -1 then (-1, 0, r0.2)
  else
    let r1 := getc r0.2
    if r1.1 = -1 then (-1, 0, r1.2)
    else (0, r0.1.toNat + 256 * r1.1.toNat, r1.2)

/-- Get a 4-byte quantity from a file in little-endian order: the status (-1
on error, 0 otherwise), the quantity, and the stream. -/
def get_fourbyte (f : FILE) : Int × Nat × FILE :=
  let r0 := getc f
  if r0.1 = -1 then (-1, 0, r0.2)
  else
    let r1 := getc r0.2
    if r1.1 = -1 then (-1, 0, r1.2)
    else
      let r2 := getc r1.2
      if r2.1 = -1 then (-1, 0, r2.2)
      else
        let r3 := getc r2.2
        if r3.1 = -1 then (-1, 0, r3.2)
        else
          (0, r0.1.toNat + 256 * r1.1.toNat + 65536 * r2.1.toNat + 16777216 * r3.1.toNat, r3.2)

/-! ## The module's state -/

/-- The functions the module hands to the event scheduler. -/
inductive EventFunc where
  | transition_out
  | assert_state
  | trs_cassette_kickoff
  | trs_cassette_fall_interrupt
  | trs_cassette_rise_interrupt
  | trs_cassette_update
deriving DecidableEq, Repr

/-- Calls that leave the module and have no other trace in the state. -/
inductive Call where
  | error (msg : String)
  | fopen (name : String) (mode : String)
  | fclose (id : Nat)
  | get_control
  | put_control
  | setbuf
  | ioctl_setfragment
  | ioctl_post
  | trs_suspend_delay
  | trs_restore_delay
  | trs_cassette_fall_interrupt
  | trs_cassette_rise_interrupt
  | trs_cassette_clear_interrupts
deriving DecidableEq, Repr

/-- The statics of `trs_cassette.c` together with what the module reads from
the rest of the emulator (`z80_state`, `trs_model`, `trs_paused`, the pending
scheduler event), the host, and the log of outward calls (latest first). -/
structure Cassette where
  cassette_filename : String
  cassette_position : Int
  cassette_format : Int
  cassette_state : Int
  cassette_motor : Int
  /-- the C pointer: `none` is `NULL`; after `fclose` the stale value stays -/
  cassette_file : Option FILE
  cassette_avg : ℚ
  cassette_env : ℚ
  cassette_noisefloor : Int
  cassette_sample_rate : Int
  cassette_default_sample_rate : Int
  cassette_transition : Nat
  last_sound : Nat
  cassette_value : Int
  cassette_next : Int
  cassette_flipflop : Int
  cassette_lastnonzero : Int
  cassette_delta : Nat
  cassette_roundoff_error : ℚ
  cassette_byte : Int
  cassette_bitnumber : Int
  cassette_pulsestate : Int
  cassette_highspeed : Int
  wave_dataid_offset : Int
  wave_datasize_offset : Int
  wave_data_offset : Int
  /-- the emulated clock `z80_state.t_count` -/
  t_count : Nat
  /-- the clock rate `z80_state.clockMHz` -/
  clockMHz : ℚ
  /-- the flag `z80_state.nmi` -/
  nmi : Int
  trs_model : Int
  trs_paused : Int
  /-- what `trs_cassette_interrupts_enabled()` answers -/
  interrupts_enabled : Bool
  /-- the scheduler's pending event: function, argument, delay -/
  event : Option (EventFunc × Int × Int)
  host : Host
  log : List Call
deriving DecidableEq

/-- The module before any call: the static initialisers of the C file. -/
def Cassette.initial (h : Host) (clock : ℚ) (model : Int) : Cassette :=
  { cassette_filename := "", cassette_position := 0, cassette_format := 0,
    cassette_state := CLOSE, cassette_motor := 0, cassette_file := none,
    cassette_avg := 0, cassette_env := 0, cassette_noisefloor := 0,
    cassette_sample_rate := 0, cassette_default_sample_rate := DEFAULT_SAMPLE_RATE,
    cassette_transition := 0, last_sound := 0, cassette_value := 0, cassette_next := 0,
    cassette_flipflop := 0, cassette_lastnonzero := 0, cassette_delta := 0,
    cassette_roundoff_error := 0, cassette_byte := 0, cassette_bitnumber := 0,
    cassette_pulsestate := 0, cassette_highspeed := 0,
    wave_dataid_offset := WAVE_DATAID_OFFSET, wave_datasize_offset := WAVE_DATASIZE_OFFSET,
    wave_data_offset := WAVE_DATA_OFFSET,
    t_count := 0, clockMHz := clock, nmi := 0, trs_model := model, trs_paused := 0,
    interrupts_enabled := false, event := none, host := h, log := [] }

/-- Pulse shapes for conversion from .cas on input: the entry
`pulse_shape[speed][bit][state]` as `(delta_us, next)`.  Entries the initialiser
leaves out are zero; an index outside the array is not an access C defines, and
reads as zero here. -/
def pulse_table : List (List (List (Int × Int))) :=
  [ -- Low-speed zero: clock 1 data 0
    [ [(0, 1), (128, 2), (128, 0), (1750, 0), (-1, -1)],
      -- Low-speed one: clock 1 data 1
      [(0, 1), (128, 2), (128, 0), (747, 1), (128, 2), (128, 0), (747, 0), (-1, -1)] ],
    -- High-speed zero: wide pulse
    [ [(0, 1), (376, 2), (376, 1), (-1, -1)],
      -- High-speed one: narrow pulse
      [(0, 1), (188, 2), (188, 1), (-1, -1)] ] ]

/-- The entry `pulse_shape[speed][bit][state]`, read from `pulse_table`. -/
def pulse_shape (speed bit state : Int) : Int × Int :=
  if speed < 0 ∨ bit < 0 ∨ state < 0 then (0, 0)
  else ((pulse_table.getD speed.toNat []).getD bit.toNat []).getD state.toNat (0, 0)

/-- Values for conversion to .wav on output; an index outside the array reads
as zero here. -/
def value_to_sample (v : Int) : Nat :=
  match v with
  | 0 => 127
  | 1 => 254
  | 2 => 0
  | 3 => 127
  | _ => 0

/-! ## Outward calls on the session -/

/-- The access modes the module passes to `fopen`. -/
inductive Mode where
  | r
  | rplus
  | w
deriving DecidableEq, Repr

/-- The mode string of a `Mode`. -/
def Mode.str : Mode → String
  | .r => "r"
  | .rplus => "r+"
  | .w => "w"

/-- The libc call `fopen(name, mode)`. -/
def fopen (name : String) (mode : Mode) (h : Host) : Option FILE × Host :=
  match mode with
  | .r => fopen_r name h
  | .rplus => fopen_rplus name h
  | .w => fopen_w name h

/-- Record an outward call. -/
def Cassette.say (s : Cassette) (c : Call) : Cassette := { s with log := c :: s.log }

/-- The statement `cassette_file = fopen(cassette_filename, mode)`. -/
def do_fopen (mode : Mode) (s : Cassette) : Cassette :=
  let r := fopen s.cassette_filename mode s.host
  { s with cassette_file := r.1, host := r.2,
           log := Call.fopen s.cassette_filename mode.str :: s.log }

/-- The statement `fclose(cassette_file)`; the pointer keeps its stale value.
On `NULL` the call is not defined by C and does nothing here. -/
def do_fclose (s : Cassette) : Cassette :=
  match s.cassette_file with
  | none => s
  | some f => { s with host := fclose f s.host, log := Call.fclose f.id :: s.log }

/-- Apply a stream operation to `cassette_file`, dropping its result; on `NULL`
the call is not defined by C and does nothing here. -/
def on_file (op : FILE → Int × FILE) (s : Cassette) : Cassette :=
  { s with cassette_file := s.cassette_file.map (fun f => (op f).2) }

/-- The statement `fseek(cassette_file, offset, 0)`. -/
def do_fseek (offset : Int) (s : Cassette) : Cassette :=
  on_file (fun f => (0, fseek f offset)) s

/-- The bytes of a string literal. -/
def str_bytes (s : String) : List Nat := s.toList.map Char.toNat

/-- Write a new .wav file header to a file.  Return -1 on error. -/
def create_wav_header (f : FILE) (s : Cassette) : Int × FILE × Cassette :=
  let s := { s with wave_dataid_offset := WAVE_DATAID_OFFSET,
                    wave_datasize_offset := WAVE_DATASIZE_OFFSET,
                    wave_data_offset := WAVE_DATA_OFFSET }
  let s := if s.cassette_position < s.wave_data_offset then
             { s with cassette_position := s.wave_data_offset } else s
  let field1 := Int.tdiv (WAVE_FORMAT_MONO * s.cassette_sample_rate * WAVE_FORMAT_8BIT) 8
  let field2 := Int.tdiv (WAVE_FORMAT_MONO * WAVE_FORMAT_8BIT) 8
  let r :=
    (and_then (fputs (str_bytes "RIFF")) <|
     and_then (put_fourbyte 0) <|
     and_then (fputs (str_bytes "WAVEfmt ")) <|
     and_then (put_fourbyte 16) <|
     and_then (put_twobyte (to_ushort WAVE_FORMAT_PCM)) <|
     and_then (put_twobyte (to_ushort WAVE_FORMAT_MONO)) <|
     and_then (put_fourbyte (to_uint s.cassette_sample_rate)) <|
     and_then (put_fourbyte (to_uint field1)) <|
     and_then (put_twobyte (to_ushort field2)) <|
     and_then (put_twobyte (to_ushort WAVE_FORMAT_8BIT)) <|
     and_then (fputs (str_bytes "data")) <|
     and_then (put_fourbyte 0) (fun g => (0, g))) f
  (r.1, r.2, s)

/-- The libc call `fread(c4, 4, 1, f)`: the four bytes if they are all there. -/
def fread4 (f : FILE) : Option (List Nat) × FILE :=
  if f.rd then
    let got := (f.data.drop f.pos).take 4
    (if got.length = 4 then some got else none, { f with pos := f.pos + got.length })
  else (none, f)

/-- Error message generator: compare the next four bytes with a chunk id. -/
def check_chunk_id (expected : String) (f : FILE) (s : Cassette) : Int × FILE × Cassette :=
  let r := fread4 f
  match r.1 with
  | none => (-1, r.2, s)
  | some c4 =>
    if c4 ≠ str_bytes expected then
      (-1, r.2, s.say (Call.error "unusable wav file: expected chunk id"))
    else (0, r.2, s)

/-- The loop `while (n-- > 0) getc(f);`. -/
def skip_bytes (n : Nat) (f : FILE) : FILE :=
  if f.rd then { f with pos := max f.pos (min (f.pos + n) f.data.length) } else f

/-- Parse a .wav file's RIFF header. -/
def parse_wav_header (f : FILE) (s : Cassette) : Int × FILE × Cassette :=
  match check_chunk_id "RIFF" f s with
  | (c, f, s) =>
  if c < 0 then (-1, f, s) else
  match get_fourbyte f with
  | (c, _, f) =>
  if c < 0 then (-1, f, s) else
  match check_chunk_id "WAVE" f s with
  | (c, f, s) =>
  if c < 0 then (-1, f, s) else
  match check_chunk_id "fmt " f s with
  | (c, f, s) =>
  if c < 0 then (-1, f, s) else
  match get_fourbyte f with
  | (c, fmt_size, f) =>
  if c < 0 then (-1, f, s) else
  match get_twobyte f with
  | (c, n2, f) =>
  if c < 0 then (-1, f, s) else
  if (n2 : Int) ≠ WAVE_FORMAT_PCM then
    (-1, f, s.say (Call.error "unusable wav file: must be pcm")) else
  match get_twobyte f with
  | (c, n2, f) =>
  if c < 0 then (-1, f, s) else
  if (n2 : Int) ≠ WAVE_FORMAT_MONO then
    (-1, f, s.say (Call.error "unusable wav file: must be mono")) else
  match get_fourbyte f with
  | (c, n4, f) =>
  if c < 0 then (-1, f, s) else
  let s := { s with cassette_sample_rate := int_of_uint n4 }
  match get_fourbyte f with
  | (c, _, f) =>
  if c < 0 then (-1, f, s) else
  match get_twobyte f with
  | (c, n2, f) =>
  if c < 0 then (-1, f, s) else
  if n2 ≠ to_ushort (Int.tdiv (WAVE_FORMAT_MONO * WAVE_FORMAT_8BIT) 8) then
    (-1, f, s.say (Call.error "unusable wav file: must be 1 bytes/sample")) else
  match get_twobyte f with
  | (c, n2, f) =>
  if c < 0 then (-1, f, s) else
  if n2 ≠ to_ushort WAVE_FORMAT_8BIT then
    (-1, f, s.say (Call.error "unusable wav file: must be 8 bits/sample")) else
  let f := skip_bytes (to_uint ((fmt_size : Int) - 16)) f
  let s := { s with wave_dataid_offset := ftell f }
  match check_chunk_id "data" f s with
  | (c, f, s) =>
  if c < 0 then (-1, f, s) else
  let s := { s with wave_datasize_offset := ftell f }
  match get_fourbyte f with
  | (c, _, f) =>
  if c < 0 then (-1, f, s) else
  let s := { s with wave_data_offset := ftell f }
  let s := if s.cassette_position < s.wave_data_offset then
             { s with cassette_position := s.wave_data_offset } else s
  (0, f, s)

/-- Configure the sound device for unsigned 8-bit mono at
`cassette_sample_rate`; -1 when an `ioctl` fails or grants something else. -/
def set_audio_format (s : Cassette) : Int :=
  if !s.host.dsp_fmt_ok then -1
  else if !s.host.dsp_mono_ok then -1
  else
    match s.host.dsp_speed with
    | none => -1
    | some speed =>
      if |speed - s.cassette_sample_rate| > Int.tdiv s.cassette_sample_rate 20 then -1 else 0

/-- Read `.cassette.ctl`; fall back to the default file, position 0 and the
default format when fewer than two fields can be read. -/
def get_control (s : Cassette) : Cassette :=
  let s := { s with cassette_format := DEFAULT_FORMAT, log := Call.get_control :: s.log }
  match s.host.control with
  | none =>
    { (s.say (Call.error "can't read .cassette.ctl")) with
        cassette_filename := DEFAULT_FILENAME, cassette_position := 0 }
  | some (name, position, format) =>
    { s with cassette_filename := name, cassette_position := position,
             cassette_format := format.getD s.cassette_format }

/-- Write file name, position and format to `.cassette.ctl`, if it can be
opened. -/
def put_control (s : Cassette) : Cassette :=
  let s := s.say Call.put_control
  if s.host.control_locked then s
  else
    { s with trs_paused := 1,
             host := { s.host with
               control := some (s.cassette_filename, s.cassette_position, some s.cassette_format) } }

/-! ## The session state machine -/

/-- Lines 458-486 of `assert_state`: leave the current state, closing the
stream as the format requires and recording the position. -/
def close_session (s : Cassette) : Cassette :=
  if s.cassette_state ≠ CLOSE ∧ s.cassette_state ≠ FAILED then
    let s :=
      if s.cassette_format = DIRECT_FORMAT then
        let s := { s with trs_paused := 1 }
        let s := do_fclose s
        { s with cassette_position := 0 }
      else
        let s := { s with cassette_position :=
                     match s.cassette_file with
                     | some f => ftell f
                     | none => -1 }
        let s :=
          if s.cassette_format = WAV_FORMAT ∧ s.cassette_state = WRITE then
            let s := do_fseek WAVE_RIFFSIZE_OFFSET s
            let s := on_file (put_fourbyte (to_uint (s.cassette_position - WAVE_RIFF_OFFSET))) s
            let s := do_fseek s.wave_datasize_offset s
            on_file (put_fourbyte (to_uint (s.cassette_position - s.wave_data_offset))) s
          else s
        do_fclose s
    if s.cassette_state ≠ SOUND then put_control s else s
  else s

/-- The failure exit of `assert_state`: report, enter `FAILED`, return -1. -/
def open_failed (msg : String) (s : Cassette) : Int × Cassette :=
  (-1, { (s.say (Call.error msg)) with cassette_state := FAILED })

/-- The `case READ` arm of `assert_state`, up to its `break`. -/
def open_read (s : Cassette) : Int × Cassette :=
  let s := get_control s
  if s.cassette_format = DIRECT_FORMAT then
    let s := do_fopen .r s
    if s.cassette_file = none then open_failed "couldn't read" s
    else
      let s := s.say Call.setbuf
      let s := { s with cassette_sample_rate := s.cassette_default_sample_rate }
      if set_audio_format s < 0 then
        open_failed "couldn't set audio format" { s with cassette_file := none }
      else (0, s)
  else
    let s := do_fopen .r s
    let s :=
      if s.cassette_format = WAV_FORMAT then
        match s.cassette_file with
        | none => s
        | some f =>
          let r := parse_wav_header f s
          if r.1 < 0 then { r.2.2 with cassette_file := none }
          else { r.2.2 with cassette_file := some r.2.1 }
      else s
    if s.cassette_file = none then open_failed "couldn't read" s
    else (0, do_fseek s.cassette_position s)

/-- The `case SOUND: case WRITE` arm of `assert_state`, up to its `break`. -/
def open_write (state : Int) (s : Cassette) : Int × Cassette :=
  let s :=
    if state = SOUND then
      { s with cassette_format := DIRECT_FORMAT, cassette_filename := DSP_FILENAME }
    else get_control s
  if s.cassette_format = AUTODETECT_FORMAT then
    let s := s.say (Call.error "can't autodetect format on output")
    open_failed "couldn't write" { s with cassette_file := none }
  else if s.cassette_format = DIRECT_FORMAT then
    let s := { s with cassette_sample_rate := s.cassette_default_sample_rate }
    let s := do_fopen .w s
    if s.cassette_file = none then open_failed "couldn't write" s
    else
      let s := s.say Call.setbuf
      let s :=
        if state = SOUND then
          let s := s.say Call.ioctl_setfragment
          if s.host.dsp_frag_ok then s
          else s.say (Call.error "warning: couldn't set sound fragment size")
        else s
      if set_audio_format s < 0 then
        open_failed "couldn't set audio format" { s with cassette_file := none }
      else (0, s)
  else if s.cassette_format = WAV_FORMAT then
    let s := do_fopen .rplus s
    let s :=
      match s.cassette_file with
      | none =>
        let s := { s with cassette_sample_rate := s.cassette_default_sample_rate }
        let s := do_fopen .w s
        match s.cassette_file with
        | none => s
        | some f =>
          let r := create_wav_header f s
          if r.1 < 0 then { r.2.2 with cassette_file := none }
          else { r.2.2 with cassette_file := some r.2.1 }
      | some f =>
        let r := parse_wav_header f s
        if r.1 < 0 then
          let s := do_fclose { r.2.2 with cassette_file := some r.2.1 }
          { s with cassette_file := none }
        else { r.2.2 with cassette_file := some r.2.1 }
    let s := if s.cassette_file ≠ none then do_fseek s.cassette_position s else s
    if s.cassette_file = none then open_failed "couldn't write" s else (0, s)
  else
    let s := do_fopen .rplus s
    let s := if s.cassette_file = none then do_fopen .w s else s
    let s := if s.cassette_file ≠ none then do_fseek s.cassette_position s else s
    if s.cassette_file = none then open_failed "couldn't write" s else (0, s)

/-- Move the session to `state`.
Return value: 1 = already that state; 0 = state changed; -1 = failed. -/
def assert_state (state : Int) (s : Cassette) : Int × Cassette :=
  if s.cassette_state = state then (1, s)
  else if s.cassette_state = FAILED ∧ state ≠ CLOSE then (-1, s)
  else
    let s := close_session s
    let r :=
      if state = READ then open_read s
      else if state = SOUND ∨ state = WRITE then open_write state s
      else (0, s)
    if r.1 < 0 then r
    else (0, { r.2 with cassette_state := state })

/-! ## Recording an output transition -/

/-- Lines 647 and 657: `delta_us = (unsigned long) (ddelta_us + 0.5)`, stored
in a `long`.  The sum is exact: the rounding of `double` is left out. -/
def round_us (ddelta : ℚ) : Int := to_long (to_ulong (ddelta + 1 / 2))

/-- The text `fprintf(f, "%d %lu\n", value, delta_us)` produces. -/
def debug_line (value : Int) (delta_us : Int) : List Nat :=
  str_bytes (toString value) ++ [32] ++ str_bytes (toString (ulong_of_int delta_us)) ++ [10]

/-- The loop `while (nsamples-- > 0) putc(sample, f);`. -/
def put_samples (nsamples : Nat) (sample : Nat) (f : FILE) : Int × FILE :=
  match nsamples with
  | 0 => (0, f)
  | n + 1 => put_samples n sample (putc sample f).2

/-- The elapsed time of the transition being recorded, in microseconds, less
the round-off error carried over: the local `ddelta_us`.  The quotient and the
difference are exact: the rounding of `double` is left out. -/
def ddelta_us (s : Cassette) : ℚ :=
  (tsub s.t_count s.cassette_transition : ℚ) / s.clockMHz - s.cassette_roundoff_error

/-- Line 649: write the text record of a transition. -/
def put_debug (value : Int) (delta_us : Int) (s : Cassette) : Cassette :=
  on_file (fputs (debug_line value delta_us)) s

/-- The `case DEBUG_FORMAT` arm of `transition_out`: the value left in `value`
and the state. -/
def out_debug (value : Int) (ddelta : ℚ) (s : Cassette) : Int × Cassette :=
  let value := if value = FLUSH then s.cassette_value else value
  let delta_us : Int := round_us ddelta
  let s := { s with cassette_roundoff_error := (delta_us : ℚ) - ddelta }
  (value, put_debug value delta_us s)

/-- Lines 659-668: write the pulse-train record of a transition.  Encode value
and delta_us in two bytes if delta_us is small enough, packed as
ddddddddddddddvv in little-endian order; else write the 0xffff escape code, a
1-byte value and the 4-byte delta_us in little-endian order. -/
def put_cpt (value : Int) (delta_us : Int) (s : Cassette) : Cassette :=
  if delta_us < 0x3fff then
    let code := to_ushort (Int.lor value (delta_us * 4))
    on_file (put_twobyte code) s
  else
    let s := on_file (put_twobyte 0xffff) s
    let s := on_file (putc value) s
    on_file (put_fourbyte (to_uint delta_us)) s

/-- The `case CPT_FORMAT` arm of `transition_out`. -/
def out_cpt (value : Int) (ddelta : ℚ) (s : Cassette) : Int × Cassette :=
  let value := if value = FLUSH then s.cassette_value else value
  let delta_us : Int := round_us ddelta
  let s := { s with cassette_roundoff_error := (delta_us : ℚ) - ddelta }
  (value, put_cpt value delta_us s)

/-- The `cassette_state == SOUND` block of the wave arm: truncate silent
periods and re-arm the flush event.  Returns the adjusted `ddelta_us`. -/
def out_sound_pacing (value : Int) (ddelta : ℚ) (s : Cassette) : ℚ × Cassette :=
  if s.cassette_state = SOUND then
    let r : ℚ × Cassette :=
      if ddelta > 20000 then (20000, { s with cassette_roundoff_error := 0 }) else (ddelta, s)
    let s := r.2
    let s :=
      match s.event with
      | some (EventFunc.transition_out, _, _) => { s with event := none }
      | some (EventFunc.assert_state, _, _) => { s with event := none }
      | _ => s
    let s :=
      if value = FLUSH then { s with event := some (EventFunc.assert_state, CLOSE, 5000000) }
      else { s with event := some (EventFunc.transition_out, FLUSH, to_int (25000 * s.clockMHz)) }
    (r.1, s)
  else (ddelta, s)

/-- Lines 693-695: the number of samples that stand for `ddelta` microseconds
at `rate` samples per second, always at least one sample.  The quotients and
the sum are exact: `wav_nsamples_f64` is the count with the rounding of
`double`. -/
def wav_nsamples (ddelta : ℚ) (rate : Int) : Int :=
  let nsamples : Int := to_long (to_ulong (ddelta / (1000000 / (rate : ℚ)) + 1 / 2))
  if nsamples = 0 then 1 else nsamples

/-- The `case WAV_FORMAT: case DIRECT_FORMAT` arm of `transition_out`. -/
def out_wav (value : Int) (ddelta : ℚ) (s : Cassette) : Int × Cassette :=
  let r := out_sound_pacing value ddelta s
  let ddelta := r.1
  let s := r.2
  let sample := value_to_sample s.cassette_value
  let nsamples : Int := wav_nsamples ddelta s.cassette_sample_rate
  let s := { s with cassette_roundoff_error :=
               (nsamples : ℚ) * (1000000 / (s.cassette_sample_rate : ℚ)) - ddelta }
  let s := on_file (put_samples nsamples.toNat sample) s
  if value = FLUSH then
    (s.cassette_value, (s.say Call.ioctl_post).say Call.trs_restore_delay)
  else (value, s)

/-- The pulse recogniser of the `case CAS_FORMAT` arm: the new
`cassette_pulsestate` and the bit found (2 when there is none). -/
def cas_recognise (pulsestate cassette_value value : Int) (ddelta : ℚ) : Int × Int :=
  if pulsestate = ST_INITIAL then
    if cassette_value = 2 ∧ value = 0 then (ST_LOGOTCLK, 2)
    else if cassette_value = 2 ∧ value = 1 then (ST_HIGH, 2)
    else (pulsestate, 2)
  else if pulsestate = ST_LOGOTCLK then
    if cassette_value = 0 ∧ value = 1 then
      if ddelta > ST_LOTHRESH then (ST_INITIAL, 0) else (ST_LOGOTDAT, 1)
    else (pulsestate, 2)
  else if pulsestate = ST_LOGOTDAT then
    if cassette_value = 2 ∧ value = 0 then (ST_INITIAL, 2) else (pulsestate, 2)
  else if pulsestate = ST_HIGH then
    if cassette_value = 1 ∧ value = 2 then (pulsestate, if ddelta < ST_HITHRESH then 1 else 0)
    else (pulsestate, 2)
  else (pulsestate, 2)

/-- Lines 765-771: shift the bit `sample` into `cassette_byte`, most
significant bit first, and write the byte out once it is complete. -/
def cas_put_bit (sample : Int) (s : Cassette) : Cassette :=
  let s := { s with cassette_bitnumber := s.cassette_bitnumber - 1 }
  let s := if s.cassette_bitnumber < 0 then { s with cassette_bitnumber := 7 } else s
  let s := { s with cassette_byte :=
               Int.lor s.cassette_byte (sample * 2 ^ s.cassette_bitnumber.toNat) }
  if s.cassette_bitnumber = 0 then
    let s := on_file (putc s.cassette_byte) s
    { s with cassette_byte := 0 }
  else s

/-- The `case CAS_FORMAT` arm of `transition_out`. -/
def out_cas (value : Int) (ddelta : ℚ) (s : Cassette) : Int × Cassette :=
  if value = FLUSH ∧ s.cassette_bitnumber ≠ 0 then
    let s := on_file (putc s.cassette_byte) s
    (value, { s with cassette_byte := 0 })
  else
    let r := cas_recognise s.cassette_pulsestate s.cassette_value value ddelta
    let s := { s with cassette_pulsestate := r.1 }
    if r.2 = 2 then (value, s) else (value, cas_put_bit r.2 s)

/-- Record an output transition.  `value` is either the new port value or
`FLUSH`. -/
def transition_out (value : Int) (s : Cassette) : Cassette :=
  if value ≠ FLUSH ∧ value = s.cassette_value then s
  else
    let ddelta := ddelta_us s
    let r : Int × Cassette :=
      if s.cassette_format = DEBUG_FORMAT then out_debug value ddelta s
      else if s.cassette_format = CPT_FORMAT then out_cpt value ddelta s
      else if s.cassette_format = WAV_FORMAT ∨ s.cassette_format = DIRECT_FORMAT then
        out_wav value ddelta s
      else if s.cassette_format = CAS_FORMAT then out_cas value ddelta s
      else (value, s.say (Call.error "output format not implemented"))
    let value := r.1
    let s := r.2
    { s with last_sound := if s.cassette_value ≠ value then s.t_count else s.last_sound,
             cassette_transition := s.t_count,
             cassette_value := value }

/-! ## Reading an input transition -/

/-- White space as `fscanf` skips it. -/
def is_space (c : Nat) : Bool := c = 32 || (9 ≤ c && c ≤ 13)

/-- A decimal digit. -/
def is_digit (c : Nat) : Bool := 48 ≤ c && c ≤ 57

/-- Drop leading white space. -/
def skip_space : List Nat → List Nat
  | [] => []
  | c :: cs => if is_space c then skip_space cs else c :: cs

/-- Read decimal digits onto `acc`; the value and the unread bytes. -/
def scan_digits (acc : Nat) : List Nat → Nat × List Nat
  | [] => (acc, [])
  | c :: cs => if is_digit c then scan_digits (acc * 10 + (c - 48)) cs else (acc, c :: cs)

/-- One numeric conversion of `fscanf` (`%d`, `%lu`): white space, an optional
sign, at least one digit.  The unread bytes come back in both cases. -/
def scan_number (l : List Nat) : Option Int × List Nat :=
  let l := skip_space l
  let signed : Bool × List Nat :=
    match l with
    | 45 :: t => (true, t)
    | 43 :: t => (false, t)
    | _ => (false, l)
  match signed.2 with
  | [] => (none, [])
  | c :: cs =>
    if is_digit c then
      let r := scan_digits 0 (c :: cs)
      (some (if signed.1 then -(r.1 : Int) else (r.1 : Int)), r.2)
    else (none, c :: cs)

/-- The call `fscanf(f, "%d %lu\n", &next, &delta_us)`: the two numbers when
both conversions succeed, and the stream after the call. -/
def fscanf_d_lu (f : FILE) : Option (Int × Nat) × FILE :=
  if f.rd then
    let r1 := scan_number (f.data.drop f.pos)
    match r1.1 with
    | none => (none, { f with pos := max f.pos (f.data.length - r1.2.length) })
    | some next =>
      let r2 := scan_number r1.2
      match r2.1 with
      | none => (none, { f with pos := max f.pos (f.data.length - r2.2.length) })
      | some d =>
        (some (next, ulong_of_int d),
         { f with pos := max f.pos (f.data.length - (skip_space r2.2).length) })
  else (none, f)

/-- Lines 811-813, 837-839 and 920-922: convert a duration in microseconds to
clock ticks, rounding to nearest and carrying the round-off error.  The
product, the difference and the sum are exact: the rounding of `double` is left
out. -/
def set_delta (delta_us : Nat) (s : Cassette) : Cassette :=
  let delta_ts : ℚ := (delta_us : ℚ) * s.clockMHz - s.cassette_roundoff_error
  let s := { s with cassette_delta := to_ulong (delta_ts + 1 / 2) }
  { s with cassette_roundoff_error := (s.cassette_delta : ℚ) - delta_ts }

/-- The `case DEBUG_FORMAT` arm of `transition_in`: `ret` and the state. -/
def in_debug (s : Cassette) : Int × Cassette :=
  match s.cassette_file with
  | none => (0, s)
  | some f =>
    let r := fscanf_d_lu f
    let s := { s with cassette_file := some r.2 }
    match r.1 with
    | none => (0, s)
    | some (next, delta_us) =>
      let s := set_delta delta_us s
      (1, { s with cassette_next := next })

/-- Lines 824-836: read one pulse-train record, setting `cassette_next`.
Returns `delta_us`, or `none` where the C code leaves the `switch` because the
file has ended. -/
def get_cpt (s : Cassette) : Option Nat × Cassette :=
  match s.cassette_file with
  | none => (none, s)
  | some f =>
    let r := get_twobyte f
    let s := { s with cassette_file := some r.2.2 }
    if r.1 = -1 then (none, s)
    else if r.2.1 = 0xffff then
      let c := getc r.2.2
      let s := { s with cassette_file := some c.2 }
      if c.1 = EOF then (none, s)
      else
        let s := { s with cassette_next := c.1 }
        let d := get_fourbyte c.2
        let s := { s with cassette_file := some d.2.2 }
        if d.1 = -1 then (none, s)
        else (some d.2.1, s)
    else
      (some (r.2.1 / 4), { s with cassette_next := ((r.2.1 % 4 : Nat) : Int) })

/-- The `case CPT_FORMAT` arm of `transition_in`: `ret` and the state. -/
def in_cpt (s : Cassette) : Int × Cassette :=
  match get_cpt s with
  | (none, s) => (0, s)
  | (some delta_us, s) => (1, set_delta delta_us s)

/-- One sample of the wave arm, lines 854-882: classify the byte `c` and adapt
the noise floor.  Returns `next` and the state.  `cassette_avg` and
`cassette_env` are `float`: every product, sum and quotient is rounded to
binary32 (`fl32`); `cabs` and `9*cabs` are integers of at most 12 bits for a
sample byte, so their conversion to `float` is exact. -/
def classify_sample (c : Int) (s : Cassette) : Int × Cassette :=
  let next : Int :=
    if c > 127 + s.cassette_noisefloor then 1
    else if c ≤ 127 - s.cassette_noisefloor then 2
    else 0
  if s.cassette_highspeed ≠ 0 then (next, { s with cassette_noisefloor := 2 })
  else
    let cabs : Int := |c - 127|
    let s := if cabs > 1 then
               { s with
                   cassette_avg := fl32 (fl32 (fl32 (99 * s.cassette_avg) + (cabs : ℚ)) / 100) }
             else s
    let s := if (cabs : ℚ) > s.cassette_env then
               { s with cassette_env := fl32 (fl32 (s.cassette_env + 9 * (cabs : ℚ)) / 10) }
             else if cabs > 10 then
               { s with
                   cassette_env := fl32 (fl32 (fl32 (99 * s.cassette_env) + (cabs : ℚ)) / 100) }
             else s
    (next, { s with
               cassette_noisefloor := to_int (fl32 (fl32 (s.cassette_avg + s.cassette_env) / 2)) })

/-- The `do ... while` loop of the wave arm over the unread bytes `rest`:
`none` when the file ends (`goto fail`), else `next` and `nsamples`. -/
def wav_scan : List Nat → Nat → Nat → Cassette → Option (Int × Nat) × Cassette
  | [], _, _, s => (none, s)
  | c :: rest, nsamples, maxsamples, s =>
    let s := on_file (fun f => (0, { f with pos := f.pos + 1 })) s
    let r := classify_sample (c : Int) s
    let next := r.1
    let s := r.2
    let nsamples := nsamples + 1
    if s.nmi ≠ 0 then (some (next, nsamples), s)
    else if next = s.cassette_value ∧ maxsamples > 0 then
      wav_scan rest nsamples (maxsamples - 1) s
    else (some (next, nsamples), s)

/-- The `case DIRECT_FORMAT: case WAV_FORMAT` arm of `transition_in`. -/
def in_wav (s : Cassette) : Int × Cassette :=
  let maxsamples := ulong_of_int (Int.tdiv s.cassette_sample_rate 100)
  let rest : List Nat :=
    match s.cassette_file with
    | none => []
    | some f => if f.rd then f.data.drop f.pos else []
  let r := wav_scan rest 0 maxsamples s
  let s := r.2
  match r.1 with
  | none => (0, s)
  | some (next, nsamples) =>
    let s := { s with cassette_next := next }
    let delta_ts : ℚ :=
      (nsamples : ℚ) * (1000000 / (s.cassette_sample_rate : ℚ)) * s.clockMHz
        - s.cassette_roundoff_error
    let s := { s with cassette_delta := to_ulong ((to_ulong delta_ts : ℚ) + 1 / 2) }
    (1, { s with cassette_roundoff_error := (s.cassette_delta : ℚ) - delta_ts })

/-- Lines 915-926 of the `case CAS_FORMAT` arm of `transition_in`: deliver the
current step of the pulse shape of the current bit and move to the next step. -/
def cas_emit (s : Cassette) : Int × Cassette :=
  let c : Int := (s.cassette_byte / 2 ^ s.cassette_bitnumber.toNat) % 2
  let delta_us := ulong_of_int (pulse_shape s.cassette_highspeed c s.cassette_pulsestate).1
  let s := { s with cassette_next := (pulse_shape s.cassette_highspeed c s.cassette_pulsestate).2 }
  let s := set_delta delta_us s
  let s := { s with cassette_pulsestate := s.cassette_pulsestate + 1 }
  if (pulse_shape s.cassette_highspeed c s.cassette_pulsestate).2 = -1 then
    (1, { s with cassette_pulsestate := 0 })
  else (1, s)

/-- The `case CAS_FORMAT` arm of `transition_in`. -/
def in_cas (s : Cassette) : Int × Cassette :=
  let s := if s.cassette_pulsestate = 0 then
             { s with cassette_bitnumber := s.cassette_bitnumber - 1 } else s
  if s.cassette_bitnumber < 0 then
    let c : Int × Option FILE :=
      match s.cassette_file with
      | none => (EOF, none)
      | some f => ((getc f).1, some (getc f).2)
    let s := { s with cassette_file := c.2 }
    if c.1 = EOF then
      -- Add one extra zero byte to work around an apparent bug
      -- in the Vavasour Model I emulator's .CAS files
      if s.cassette_byte = 0x100 then (0, s)
      else cas_emit { s with cassette_byte := 0x100, cassette_bitnumber := 7 }
    else cas_emit { s with cassette_byte := c.1, cassette_bitnumber := 7 }
  else cas_emit s

/-- Read a new transition, updating `cassette_next` and `cassette_delta`.
If file read fails (perhaps due to eof), return 0, else 1.
Set `cassette_delta` to `(unsigned long) -1` on failure. -/
def transition_in (s : Cassette) : Int × Cassette :=
  let r : Int × Cassette :=
    if s.cassette_format = DEBUG_FORMAT then in_debug s
    else if s.cassette_format = CPT_FORMAT then in_cpt s
    else if s.cassette_format = DIRECT_FORMAT ∨ s.cassette_format = WAV_FORMAT then in_wav s
    else if s.cassette_format = CAS_FORMAT then in_cas s
    else (0, s.say (Call.error "input format not implemented"))
  if r.1 = 0 then (0, { r.2 with cassette_delta := ULONG_MAX }) else r

/-! ## The entry points used by the rest of the emulator -/

/-- The call `trs_schedule_event(f, arg, countdown)`: the scheduler, which is
outside this module, keeps one pending event. -/
def trs_schedule_event (f : EventFunc) (arg : Int) (countdown : Int) (s : Cassette) : Cassette :=
  { s with event := some (f, arg, countdown) }

/-- If the motor has been on for 1 second (emulated time), the i/o port has been
neither read nor written, and the Z-80 program has 1500 bps rise or fall
interrupts enabled, then give it one of each just to get things going. -/
def trs_cassette_kickoff (_dummy : Int) (s : Cassette) : Cassette :=
  if s.cassette_motor ≠ 0 ∧ s.cassette_state = CLOSE ∧ s.interrupts_enabled then
    let s := { s with cassette_highspeed := 1, cassette_transition := s.t_count }
    (s.say Call.trs_cassette_fall_interrupt).say Call.trs_cassette_rise_interrupt
  else s

/-- Z-80 program is turning motor on or off. -/
def trs_cassette_motor (value : Int) (s : Cassette) : Cassette :=
  if value ≠ 0 then
    -- motor on
    if s.cassette_motor = 0 then
      let s := { s with cassette_motor := 1,
                        cassette_transition := s.t_count,
                        cassette_value := 0,
                        cassette_next := 0,
                        cassette_delta := 0,
                        cassette_flipflop := 0,
                        cassette_byte := 0,
                        cassette_bitnumber := 0,
                        cassette_pulsestate := 0,
                        cassette_highspeed := 0,
                        cassette_roundoff_error := 0,
                        cassette_avg := (NOISE_FLOOR : ℚ),
                        cassette_env := 127,
                        cassette_noisefloor := NOISE_FLOOR }
      if s.trs_model > 1 then
        -- Get reading started after 1 second
        trs_schedule_event EventFunc.trs_cassette_kickoff 0
          (int_of_uint (to_uint (to_ulong (1000000 * s.clockMHz)))) s
      else s
    else s
  else
    -- motor off
    if s.cassette_motor ≠ 0 then
      let s := if s.cassette_state = WRITE then transition_out FLUSH s else s
      let s := (assert_state CLOSE s).2
      { s with cassette_motor := 0 }
    else s

/-- The `while` loop of `trs_cassette_update`, with `newtrans` as it stands.
`none`: the fuel ran out; `some (none, s)`: the function returned from inside
the loop on `z80_state.nmi`; `some (some newtrans, s)`: the loop ended. -/
def update_loop : Nat → Int → Cassette → Option (Option Int × Cassette)
  | 0, _, _ => none
  | fuel + 1, newtrans, s =>
    if tsub s.t_count s.cassette_transition ≥ s.cassette_delta then
      -- Simulate analog signal processing on the 500-bps cassette input
      let s := if s.cassette_next ≠ 0 ∧ s.cassette_value = 0 then
                 { s with cassette_flipflop := 0x80 } else s
      -- Deliver the previously read transition from the file
      let s := { s with cassette_value := s.cassette_next,
                        cassette_transition := tadd s.cassette_transition s.cassette_delta }
      -- Remember last nonzero value to get hysteresis in 1500 bps
      -- zero-crossing detector
      let s := if s.cassette_value ≠ 0 then
                 { s with cassette_lastnonzero := s.cassette_value } else s
      -- Read the next transition
      let r := transition_in s
      if r.2.nmi ≠ 0 then some (none, r.2)
      else update_loop fuel r.1 r.2
    else some (some newtrans, s)

/-- Catch the read side up with the emulated clock.  `fuel` bounds the number
of loop iterations; `none` means it did not suffice. -/
def trs_cassette_update (fuel : Nat) (_dummy : Int) (s : Cassette) : Option Cassette :=
  if s.cassette_motor ≠ 0 ∧ s.cassette_state ≠ WRITE then
    let r := assert_state READ s
    if r.1 ≥ 0 then
      match update_loop fuel 0 r.2 with
      | none => none
      | some (none, s) => some s
      | some (some newtrans, s) =>
        -- Schedule an interrupt on the 1500-bps cassette input if needed
        if newtrans ≠ 0 ∧ s.cassette_highspeed ≠ 0 then
          let countdown : Int :=
            int_of_uint (to_uint (tsub s.cassette_delta (tsub s.t_count s.cassette_transition)))
          if s.cassette_next = 2 ∧ s.cassette_lastnonzero ≠ 2 then
            some (trs_schedule_event EventFunc.trs_cassette_fall_interrupt 1 countdown s)
          else if s.cassette_next = 1 ∧ s.cassette_lastnonzero ≠ 1 then
            some (trs_schedule_event EventFunc.trs_cassette_rise_interrupt 1 countdown s)
          else some (trs_schedule_event EventFunc.trs_cassette_update 0 countdown s)
        else some s
    else some r.2
  else some s

/-- The Z-80 program writes `value` to the cassette port. -/
def trs_cassette_out (fuel : Nat) (value : Int) (s : Cassette) : Option Cassette :=
  if s.cassette_motor ≠ 0 then
    let r : Option Cassette :=
      if s.cassette_state = READ then
        (trs_cassette_update fuel 0 s).map (fun s => { s with cassette_flipflop := 0 })
      else some s
    match r with
    | none => none
    | some s =>
      if s.cassette_state ≠ READ ∧ value ≠ s.cassette_value then
        let a := assert_state WRITE s
        if a.1 < 0 then some a.2 else some (transition_out value a.2)
      else some s
  else
    -- Do sound emulation by sending samples to /dev/dsp
    if s.cassette_state ≠ SOUND ∧ value = 0 then some s
    else
      let a := assert_state SOUND s
      if a.1 < 0 then some a.2
      else some (transition_out value (a.2.say Call.trs_suspend_delay))

/-- Model 4 sound port. -/
def trs_sound_out (value : Int) (s : Cassette) : Cassette :=
  if s.cassette_motor = 0 then
    let a := assert_state SOUND s
    if a.1 < 0 then a.2
    else transition_out (if value ≠ 0 then 1 else 2) (a.2.say Call.trs_suspend_delay)
  else s

/-- The Z-80 program reads the cassette port: the value returned and the
state. -/
def trs_cassette_in (fuel : Nat) (s : Cassette) : Option (Int × Cassette) :=
  let s := s.say Call.trs_cassette_clear_interrupts
  (trs_cassette_update fuel 0 s).map fun s =>
    if s.trs_model = 1 then (s.cassette_flipflop, s)
    else (Int.lor s.cassette_flipflop (if s.cassette_lastnonzero = 1 then 1 else 0), s)

/-! ## Test drivers and reference definitions for the properties below -/

/-- The stream after `bytes` have been stored one after another at its
position. -/
def store_bytes : List Nat → FILE → FILE
  | [], f => f
  | b :: bs, f => store_bytes bs { f with data := poke f.data f.pos b, pos := f.pos + 1 }

/-- The bytes of the pulse-train record of `(value, delta_us)`: the 16-bit word
`delta_us * 4 + value` in little-endian order when `delta_us < 0x3fff`, else
ff ff, the value, and `delta_us` in four little-endian bytes. -/
def cpt_bytes (value : Nat) (delta_us : Nat) : List Nat :=
  if delta_us < 0x3fff then
    [(4 * delta_us + value) % 256, (4 * delta_us + value) / 256]
  else
    [0xff, 0xff, value, delta_us % 256, delta_us / 256 % 256, delta_us / 65536 % 256,
      delta_us / 16777216 % 256]

/-- The bytes of a list of pulse-train records. -/
def cpt_stream (rs : List (Int × Nat)) : List Nat :=
  rs.flatMap (fun x => cpt_bytes x.1.toNat x.2)

/-- Write a list of `(value, delta_us)` records with the pulse-train writer. -/
def put_cpt_all (rs : List (Int × Nat)) (s : Cassette) : Cassette :=
  rs.foldl (fun s r => put_cpt r.1 (r.2 : Int) s) s

/-- Read up to `n` records with the pulse-train reader, stopping at the first
failure: the `(cassette_next, delta_us)` pairs read, and the final state. -/
def get_cpt_n : Nat → Cassette → List (Int × Nat) × Cassette
  | 0, s => ([], s)
  | n + 1, s =>
    match get_cpt s with
    | (none, s) => ([], s)
    | (some d, s) =>
      let r := get_cpt_n n s
      ((s.cassette_next, d) :: r.1, r.2)

/-- Present a list of `(value, elapsed ticks)` pairs to `transition_out`, the
clock advancing by the elapsed ticks before each call. -/
def out_run : List (Int × Nat) → Cassette → Cassette
  | [], s => s
  | r :: rs, s => out_run rs (transition_out r.1 { s with t_count := tadd s.t_count r.2 })

/-- Copy a tape: read transitions with the decoder `d` until it fails and
present each to the encoder `e` after its delay.  `none` when `fuel` decoder
calls did not reach the end of the tape. -/
def cas_copy : Nat → Cassette → Cassette → Option Cassette
  | 0, _, _ => none
  | fuel + 1, d, e =>
    let r := transition_in d
    if r.1 = 0 then some e
    else
      cas_copy fuel r.2
        (transition_out r.2.cassette_next { e with t_count := tadd e.t_count r.2.cassette_delta })

/-- A call the Z-80 program can make on the cassette port. -/
inductive PortCall where
  | out (value : Int)
  | inp
  | update
deriving DecidableEq, Repr

/-- Make the port calls in order, each with `fuel` for its catch-up loop. -/
def run_calls (fuel : Nat) : List PortCall → Cassette → Option Cassette
  | [], s => some s
  | PortCall.out v :: cs, s => (trs_cassette_out fuel v s).bind (run_calls fuel cs)
  | PortCall.inp :: cs, s => (trs_cassette_in fuel s).bind (fun r => run_calls fuel cs r.2)
  | PortCall.update :: cs, s => (trs_cassette_update fuel 0 s).bind (run_calls fuel cs)

/-- A host without files whose control file names `name` at position 0 in
format `format`, and whose sound device grants what is asked. -/
def demo_host (name : String) (format : Int) : Host :=
  { files := [], unwritable := [], full := [], opened := [], next_id := 0,
    control := some (name, 0, some format), control_locked := false,
    dsp_fmt_ok := true, dsp_mono_ok := true, dsp_speed := some 11025, dsp_frag_ok := true }

/-- The session after motor-on and a first request for `WRITE`, on
`demo_host`, at tick 0 of a clock of `clock` MHz. -/
def demo_writer (name : String) (format : Int) (clock : ℚ) : Cassette :=
  (assert_state WRITE (trs_cassette_motor 1 (Cassette.initial (demo_host name format) clock 1))).2

/-- Pulse-train records on both sides of the 0x3fff escape boundary. -/
def demo_records : List (Int × Nat) :=
  [(1, 0), (2, 1000), (3, 0x3ffe), (0, 0x3fff), (1, 0x4000)]

/-- A stream opened for reading at the start of a file holding `data`. -/
def demo_tape (data : List Nat) : FILE :=
  { id := 0, name := "tape", data := data, pos := 0, rd := true, wr := false, full := false }

/-- A session in `READ` after motor-on, reading `data` in format `format` at a
clock of 1 MHz. -/
def demo_reader (format : Int) (data : List Nat) : Cassette :=
  { trs_cassette_motor 1 (Cassette.initial (demo_host "tape" format) 1 1) with
      cassette_state := READ, cassette_format := format, cassette_file := some (demo_tape data) }

/-- A host whose file `tape.cas` holds `data`, and whose control file names it
at position 0 in the CAS format. -/
def tape_host (data : List Nat) : Host :=
  { demo_host "tape.cas" CAS_FORMAT with files := [("tape.cas", data)] }

/-- The Model III session at 1 MHz after motor-on, the kickoff event (which
selects high speed when the Z-80 program has the 1500 bps interrupts enabled,
`fast`), and a first request for `READ`, on `tape_host`. -/
def cas_reader (fast : Bool) (data : List Nat) : Cassette :=
  (assert_state READ (trs_cassette_kickoff 0
    { trs_cassette_motor 1 (Cassette.initial (tape_host data) 1 3) with
        interrupts_enabled := fast })).2

/-- The state `t` belongs to the same session as `s`: same state, motor,
format and host, and the same stream, whatever has been written to it. -/
def SameSession (s t : Cassette) : Prop :=
  t.cassette_state = s.cassette_state ∧ t.cassette_motor = s.cassette_motor
  ∧ t.cassette_format = s.cassette_format ∧ t.host = s.host
  ∧ t.cassette_file.map FILE.id = s.cassette_file.map FILE.id

/-! ## The bitstream codec on the fields it uses

`transition_in` and `transition_out` in the CAS format at 1 MHz touch only a
few fields.  The two records below hold those fields, the two step functions
repeat `in_cas` and `out_cas` on them, and the properties section proves that
the functions on `Cassette` agree with them. -/

/-- The fields the CAS decoder works on. -/
structure CasIn where
  /-- the bytes of the file not read yet -/
  rest : List Nat
  byte : Int
  bitnumber : Int
  pulsestate : Int
deriving DecidableEq, Repr

/-- The decoder fields of a session; a stream that cannot be read is at its
end. -/
def cas_in_of (d : Cassette) : CasIn :=
  { rest := match d.cassette_file with
            | none => []
            | some f => if f.rd then f.data.drop f.pos else []
    byte := d.cassette_byte
    bitnumber := d.cassette_bitnumber
    pulsestate := d.cassette_pulsestate }

/-- The arm `in_cas` on `CasIn` at speed `hs`: `none` where `in_cas` fails,
else `cassette_next`, the table's `delta_us`, and the fields afterwards. -/
def cas_in_step (hs : Int) (a : CasIn) : Option ((Int × Nat) × CasIn) :=
  let bn := if a.pulsestate = 0 then a.bitnumber - 1 else a.bitnumber
  let fetched : Option (Int × Int × List Nat) :=
    if bn < 0 then
      match a.rest with
      | [] => if a.byte = 0x100 then none else some (0x100, 7, [])
      | c :: rest => some ((c : Int), 7, rest)
    else some (a.byte, bn, a.rest)
  match fetched with
  | none => none
  | some (byte, bn, rest) =>
    let c : Int := (byte / 2 ^ bn.toNat) % 2
    let ps := a.pulsestate + 1
    some (((pulse_shape hs c a.pulsestate).2, ulong_of_int (pulse_shape hs c a.pulsestate).1),
          { rest := rest, byte := byte, bitnumber := bn,
            pulsestate := if (pulse_shape hs c ps).2 = -1 then 0 else ps })

/-- The fields the CAS encoder works on. -/
structure CasOut where
  value : Int
  pulsestate : Int
  bitnumber : Int
  byte : Int
  /-- ticks since the last recorded transition -/
  elapsed : Nat
  /-- the bytes written so far -/
  out : List Nat
deriving DecidableEq, Repr

/-- Lines 765-771 on the bit buffer `(cassette_bitnumber, cassette_byte, bytes
written)`: shift the bit `sample` in, and write the byte out once complete. -/
def cas_push (sample : Int) (p : Int × Int × List Nat) : Int × Int × List Nat :=
  let bn : Int := if p.1 - 1 < 0 then 7 else p.1 - 1
  let byte := Int.lor p.2.1 (sample * 2 ^ bn.toNat)
  if bn = 0 then (bn, 0, p.2.2 ++ [(byte % 256).toNat]) else (bn, byte, p.2.2)

/-- The arm `out_cas` on `CasOut`, for a value other than `FLUSH` presented
`delta` ticks after the previous call, at 1 MHz without round-off error. -/
def cas_out_step (v : Int) (delta : Nat) (a : CasOut) : CasOut :=
  let el := (a.elapsed + delta) % 2 ^ 64
  if v = a.value then { a with elapsed := el }
  else
    let r := cas_recognise a.pulsestate a.value v (el : ℚ)
    if r.2 = 2 then { a with value := v, pulsestate := r.1, elapsed := 0 }
    else
      let p := cas_push r.2 (a.bitnumber, a.byte, a.out)
      { value := v, pulsestate := r.1, bitnumber := p.1, byte := p.2.1, elapsed := 0,
        out := p.2.2 }

/-- The encoder fields of a session that has written `a.out` to the stream
`f0` since it was opened. -/
def CasOutOf (f0 : FILE) (e : Cassette) (a : CasOut) : Prop :=
  e.cassette_format = CAS_FORMAT ∧ e.clockMHz = 1 ∧ e.cassette_roundoff_error = 0
  ∧ e.cassette_value = a.value ∧ e.cassette_pulsestate = a.pulsestate
  ∧ e.cassette_bitnumber = a.bitnumber ∧ e.cassette_byte = a.byte
  ∧ tsub e.t_count e.cassette_transition = a.elapsed
  ∧ e.cassette_file = some (store_bytes a.out f0)

/-- The loop `cas_copy` on the two field records. -/
def cas_copy_fields (hs : Int) : Nat → CasIn → CasOut → Option CasOut
  | 0, _, _ => none
  | fuel + 1, a, b =>
    match cas_in_step hs a with
    | none => some b
    | some (t, a') => cas_copy_fields hs fuel a' (cas_out_step t.1 t.2 b)

/-- Present a list of `(value, delay)` transitions to the encoder fields. -/
def cas_feed (ts : List (Int × Nat)) (b : CasOut) : CasOut :=
  ts.foldl (fun b t => cas_out_step t.1 t.2 b) b

/-- The steps of `pulse_shape[hs][c]` before the sentinel, each as
`(next, delta_us)`. -/
def shape_steps (hs c : Int) : List (Int × Nat) :=
  (((List.range CAS_MAXSTATES).map (fun i => pulse_shape hs c (i : Int))).takeWhile
    (fun e => e.2 != -1)).map (fun e => (e.2, ulong_of_int e.1))

/-- The steps the decoder delivers for a list of bits. -/
def bits_steps (hs : Int) : List Int → List (Int × Nat)
  | [] => []
  | c :: cs => shape_steps hs c ++ bits_steps hs cs

/-- The decoder fields `a` deliver exactly the steps `ts` and are then `a'`. -/
def cas_in_run (hs : Int) : List (Int × Nat) → CasIn → CasIn → Prop
  | [], a, a' => a = a'
  | t :: ts, a, a' => ∃ a1, cas_in_step hs a = some (t, a1) ∧ cas_in_run hs ts a1 a'

/-- Bits `k - 1` down to 0 of `byte`, most significant first. -/
def bits_below (byte : Int) : Nat → List Int
  | 0 => []
  | k + 1 => ((byte / 2 ^ k) % 2) :: bits_below byte k

/-- The bits the decoder delivers for a file, the extra zero byte included. -/
def tape_bits : List Nat → List Int
  | [] => bits_below 0x100 8
  | c :: rest => bits_below (c : Int) 8 ++ tape_bits rest

/-- The bit buffer after the bits `bs` have been shifted in. -/
def cas_pack (bs : List Int) (p : Int × Int × List Nat) : Int × Int × List Nat :=
  bs.foldl (fun p b => cas_push b p) p

/-- A tape image shifted left by one bit: byte `i` holds bits 6..0 of byte `i`
of the original and bit 7 of byte `i + 1`, a zero byte standing after the last
one. -/
def cas_shifted : List Nat → List Nat
  | [] => []
  | [c] => [(2 * c) % 256]
  | c :: c' :: rest => ((2 * c + c' / 128) % 256) :: cas_shifted (c' :: rest)

/-! ## Reference definitions for the properties of opening and closing -/

/-- The causes of an open failure as the specification lists them, for a
request of `state` (`READ`, `WRITE` or `SOUND`) made once the previous session
`s` has been left: the file cannot be opened, a WAV header fails to parse or to
be created, the audio format cannot be set, or the format is autodetect on
output. -/
def open_fails (state : Int) (s : Cassette) : Bool :=
  if state = READ then
    let g := do_fopen .r (get_control s)
    match g.cassette_file with
    | none => true
    | some f =>
      if g.cassette_format = DIRECT_FORMAT then
        decide (set_audio_format
          { g with cassette_sample_rate := g.cassette_default_sample_rate } < 0)
      else if g.cassette_format = WAV_FORMAT then decide ((parse_wav_header f g).1 < 0)
      else false
  else
    let g := if state = SOUND then
               { s with cassette_format := DIRECT_FORMAT, cassette_filename := DSP_FILENAME }
             else get_control s
    if g.cassette_format = AUTODETECT_FORMAT then true
    else if g.cassette_format = DIRECT_FORMAT then
      let g := do_fopen .w { g with cassette_sample_rate := g.cassette_default_sample_rate }
      match g.cassette_file with
      | none => true
      | some _ => decide (set_audio_format g < 0)
    else if g.cassette_format = WAV_FORMAT then
      let g := do_fopen .rplus g
      match g.cassette_file with
      | some f => decide ((parse_wav_header f g).1 < 0)
      | none =>
        let g := do_fopen .w { g with cassette_sample_rate := g.cassette_default_sample_rate }
        match g.cassette_file with
        | none => true
        | some f => decide ((create_wav_header f g).1 < 0)
    else
      let g := do_fopen .rplus g
      match g.cassette_file with
      | some _ => false
      | none => decide ((do_fopen .w g).cassette_file = none)

/-- The host `demo_host` with a full device behind the file `name`: the file
can be opened, and every write to it fails. -/
def full_host (name : String) (format : Int) : Host :=
  { demo_host name format with full := [name] }

/-- The state `t` has the mode, motor, format and host of `s`. -/
def SameMode (s t : Cassette) : Prop :=
  t.cassette_state = s.cassette_state ∧ t.cassette_motor = s.cassette_motor
  ∧ t.cassette_format = s.cassette_format ∧ t.host = s.host

/-- Call `transition_in` `n` times: the values returned, each with
`cassette_next` as the call left it, and the state after the last call. -/
def transition_in_n : Nat → Cassette → List (Int × Int) × Cassette
  | 0, s => ([], s)
  | n + 1, s =>
    let r := transition_in s
    let t := transition_in_n n r.2
    ((r.1, r.2.cassette_next) :: t.1, t.2)

/-- The bits of the bytes of a file, most significant bit first. -/
def bytes_bits : List Nat → List Int
  | [] => []
  | c :: rest => bits_below (c : Int) 8 ++ bytes_bits rest

/-- Shift the bits `bits` into the byte buffer of the CAS encoder, one call of
the lines 763-772 for each. -/
def put_bits (bits : List Int) (s : Cassette) : Cassette :=
  bits.foldl (fun s b => cas_put_bit b s) s

/-- The 44 bytes of the header of a .wav file of 8-bit mono samples at `rate`
samples per second, the two size fields zero: "RIFF", the RIFF size, "WAVEfmt ",
the size 16 of the fmt chunk, PCM, mono, the sample rate, the byte rate, one
byte per sample, eight bits per sample, "data", the data size. -/
def wav_header (rate : Nat) : List Nat :=
  [82, 73, 70, 70, 0, 0, 0, 0, 87, 65, 86, 69, 102, 109, 116, 32, 16, 0, 0, 0, 1, 0, 1, 0,
   rate % 256, rate / 256 % 256, rate / 65536 % 256, rate / 16777216 % 256,
   rate % 256, rate / 256 % 256, rate / 65536 % 256, rate / 16777216 % 256,
   1, 0, 8, 0, 100, 97, 116, 97, 0, 0, 0, 0]

/-- The four bytes of a 32-bit quantity in little-endian order. -/
def le32 (n : Nat) : List Nat := [n % 256, n / 256 % 256, n / 65536 % 256, n / 16777216 % 256]

/-- The byte list `data` with the bytes from offset `off` on replaced by
`bytes`. -/
def overwrite (data : List Nat) (off : Nat) (bytes : List Nat) : List Nat :=
  data.take off ++ bytes ++ data.drop (off + bytes.length)

/-- A host whose file `tape.wav` holds a WAV header for 11025 samples per
second followed by `samples`, and whose control file names it at position 0 in
the WAV format. -/
def wav_host (samples : List Nat) : Host :=
  { demo_host "tape.wav" WAV_FORMAT with files := [("tape.wav", wav_header 11025 ++ samples)] }

/-- The session at 1 MHz after motor-on and a first request for `READ`, on
`wav_host`. -/
def wav_reader (samples : List Nat) : Cassette :=
  (assert_state READ (trs_cassette_motor 1 (Cassette.initial (wav_host samples) 1 1))).2

/-- A host whose file `name` holds `data`, and whose control file names it at
position 0 in the format `format`. -/
def file_host (name : String) (format : Int) (data : List Nat) : Host :=
  { demo_host name format with files := [(name, data)] }

/-- The Model I session at 1 MHz after motor-on at tick 0, `ticks` ticks
later, on `file_host`. -/
def motor_on_at (name : String) (format : Int) (data : List Nat) (ticks : Nat) : Cassette :=
  { trs_cassette_motor 1 (Cassette.initial (file_host name format data) 1 1) with
      t_count := ticks }

/-- The value of the bits `bits`, the first at bit position `w` and each
following bit one position lower. -/
def msb_value : List Int → Nat → Int
  | [], _ => 0
  | b :: bs, w => b * 2 ^ w + msb_value bs (w - 1)

/-- The bit of `cassette_byte` the CAS decoder is working on:
`(cassette_byte >> cassette_bitnumber) & 1`. -/
def cas_bit (a : CasIn) : Int := a.byte / 2 ^ a.bitnumber.toNat % 2

/-- The index of the CAS decoder into the pulse shape of its bit is in range:
it is below the number of steps before the sentinel, and a bit number below 0
is met between two shapes only. -/
def CasInOk (hs : Int) (a : CasIn) : Prop :=
  0 ≤ a.pulsestate ∧ a.pulsestate < ((shape_steps hs (cas_bit a)).length : Int)
  ∧ (a.pulsestate ≠ 0 → 0 ≤ a.bitnumber)

/-- The bytes of a stream not read yet; a stream that cannot be read is at
its end. -/
def unread (f : FILE) : List Nat := if f.rd then f.data.drop f.pos else []

/-- The stream `g` is the stream `f` at another position: nothing has been
written to it. -/
def SameData (f g : FILE) : Prop := { g with pos := 0 } = { f with pos := 0 }

/-- The session `t` has the stream of the session `s`, at another position,
and its host unchanged: nothing has been written to storage. -/
def NothingWritten (s t : Cassette) : Prop :=
  t.host = s.host
  ∧ ((s.cassette_file = none ∧ t.cassette_file = none)
      ∨ ∃ f g, s.cassette_file = some f ∧ t.cassette_file = some g ∧ SameData f g)

/-- The first part of a pass through the loop of `trs_cassette_update`:
deliver the transition read before. -/
def deliver (s : Cassette) : Cassette :=
  let s := if s.cassette_next ≠ 0 ∧ s.cassette_value = 0 then
             { s with cassette_flipflop := 0x80 } else s
  let s := { s with cassette_value := s.cassette_next,
                    cassette_transition := tadd s.cassette_transition s.cassette_delta }
  if s.cassette_value ≠ 0 then { s with cassette_lastnonzero := s.cassette_value } else s

/-- A bound on the number of transitions the CAS decoder can still deliver:
56 for each byte to fetch (the extra zero byte included), 7 for each bit left
of the current byte, and the steps left of the current shape. -/
def cas_bound (a : CasIn) : Nat :=
  56 * (a.rest.length + (if a.byte = 0x100 ∧ a.rest = [] then 0 else 1))
    + 7 * a.bitnumber.toNat + (if a.pulsestate = 0 then 0 else (7 - a.pulsestate).toNat)

/-- A bound on the number of transitions `transition_in` can still deliver:
in the CAS format `cas_bound`, else the number of bytes not read yet. -/
def decode_bound (s : Cassette) : Nat :=
  if s.cassette_format = CAS_FORMAT then cas_bound (cas_in_of s) else (cas_in_of s).rest.length

/-- A bound on the number of passes through the loop of `trs_cassette_update`:
three for each transition left, and up to two for the passes at the end of the
file. -/
def update_bound (s : Cassette) : Nat :=
  3 * decode_bound s
    + (if tsub s.t_count s.cassette_transition < s.cassette_delta then 0
       else if tsub s.t_count s.cassette_transition = ULONG_MAX ∧ s.cassette_delta = 0 then 2
       else 1)

/-- The decoder of a session is in order: in the CAS format the speed is 0 or
1 and the index into the pulse shape is in range. -/
def DecoderOk (s : Cassette) : Prop :=
  s.cassette_format = CAS_FORMAT →
    (s.cassette_highspeed = 0 ∨ s.cassette_highspeed = 1)
    ∧ CasInOk s.cassette_highspeed (cas_in_of s)

/-- What reading leaves alone: storage, the emulated clock, and the time of
the last transition. -/
def ReadFrame (s t : Cassette) : Prop :=
  NothingWritten s t ∧ t.t_count = s.t_count ∧ t.cassette_transition = s.cassette_transition

/-! ## The emulator traps of `trs_imp_exp.c`: `do_emt_lseek`, `do_emt_strerror` -/

/-- The value of `EFAULT` in the host's `errno.h` (Linux). -/
def EFAULT : Int := 14

/-- The value of `ERANGE` in the host's `errno.h` (Linux). -/
def ERANGE : Int := 34

/-- The Z-80 registers the traps use (`REG_A` and `REG_F` of 8 bits, `REG_BC`,
`REG_DE` and `REG_HL` of 16 bits), and the stores a trap has made to emulated
memory, oldest first: every call `mem_write(address, value)` and every byte
copied to `mem_pointer(address)`, with its address. -/
structure Z80 where
  REG_A : Nat
  REG_F : Nat
  REG_BC : Nat
  REG_DE : Nat
  REG_HL : Nat
  stores : List (Int × Int)
deriving DecidableEq, Repr

/-- What the traps take from outside `trs_imp_exp.c`: the flag mask
`ZERO_MASK` of `z80.h`; emulated memory as `mem_read` returns it when the trap
is entered; the host's `strerror`, as the bytes of the message and the `errno`
it leaves (0 when it sets none); and the host's `lseek (fd, offset, whence)`,
as its result and the `errno` that goes with a result of -1. -/
structure Outside where
  ZERO_MASK : Nat
  mem_read : Int → Int
  strerror : Nat → List Nat × Int
  lseek : Nat → Int → Nat → Int × Int

/-- The assignment `REG_A = value` to the 8-bit register. -/
def set_A (value : Int) (s : Z80) : Z80 := { s with REG_A := (value % 256).toNat }

/-- The statement `REG_F |= ZERO_MASK`. -/
def zero_set (o : Outside) (s : Z80) : Z80 :=
  { s with REG_F := (Int.lor s.REG_F o.ZERO_MASK % 256).toNat }

/-- The statement `REG_F &= ~ZERO_MASK`. -/
def zero_clear (o : Outside) (s : Z80) : Z80 :=
  { s with REG_F := (Int.land s.REG_F (Int.not o.ZERO_MASK) % 256).toNat }

/-- The call `mem_write(address, value)`, recorded. -/
def mem_write (address : Int) (value : Int) (s : Z80) : Z80 :=
  { s with stores := s.stores ++ [(address, value)] }

/-- The call `memcpy(mem_pointer(address), bytes, n)`: the bytes are stored at
`address`, `address + 1`, ... -/
def memcpy_to (address : Int) : List Nat → Z80 → Z80
  | [], s => s
  | b :: bs, s => memcpy_to (address + 1) bs (mem_write address b s)

/-- The values `i` takes in `for (i=REG_HL; i<8; i++)`: from `REG_HL` up to 7,
none when `REG_HL` is 8 or more. -/
def lseek_indices (s : Z80) : List Nat := List.range' s.REG_HL (8 - s.REG_HL)

/-- The first loop of `do_emt_lseek`: the offset gathered from memory,
`offset = offset + (mem_read(REG_HL + i) << i*8)` for each `i`.  The shift is
taken in the integers: C shifts an `int` here, which is undefined from `i = 4`
on. -/
def lseek_offset (o : Outside) (s : Z80) : Int :=
  (lseek_indices s).foldl
    (fun (offset : Int) (i : Nat) =>
      offset + o.mem_read ((s.REG_HL : Int) + i) * 2 ^ (i * 8)) 0

/-- The second loop of `do_emt_lseek`: `mem_write(REG_HL + i, offset & 0xff);
offset >>= 8` for each `i`. -/
def lseek_store (offset : Int) (s : Z80) : Z80 :=
  ((lseek_indices s).foldl
    (fun (p : Int × Z80) (i : Nat) =>
      (p.1 / 256, mem_write ((s.REG_HL : Int) + i) (p.1 % 256) p.2))
    (offset, s)).2

/-- The trap `do_emt_lseek`. -/
def do_emt_lseek (o : Outside) (s : Z80) : Z80 :=
  if s.REG_HL + 8 > 0x10000 then
    zero_clear o (set_A EFAULT s)
  else
    let offset := lseek_offset o s
    let r := o.lseek s.REG_DE offset s.REG_BC
    let offset := r.1
    let s := if offset ≠ -1 then zero_set o (set_A 0 s) else zero_clear o (set_A r.2 s)
    lseek_store offset s

/-- The trap `do_emt_strerror`.  `none` stands for the call of `memcpy` with a
negative `size`, which C converts to a huge `size_t`. -/
def do_emt_strerror (o : Outside) (s : Z80) : Option Z80 :=
  if s.REG_HL + s.REG_BC > 0x10000 then
    some { zero_clear o (set_A EFAULT s) with REG_BC := 0xFFFF }
  else
    let msg := (o.strerror s.REG_A).1
    let errno := (o.strerror s.REG_A).2
    let size : Int := msg.length
    let r : Z80 × Int :=
      if errno ≠ 0 then (zero_clear o (set_A errno s), size)
      else if (s.REG_BC : Int) < size + 2 then
        (zero_set o (set_A ERANGE s), (s.REG_BC : Int) - 1)
      else (s, size)
    let s := r.1
    let size := r.2
    if size < 0 then none
    else
      let s := memcpy_to s.REG_HL (msg.take size.toNat) s
      let s := mem_write ((s.REG_HL : Int) + size) 13 s
      let size := size + 1
      let s := mem_write ((s.REG_HL : Int) + size) 0 s
      if errno = 0 then some { s with REG_BC := (size % 65536).toNat }
      else some { s with REG_BC := 0xFFFF }

/-- The 64-bit little-endian value of the 8 bytes of emulated memory at
`hl`: the sum over `i = 0..7` of `mem[hl + i] * 256^i`. -/
def le64_at (o : Outside) (hl : Nat) : Int :=
  (List.range 8).foldl
    (fun (acc : Int) (i : Nat) => acc + o.mem_read ((hl : Int) + i) * 256 ^ i) 0

/-- An outside for the examples: the zero flag is bit 6; memory holds the
byte 0x10 at 0x5000 and 0 elsewhere; `strerror` gives "Operation not
permitted" for the code 1 and "Success" for every other code, and sets no
`errno`; `lseek` succeeds and returns 1000 more than the offset it is given. -/
def demo_outside : Outside :=
  { ZERO_MASK := 0x40
    mem_read := fun a => if a = 0x5000 then 0x10 else 0
    strerror := fun e =>
      if e = 1 then
        ([79, 112, 101, 114, 97, 116, 105, 111, 110, 32, 110, 111, 116, 32,
          112, 101, 114, 109, 105, 116, 116, 101, 100], 0)
      else ([83, 117, 99, 99, 101, 115, 115], 0)
    lseek := fun _ offset _ => (offset + 1000, 0) }

/-- The registers on entry to a trap: `REG_F` clear and no store made yet. -/
def trap_entry (a bc de hl : Nat) : Z80 :=
  { REG_A := a, REG_F := 0, REG_BC := bc, REG_DE := de, REG_HL := hl, stores := [] }

/-! ## The rounding of durations: `double` arithmetic, and the rule of the specification -/

theorem poke_of_le (data : List Nat) (pos b : Nat) (h : pos ≤ data.length) :
    poke data pos b = data.take pos ++ b :: data.drop (pos + 1) := by
  simp [poke, Nat.sub_eq_zero_of_le h]

/-- Writable stream that accepts writes. -/
theorem putc_ok (c : Int) (f : FILE) (hw : f.wr = true) (hf : f.full = false) :
    putc c f = (c % 256, store_bytes [(c % 256).toNat] f) := by
  simp [putc, hw, hf, store_bytes]

theorem store_bytes_append (a b : List Nat) (f : FILE) :
    store_bytes (a ++ b) f = store_bytes b (store_bytes a f) := by
  induction a generalizing f with
  | nil => rfl
  | cons x xs ih => simp [store_bytes, ih]

@[simp]
theorem store_bytes_wr (a : List Nat) (f : FILE) : (store_bytes a f).wr = f.wr := by
  induction a generalizing f with
  | nil => rfl
  | cons x xs ih => simp [store_bytes, ih]

@[simp]
theorem store_bytes_full (a : List Nat) (f : FILE) : (store_bytes a f).full = f.full := by
  induction a generalizing f with
  | nil => rfl
  | cons x xs ih => simp [store_bytes, ih]

@[simp]
theorem store_bytes_rd (a : List Nat) (f : FILE) : (store_bytes a f).rd = f.rd := by
  induction a generalizing f with
  | nil => rfl
  | cons x xs ih => simp [store_bytes, ih]

@[simp]
theorem store_bytes_pos (a : List Nat) (f : FILE) :
    (store_bytes a f).pos = f.pos + a.length := by
  induction a generalizing f with
  | nil => rfl
  | cons x xs ih => simp [store_bytes, ih]; omega

theorem store_bytes_eq (a : List Nat) (f : FILE) (h : f.pos ≤ f.data.length) :
    store_bytes a f =
      { f with data := f.data.take f.pos ++ a ++ f.data.drop (f.pos + a.length),
               pos := f.pos + a.length } := by
  induction a generalizing f with
  | nil => simp [store_bytes]
  | cons x xs ih =>
    have hlen : (f.data.take f.pos).length = f.pos := by simp [h]
    have h1 : f.pos + 1 ≤ (poke f.data f.pos x).length := by
      rw [poke_of_le _ _ _ h]; simp [hlen]
    rw [store_bytes, ih _ h1]
    simp only [poke_of_le _ _ _ h]
    congr 1
    · have e1 : (f.data.take f.pos ++ x :: f.data.drop (f.pos + 1)).take (f.pos + 1)
          = f.data.take f.pos ++ [x] := by
        rw [List.take_append_eq_append_take]; simp [hlen]
      have e2 : (f.data.take f.pos ++ x :: f.data.drop (f.pos + 1)).drop (f.pos + 1 + xs.length)
          = f.data.drop (f.pos + (xs.length + 1)) := by
        rw [List.drop_append_eq_append_drop]; simp [hlen]
        have : f.pos + 1 + xs.length - f.pos = xs.length + 1 := by omega
        rw [List.drop_eq_nil_of_le (by simp [hlen]; omega)]
        simp [this, List.drop_drop]
        congr 1; omega
      simp [e1, e2]
    · simp; omega


theorem putc_nat_ok (n : Nat) (f : FILE) (hw : f.wr = true) (hf : f.full = false) :
    putc (n : Int) f = (((n % 256 : Nat) : Int), store_bytes [n % 256] f) := by
  rw [putc_ok _ _ hw hf]
  have : ((n : Int) % 256).toNat = n % 256 := by omega
  rw [this]; simp

theorem put_twobyte_ok (n : Nat) (f : FILE) (hw : f.wr = true) (hf : f.full = false) :
    put_twobyte n f = (0, store_bytes [n % 256, n / 256 % 256] f) := by
  unfold put_twobyte
  simp only [putc_nat_ok _ _ hw hf, putc_nat_ok _ _ (by simpa using hw : (store_bytes _ f).wr = true)
    (by simpa using hf : (store_bytes _ f).full = false)]
  have h1 : ¬ (((n % 256 % 256 : Nat) : Int) = -1) := by omega
  have h2 : ¬ (((n / 256 % 256 % 256 : Nat) : Int) = -1) := by omega
  simp only [h1, h2, if_false, Nat.mod_mod]
  rw [← store_bytes_append]; rfl

theorem put_fourbyte_ok (n : Nat) (f : FILE) (hw : f.wr = true) (hf : f.full = false) :
    put_fourbyte n f =
      (0, store_bytes [n % 256, n / 256 % 256, n / 65536 % 256, n / 16777216 % 256] f) := by
  unfold put_fourbyte
  have w1 : ∀ l, (store_bytes l f).wr = true := fun l => by simpa using hw
  have f1 : ∀ l, (store_bytes l f).full = false := fun l => by simpa using hf
  have hne : ∀ k : Nat, ¬ (((k % 256 : Nat) : Int) = -1) := fun k => by omega
  simp only [putc_nat_ok _ _ hw hf, ← store_bytes_append, putc_nat_ok _ _ (w1 _) (f1 _), hne,
    if_false, Nat.mod_mod, List.cons_append, List.nil_append]

theorem lor_pack (v d : Int) (hv : 0 ≤ v) (hv3 : v ≤ 3) (hd : 0 ≤ d) :
    Int.lor v (d * 4) = d * 4 + v := by
  obtain ⟨a, rfl⟩ := Int.eq_ofNat_of_zero_le hv
  obtain ⟨b, rfl⟩ := Int.eq_ofNat_of_zero_le hd
  have ha : a < 2 ^ 2 := by omega
  have h := Nat.mul_add_lt_is_or ha b
  have e : ((b : Int) * 4) = ((2 ^ 2 * b : Nat) : Int) := by push_cast; ring
  rw [e]
  show ((a ||| 2 ^ 2 * b : Nat) : Int) = _
  rw [Nat.lor_comm, ← h]; push_cast; ring

theorem put_cpt_ok (s : Cassette) (f : FILE) (v : Int) (d : Nat)
    (hfile : s.cassette_file = some f) (hw : f.wr = true) (hf : f.full = false)
    (hv : 0 ≤ v) (hv3 : v ≤ 3) :
    put_cpt v (d : Int) s = { s with cassette_file := some (store_bytes (cpt_bytes v.toNat d) f) } := by
  obtain ⟨a, rfl⟩ := Int.eq_ofNat_of_zero_le hv
  have w1 : ∀ l, (store_bytes l f).wr = true := fun l => by simpa using hw
  have f1 : ∀ l, (store_bytes l f).full = false := fun l => by simpa using hf
  unfold put_cpt cpt_bytes
  by_cases hd : d < 0x3fff
  · have hd' : ((d : Int) < 0x3fff) := by omega
    rw [if_pos hd', if_pos hd]
    simp only [on_file, hfile, Option.map_some']
    rw [lor_pack _ _ hv hv3 (by omega)]
    have : to_ushort ((d : Int) * 4 + (a : Int)) = 4 * d + a := by
      unfold to_ushort; omega
    rw [this]
    have e2 : (4 * d + a) / 256 % 256 = (4 * d + a) / 256 := by omega
    simp [e2, put_twobyte_ok _ _ hw hf]
  · have hd' : ¬ ((d : Int) < 0x3fff) := by omega
    rw [if_neg hd', if_neg hd]
    simp only [on_file, hfile, Option.map_some', put_twobyte_ok _ _ hw hf,
      putc_nat_ok _ _ (w1 _) (f1 _), put_fourbyte_ok _ _ (w1 _) (f1 _), ← store_bytes_append]
    have e1 : a % 256 = a := by omega
    have e3 : to_uint (d : Int) = d % 4294967296 := by unfold to_uint; omega
    have e4 : d % 4294967296 % 256 = d % 256 := by omega
    have e5 : d % 4294967296 / 256 % 256 = d / 256 % 256 := by omega
    have e6 : d % 4294967296 / 65536 % 256 = d / 65536 % 256 := by omega
    have e7 : d % 4294967296 / 16777216 % 256 = d / 16777216 % 256 := by omega
    simp [e1, e3, e4, e5, e6, e7]

theorem getc_of_drop (f : FILE) (c : Nat) (rest : List Nat) (hrd : f.rd = true)
    (h : f.data.drop f.pos = c :: rest) :
    getc f = ((c : Int), { f with pos := f.pos + 1 }) := by
  simp [getc, hrd, h]

theorem drop_succ_of_drop {α} (l : List α) (n : Nat) (c : α) (rest : List α)
    (h : l.drop n = c :: rest) : l.drop (n + 1) = rest := by
  have := congrArg (List.drop 1) h
  simpa [List.drop_drop, Nat.add_comm] using this

theorem get_twobyte_of_drop (f : FILE) (a b : Nat) (rest : List Nat) (hrd : f.rd = true)
    (h : f.data.drop f.pos = a :: b :: rest) :
    get_twobyte f = (0, a + 256 * b, { f with pos := f.pos + 2 }) := by
  have h2 := drop_succ_of_drop _ _ _ _ h
  unfold get_twobyte
  rw [getc_of_drop f a _ hrd h]
  have ha : ¬ ((a : Int) = -1) := by omega
  have hb : ¬ ((b : Int) = -1) := by omega
  simp only [ha, if_false]
  rw [getc_of_drop { f with pos := f.pos + 1 } b rest hrd h2]
  simp [hb]

theorem get_fourbyte_of_drop (f : FILE) (a b c d : Nat) (rest : List Nat) (hrd : f.rd = true)
    (h : f.data.drop f.pos = a :: b :: c :: d :: rest) :
    get_fourbyte f =
      (0, a + 256 * b + 65536 * c + 16777216 * d, { f with pos := f.pos + 4 }) := by
  have h2 := drop_succ_of_drop _ _ _ _ h
  have h3 := drop_succ_of_drop _ _ _ _ h2
  have h4 := drop_succ_of_drop _ _ _ _ h3
  unfold get_fourbyte
  rw [getc_of_drop f a _ hrd h]
  have hn : ∀ k : Nat, ¬ ((k : Int) = -1) := fun k => by omega
  simp only [hn, if_false]
  rw [getc_of_drop { f with pos := f.pos + 1 } b _ hrd h2]
  simp only [hn, if_false]
  rw [getc_of_drop { f with pos := f.pos + 1 + 1 } c _ hrd h3]
  simp only [hn, if_false]
  rw [getc_of_drop { f with pos := f.pos + 1 + 1 + 1 } d _ hrd h4]
  simp [hn]

theorem get_cpt_of_drop (r : Cassette) (g : FILE) (v d : Nat) (rest : List Nat)
    (hg : r.cassette_file = some g) (hrd : g.rd = true) (hv : v ≤ 3) (hd : d < 2 ^ 32)
    (h : g.data.drop g.pos = cpt_bytes v d ++ rest) :
    get_cpt r = (some d, { r with cassette_next := (v : Int),
                                  cassette_file := some { g with pos := g.pos + (cpt_bytes v d).length } }) := by
  unfold get_cpt
  simp only [hg]
  unfold cpt_bytes at h ⊢
  by_cases hs : d < 0x3fff
  · rw [if_pos hs] at h
    simp only [if_pos hs, List.cons_append, List.nil_append] at h ⊢
    rw [get_twobyte_of_drop g _ _ rest hrd h]
    have e : (4 * d + v) % 256 + 256 * ((4 * d + v) / 256) = 4 * d + v := by omega
    have e1 : ¬ (4 * d + v = 65535) := by omega
    have e2 : (4 * d + v) / 4 = d := by omega
    have e3 : (4 * d + v) % 4 = v := by omega
    simp [e, e1, e2, e3]
  · rw [if_neg hs] at h
    simp only [if_neg hs, List.cons_append, List.nil_append] at h ⊢
    rw [get_twobyte_of_drop g _ _ _ hrd h]
    have h2 := drop_succ_of_drop _ _ _ _ (drop_succ_of_drop _ _ _ _ h)
    have h3 := drop_succ_of_drop _ _ _ _ h2
    have hn : ∀ k : Nat, ¬ ((k : Int) = -1) := fun k => by omega
    simp only [show (255 + 256 * 255 = 65535) from rfl, if_true]
    rw [getc_of_drop { g with pos := g.pos + 2 } v _ hrd h2]
    simp only [hn, EOF, if_false]
    rw [get_fourbyte_of_drop { g with pos := g.pos + 2 + 1 } _ _ _ _ rest hrd h3]
    have e : d % 256 + 256 * (d / 256 % 256) + 65536 * (d / 65536 % 256)
        + 16777216 * (d / 16777216 % 256) = d := by omega
    simp [e]

theorem put_cpt_all_nil (s : Cassette) : put_cpt_all [] s = s := by
  simp [put_cpt_all]

theorem put_cpt_all_cons (x : Int × Nat) (xs : List (Int × Nat)) (s : Cassette) :
    put_cpt_all (x :: xs) s = put_cpt_all xs (put_cpt x.1 (x.2 : Int) s) := by
  simp [put_cpt_all]

theorem with_file_self (s : Cassette) (f : FILE) (hfile : s.cassette_file = some f) :
    { s with cassette_file := some f } = s := by
  cases s
  simp_all

theorem put_cpt_all_ok (rs : List (Int × Nat)) (s : Cassette) (f : FILE)
    (hfile : s.cassette_file = some f) (hw : f.wr = true) (hf : f.full = false)
    (hrs : ∀ x ∈ rs, 0 ≤ x.1 ∧ x.1 ≤ 3 ∧ x.2 < 2 ^ 32) :
    put_cpt_all rs s = { s with cassette_file := some (store_bytes (cpt_stream rs) f) } := by
  induction rs generalizing s f with
  | nil =>
    rw [put_cpt_all_nil, cpt_stream]
    simp only [List.flatMap_nil, store_bytes]
    exact (with_file_self s f hfile).symm
  | cons x xs ih =>
    have hx := hrs x (List.mem_cons_self _ _)
    rw [put_cpt_all_cons, put_cpt_ok s f x.1 x.2 hfile hw hf hx.1 hx.2.1]
    rw [ih _ (store_bytes (cpt_bytes x.1.toNat x.2) f) rfl (by simpa using hw) (by simpa using hf)
      (fun y hy => hrs y (List.mem_cons_of_mem _ hy))]
    simp [cpt_stream, store_bytes_append]

theorem get_cpt_n_ok (rs : List (Int × Nat)) (r : Cassette) (g : FILE) (rest : List Nat)
    (hg : r.cassette_file = some g) (hrd : g.rd = true)
    (hrs : ∀ x ∈ rs, 0 ≤ x.1 ∧ x.1 ≤ 3 ∧ x.2 < 2 ^ 32)
    (h : g.data.drop g.pos = cpt_stream rs ++ rest) :
    (get_cpt_n rs.length r).1 = rs ∧
    (get_cpt_n rs.length r).2.cassette_file.map FILE.pos = some (g.pos + (cpt_stream rs).length) := by
  induction rs generalizing r g with
  | nil => simp [get_cpt_n, cpt_stream, hg]
  | cons x xs ih =>
    have hx := hrs x (List.mem_cons_self _ _)
    have hv : x.1.toNat ≤ 3 := by omega
    have h' : g.data.drop g.pos = cpt_bytes x.1.toNat x.2 ++ (cpt_stream xs ++ rest) := by
      rw [h]; simp [cpt_stream]
    have hstep := get_cpt_of_drop r g x.1.toNat x.2 _ hg hrd hv hx.2.2 h'
    have hcast : ((x.1.toNat : Nat) : Int) = x.1 := by omega
    have hdrop : g.data.drop (g.pos + (cpt_bytes x.1.toNat x.2).length) = cpt_stream xs ++ rest := by
      rw [← List.drop_drop, h']; simp
    rw [hcast] at hstep
    simp only [List.length_cons, get_cpt_n, hstep]
    have := ih { r with cassette_next := x.1,
                        cassette_file := some { g with pos := g.pos + (cpt_bytes x.1.toNat x.2).length } }
      { g with pos := g.pos + (cpt_bytes x.1.toNat x.2).length } rfl hrd
      (fun y hy => hrs y (List.mem_cons_of_mem _ hy)) hdrop
    refine ⟨?_, ?_⟩
    · simp [this.1]
    · rw [this.2]; simp [cpt_stream]; omega

/-- C1. PulseTrain round trip at record level: a list of records `(value,
delta_us)` with `value` in 0..3 and `delta_us < 2 ^ 32`, written with the
pulse-train writer of `transition_out` and read back with the pulse-train
reader of `transition_in` from a stream over the written contents placed where
writing began, comes back unchanged, and the reader ends exactly where the
writer ended. -/
theorem cpt_round_trip (rs : List (Int × Nat)) (w r : Cassette) (f g : FILE)
    (hw : w.cassette_file = some f) (hwr : f.wr = true) (hfull : f.full = false)
    (hpos : f.pos ≤ f.data.length)
    (hrs : ∀ x ∈ rs, 0 ≤ x.1 ∧ x.1 ≤ 3 ∧ x.2 < 2 ^ 32)
    (hg : r.cassette_file = some g) (hrd : g.rd = true)
    (hdata : (put_cpt_all rs w).cassette_file.map FILE.data = some g.data)
    (hstart : g.pos = f.pos) :
    (get_cpt_n rs.length r).1 = rs ∧
    (get_cpt_n rs.length r).2.cassette_file.map FILE.pos
      = (put_cpt_all rs w).cassette_file.map FILE.pos := by
  rw [put_cpt_all_ok rs w f hw hwr hfull hrs] at hdata ⊢
  simp only [Option.map_some', Option.some.injEq] at hdata
  rw [store_bytes_eq _ _ hpos] at hdata
  simp only at hdata
  have hlen : (f.data.take f.pos).length = f.pos := by simp [hpos]
  have hdrop : g.data.drop g.pos
      = cpt_stream rs ++ f.data.drop (f.pos + (cpt_stream rs).length) := by
    rw [← hdata, hstart, List.append_assoc, List.drop_append_eq_append_drop]
    simp [hlen]
  have := get_cpt_n_ok rs r g _ hg hrd hrs hdrop
  refine ⟨this.1, ?_⟩
  rw [this.2]; simp [hstart]

theorem round_us_eq (x : ℚ) (h0 : 0 ≤ x + 1 / 2) (h1 : x + 1 / 2 < 2 ^ 63) :
    round_us x = ⌊x + 1 / 2⌋ := by
  have hf0 : 0 ≤ ⌊x + 1 / 2⌋ := Int.floor_nonneg.mpr h0
  have hf1 : ⌊x + 1 / 2⌋ < 2 ^ 63 := by
    rw [Int.floor_lt]; exact_mod_cast h1
  unfold round_us to_long to_ulong trunc
  rw [if_pos h0]
  generalize ⌊x + 1 / 2⌋ = z at hf0 hf1
  norm_num at hf1 ⊢
  omega

theorem put_cpt_file (v d : Int) (s : Cassette) :
    put_cpt v d s = { s with cassette_file := (put_cpt v d s).cassette_file } := by
  unfold put_cpt
  split <;> simp [on_file]

theorem transition_out_cpt (s : Cassette) (value : Int) (hfmt : s.cassette_format = CPT_FORMAT)
    (hact : value = FLUSH ∨ value ≠ s.cassette_value) :
    transition_out value s =
      { s with cassette_roundoff_error := (round_us (ddelta_us s) : ℚ) - ddelta_us s,
               cassette_file := (put_cpt (if value = FLUSH then s.cassette_value else value)
                                  (round_us (ddelta_us s)) s).cassette_file,
               last_sound := if s.cassette_value ≠ (if value = FLUSH then s.cassette_value else value)
                             then s.t_count else s.last_sound,
               cassette_transition := s.t_count,
               cassette_value := if value = FLUSH then s.cassette_value else value } := by
  have h1 : ¬ (value ≠ FLUSH ∧ value = s.cassette_value) := by
    rcases hact with h | h
    · simp [h]
    · simp [h]
  unfold transition_out
  rw [if_neg h1]
  simp only [hfmt]
  simp only [CPT_FORMAT, DEBUG_FORMAT, show ¬ ((2 : Int) = 5) by decide, if_false, if_true, out_cpt]
  rw [put_cpt_file]
  unfold put_cpt
  split <;> simp [on_file, hfmt]

/-- C2. PulseTrain byte layout: a transition to `value` in 0..3 recorded in
the pulse-train format stores, at the stream position, the two bytes of the
16-bit word `4 * delta_us + value` in little-endian order when the rounded
`delta_us` is below 0x3fff, and otherwise ff ff, one byte `value`, and
`delta_us` in four little-endian bytes. -/
theorem cpt_byte_layout (s : Cassette) (f : FILE) (value : Int)
    (hfmt : s.cassette_format = CPT_FORMAT)
    (hfile : s.cassette_file = some f) (hwr : f.wr = true) (hfull : f.full = false)
    (hpos : f.pos ≤ f.data.length)
    (hv0 : 0 ≤ value) (hv3 : value ≤ 3) (hne : value ≠ s.cassette_value)
    (hd : 0 ≤ round_us (ddelta_us s)) :
    let d := (round_us (ddelta_us s)).toNat
    let v := value.toNat
    let bytes :=
      if d < 0x3fff then [(4 * d + v) % 256, (4 * d + v) / 256]
      else [0xff, 0xff, v, d % 256, d / 256 % 256, d / 65536 % 256, d / 16777216 % 256]
    (transition_out value s).cassette_file =
      some { f with data := f.data.take f.pos ++ bytes ++ f.data.drop (f.pos + bytes.length),
                    pos := f.pos + bytes.length } := by
  intro d v bytes
  have hF : ¬ (value = FLUSH) := by simp only [FLUSH]; omega
  rw [transition_out_cpt s value hfmt (Or.inr hne)]
  simp only [hF, if_false]
  have hdc : round_us (ddelta_us s) = ((d : Nat) : Int) := by omega
  rw [hdc, put_cpt_ok s f value d hfile hwr hfull hv0 hv3]
  simp only
  rw [store_bytes_eq _ _ hpos]
  rfl

theorem tsub_tadd (t dt : Nat) (ht : t < 2 ^ 64) (hdt : dt < 2 ^ 64) :
    tsub (tadd t dt) t = dt := by
  unfold tsub tadd
  norm_num at ht hdt ⊢
  omega

theorem tadd_lt (t dt : Nat) : tadd t dt < 2 ^ 64 := by
  unfold tadd
  exact Nat.mod_lt _ (by norm_num)

theorem transition_out_wav (s : Cassette) (value : Int) (hfmt : s.cassette_format = WAV_FORMAT)
    (hst : s.cassette_state ≠ SOUND) (hF : value ≠ FLUSH) (hne : value ≠ s.cassette_value) :
    transition_out value s =
      { s with cassette_roundoff_error :=
                 (wav_nsamples (ddelta_us s) s.cassette_sample_rate : ℚ)
                   * (1000000 / (s.cassette_sample_rate : ℚ)) - ddelta_us s,
               cassette_file := s.cassette_file.map (fun f =>
                 (put_samples (wav_nsamples (ddelta_us s) s.cassette_sample_rate).toNat
                   (value_to_sample s.cassette_value) f).2),
               last_sound := s.t_count,
               cassette_transition := s.t_count,
               cassette_value := value } := by
  have h1 : ¬ (value ≠ FLUSH ∧ value = s.cassette_value) := by simp [hne]
  have hF' : ¬ value = 4 := hF
  have hst' : ¬ s.cassette_state = 3 := hst
  unfold transition_out
  rw [if_neg h1]
  simp [hfmt, out_wav, out_sound_pacing, hst', hF', on_file, Ne.symm hne]

theorem trunc_small (y : ℚ) (h0 : -1 < y) (h1 : y < 1) : trunc y = 0 := by
  unfold trunc
  split
  · rw [Int.floor_eq_iff]; constructor <;> simp <;> linarith
  · have : ⌊-y⌋ = 0 := by rw [Int.floor_eq_iff]; constructor <;> simp <;> linarith
    simp [this]

theorem wav_nsamples_small (dd : ℚ) (rate : Int)
    (h0 : -1 < dd / (1000000 / (rate : ℚ)) + 1 / 2) (h1 : dd / (1000000 / (rate : ℚ)) + 1 / 2 < 1) :
    wav_nsamples dd rate = 1 := by
  unfold wav_nsamples to_ulong to_long
  rw [trunc_small _ h0 h1]
  simp

theorem wav_nsamples_large (dd : ℚ) (rate : Int)
    (h0 : 1 ≤ dd / (1000000 / (rate : ℚ)) + 1 / 2) (h1 : dd / (1000000 / (rate : ℚ)) + 1 / 2 < 2 ^ 63) :
    wav_nsamples dd rate = ⌊dd / (1000000 / (rate : ℚ)) + 1 / 2⌋ := by
  have hr := round_us_eq (dd / (1000000 / (rate : ℚ))) (by linarith) h1
  unfold round_us at hr
  unfold wav_nsamples
  simp only [hr]
  have : (1 : Int) ≤ ⌊dd / (1000000 / (rate : ℚ)) + 1 / 2⌋ := by
    rw [Int.le_floor]; exact_mod_cast h0
  rw [if_neg (by omega)]

theorem wav_step (s : Cassette) (v : Int) (dt : Nat) (hfmt : s.cassette_format = WAV_FORMAT)
    (hst : s.cassette_state ≠ SOUND) (hF : v ≠ FLUSH) (hne : v ≠ s.cassette_value)
    (hstart : s.cassette_transition = s.t_count) (ht : s.t_count < 2 ^ 64) (hdt : dt < 2 ^ 64) :
    (transition_out v { s with t_count := tadd s.t_count dt }).cassette_format = s.cassette_format
    ∧ (transition_out v { s with t_count := tadd s.t_count dt }).cassette_state = s.cassette_state
    ∧ (transition_out v { s with t_count := tadd s.t_count dt }).cassette_sample_rate
        = s.cassette_sample_rate
    ∧ (transition_out v { s with t_count := tadd s.t_count dt }).clockMHz = s.clockMHz
    ∧ (transition_out v { s with t_count := tadd s.t_count dt }).cassette_value = v
    ∧ (transition_out v { s with t_count := tadd s.t_count dt }).cassette_transition
        = (transition_out v { s with t_count := tadd s.t_count dt }).t_count
    ∧ (transition_out v { s with t_count := tadd s.t_count dt }).t_count < 2 ^ 64
    ∧ (transition_out v { s with t_count := tadd s.t_count dt }).cassette_roundoff_error
        = (wav_nsamples ((dt : ℚ) / s.clockMHz - s.cassette_roundoff_error) s.cassette_sample_rate : ℚ)
            * (1000000 / (s.cassette_sample_rate : ℚ))
          - ((dt : ℚ) / s.clockMHz - s.cassette_roundoff_error) := by
  have hdd : ddelta_us { s with t_count := tadd s.t_count dt }
      = (dt : ℚ) / s.clockMHz - s.cassette_roundoff_error := by
    simp only [ddelta_us, hstart, tsub_tadd _ _ ht hdt]
  rw [transition_out_wav { s with t_count := tadd s.t_count dt } v hfmt hst hF hne]
  simp only [hdd, true_and]
  exact ⟨tadd_lt _ _, trivial⟩

/-- C7 (counterexample). Two transitions 40 ticks apart at 3 MHz (13.33
microseconds) written to a wave file at 11025 samples/s leave a round-off
error above one sample period. -/
theorem pcm_roundoff_exceeds_period :
    ¬ |(out_run [(1, 40), (2, 40)] (demo_writer "t.wav" WAV_FORMAT 3)).cassette_roundoff_error|
        ≤ 1000000 / 11025 := by
  obtain ⟨s0, hs0⟩ : ∃ s0, s0 = demo_writer "t.wav" WAV_FORMAT 3 := ⟨_, rfl⟩
  have a1 : s0.cassette_format = WAV_FORMAT := by rw [hs0]; decide
  have a2 : s0.cassette_state ≠ SOUND := by rw [hs0]; decide
  have a3 : s0.cassette_value = 0 := by rw [hs0]; decide
  have a4 : s0.cassette_sample_rate = 11025 := by rw [hs0]; decide
  have a5 : s0.clockMHz = 3 := by rw [hs0]; rfl
  have a6 : s0.cassette_roundoff_error = 0 := by rw [hs0]; rfl
  have a7 : s0.t_count = 0 := by rw [hs0]; decide
  have a8 : s0.cassette_transition = 0 := by rw [hs0]; decide
  rw [← hs0, out_run, out_run, out_run]
  have h1 := wav_step s0 1 40 a1 a2 (by decide) (by rw [a3]; decide) (by rw [a7, a8])
    (by rw [a7]; norm_num) (by norm_num)
  obtain ⟨s1, hs1⟩ : ∃ s1, s1 = transition_out 1 { s0 with t_count := tadd s0.t_count 40 } :=
    ⟨_, rfl⟩
  rw [← hs1] at h1 ⊢
  obtain ⟨b1, b2, b3, b4, b5, b6, b7, b8⟩ := h1
  have h2 := wav_step s1 2 40 (b1.trans a1) (b2 ▸ a2) (by decide) (by rw [b5]; decide) b6 b7
    (by norm_num)
  obtain ⟨s2, hs2⟩ : ∃ s2, s2 = transition_out 2 { s1 with t_count := tadd s1.t_count 40 } :=
    ⟨_, rfl⟩
  rw [← hs2] at h2 ⊢
  have n0 : wav_nsamples (((40 : ℕ) : ℚ) / 3 - 0) 11025 = 1 := by
    apply wav_nsamples_small <;> norm_num
  rw [a4, a5, a6, n0] at b8
  have n1 : wav_nsamples (((40 : ℕ) : ℚ) / 3 - s1.cassette_roundoff_error) 11025 = 1 := by
    rw [b8]; apply wav_nsamples_small <;> norm_num
  rw [h2.2.2.2.2.2.2.2, b3, b4, a4, a5, n1, b8]
  norm_num [abs_le]

/-- C7 (amended). Round-off boundedness for wave-file encoding when no
transition is shorter than one sample period: starting from round-off error 0,
after every transition the absolute round-off error is at most half a sample
period, hence at most one sample period. -/
theorem pcm_roundoff_bounded (steps : List (Int × Nat)) (s : Cassette)
    (hfmt : s.cassette_format = WAV_FORMAT) (hst : s.cassette_state = WRITE)
    (hrate : 0 < s.cassette_sample_rate) (hclk : 0 < s.clockMHz)
    (herr : s.cassette_roundoff_error = 0)
    (hstart : s.cassette_transition = s.t_count) (ht : s.t_count < 2 ^ 64)
    (hchain : List.Chain (fun a b => a ≠ b) s.cassette_value (steps.map Prod.fst))
    (hnf : ∀ x ∈ steps, x.1 ≠ FLUSH)
    (hlong : ∀ x ∈ steps, 1000000 / (s.cassette_sample_rate : ℚ) ≤ (x.2 : ℚ) / s.clockMHz)
    (hrange : ∀ x ∈ steps,
      (x.2 : ℚ) / s.clockMHz / (1000000 / (s.cassette_sample_rate : ℚ)) + 1 < 2 ^ 63
        ∧ x.2 < 2 ^ 64) :
    |(out_run steps s).cassette_roundoff_error| ≤ 1000000 / (s.cassette_sample_rate : ℚ) / 2
      ∧ |(out_run steps s).cassette_roundoff_error| ≤ 1000000 / (s.cassette_sample_rate : ℚ) := by
  have hP : (0 : ℚ) < 1000000 / (s.cassette_sample_rate : ℚ) := by
    apply div_pos (by norm_num); exact_mod_cast hrate
  suffices h : |(out_run steps s).cassette_roundoff_error|
      ≤ 1000000 / (s.cassette_sample_rate : ℚ) / 2 from ⟨h, by linarith⟩
  have herr' : |s.cassette_roundoff_error| ≤ 1000000 / (s.cassette_sample_rate : ℚ) / 2 := by
    rw [herr]; simp; linarith
  have hst' : s.cassette_state ≠ SOUND := by rw [hst]; decide
  clear herr hst
  induction steps generalizing s with
  | nil => simpa [out_run] using herr'
  | cons x xs ih =>
    have hx := hrange x (List.mem_cons_self _ _)
    have hxl := hlong x (List.mem_cons_self _ _)
    have hxF := hnf x (List.mem_cons_self _ _)
    simp only [List.map_cons, List.chain_cons] at hchain
    have hstep := wav_step s x.1 x.2 hfmt hst' hxF (Ne.symm hchain.1) hstart ht hx.2
    obtain ⟨s1, hs1⟩ : ∃ s1, s1 = transition_out x.1 { s with t_count := tadd s.t_count x.2 } :=
      ⟨_, rfl⟩
    rw [out_run, ← hs1]
    rw [← hs1] at hstep
    clear hs1
    obtain ⟨b1, b2, b3, b4, b5, b6, b7, b8⟩ := hstep
    have habs := abs_le.mp herr'
    set P : ℚ := 1000000 / (s.cassette_sample_rate : ℚ) with hPdef
    set dd : ℚ := (x.2 : ℚ) / s.clockMHz - s.cassette_roundoff_error with hdd
    have hy0 : 1 ≤ dd / P + 1 / 2 := by
      have : 1 / 2 ≤ dd / P := by rw [le_div_iff₀ hP]; linarith [habs.2]
      linarith
    have hy1 : dd / P + 1 / 2 < 2 ^ 63 := by
      have : dd / P ≤ (x.2 : ℚ) / s.clockMHz / P + 1 / 2 := by
        rw [div_le_iff₀ hP, add_mul, div_mul_cancel₀ _ hP.ne']; linarith [habs.1]
      linarith [hx.1]
    rw [wav_nsamples_large dd s.cassette_sample_rate hy0 hy1, ← hPdef] at b8
    have g1 := Int.floor_le (dd / P + 1 / 2)
    have g2 := Int.lt_floor_add_one (dd / P + 1 / 2)
    have hnew : |s1.cassette_roundoff_error| ≤ P / 2 := by
      rw [b8, abs_le]
      have k1 : (⌊dd / P + 1 / 2⌋ : ℚ) * P ≤ (dd / P + 1 / 2) * P :=
        mul_le_mul_of_nonneg_right g1 hP.le
      have k2 : (dd / P + 1 / 2) * P < ((⌊dd / P + 1 / 2⌋ : ℚ) + 1) * P :=
        mul_lt_mul_of_pos_right g2 hP
      rw [add_mul, div_mul_cancel₀ _ hP.ne'] at k1 k2
      constructor <;> linarith
    have := ih s1 (b1.trans hfmt) (b3 ▸ hrate) (b4 ▸ hclk) b6 b7 (b5 ▸ hchain.2)
      (fun y hy => hnf y (List.mem_cons_of_mem _ hy))
      (fun y hy => by rw [b3, b4]; exact hlong y (List.mem_cons_of_mem _ hy))
      (fun y hy => by rw [b3, b4]; exact hrange y (List.mem_cons_of_mem _ hy))
      (by rw [b3]; exact hP) (by rw [b3]; exact hnew) (by rw [b2]; exact hst')
    rw [b3] at this
    exact this

theorem assert_state_current (s : Cassette) : assert_state s.cassette_state s = (1, s) := by
  simp [assert_state]

/-- The stream `assert_state WRITE` opens on a plain file: the old contents of
the file, or nothing when the file is new. -/
theorem assert_write_plain (s : Cassette) (name : String) (p : Int) (fmt : Int)
    (hs : s.cassette_state = CLOSE)
    (hc : s.host.control = some (name, p, some fmt))
    (hfmt : fmt = CAS_FORMAT ∨ fmt = CPT_FORMAT ∨ fmt = DEBUG_FORMAT)
    (hw : name ∉ s.host.unwritable) (hp : 0 ≤ p) :
    (assert_state WRITE s).1 = 0
    ∧ (assert_state WRITE s).2.cassette_state = WRITE
    ∧ (assert_state WRITE s).2.cassette_format = fmt
    ∧ (assert_state WRITE s).2.cassette_file
        = some { id := s.host.next_id, name := name,
                 data := (s.host.files.lookup name).getD [], pos := p.toNat,
                 rd := (s.host.files.lookup name).isSome, wr := true,
                 full := s.host.full.contains name }
    ∧ (assert_state WRITE s).2.cassette_value = s.cassette_value
    ∧ (assert_state WRITE s).2.cassette_roundoff_error = s.cassette_roundoff_error
    ∧ (assert_state WRITE s).2.cassette_transition = s.cassette_transition
    ∧ (assert_state WRITE s).2.t_count = s.t_count
    ∧ (assert_state WRITE s).2.clockMHz = s.clockMHz
    ∧ (assert_state WRITE s).2.cassette_motor = s.cassette_motor := by
  have h1 : ¬ (s.cassette_state = WRITE) := by rw [hs]; decide
  have h2 : ¬ (s.cassette_state = FAILED ∧ WRITE ≠ CLOSE) := by rw [hs]; decide
  have hf1 : ¬ fmt = 6 := by rcases hfmt with h | h | h <;> rw [h] <;> decide
  have hf2 : ¬ fmt = 4 := by rcases hfmt with h | h | h <;> rw [h] <;> decide
  have hf3 : ¬ fmt = 3 := by rcases hfmt with h | h | h <;> rw [h] <;> decide
  unfold assert_state
  rw [if_neg h1, if_neg h2]
  cases hl : s.host.files.lookup name with
  | none =>
    simp [close_session, hs, open_write, get_control, hc, hf1, hf2, hf3, do_fopen, fopen,
      fopen_rplus, fopen_w, hl, hw, do_fseek, on_file, fseek, hp, Host.store, open_failed,
      Cassette.say]
  | some d =>
    simp [close_session, hs, open_write, get_control, hc, hf1, hf2, hf3, do_fopen, fopen,
      fopen_rplus, fopen_w, hl, hw, do_fseek, on_file, fseek, hp, Host.store, open_failed,
      Cassette.say]

theorem round_us_natCast (n : Nat) (h : n < 2 ^ 62) : round_us (n : ℚ) = n := by
  rw [round_us_eq]
  · rw [Int.floor_eq_iff]; constructor <;> push_cast <;> linarith
  · positivity
  · have : (n : ℚ) < 2 ^ 62 := by exact_mod_cast h
    linarith

/-- One port write in an open pulse-train session at 1 MHz with no round-off
error pending. -/
theorem out_cpt_step (fuel : Nat) (s : Cassette) (f : FILE) (v : Int)
    (hm : s.cassette_motor ≠ 0) (hst : s.cassette_state = WRITE)
    (hfmt : s.cassette_format = CPT_FORMAT)
    (hfile : s.cassette_file = some f) (hwr : f.wr = true) (hfull : f.full = false)
    (hv0 : 0 ≤ v) (hv3 : v ≤ 3) (hne : v ≠ s.cassette_value)
    (hclk : s.clockMHz = 1) (herr : s.cassette_roundoff_error = 0)
    (ht : s.cassette_transition ≤ s.t_count) (ht2 : s.t_count < 2 ^ 62) :
    ∃ s', trs_cassette_out fuel v s = some s'
      ∧ s'.cassette_motor = s.cassette_motor ∧ s'.cassette_state = WRITE
      ∧ s'.cassette_format = CPT_FORMAT
      ∧ s'.cassette_file = some (store_bytes
          (cpt_bytes v.toNat (s.t_count - s.cassette_transition)) f)
      ∧ s'.cassette_value = v ∧ s'.clockMHz = 1 ∧ s'.cassette_roundoff_error = 0
      ∧ s'.cassette_transition = s.t_count ∧ s'.t_count = s.t_count := by
  have hF : ¬ (v = FLUSH) := by simp only [FLUSH]; omega
  have hsub : tsub s.t_count s.cassette_transition = s.t_count - s.cassette_transition := by
    unfold tsub; norm_num at ht2 ⊢; omega
  have hdd : ddelta_us s = ((s.t_count - s.cassette_transition : Nat) : ℚ) := by
    simp only [ddelta_us, hsub, hclk, herr]; simp
  have hr : round_us (ddelta_us s) = ((s.t_count - s.cassette_transition : Nat) : Int) := by
    rw [hdd]; apply round_us_natCast; omega
  refine ⟨transition_out v s, ?_, ?_⟩
  · unfold trs_cassette_out
    have h1 : ¬ (s.cassette_state = READ) := by rw [hst]; decide
    have ha : assert_state WRITE s = (1, s) := by rw [← hst]; exact assert_state_current s
    simp only [hm, ne_eq, not_false_eq_true, if_true, h1, if_false, hne, and_self, ha]
    simp
  · rw [transition_out_cpt s v hfmt (Or.inr hne)]
    rw [hdd] at hr
    simp only [hF, if_false, hdd, hr, hst, hfmt, hclk, true_and]
    rw [put_cpt_ok s f v _ hfile hwr hfull hv0 hv3]
    simp

/-- C3. Scenario: the control file selects the pulse-train format and the
clock runs at 1 MHz.  After motor-on at tick 0, a write of HIGH (1) at tick 0
and a write of LOW (2) at tick 1000, the session is in `WRITE` and the two
packed records 01 00 and a2 0f stand in the file where the session began
writing, the rest of the file being as before. -/
theorem scenario_high_low_cpt (h : Host) (name : String) (p : Int) (model : Int) (fuel : Nat)
    (hc : h.control = some (name, p, some CPT_FORMAT))
    (hw : name ∉ h.unwritable) (hfull : name ∉ h.full)
    (hp : 0 ≤ p) (hlen : p.toNat ≤ ((h.files.lookup name).getD []).length) :
    ∃ s2 s3,
      trs_cassette_out fuel 1 (trs_cassette_motor 1 (Cassette.initial h 1 model)) = some s2
      ∧ trs_cassette_out fuel 2 { s2 with t_count := 1000 } = some s3
      ∧ s3.cassette_state = WRITE
      ∧ s3.cassette_file.map FILE.data
          = some (((h.files.lookup name).getD []).take p.toNat ++ [0x01, 0x00, 0xa2, 0x0f]
                    ++ ((h.files.lookup name).getD []).drop (p.toNat + 4))
      ∧ s3.cassette_file.map FILE.pos = some (p.toNat + 4) := by
  obtain ⟨s1, hs1⟩ : ∃ s1, s1 = trs_cassette_motor 1 (Cassette.initial h 1 model) := ⟨_, rfl⟩
  have m1 : s1.cassette_motor = 1 := by rw [hs1]; simp [trs_cassette_motor, Cassette.initial]; split <;> rfl
  have m2 : s1.cassette_state = CLOSE := by rw [hs1]; simp [trs_cassette_motor, Cassette.initial]; split <;> rfl
  have m3 : s1.cassette_value = 0 := by rw [hs1]; simp [trs_cassette_motor, Cassette.initial]; split <;> rfl
  have m4 : s1.cassette_roundoff_error = 0 := by rw [hs1]; simp [trs_cassette_motor, Cassette.initial]; split <;> rfl
  have m5 : s1.cassette_transition = 0 := by rw [hs1]; simp [trs_cassette_motor, Cassette.initial]; split <;> rfl
  have m6 : s1.t_count = 0 := by rw [hs1]; simp [trs_cassette_motor, Cassette.initial]; split <;> rfl
  have m7 : s1.clockMHz = 1 := by rw [hs1]; simp [trs_cassette_motor, Cassette.initial]; split <;> rfl
  have m8 : s1.host = h := by rw [hs1]; simp [trs_cassette_motor, Cassette.initial]; split <;> rfl
  rw [← hs1]
  obtain ⟨a1, a2, a3, a4, a5, a6, a7, a8, a9, a10⟩ :=
    assert_write_plain s1 name p CPT_FORMAT m2 (m8 ▸ hc) (Or.inr (Or.inl rfl)) (m8 ▸ hw) hp
  rw [m8] at a4
  obtain ⟨w, hw1⟩ : ∃ w, w = (assert_state WRITE s1).2 := ⟨_, rfl⟩
  rw [← hw1] at a2 a3 a4 a5 a6 a7 a8 a9 a10
  obtain ⟨f0, hf0⟩ : ∃ f0 : FILE, f0 = FILE.mk h.next_id name
      ((h.files.lookup name).getD []) p.toNat (h.files.lookup name).isSome true
      (h.full.contains name) := ⟨_, rfl⟩
  rw [← hf0] at a4
  have f1 : f0.wr = true := by rw [hf0]
  have f2 : f0.full = false := by rw [hf0]; simpa using hfull
  have f3 : f0.pos ≤ f0.data.length := by rw [hf0]; exact hlen
  have f4 : f0.pos = p.toNat := by rw [hf0]
  have f5 : f0.data = (h.files.lookup name).getD [] := by rw [hf0]
  -- the first write opens the session and records (1, 0)
  have e1 : trs_cassette_out fuel 1 s1 = some (transition_out 1 w) := by
    unfold trs_cassette_out
    have h1 : ¬ (s1.cassette_state = 1) := by rw [m2]; decide
    have a1' : (assert_state 2 s1).1 = 0 := a1
    have hw1' : w = (assert_state 2 s1).2 := hw1
    simp [m1, h1, m3, a1', hw1']
  have hdd : ddelta_us w = 0 := by
    simp [ddelta_us, a7, a8, a6, m4, m5, m6, tsub]
  have hr : round_us (ddelta_us w) = 0 := by
    rw [hdd]; exact_mod_cast round_us_natCast 0 (by norm_num)
  obtain ⟨s2, hs2⟩ : ∃ s2, s2 = transition_out 1 w := ⟨_, rfl⟩
  have hs2' := hs2
  rw [transition_out_cpt w 1 a3 (Or.inr (by rw [a5, m3]; decide))] at hs2'
  rw [hdd] at hr
  have hput := put_cpt_ok w f0 1 0 a4 f1 f2 (by decide) (by decide)
  simp only [Nat.cast_zero] at hput
  simp only [hdd, hr, show ¬ ((1 : Int) = FLUSH) by decide, if_false, hput] at hs2'
  have b1 : s2.cassette_motor ≠ 0 := by rw [hs2', a10, m1]; decide
  have b2 : s2.cassette_state = WRITE := by rw [hs2']; exact a2
  have b3 : s2.cassette_format = CPT_FORMAT := by rw [hs2']; exact a3
  have b4 : s2.cassette_file = some (store_bytes (cpt_bytes 1 0) f0) := by rw [hs2']; rfl
  have b5 : s2.cassette_value = 1 := by rw [hs2']
  have b6 : s2.clockMHz = 1 := by rw [hs2']; exact a9.trans m7
  have b7 : s2.cassette_roundoff_error = 0 := by rw [hs2']; simp
  have b8 : s2.cassette_transition = 0 := by rw [hs2']; exact a8.trans m6
  -- the second write records (2, 1000)
  obtain ⟨s3, c0, -, c2, -, c4, -⟩ :=
    out_cpt_step fuel { s2 with t_count := 1000 } (store_bytes (cpt_bytes 1 0) f0) 2
      b1 b2 b3 b4 (by simpa using f1) (by simpa using f2) (by decide) (by decide)
      (by simp [b5]) b6 b7 (by simp [b8]) (by norm_num)
  refine ⟨s2, s3, by rw [e1, hs2], c0, c2, ?_, ?_⟩
  · rw [c4, ← store_bytes_append]
    simp only [b8, Option.map_some']
    rw [store_bytes_eq _ _ f3]
    simp [cpt_bytes, f4, f5]
  · rw [c4]
    simp [cpt_bytes, f4, b8]

theorem assert_state_failed (target : Int) (s : Cassette) (hs : s.cassette_state = FAILED)
    (ht : target ≠ CLOSE) (ht' : target ≠ FAILED) : assert_state target s = (-1, s) := by
  have h1 : ¬ (s.cassette_state = target) := by rw [hs]; exact Ne.symm ht'
  unfold assert_state
  rw [if_neg h1, if_pos ⟨hs, ht⟩]

theorem out_failed (fuel : Nat) (v : Int) (s : Cassette) (hs : s.cassette_state = FAILED)
    (hm : s.cassette_motor ≠ 0) : trs_cassette_out fuel v s = some s := by
  have ha : assert_state 2 s = (-1, s) := assert_state_failed WRITE s hs (by decide) (by decide)
  have h1 : ¬ (s.cassette_state = 1) := by rw [hs]; decide
  unfold trs_cassette_out
  by_cases hv : v = s.cassette_value
  · simp [hm, h1, hv]
  · simp [hm, h1, hv, ha]

theorem update_failed (fuel : Nat) (s : Cassette) (hs : s.cassette_state = FAILED)
    (hm : s.cassette_motor ≠ 0) : trs_cassette_update fuel 0 s = some s := by
  have ha : assert_state 1 s = (-1, s) := assert_state_failed READ s hs (by decide) (by decide)
  have h1 : ¬ (s.cassette_state = 2) := by rw [hs]; decide
  unfold trs_cassette_update
  simp [hm, h1, ha]

theorem in_failed (fuel : Nat) (s : Cassette) (hs : s.cassette_state = FAILED)
    (hm : s.cassette_motor ≠ 0) :
    (trs_cassette_in fuel s).map Prod.snd
      = some { s with log := Call.trs_cassette_clear_interrupts :: s.log } := by
  have hu := update_failed fuel (s.say Call.trs_cassette_clear_interrupts) hs hm
  simp only [trs_cassette_in]
  rw [hu]
  simp only [Option.map_some', Cassette.say]
  split <;> rfl

theorem run_calls_failed (fuel : Nat) (calls : List PortCall) (s : Cassette)
    (hs : s.cassette_state = FAILED) (hm : s.cassette_motor ≠ 0) :
    run_calls fuel calls s
      = some { s with log := List.replicate (calls.count PortCall.inp)
                               Call.trs_cassette_clear_interrupts ++ s.log } := by
  induction calls generalizing s with
  | nil => simp [run_calls]
  | cons c cs ih =>
    cases c with
    | out v =>
      rw [run_calls, out_failed fuel v s hs hm]
      simp only [Option.some_bind]
      rw [ih s hs hm]
      simp
    | update =>
      rw [run_calls, update_failed fuel s hs hm]
      simp only [Option.some_bind]
      rw [ih s hs hm]
      simp
    | inp =>
      have h := in_failed fuel s hs hm
      rw [run_calls]
      cases hr : trs_cassette_in fuel s with
      | none => rw [hr] at h; simp at h
      | some r =>
        rw [hr] at h
        simp only [Option.map_some', Option.some.injEq] at h
        simp only [Option.some_bind]
        rw [h, ih { s with log := Call.trs_cassette_clear_interrupts :: s.log } hs hm]
        simp [List.replicate_succ', List.append_assoc]

/-- C8. Failed is sticky: in `FAILED`, `assert_state` for `READ`, `WRITE` or
`SOUND` returns -1 and leaves the whole state (host and log of outward calls
included) as it was, `assert_state CLOSE` returns 0 and only sets the state to
`CLOSE`; so with the motor on every sequence of port writes, port reads and
catch-up calls returns with the state unchanged, except that each port read
logs its call of `trs_cassette_clear_interrupts`: the session stays `FAILED`
and no transition is encoded or decoded. -/
theorem failed_is_sticky (s : Cassette) (hs : s.cassette_state = FAILED) :
    (∀ target, target = READ ∨ target = WRITE ∨ target = SOUND →
        assert_state target s = (-1, s))
    ∧ assert_state CLOSE s = (0, { s with cassette_state := CLOSE })
    ∧ (s.cassette_motor ≠ 0 → ∀ (fuel : Nat) (calls : List PortCall),
        run_calls fuel calls s
          = some { s with log := List.replicate (calls.count PortCall.inp)
                                   Call.trs_cassette_clear_interrupts ++ s.log }) := by
  refine ⟨?_, ?_, ?_⟩
  · intro target ht
    apply assert_state_failed target s hs
    · rcases ht with h | h | h <;> rw [h] <;> decide
    · rcases ht with h | h | h <;> rw [h] <;> decide
  · simp [assert_state, close_session, hs]
  · intro hm fuel calls
    exact run_calls_failed fuel calls s hs hm

set_option maxRecDepth 100000 in
theorem cpt_round_trip_witness :
    (get_cpt_n 5 (demo_reader CPT_FORMAT (cpt_stream demo_records))).1 = demo_records
    ∧ (get_cpt_n 5 (demo_reader CPT_FORMAT (cpt_stream demo_records))).2.cassette_file.map FILE.pos
      = (put_cpt_all demo_records (demo_writer "tape" CPT_FORMAT 1)).cassette_file.map FILE.pos :=
  cpt_round_trip demo_records (demo_writer "tape" CPT_FORMAT 1)
    (demo_reader CPT_FORMAT (cpt_stream demo_records))
    { id := 0, name := "tape", data := [], pos := 0, rd := false, wr := true, full := false }
    (demo_tape (cpt_stream demo_records))
    (by decide) (by decide) (by decide) (by decide) (by decide) (by rfl) (by decide) (by decide)
    (by decide)

theorem demo_ddelta (t : Nat) (ht : t < 2 ^ 62) :
    ddelta_us { demo_writer "tape" CPT_FORMAT 1 with t_count := t } = (t : ℚ) := by
  have e : tsub t 0 = t := by unfold tsub; norm_num at ht ⊢; omega
  show ((tsub t 0 : Nat) : ℚ) / 1 - 0 = (t : ℚ)
  rw [e]; simp

set_option maxRecDepth 100000 in
theorem cpt_byte_layout_witness :
    (transition_out 2 { demo_writer "tape" CPT_FORMAT 1 with t_count := 1000 }).cassette_file
      = some { id := 0, name := "tape", data := [0xa2, 0x0f], pos := 2, rd := false, wr := true,
               full := false } := by
  have hr : round_us (ddelta_us { demo_writer "tape" CPT_FORMAT 1 with t_count := 1000 }) = 1000 := by
    rw [demo_ddelta 1000 (by norm_num)]
    exact_mod_cast round_us_natCast 1000 (by norm_num)
  have h := cpt_byte_layout { demo_writer "tape" CPT_FORMAT 1 with t_count := 1000 }
    { id := 0, name := "tape", data := [], pos := 0, rd := false, wr := true, full := false } 2
    (by decide) (by decide) (by decide) (by decide) (by decide) (by decide) (by decide)
    (by decide) (by rw [hr]; decide)
  simp only [hr] at h
  exact h

set_option maxRecDepth 100000 in
theorem scenario_high_low_cpt_witness :
    ∃ s2 s3,
      trs_cassette_out 0 1
          (trs_cassette_motor 1 (Cassette.initial (demo_host "tape" CPT_FORMAT) 1 1)) = some s2
      ∧ trs_cassette_out 0 2 { s2 with t_count := 1000 } = some s3
      ∧ s3.cassette_state = WRITE
      ∧ s3.cassette_file.map FILE.data = some [0x01, 0x00, 0xa2, 0x0f]
      ∧ s3.cassette_file.map FILE.pos = some 4 := by
  simpa [demo_host] using
    scenario_high_low_cpt (demo_host "tape" CPT_FORMAT) "tape" 0 1 0 rfl (by decide) (by decide)
      (by decide) (by decide)

set_option maxRecDepth 100000 in
theorem pcm_roundoff_bounded_witness :
    |(out_run [(1, 1000), (2, 2000)] (demo_writer "t.wav" WAV_FORMAT 1)).cassette_roundoff_error|
      ≤ 1000000 / ((demo_writer "t.wav" WAV_FORMAT 1).cassette_sample_rate : ℚ) :=
  (pcm_roundoff_bounded [(1, 1000), (2, 2000)] (demo_writer "t.wav" WAV_FORMAT 1)
    (by decide) (by decide) (by decide) (by show (0 : ℚ) < 1; norm_num) (by rfl) (by decide)
    (by decide)
    (by
      have hv : (demo_writer "t.wav" WAV_FORMAT 1).cassette_value = 0 := by decide
      rw [hv]; simp)
    (by decide)
    (by
      intro x hx
      have hc : (demo_writer "t.wav" WAV_FORMAT 1).clockMHz = 1 := rfl
      have hr : (demo_writer "t.wav" WAV_FORMAT 1).cassette_sample_rate = 11025 := by decide
      simp only [List.mem_cons, List.mem_singleton, List.not_mem_nil, or_false] at hx
      rcases hx with rfl | rfl <;> rw [hc, hr] <;> norm_num)
    (by
      intro x hx
      have hc : (demo_writer "t.wav" WAV_FORMAT 1).clockMHz = 1 := rfl
      have hr : (demo_writer "t.wav" WAV_FORMAT 1).cassette_sample_rate = 11025 := by decide
      simp only [List.mem_cons, List.mem_singleton, List.not_mem_nil, or_false] at hx
      rcases hx with rfl | rfl <;> rw [hc, hr] <;> norm_num)).2

set_option maxRecDepth 100000 in
theorem failed_is_sticky_witness :
    (demo_writer "tape" AUTODETECT_FORMAT 1).cassette_state = FAILED
    ∧ run_calls 5 [PortCall.out 1, PortCall.inp, PortCall.update]
          (demo_writer "tape" AUTODETECT_FORMAT 1)
        = some { demo_writer "tape" AUTODETECT_FORMAT 1 with
                   log := List.replicate
                     ([PortCall.out 1, PortCall.inp, PortCall.update].count PortCall.inp)
                     Call.trs_cassette_clear_interrupts
                     ++ (demo_writer "tape" AUTODETECT_FORMAT 1).log } :=
  ⟨by decide,
   (failed_is_sticky (demo_writer "tape" AUTODETECT_FORMAT 1) (by decide)).2.2 (by decide) 5
     [PortCall.out 1, PortCall.inp, PortCall.update]⟩

/-- C9. Requesting the current state is a no-op: `assert_state` called with
the state the session is in returns 1 and leaves the whole state as it was:
every session field, the stream, the host (so nothing was opened, closed or
written to the control file) and the log of outward calls. -/
theorem assert_state_same_is_noop (s : Cassette) :
    assert_state s.cassette_state s = (1, s) := by
  simp [assert_state]

theorem to_ulong_natCast_half (n : Nat) (h : n < 2 ^ 64) : to_ulong ((n : ℚ) + 1 / 2) = n := by
  have hf : ⌊(n : ℚ) + 1 / 2⌋ = (n : Int) := by
    rw [Int.floor_eq_iff]; constructor <;> push_cast <;> linarith
  have h0 : (0 : ℚ) ≤ (n : ℚ) + 1 / 2 := by positivity
  unfold to_ulong trunc
  rw [if_pos h0, hf]
  norm_num at h ⊢
  omega

theorem ulong_of_int_lt (i : Int) : ulong_of_int i < 2 ^ 64 := by
  unfold ulong_of_int
  have := Int.emod_lt_of_pos i (show (0 : Int) < 2 ^ 64 by norm_num)
  have := Int.emod_nonneg i (show (2 ^ 64 : Int) ≠ 0 by norm_num)
  norm_num at *
  omega

theorem set_delta_mhz (n : Nat) (h : n < 2 ^ 64) (s : Cassette) (hclk : s.clockMHz = 1)
    (herr : s.cassette_roundoff_error = 0) :
    set_delta n s = { s with cassette_delta := n } := by
  unfold set_delta
  simp only [hclk, herr, mul_one, sub_zero, to_ulong_natCast_half n h]
  cases s
  simp_all

theorem getc_fields (f : FILE) :
    (getc f).1 = (match (if f.rd then f.data.drop f.pos else []) with
                  | [] => EOF
                  | c :: _ => (c : Int))
    ∧ (if (getc f).2.rd then (getc f).2.data.drop (getc f).2.pos else [])
        = (if f.rd then f.data.drop f.pos else []).tail := by
  unfold getc
  by_cases hrd : f.rd = true
  · simp only [hrd, if_true]
    cases h : f.data.drop f.pos with
    | nil => simp [hrd, h]
    | cons c rest =>
      simp only [hrd, if_true, List.tail_cons, true_and]
      exact drop_succ_of_drop _ _ _ _ h
  · simp [hrd]

theorem cas_emit_fields (s : Cassette) (hclk : s.clockMHz = 1)
    (herr : s.cassette_roundoff_error = 0) :
    (cas_emit s).1 = 1
    ∧ (cas_emit s).2.cassette_next
        = (pulse_shape s.cassette_highspeed
            ((s.cassette_byte / 2 ^ s.cassette_bitnumber.toNat) % 2) s.cassette_pulsestate).2
    ∧ (cas_emit s).2.cassette_delta
        = ulong_of_int (pulse_shape s.cassette_highspeed
            ((s.cassette_byte / 2 ^ s.cassette_bitnumber.toNat) % 2) s.cassette_pulsestate).1
    ∧ (cas_emit s).2.cassette_pulsestate
        = (if (pulse_shape s.cassette_highspeed
                ((s.cassette_byte / 2 ^ s.cassette_bitnumber.toNat) % 2)
                (s.cassette_pulsestate + 1)).2 = -1 then 0 else s.cassette_pulsestate + 1)
    ∧ (cas_emit s).2.cassette_byte = s.cassette_byte
    ∧ (cas_emit s).2.cassette_bitnumber = s.cassette_bitnumber
    ∧ (cas_emit s).2.cassette_file = s.cassette_file
    ∧ (cas_emit s).2.cassette_format = s.cassette_format
    ∧ (cas_emit s).2.clockMHz = 1 ∧ (cas_emit s).2.cassette_roundoff_error = 0
    ∧ (cas_emit s).2.cassette_highspeed = s.cassette_highspeed := by
  have hsd : ∀ (x : Int) (s' : Cassette), s'.clockMHz = 1 → s'.cassette_roundoff_error = 0 →
      set_delta (ulong_of_int x) s' = { s' with cassette_delta := ulong_of_int x } :=
    fun x s' h1 h2 => set_delta_mhz _ (ulong_of_int_lt x) s' h1 h2
  have h2 := hsd (pulse_shape s.cassette_highspeed
      ((s.cassette_byte / 2 ^ s.cassette_bitnumber.toNat) % 2) s.cassette_pulsestate).1
    { s with cassette_next := (pulse_shape s.cassette_highspeed
      ((s.cassette_byte / 2 ^ s.cassette_bitnumber.toNat) % 2) s.cassette_pulsestate).2 } hclk herr
  unfold cas_emit
  simp only [h2]
  split <;> simp_all

/-- The unread bytes of a stream pointer. -/
theorem fetch_fields (file : Option FILE) :
    (match file with
      | none => (EOF, (none : Option FILE))
      | some f => ((getc f).1, some (getc f).2)).1
      = (match (match file with
                | none => []
                | some f => if f.rd then f.data.drop f.pos else []) with
         | [] => EOF
         | c :: _ => (c : Int))
    ∧ (match (match file with
              | none => (EOF, (none : Option FILE))
              | some f => ((getc f).1, some (getc f).2)).2 with
       | none => []
       | some f => if f.rd then f.data.drop f.pos else [])
      = (match file with
         | none => []
         | some f => if f.rd then f.data.drop f.pos else []).tail := by
  cases file with
  | none => simp
  | some f => exact getc_fields f

theorem dec_bitnumber (d : Cassette) :
    (if d.cassette_pulsestate = 0 then
        { d with cassette_bitnumber := d.cassette_bitnumber - 1 } else d)
      = { d with cassette_bitnumber :=
            if d.cassette_pulsestate = 0 then d.cassette_bitnumber - 1 else d.cassette_bitnumber } := by
  split
  · rfl
  · cases d; rfl

theorem emit_case (d : Cassette) (hclk : d.clockMHz = 1) (herr : d.cassette_roundoff_error = 0)
    (byte bn : Int) (fl : Option FILE) (rest : List Nat)
    (hfl : (cas_in_of { d with cassette_file := fl }).rest = rest)
    (t : Int × Nat) (a' : CasIn)
    (h : some (((pulse_shape d.cassette_highspeed (byte / 2 ^ bn.toNat % 2) d.cassette_pulsestate).2,
                ulong_of_int (pulse_shape d.cassette_highspeed (byte / 2 ^ bn.toNat % 2)
                  d.cassette_pulsestate).1),
               ({ rest := rest, byte := byte, bitnumber := bn,
                  pulsestate :=
                    if (pulse_shape d.cassette_highspeed (byte / 2 ^ bn.toNat % 2)
                          (d.cassette_pulsestate + 1)).2 = -1 then 0
                    else d.cassette_pulsestate + 1 } : CasIn)) = some (t, a')) :
    (cas_emit { d with cassette_bitnumber := bn, cassette_file := fl, cassette_byte := byte }).1 = 1
    ∧ (cas_emit { d with cassette_bitnumber := bn, cassette_file := fl,
                         cassette_byte := byte }).2.cassette_next = t.1
    ∧ (cas_emit { d with cassette_bitnumber := bn, cassette_file := fl,
                         cassette_byte := byte }).2.cassette_delta = t.2
    ∧ cas_in_of (cas_emit { d with cassette_bitnumber := bn, cassette_file := fl,
                                   cassette_byte := byte }).2 = a'
    ∧ (cas_emit { d with cassette_bitnumber := bn, cassette_file := fl,
                         cassette_byte := byte }).2.cassette_format = d.cassette_format
    ∧ (cas_emit { d with cassette_bitnumber := bn, cassette_file := fl,
                         cassette_byte := byte }).2.clockMHz = 1
    ∧ (cas_emit { d with cassette_bitnumber := bn, cassette_file := fl,
                         cassette_byte := byte }).2.cassette_roundoff_error = 0
    ∧ (cas_emit { d with cassette_bitnumber := bn, cassette_file := fl,
                         cassette_byte := byte }).2.cassette_highspeed = d.cassette_highspeed := by
  have he := cas_emit_fields
    { d with cassette_bitnumber := bn, cassette_file := fl, cassette_byte := byte } hclk herr
  obtain ⟨e1, e2, e3, e4, e5, e6, e7, e8, e9, e10, e11⟩ := he
  simp only [Option.some.injEq, Prod.mk.injEq] at h
  obtain ⟨h1, h2⟩ := h
  subst h1 h2
  refine ⟨e1, e2, e3, ?_, e8, e9, e10, e11⟩
  simp only [cas_in_of] at hfl ⊢
  simp only [e4, e5, e6, e7, hfl]

/-- The decoder on `Cassette` agrees with the decoder on its fields. -/
theorem in_cas_fields (d : Cassette) (hclk : d.clockMHz = 1)
    (herr : d.cassette_roundoff_error = 0) :
    (cas_in_step d.cassette_highspeed (cas_in_of d) = none → (in_cas d).1 = 0)
    ∧ (∀ t a', cas_in_step d.cassette_highspeed (cas_in_of d) = some (t, a') →
        (in_cas d).1 = 1 ∧ (in_cas d).2.cassette_next = t.1 ∧ (in_cas d).2.cassette_delta = t.2
        ∧ cas_in_of (in_cas d).2 = a'
        ∧ (in_cas d).2.cassette_format = d.cassette_format
        ∧ (in_cas d).2.clockMHz = 1 ∧ (in_cas d).2.cassette_roundoff_error = 0
        ∧ (in_cas d).2.cassette_highspeed = d.cassette_highspeed) := by
  obtain ⟨bn, hbn⟩ : ∃ bn, bn = if d.cassette_pulsestate = 0 then d.cassette_bitnumber - 1
      else d.cassette_bitnumber := ⟨_, rfl⟩
  have q1 : (cas_in_of d).pulsestate = d.cassette_pulsestate := rfl
  have q2 : (cas_in_of d).bitnumber = d.cassette_bitnumber := rfl
  have q3 : (cas_in_of d).byte = d.cassette_byte := rfl
  unfold in_cas cas_in_step
  rw [dec_bitnumber]
  simp only [q1, q2, q3, ← hbn]
  by_cases hneg : bn < 0
  · simp only [hneg, if_true]
    cases hfile : d.cassette_file with
    | none =>
      have hrest : (cas_in_of d).rest = [] := by simp only [cas_in_of, hfile]
      simp only [hrest, if_true]
      by_cases hb : d.cassette_byte = 0x100
      · simp [hb]
      · simp only [hb, if_false]
        refine ⟨by simp, ?_⟩
        intro t a' h
        exact emit_case d hclk herr 0x100 7 none [] (by simp [cas_in_of]) t a' h
    | some f =>
      have hg := getc_fields f
      cases hr : (if f.rd then f.data.drop f.pos else []) with
      | nil =>
        have hrest : (cas_in_of d).rest = [] := by simp only [cas_in_of, hfile, hr]
        rw [hr] at hg
        have hg1 : (getc f).1 = EOF := hg.1
        simp only [hrest, hg1, if_true]
        by_cases hb : d.cassette_byte = 0x100
        · simp [hb]
        · simp only [hb, if_false]
          refine ⟨by simp, ?_⟩
          intro t a' h
          exact emit_case d hclk herr 0x100 7 (some (getc f).2) []
            (by simpa [cas_in_of] using hg.2) t a' h
      | cons x r =>
        have hrest : (cas_in_of d).rest = x :: r := by simp only [cas_in_of, hfile, hr]
        rw [hr] at hg
        have hg1 : (getc f).1 = (x : Int) := hg.1
        have hx : ¬ ((x : Int) = EOF) := by simp only [EOF]; omega
        simp only [hrest, hg1, hx, if_false]
        refine ⟨by simp, ?_⟩
        intro t a' h
        exact emit_case d hclk herr (x : Int) 7 (some (getc f).2) r
          (by simpa [cas_in_of] using hg.2) t a' h
  · simp only [hneg, if_false]
    refine ⟨by simp, ?_⟩
    intro t a' h
    have := emit_case d hclk herr d.cassette_byte bn d.cassette_file (cas_in_of d).rest
      (by simp [cas_in_of]) t a' h
    have e : ({ d with cassette_bitnumber := bn, cassette_file := d.cassette_file,
                       cassette_byte := d.cassette_byte } : Cassette)
        = { d with cassette_bitnumber := bn } := by cases d; rfl
    rw [e] at this
    exact this

theorem tsub_self (t : Nat) : tsub t t = 0 := by
  unfold tsub
  have h := Nat.mod_add_div t (2 ^ 64)
  norm_num at h ⊢
  omega

theorem tsub_tadd_gen (t dt c : Nat) : tsub (tadd t dt) c = (tsub t c + dt) % 2 ^ 64 := by
  unfold tsub tadd
  norm_num
  omega

theorem transition_in_cas (d : Cassette) (hfmt : d.cassette_format = CAS_FORMAT) :
    transition_in d
      = if (in_cas d).1 = 0 then (0, { (in_cas d).2 with cassette_delta := ULONG_MAX })
        else in_cas d := by
  unfold transition_in
  simp [hfmt]

theorem transition_out_cas (s : Cassette) (v : Int) (hfmt : s.cassette_format = CAS_FORMAT)
    (hv : v ≠ FLUSH) (hne : v ≠ s.cassette_value) :
    transition_out v s
      = { (if (cas_recognise s.cassette_pulsestate s.cassette_value v (ddelta_us s)).2 = 2 then
             { s with cassette_pulsestate :=
                 (cas_recognise s.cassette_pulsestate s.cassette_value v (ddelta_us s)).1 }
           else
             cas_put_bit (cas_recognise s.cassette_pulsestate s.cassette_value v (ddelta_us s)).2
               { s with cassette_pulsestate :=
                   (cas_recognise s.cassette_pulsestate s.cassette_value v (ddelta_us s)).1 }) with
          last_sound := s.t_count, cassette_transition := s.t_count, cassette_value := v } := by
  have hv' : ¬ (v = 4) := hv
  unfold transition_out
  rw [if_neg (by simp [hne])]
  simp only [hfmt, CAS_FORMAT, DEBUG_FORMAT, CPT_FORMAT, WAV_FORMAT, DIRECT_FORMAT,
    show ¬ ((1 : Int) = 5) by decide, show ¬ ((1 : Int) = 2) by decide,
    show ¬ ((1 : Int) = 3) by decide, show ¬ ((1 : Int) = 4) by decide, if_false, or_self,
    if_true, out_cas, FLUSH, hv', false_and]
  split
  · simp [Ne.symm hne, cas_put_bit]
  · unfold cas_put_bit on_file
    simp only []
    split <;> split <;> simp [Ne.symm hne]

theorem cas_put_bit_fields (sample : Int) (s : Cassette) :
    (cas_put_bit sample s).cassette_bitnumber
        = (if s.cassette_bitnumber - 1 < 0 then 7 else s.cassette_bitnumber - 1)
    ∧ (cas_put_bit sample s).cassette_byte
        = (if (if s.cassette_bitnumber - 1 < 0 then (7 : Int) else s.cassette_bitnumber - 1) = 0
           then 0
           else Int.lor s.cassette_byte (sample * 2 ^
             (if s.cassette_bitnumber - 1 < 0 then (7 : Int) else s.cassette_bitnumber - 1).toNat))
    ∧ (cas_put_bit sample s).cassette_file
        = (if (if s.cassette_bitnumber - 1 < 0 then (7 : Int) else s.cassette_bitnumber - 1) = 0
           then s.cassette_file.map (fun f => (putc (Int.lor s.cassette_byte (sample * 2 ^
             (if s.cassette_bitnumber - 1 < 0 then (7 : Int)
              else s.cassette_bitnumber - 1).toNat)) f).2)
           else s.cassette_file)
    ∧ (cas_put_bit sample s).cassette_format = s.cassette_format
    ∧ (cas_put_bit sample s).clockMHz = s.clockMHz
    ∧ (cas_put_bit sample s).cassette_roundoff_error = s.cassette_roundoff_error
    ∧ (cas_put_bit sample s).cassette_pulsestate = s.cassette_pulsestate
    ∧ (cas_put_bit sample s).t_count = s.t_count := by
  unfold cas_put_bit on_file
  simp only []
  split <;> split <;> simp_all

/-- The encoder on `Cassette` agrees with the encoder on its fields. -/
theorem out_cas_fields (f0 : FILE) (e : Cassette) (a : CasOut) (v : Int) (dt : Nat)
    (hrel : CasOutOf f0 e a) (hwr : f0.wr = true) (hfull : f0.full = false) (hv : v ≠ FLUSH) :
    CasOutOf f0 (transition_out v { e with t_count := tadd e.t_count dt })
      (cas_out_step v dt a) := by
  obtain ⟨h1, h2, h3, h4, h5, h6, h7, h8, h9⟩ := hrel
  have hel : tsub (tadd e.t_count dt) e.cassette_transition = (a.elapsed + dt) % 2 ^ 64 := by
    rw [tsub_tadd_gen, h8]
  obtain ⟨e', he'⟩ : ∃ e', e' = ({ e with t_count := tadd e.t_count dt } : Cassette) := ⟨_, rfl⟩
  rw [← he']
  have f1 : e'.cassette_format = CAS_FORMAT := by rw [he']; exact h1
  have f2 : e'.clockMHz = 1 := by rw [he']; exact h2
  have f3 : e'.cassette_roundoff_error = 0 := by rw [he']; exact h3
  have f4 : e'.cassette_value = a.value := by rw [he']; exact h4
  have f5 : e'.cassette_pulsestate = a.pulsestate := by rw [he']; exact h5
  have f6 : e'.cassette_bitnumber = a.bitnumber := by rw [he']; exact h6
  have f7 : e'.cassette_byte = a.byte := by rw [he']; exact h7
  have f8 : tsub e'.t_count e'.cassette_transition = (a.elapsed + dt) % 2 ^ 64 := by
    rw [he']; exact hel
  have f9 : e'.cassette_file = some (store_bytes a.out f0) := by rw [he']; exact h9
  clear he' h1 h2 h3 h4 h5 h6 h7 h8 h9 hel
  unfold cas_out_step
  by_cases hsame : v = a.value
  · have ht : transition_out v e' = e' := by
      unfold transition_out
      rw [if_pos ⟨hv, by rw [f4]; exact hsame⟩]
    rw [ht, if_pos hsame]
    exact ⟨f1, f2, f3, f4, f5, f6, f7, f8, f9⟩
  · have hne : v ≠ e'.cassette_value := by rw [f4]; exact hsame
    have hdd : ddelta_us e' = (((a.elapsed + dt) % 2 ^ 64 : Nat) : ℚ) := by
      simp only [ddelta_us, f8, f2, f3]; simp
    rw [if_neg hsame, transition_out_cas e' v f1 hv hne]
    obtain ⟨r, hr⟩ : ∃ r, r = cas_recognise e'.cassette_pulsestate e'.cassette_value v
        (ddelta_us e') := ⟨_, rfl⟩
    have hr' : cas_recognise a.pulsestate a.value v (((a.elapsed + dt) % 2 ^ 64 : Nat) : ℚ) = r := by
      rw [hr, hdd, f5, f4]
    rw [← hr, hr']
    by_cases hr2 : r.2 = 2
    · simp only [hr2, if_true]
      exact ⟨f1, f2, f3, rfl, rfl, f6, f7, tsub_self _, f9⟩
    · simp only [hr2, if_false]
      obtain ⟨S, hS⟩ : ∃ S, S = ({ e' with cassette_pulsestate := r.1 } : Cassette) := ⟨_, rfl⟩
      rw [← hS]
      have g1 : S.cassette_format = CAS_FORMAT := by rw [hS]; exact f1
      have g2 : S.clockMHz = 1 := by rw [hS]; exact f2
      have g3 : S.cassette_roundoff_error = 0 := by rw [hS]; exact f3
      have g5 : S.cassette_pulsestate = r.1 := by rw [hS]
      have g6 : S.cassette_bitnumber = a.bitnumber := by rw [hS]; exact f6
      have g7 : S.cassette_byte = a.byte := by rw [hS]; exact f7
      have g9 : S.cassette_file = some (store_bytes a.out f0) := by rw [hS]; exact f9
      have g10 : S.t_count = e'.t_count := by rw [hS]
      obtain ⟨c1, c2, c3, c4, c5, c6, c7, c8⟩ := cas_put_bit_fields r.2 S
      rw [g6] at c1 c2 c3
      rw [g7] at c2 c3
      rw [g9] at c3
      unfold cas_push
      by_cases hb : (if a.bitnumber - 1 < 0 then (7 : Int) else a.bitnumber - 1) = 0
      · simp only [hb, if_true] at c2 c3 ⊢
        refine ⟨c4.trans g1, c5.trans g2, c6.trans g3, rfl, c7.trans g5, c1.trans hb, c2, ?_, ?_⟩
        · show tsub (cas_put_bit r.2 S).t_count e'.t_count = 0
          rw [c8, g10]; exact tsub_self _
        · show (cas_put_bit r.2 S).cassette_file = _
          rw [c3, Option.map_some', putc_ok _ _ (by simpa using hwr) (by simpa using hfull),
            ← store_bytes_append]
      · simp only [hb, if_false] at c2 c3 ⊢
        refine ⟨c4.trans g1, c5.trans g2, c6.trans g3, rfl, c7.trans g5, c1, c2, ?_, c3⟩
        show tsub (cas_put_bit r.2 S).t_count e'.t_count = 0
        rw [c8, g10]; exact tsub_self _

theorem pulse_table_next (i j k : Nat) :
    (((pulse_table.getD i []).getD j []).getD k (0, 0)).2 ≠ 4 := by
  rcases i with _ | _ | i <;> rcases j with _ | _ | j <;>
    rcases k with _ | _ | _ | _ | _ | _ | _ | _ | k <;> simp [pulse_table]

theorem pulse_shape_ne_flush (hs c ps : Int) : (pulse_shape hs c ps).2 ≠ FLUSH := by
  unfold pulse_shape
  split
  · decide
  · exact pulse_table_next _ _ _

theorem cas_in_step_ne_flush (hs : Int) (a a' : CasIn) (t : Int × Nat)
    (h : cas_in_step hs a = some (t, a')) : t.1 ≠ FLUSH := by
  unfold cas_in_step at h
  simp only at h
  split at h
  · simp at h
  · simp only [Option.some.injEq, Prod.mk.injEq] at h
    rw [← h.1]
    exact pulse_shape_ne_flush _ _ _

/-- The copy loop on `Cassette` agrees with the copy loop on the fields. -/
theorem cas_copy_sim (f0 : FILE) (hwr : f0.wr = true) (hfull : f0.full = false) (fuel : Nat) :
    ∀ (d e : Cassette) (b b' : CasOut),
      d.cassette_format = CAS_FORMAT → d.clockMHz = 1 → d.cassette_roundoff_error = 0 →
      CasOutOf f0 e b →
      cas_copy_fields d.cassette_highspeed fuel (cas_in_of d) b = some b' →
      ∃ e', cas_copy fuel d e = some e' ∧ CasOutOf f0 e' b' := by
  induction fuel with
  | zero => intro d e b b' _ _ _ _ h; simp [cas_copy_fields] at h
  | succ n ih =>
    intro d e b b' hfmt hclk herr hrel h
    have hf := in_cas_fields d hclk herr
    rw [cas_copy_fields] at h
    rw [cas_copy, transition_in_cas d hfmt]
    cases hstep : cas_in_step d.cassette_highspeed (cas_in_of d) with
    | none =>
      rw [hstep] at h
      simp only [Option.some.injEq] at h
      have h0 := hf.1 hstep
      simp only [h0, if_true]
      exact ⟨e, rfl, h ▸ hrel⟩
    | some ta =>
      obtain ⟨t, a'⟩ := ta
      rw [hstep] at h
      simp only at h
      obtain ⟨k1, k2, k3, k4, k5, k6, k7, k8⟩ := hf.2 t a' hstep
      have hne : ¬ ((in_cas d).1 = 0) := by rw [k1]; decide
      simp only [hne, if_false, k2, k3]
      have hv := cas_in_step_ne_flush _ _ _ _ hstep
      have hrel' := out_cas_fields f0 e b t.1 t.2 hrel hwr hfull hv
      rw [← k8, ← k4] at h
      exact ih (in_cas d).2 _ _ b' (k5.trans hfmt) k6 k7 hrel' h

theorem cas_in_run_append (hs : Int) (ts us : List (Int × Nat)) :
    ∀ a a1 a2, cas_in_run hs ts a a1 → cas_in_run hs us a1 a2 → cas_in_run hs (ts ++ us) a a2 := by
  induction ts with
  | nil => intro a a1 a2 h1 h2; simp only [cas_in_run] at h1; subst h1; simpa using h2
  | cons t ts ih =>
    intro a a1 a2 h1 h2
    obtain ⟨a', h3, h4⟩ := h1
    exact ⟨a', h3, ih _ _ _ h4 h2⟩

theorem cas_copy_fields_run (hs : Int) (ts : List (Int × Nat)) :
    ∀ a a' b fuel, cas_in_run hs ts a a' →
      cas_copy_fields hs (fuel + ts.length) a b = cas_copy_fields hs fuel a' (cas_feed ts b) := by
  induction ts with
  | nil => intro a a' b fuel h; simp only [cas_in_run] at h; subst h; rfl
  | cons t ts ih =>
    intro a a' b fuel h
    obtain ⟨a1, h3, h4⟩ := h
    show cas_copy_fields hs (fuel + ts.length + 1) a b = _
    rw [cas_copy_fields, h3]
    exact ih _ _ _ _ h4

theorem shape_steps_00 : shape_steps 0 0 = [(1, 0), (2, 128), (0, 128), (0, 1750)] := by decide
theorem shape_steps_01 : shape_steps 0 1
    = [(1, 0), (2, 128), (0, 128), (1, 747), (2, 128), (0, 128), (0, 747)] := by decide
theorem shape_steps_10 : shape_steps 1 0 = [(1, 0), (2, 376), (1, 376)] := by decide
theorem shape_steps_11 : shape_steps 1 1 = [(1, 0), (2, 188), (1, 188)] := by decide

theorem cas_in_step_first (hs : Int) (rest : List Nat) (byte : Int) (k : Nat) :
    cas_in_step hs ⟨rest, byte, (k : Int) + 1, 0⟩
      = some (((pulse_shape hs (byte / 2 ^ k % 2) 0).2,
               ulong_of_int (pulse_shape hs (byte / 2 ^ k % 2) 0).1),
              ⟨rest, byte, k, if (pulse_shape hs (byte / 2 ^ k % 2) 1).2 = -1 then 0 else 1⟩) := by
  have hk : ¬ ((k : Int) < 0) := by omega
  simp [cas_in_step, hk]

theorem cas_in_step_mid (hs : Int) (rest : List Nat) (byte : Int) (k : Nat) (ps : Int)
    (hps : ps ≠ 0) :
    cas_in_step hs ⟨rest, byte, (k : Int), ps⟩
      = some (((pulse_shape hs (byte / 2 ^ k % 2) ps).2,
               ulong_of_int (pulse_shape hs (byte / 2 ^ k % 2) ps).1),
              ⟨rest, byte, k, if (pulse_shape hs (byte / 2 ^ k % 2) (ps + 1)).2 = -1 then 0
                              else ps + 1⟩) := by
  have hk : ¬ ((k : Int) < 0) := by omega
  simp [cas_in_step, hk, hps]

/-- One bit of the current byte: the decoder walks the whole pulse shape of the
bit and moves to the next bit. -/
theorem cas_in_run_bit (hs : Int) (hhs : hs = 0 ∨ hs = 1) (rest : List Nat) (byte : Int)
    (k : Nat) :
    cas_in_run hs (shape_steps hs (byte / 2 ^ k % 2)) ⟨rest, byte, (k : Int) + 1, 0⟩
      ⟨rest, byte, k, 0⟩ := by
  have hc : byte / 2 ^ k % 2 = 0 ∨ byte / 2 ^ k % 2 = 1 := Int.emod_two_eq _
  rcases hhs with rfl | rfl <;> rcases hc with hc | hc
  · rw [hc, shape_steps_00]
    simp [cas_in_run, cas_in_step_first, cas_in_step_mid, hc, pulse_shape, pulse_table, ulong_of_int]
  · rw [hc, shape_steps_01]
    simp [cas_in_run, cas_in_step_first, cas_in_step_mid, hc, pulse_shape, pulse_table, ulong_of_int]
  · rw [hc, shape_steps_10]
    simp [cas_in_run, cas_in_step_first, cas_in_step_mid, hc, pulse_shape, pulse_table, ulong_of_int]
  · rw [hc, shape_steps_11]
    simp [cas_in_run, cas_in_step_first, cas_in_step_mid, hc, pulse_shape, pulse_table, ulong_of_int]

theorem bits_steps_append (hs : Int) (X Y : List Int) :
    bits_steps hs (X ++ Y) = bits_steps hs X ++ bits_steps hs Y := by
  induction X with
  | nil => rfl
  | cons c X ih => simp [bits_steps, ih]

theorem cas_in_run_byte (hs : Int) (hhs : hs = 0 ∨ hs = 1) (rest : List Nat) (byte : Int)
    (k : Nat) :
    cas_in_run hs (bits_steps hs (bits_below byte k)) ⟨rest, byte, (k : Int), 0⟩
      ⟨rest, byte, 0, 0⟩ := by
  induction k with
  | zero => simp [bits_below, bits_steps, cas_in_run]
  | succ k ih =>
    have h := cas_in_run_bit hs hhs rest byte k
    simp only [bits_below, bits_steps]
    push_cast
    exact cas_in_run_append _ _ _ _ _ _ h ih

theorem cas_in_run_head (hs : Int) (a a2 a' : CasIn) (h : cas_in_step hs a2 = cas_in_step hs a)
    (ts : List (Int × Nat)) (hts : ts ≠ []) (hr : cas_in_run hs ts a a') :
    cas_in_run hs ts a2 a' := by
  cases ts with
  | nil => exact absurd rfl hts
  | cons t ts =>
    obtain ⟨a1, h1, h2⟩ := hr
    exact ⟨a1, h.trans h1, h2⟩

theorem shape_steps_ne_nil (hs : Int) (hhs : hs = 0 ∨ hs = 1) (n : Int) :
    shape_steps hs (n % 2) ≠ [] := by
  have hc : n % 2 = 0 ∨ n % 2 = 1 := Int.emod_two_eq _
  rcases hhs with rfl | rfl <;> rcases hc with hc | hc <;> rw [hc] <;> decide

/-- A whole byte, starting where the decoder has to fetch it. -/
theorem cas_in_run_fetch (hs : Int) (hhs : hs = 0 ∨ hs = 1) (rest : List Nat) (byte : Int)
    (a0 : CasIn) (h : cas_in_step hs a0 = cas_in_step hs ⟨rest, byte, 8, 0⟩) :
    cas_in_run hs (bits_steps hs (bits_below byte 8)) a0 ⟨rest, byte, 0, 0⟩ := by
  have h1 := cas_in_run_bit hs hhs rest byte 7
  have h2 := cas_in_run_byte hs hhs rest byte 7
  have h3 := cas_in_run_head hs _ a0 _ (by simpa using h) _ (shape_steps_ne_nil hs hhs _) h1
  show cas_in_run hs (shape_steps hs (byte / 2 ^ 7 % 2) ++ bits_steps hs (bits_below byte 7)) _ _
  exact cas_in_run_append _ _ _ _ _ _ h3 h2

/-- A whole tape: the decoder delivers the steps of its bits and of the extra
zero byte, and then stands at the end of the file. -/
theorem cas_in_run_tape (hs : Int) (hhs : hs = 0 ∨ hs = 1) (B : List Nat) :
    ∀ (byte0 : Int), byte0 ≠ 0x100 → (∀ c ∈ B, c < 256) →
      cas_in_run hs (bits_steps hs (tape_bits B)) ⟨B, byte0, 0, 0⟩ ⟨[], 0x100, 0, 0⟩ := by
  induction B with
  | nil =>
    intro byte0 h0 _
    exact cas_in_run_fetch hs hhs [] 0x100 _ (by simp [cas_in_step, h0])
  | cons c B ih =>
    intro byte0 h0 hB
    have hc : c < 256 := hB c (List.mem_cons_self _ _)
    have h1 := cas_in_run_fetch hs hhs B (c : Int) ⟨c :: B, byte0, 0, 0⟩ (by simp [cas_in_step])
    have h2 := ih (c : Int) (by omega) (fun x hx => hB x (List.mem_cons_of_mem _ hx))
    simp only [tape_bits, bits_steps_append]
    exact cas_in_run_append _ _ _ _ _ _ h1 h2

theorem cas_copy_fields_tape (hs : Int) (hhs : hs = 0 ∨ hs = 1) (B : List Nat)
    (byte0 : Int) (h0 : byte0 ≠ 0x100) (hB : ∀ c ∈ B, c < 256) (b : CasOut) (fuel : Nat) :
    cas_copy_fields hs (fuel + 1 + (bits_steps hs (tape_bits B)).length) ⟨B, byte0, 0, 0⟩ b
      = some (cas_feed (bits_steps hs (tape_bits B)) b) := by
  rw [cas_copy_fields_run hs _ _ _ b (fuel + 1) (cas_in_run_tape hs hhs B byte0 h0 hB)]
  rw [cas_copy_fields]
  simp [cas_in_step]

theorem cas_feed_append (ts us : List (Int × Nat)) (b : CasOut) :
    cas_feed (ts ++ us) b = cas_feed us (cas_feed ts b) := by
  simp [cas_feed, List.foldl_append]

theorem cas_pack_append (X Y : List Int) (p : Int × Int × List Nat) :
    cas_pack (X ++ Y) p = cas_pack Y (cas_pack X p) := by
  simp [cas_pack, List.foldl_append]

/-- Low speed, buffer at rest: a zero bit is held back. -/
theorem feed_lo_idle_0 (p : Int × Int × List Nat) (el : Nat) :
    cas_feed (shape_steps 0 0) ⟨0, 0, p.1, p.2.1, el, p.2.2⟩ = ⟨0, 1, p.1, p.2.1, 1750, p.2.2⟩ := by
  rw [shape_steps_00]
  simp [cas_feed, cas_out_step, cas_recognise]

theorem feed_lo_idle_1 (p : Int × Int × List Nat) (el : Nat) :
    cas_feed (shape_steps 0 1) ⟨0, 0, p.1, p.2.1, el, p.2.2⟩
      = ⟨0, 0, (cas_push 1 p).1, (cas_push 1 p).2.1, 747, (cas_push 1 p).2.2⟩ := by
  rw [shape_steps_01]
  simp [cas_feed, cas_out_step, cas_recognise]

theorem feed_lo_pend_0 (p : Int × Int × List Nat) :
    cas_feed (shape_steps 0 0) ⟨0, 1, p.1, p.2.1, 1750, p.2.2⟩
      = ⟨0, 1, (cas_push 0 p).1, (cas_push 0 p).2.1, 1750, (cas_push 0 p).2.2⟩ := by
  rw [shape_steps_00]
  simp [cas_feed, cas_out_step, cas_recognise]

theorem feed_lo_pend_1 (p : Int × Int × List Nat) :
    cas_feed (shape_steps 0 1) ⟨0, 1, p.1, p.2.1, 1750, p.2.2⟩
      = ⟨0, 0, (cas_push 1 (cas_push 0 p)).1, (cas_push 1 (cas_push 0 p)).2.1, 747,
          (cas_push 1 (cas_push 0 p)).2.2⟩ := by
  rw [shape_steps_01]
  simp [cas_feed, cas_out_step, cas_recognise]

theorem bits_steps_single (hs c : Int) : bits_steps hs [c] = shape_steps hs c := by
  simp [bits_steps]

/-- Low speed: after the bits `X ++ [c]` the encoder has shifted in all of them
but a final zero, which it holds back until the next clock pulse. -/
theorem feed_lo (p0 : Int × Int × List Nat) (el0 : Nat) (X : List Int) :
    ∀ c : Int, (∀ x ∈ X, x = 0 ∨ x = 1) → (c = 0 ∨ c = 1) →
      cas_feed (bits_steps 0 (X ++ [c])) ⟨0, 0, p0.1, p0.2.1, el0, p0.2.2⟩
        = if c = 0 then
            ⟨0, 1, (cas_pack X p0).1, (cas_pack X p0).2.1, 1750, (cas_pack X p0).2.2⟩
          else ⟨0, 0, (cas_pack (X ++ [1]) p0).1, (cas_pack (X ++ [1]) p0).2.1, 747,
                (cas_pack (X ++ [1]) p0).2.2⟩ := by
  induction X using List.reverseRecOn with
  | nil =>
    intro c _ hc
    rcases hc with rfl | rfl
    · simpa [bits_steps, cas_pack] using feed_lo_idle_0 p0 el0
    · simpa [bits_steps, cas_pack] using feed_lo_idle_1 p0 el0
  | append_singleton X c' ih =>
    intro c hX hc
    have hX' : ∀ x ∈ X, x = 0 ∨ x = 1 := fun x hx => hX x (List.mem_append_left _ hx)
    have hc' : c' = 0 ∨ c' = 1 := hX c' (by simp)
    rw [bits_steps_append, cas_feed_append, ih c' hX' hc', bits_steps_single]
    rcases hc' with rfl | rfl <;> rcases hc with rfl | rfl
    · simp only [if_true]
      rw [feed_lo_pend_0, cas_pack_append]; rfl
    · simp only [if_true, one_ne_zero, if_false]
      rw [feed_lo_pend_1, cas_pack_append, cas_pack_append]; rfl
    · simp only [if_true, one_ne_zero, if_false]
      rw [feed_lo_idle_0]
    · simp only [one_ne_zero, if_false]
      rw [feed_lo_idle_1, cas_pack_append (X ++ [1])]; rfl

set_option maxRecDepth 100000 in
theorem cas_pack_byte_nil : ∀ c : Fin 256,
    cas_pack (bits_below ((c.val : Nat) : Int) 8) (0, 0, []) = (0, 0, [c.val]) := by
  decide

theorem cas_push_front (b : Int) (bn byte : Int) (o1 o2 : List Nat) :
    cas_push b (bn, byte, o1 ++ o2)
      = ((cas_push b (bn, byte, o2)).1, (cas_push b (bn, byte, o2)).2.1,
          o1 ++ (cas_push b (bn, byte, o2)).2.2) := by
  unfold cas_push
  simp only
  split <;> split <;> simp

theorem cas_pack_front (X : List Int) : ∀ (bn byte : Int) (o1 o2 : List Nat),
    cas_pack X (bn, byte, o1 ++ o2)
      = ((cas_pack X (bn, byte, o2)).1, (cas_pack X (bn, byte, o2)).2.1,
          o1 ++ (cas_pack X (bn, byte, o2)).2.2) := by
  induction X with
  | nil => intro bn byte o1 o2; rfl
  | cons x X ih =>
    intro bn byte o1 o2
    show cas_pack X (cas_push x (bn, byte, o1 ++ o2)) = _
    rw [cas_push_front, ih]
    rfl

theorem cas_pack_byte (c : Nat) (hc : c < 256) (out : List Nat) :
    cas_pack (bits_below (c : Int) 8) (0, 0, out) = (0, 0, out ++ [c]) := by
  have h := cas_pack_front (bits_below (c : Int) 8) 0 0 out []
  rw [List.append_nil] at h
  rw [h, cas_pack_byte_nil ⟨c, hc⟩]

theorem cas_pack_zeros (out : List Nat) :
    cas_pack [0, 0, 0, 0, 0, 0, 0] (0, 0, out) = (1, 0, out) := by
  have h := cas_pack_front [0, 0, 0, 0, 0, 0, 0] 0 0 out []
  rw [List.append_nil] at h
  rw [h]
  have h2 : cas_pack [0, 0, 0, 0, 0, 0, 0] (0, 0, []) = (1, 0, []) := by decide
  rw [h2, List.append_nil]

theorem bits_below_bit (byte : Int) (k : Nat) : ∀ x ∈ bits_below byte k, x = 0 ∨ x = 1 := by
  induction k with
  | zero => intro x hx; simp [bits_below] at hx
  | succ k ih =>
    intro x hx
    simp only [bits_below, List.mem_cons] at hx
    rcases hx with rfl | hx
    · exact Int.emod_two_eq _
    · exact ih x hx

/-- The bits of a tape are those of its bytes, seven zeros, and one more
zero; shifting in all but the last writes the bytes of the tape. -/
theorem tape_bits_split (B : List Nat) : ∀ out : List Nat, (∀ c ∈ B, c < 256) →
    ∃ X, tape_bits B = X ++ [0] ∧ (∀ x ∈ X, x = 0 ∨ x = 1)
      ∧ cas_pack X (0, 0, out) = (1, 0, out ++ B) := by
  induction B with
  | nil =>
    intro out _
    refine ⟨[0, 0, 0, 0, 0, 0, 0], by decide, by decide, ?_⟩
    rw [cas_pack_zeros, List.append_nil]
  | cons c B ih =>
    intro out hB
    obtain ⟨X, h1, h2, h3⟩ := ih (out ++ [c]) (fun x hx => hB x (List.mem_cons_of_mem _ hx))
    refine ⟨bits_below (c : Int) 8 ++ X, ?_, ?_, ?_⟩
    · simp only [tape_bits, h1, List.append_assoc]
    · intro x hx
      rcases List.mem_append.mp hx with hx | hx
      · exact bits_below_bit _ _ x hx
      · exact h2 x hx
    · rw [cas_pack_append, cas_pack_byte c (hB c (List.mem_cons_self _ _)), h3]
      simp

/-- Low speed, on the fields: the encoder fed with the steps of the tape `B`
has written `B`. -/
theorem feed_lo_tape (B : List Nat) (hB : ∀ c ∈ B, c < 256) (el0 : Nat) :
    cas_feed (bits_steps 0 (tape_bits B)) ⟨0, 0, 0, 0, el0, []⟩ = ⟨0, 1, 1, 0, 1750, B⟩ := by
  obtain ⟨X, h1, h2, h3⟩ := tape_bits_split B [] hB
  have h := feed_lo (0, 0, []) el0 X 0 h2 (Or.inl rfl)
  rw [h1]
  simp only [if_true, h3] at h
  simpa using h

/-- High speed, first bit: the recogniser only finds the high-speed pulse
train; no bit is shifted in. -/
theorem feed_hi_first (c : Int) (hc : c = 0 ∨ c = 1) (p : Int × Int × List Nat) (el : Nat) :
    cas_feed (shape_steps 1 c) ⟨0, 0, p.1, p.2.1, el, p.2.2⟩ = ⟨1, 3, p.1, p.2.1, 0, p.2.2⟩ := by
  rcases hc with rfl | rfl
  · rw [shape_steps_10]
    simp [cas_feed, cas_out_step, cas_recognise]
  · rw [shape_steps_11]
    simp [cas_feed, cas_out_step, cas_recognise]

/-- High speed, later bits: the bit is shifted in. -/
theorem feed_hi_bit (c : Int) (hc : c = 0 ∨ c = 1) (p : Int × Int × List Nat) :
    cas_feed (shape_steps 1 c) ⟨1, 3, p.1, p.2.1, 0, p.2.2⟩
      = ⟨1, 3, (cas_push c p).1, (cas_push c p).2.1, 0, (cas_push c p).2.2⟩ := by
  rcases hc with rfl | rfl
  · rw [shape_steps_10]
    simp [cas_feed, cas_out_step, cas_recognise]
  · rw [shape_steps_11]
    simp [cas_feed, cas_out_step, cas_recognise]

theorem feed_hi_bits (X : List Int) : ∀ p : Int × Int × List Nat, (∀ x ∈ X, x = 0 ∨ x = 1) →
    cas_feed (bits_steps 1 X) ⟨1, 3, p.1, p.2.1, 0, p.2.2⟩
      = ⟨1, 3, (cas_pack X p).1, (cas_pack X p).2.1, 0, (cas_pack X p).2.2⟩ := by
  induction X with
  | nil => intro p _; rfl
  | cons x X ih =>
    intro p hX
    show cas_feed (shape_steps 1 x ++ bits_steps 1 X) _ = _
    rw [cas_feed_append, feed_hi_bit x (hX x (List.mem_cons_self _ _)),
      ih _ (fun y hy => hX y (List.mem_cons_of_mem _ hy))]
    rfl

/-- High speed: after the bits `c :: X` the encoder has shifted in `X`. -/
theorem feed_hi (c : Int) (X : List Int) (hc : c = 0 ∨ c = 1) (hX : ∀ x ∈ X, x = 0 ∨ x = 1)
    (p : Int × Int × List Nat) (el : Nat) :
    cas_feed (bits_steps 1 (c :: X)) ⟨0, 0, p.1, p.2.1, el, p.2.2⟩
      = ⟨1, 3, (cas_pack X p).1, (cas_pack X p).2.1, 0, (cas_pack X p).2.2⟩ := by
  show cas_feed (shape_steps 1 c ++ bits_steps 1 X) _ = _
  rw [cas_feed_append, feed_hi_first c hc, feed_hi_bits X p hX]

set_option maxRecDepth 100000 in
theorem cas_pack_group_nil : ∀ (c : Fin 256) (t : Fin 2),
    cas_pack (bits_below ((c.val : Nat) : Int) 7 ++ [((t.val : Nat) : Int)]) (0, 0, [])
      = (0, 0, [(2 * c.val + t.val) % 256]) := by
  decide

theorem cas_pack_group (c t : Nat) (hc : c < 256) (ht : t < 2) (out : List Nat) :
    cas_pack (bits_below (c : Int) 7 ++ [(t : Int)]) (0, 0, out)
      = (0, 0, out ++ [(2 * c + t) % 256]) := by
  have h := cas_pack_front (bits_below (c : Int) 7 ++ [(t : Int)]) 0 0 out []
  rw [List.append_nil] at h
  rw [h, cas_pack_group_nil ⟨c, hc⟩ ⟨t, ht⟩]

theorem tape_bits_bit (B : List Nat) : ∀ x ∈ tape_bits B, x = 0 ∨ x = 1 := by
  induction B with
  | nil => exact bits_below_bit _ _
  | cons c B ih =>
    intro x hx
    simp only [tape_bits, List.mem_append] at hx
    rcases hx with hx | hx
    · exact bits_below_bit _ _ x hx
    · exact ih x hx

theorem top_bit (c : Nat) (hc : c < 256) : (c : Int) / 2 ^ 7 % 2 = ((c / 128 : Nat) : Int) := by
  omega

/-- Shifting in a tape without the first bit of its first byte `c` writes the
tape shifted left by one bit. -/
theorem tape_bits_shift (B : List Nat) : ∀ (c : Nat) (out : List Nat), c < 256 →
    (∀ x ∈ B, x < 256) →
    cas_pack (bits_below (c : Int) 7 ++ tape_bits B) (0, 0, out)
      = (1, 0, out ++ cas_shifted (c :: B)) := by
  induction B with
  | nil =>
    intro c out hc _
    have h : bits_below (c : Int) 7 ++ tape_bits []
        = (bits_below (c : Int) 7 ++ [((0 : Nat) : Int)]) ++ [0, 0, 0, 0, 0, 0, 0] := by
      simp [tape_bits, bits_below]
    rw [h, cas_pack_append, cas_pack_group c 0 hc (by decide), cas_pack_zeros]
    simp [cas_shifted]
  | cons c' B ih =>
    intro c out hc hB
    have hc' : c' < 256 := hB c' (List.mem_cons_self _ _)
    have h : bits_below (c : Int) 7 ++ tape_bits (c' :: B)
        = (bits_below (c : Int) 7 ++ [((c' / 128 : Nat) : Int)])
            ++ (bits_below (c' : Int) 7 ++ tape_bits B) := by
      simp only [tape_bits, List.append_assoc, List.singleton_append, List.cons_append]
      rw [← top_bit c' hc']
      rfl
    rw [h, cas_pack_append, cas_pack_group c (c' / 128) hc (by omega),
      ih c' _ hc' (fun x hx => hB x (List.mem_cons_of_mem _ hx))]
    simp [cas_shifted]

/-- High speed, on the fields: the encoder fed with the steps of the tape `B`
has written `B` shifted left by one bit. -/
theorem feed_hi_tape (B : List Nat) (hB : ∀ c ∈ B, c < 256) (el0 : Nat) :
    cas_feed (bits_steps 1 (tape_bits B)) ⟨0, 0, 0, 0, el0, []⟩
      = ⟨1, 3, 1, 0, 0, cas_shifted B⟩ := by
  cases B with
  | nil =>
    have h := feed_hi 0 [0, 0, 0, 0, 0, 0, 0] (Or.inl rfl) (by decide) (0, 0, []) el0
    rw [cas_pack_zeros] at h
    exact h
  | cons c B =>
    have hc : c < 256 := hB c (List.mem_cons_self _ _)
    have hB' : ∀ x ∈ B, x < 256 := fun x hx => hB x (List.mem_cons_of_mem _ hx)
    have hX : ∀ x ∈ bits_below (c : Int) 7 ++ tape_bits B, x = 0 ∨ x = 1 := by
      intro x hx
      rcases List.mem_append.mp hx with hx | hx
      · exact bits_below_bit _ _ x hx
      · exact tape_bits_bit _ x hx
    have h := feed_hi ((c : Int) / 2 ^ 7 % 2) _ (Int.emod_two_eq _) hX (0, 0, []) el0
    rw [tape_bits_shift B c [] hc hB'] at h
    simpa using h

/-- Copying a tape at speed `hs`: with fuel for every step of the tape the loop
ends, and the encoder is where feeding those steps to its fields leaves it. -/
theorem cas_copy_tape (hs : Int) (hhs : hs = 0 ∨ hs = 1) (d e : Cassette) (fd fe : FILE)
    (B : List Nat) (fuel : Nat)
    (hd : d.cassette_format = CAS_FORMAT ∧ d.clockMHz = 1 ∧ d.cassette_roundoff_error = 0
      ∧ d.cassette_highspeed = hs ∧ d.cassette_byte = 0 ∧ d.cassette_bitnumber = 0
      ∧ d.cassette_pulsestate = 0)
    (hfd : d.cassette_file = some fd ∧ fd.rd = true ∧ fd.data.drop fd.pos = B)
    (hB : ∀ c ∈ B, c < 256)
    (he : e.cassette_format = CAS_FORMAT ∧ e.clockMHz = 1 ∧ e.cassette_roundoff_error = 0
      ∧ e.cassette_value = 0 ∧ e.cassette_byte = 0 ∧ e.cassette_bitnumber = 0
      ∧ e.cassette_pulsestate = 0)
    (hfe : e.cassette_file = some fe ∧ fe.wr = true ∧ fe.full = false)
    (hfuel : (bits_steps hs (tape_bits B)).length < fuel) :
    ∃ e', cas_copy fuel d e = some e'
      ∧ CasOutOf fe e' (cas_feed (bits_steps hs (tape_bits B))
          ⟨0, 0, 0, 0, tsub e.t_count e.cassette_transition, []⟩) := by
  obtain ⟨d1, d2, d3, d4, d5, d6, d7⟩ := hd
  obtain ⟨d8, d9, d10⟩ := hfd
  obtain ⟨e1, e2, e3, e4, e5, e6, e7⟩ := he
  obtain ⟨e8, e9, e10⟩ := hfe
  have hin : cas_in_of d = ⟨B, 0, 0, 0⟩ := by
    simp [cas_in_of, d8, d9, d10, d5, d6, d7]
  have hrel : CasOutOf fe e ⟨0, 0, 0, 0, tsub e.t_count e.cassette_transition, []⟩ :=
    ⟨e1, e2, e3, e4, e7, e6, e5, rfl, by simpa [store_bytes] using e8⟩
  obtain ⟨k, hk⟩ : ∃ k, fuel = k + 1 + (bits_steps hs (tape_bits B)).length :=
    ⟨fuel - 1 - (bits_steps hs (tape_bits B)).length, by omega⟩
  have hrun := cas_copy_fields_tape hs hhs B 0 (by decide) hB
    ⟨0, 0, 0, 0, tsub e.t_count e.cassette_transition, []⟩ k
  rw [← hk, ← hin, ← d4] at hrun
  have hsim := cas_copy_sim fe e9 e10 fuel d e _ _ d1 d2 d3 hrel hrun
  rw [d4] at hsim
  exact hsim

/-- Claim C4 (bitstream fidelity, low speed): let the decoder `d` be in the
CAS format at 1 MHz and low speed with the fields motor-on leaves (no byte, bit
or pulse in hand, no round-off error), reading a stream whose unread bytes are
`B`; let the encoder `e` be in the CAS format at 1 MHz with the fields motor-on
leaves, writing to the stream `fe`.  Then the copy loop, which presents every
transition `transition_in` delivers to `transition_out` after its delay, ends
once it has fuel for all steps of the tape, and the encoder's stream is `fe`
with exactly the bytes `B` written to it. -/
theorem cas_low_speed_fidelity (d e : Cassette) (fd fe : FILE) (B : List Nat) (fuel : Nat)
    (hd : d.cassette_format = CAS_FORMAT ∧ d.clockMHz = 1 ∧ d.cassette_roundoff_error = 0
      ∧ d.cassette_highspeed = 0 ∧ d.cassette_byte = 0 ∧ d.cassette_bitnumber = 0
      ∧ d.cassette_pulsestate = 0)
    (hfd : d.cassette_file = some fd ∧ fd.rd = true ∧ fd.data.drop fd.pos = B)
    (hB : ∀ c ∈ B, c < 256)
    (he : e.cassette_format = CAS_FORMAT ∧ e.clockMHz = 1 ∧ e.cassette_roundoff_error = 0
      ∧ e.cassette_value = 0 ∧ e.cassette_byte = 0 ∧ e.cassette_bitnumber = 0
      ∧ e.cassette_pulsestate = 0)
    (hfe : e.cassette_file = some fe ∧ fe.wr = true ∧ fe.full = false)
    (hfuel : (bits_steps 0 (tape_bits B)).length < fuel) :
    ∃ e', cas_copy fuel d e = some e' ∧ e'.cassette_file = some (store_bytes B fe) := by
  obtain ⟨e', h1, h2⟩ := cas_copy_tape 0 (Or.inl rfl) d e fd fe B fuel hd hfd hB he hfe hfuel
  rw [feed_lo_tape B hB] at h2
  exact ⟨e', h1, h2.2.2.2.2.2.2.2.2⟩

set_option maxRecDepth 100000 in
theorem cas_low_speed_fidelity_witness :
    ∃ e', cas_copy 121 (cas_reader false [0xA5, 0x3C]) (demo_writer "out.cas" CAS_FORMAT 1)
        = some e'
      ∧ e'.cassette_file
        = some (store_bytes [0xA5, 0x3C] (FILE.mk 0 "out.cas" [] 0 false true false)) :=
  cas_low_speed_fidelity (cas_reader false [0xA5, 0x3C]) (demo_writer "out.cas" CAS_FORMAT 1)
    (FILE.mk 0 "tape.cas" [0xA5, 0x3C] 0 true false false)
    (FILE.mk 0 "out.cas" [] 0 false true false) [0xA5, 0x3C] 121
    ⟨by decide, rfl, rfl, by decide, by decide, by decide, by decide⟩
    ⟨by decide, rfl, rfl⟩ (by decide)
    ⟨by decide, rfl, rfl, by decide, by decide, by decide, by decide⟩
    ⟨by decide, rfl, rfl⟩ (by decide)

/-- Claim C5, counterexample: at high speed the tape holding the one byte 0x80
is copied as the byte 0x00.  The recogniser spends the first pulse on finding
the high-speed pulse train, so the first bit (here the only 1) is not shifted
in. -/
theorem cas_high_speed_drops_first_bit :
    ∃ e', cas_copy 49 (cas_reader true [0x80]) (demo_writer "out.cas" CAS_FORMAT 1) = some e'
      ∧ e'.cassette_file.map FILE.data = some [0x00]
      ∧ e'.cassette_file ≠ some (store_bytes [0x80] (FILE.mk 0 "out.cas" [] 0 false true false)) := by
  obtain ⟨e', h1, h2⟩ := cas_copy_tape 1 (Or.inr rfl) (cas_reader true [0x80])
    (demo_writer "out.cas" CAS_FORMAT 1) (FILE.mk 0 "tape.cas" [0x80] 0 true false false)
    (FILE.mk 0 "out.cas" [] 0 false true false) [0x80] 49
    ⟨by decide, rfl, rfl, by decide, by decide, by decide, by decide⟩
    ⟨by decide, rfl, rfl⟩ (by decide)
    ⟨by decide, rfl, rfl, by decide, by decide, by decide, by decide⟩
    ⟨by decide, rfl, rfl⟩ (by decide)
  rw [feed_hi_tape [0x80] (by decide)] at h2
  refine ⟨e', h1, ?_, ?_⟩
  · rw [h2.2.2.2.2.2.2.2.2]
    decide
  · rw [h2.2.2.2.2.2.2.2.2]
    decide

/-- Claim C5, amended (bitstream fidelity, high speed): with the decoder at
high speed and all else as in the low-speed case, the copy loop ends and the
encoder's stream is `fe` with the bytes `cas_shifted B` written to it: every
bit of `B` but the first is recovered with its value, one position early, and
zeros make up the last byte. -/
theorem cas_high_speed_shifted (d e : Cassette) (fd fe : FILE) (B : List Nat) (fuel : Nat)
    (hd : d.cassette_format = CAS_FORMAT ∧ d.clockMHz = 1 ∧ d.cassette_roundoff_error = 0
      ∧ d.cassette_highspeed = 1 ∧ d.cassette_byte = 0 ∧ d.cassette_bitnumber = 0
      ∧ d.cassette_pulsestate = 0)
    (hfd : d.cassette_file = some fd ∧ fd.rd = true ∧ fd.data.drop fd.pos = B)
    (hB : ∀ c ∈ B, c < 256)
    (he : e.cassette_format = CAS_FORMAT ∧ e.clockMHz = 1 ∧ e.cassette_roundoff_error = 0
      ∧ e.cassette_value = 0 ∧ e.cassette_byte = 0 ∧ e.cassette_bitnumber = 0
      ∧ e.cassette_pulsestate = 0)
    (hfe : e.cassette_file = some fe ∧ fe.wr = true ∧ fe.full = false)
    (hfuel : (bits_steps 1 (tape_bits B)).length < fuel) :
    ∃ e', cas_copy fuel d e = some e'
      ∧ e'.cassette_file = some (store_bytes (cas_shifted B) fe) := by
  obtain ⟨e', h1, h2⟩ := cas_copy_tape 1 (Or.inr rfl) d e fd fe B fuel hd hfd hB he hfe hfuel
  rw [feed_hi_tape B hB] at h2
  exact ⟨e', h1, h2.2.2.2.2.2.2.2.2⟩

set_option maxRecDepth 100000 in
theorem cas_high_speed_shifted_witness :
    ∃ e', cas_copy 73 (cas_reader true [0xA5, 0x3C]) (demo_writer "out.cas" CAS_FORMAT 1)
        = some e'
      ∧ e'.cassette_file
        = some (store_bytes (cas_shifted [0xA5, 0x3C])
            (FILE.mk 0 "out.cas" [] 0 false true false)) :=
  cas_high_speed_shifted (cas_reader true [0xA5, 0x3C]) (demo_writer "out.cas" CAS_FORMAT 1)
    (FILE.mk 0 "tape.cas" [0xA5, 0x3C] 0 true false false)
    (FILE.mk 0 "out.cas" [] 0 false true false) [0xA5, 0x3C] 73
    ⟨by decide, rfl, rfl, by decide, by decide, by decide, by decide⟩
    ⟨by decide, rfl, rfl⟩ (by decide)
    ⟨by decide, rfl, rfl, by decide, by decide, by decide, by decide⟩
    ⟨by decide, rfl, rfl⟩ (by decide)

theorem putc_id (c : Int) (f : FILE) : (putc c f).2.id = f.id := by
  unfold putc; split <;> rfl

theorem fputs_id (l : List Nat) : ∀ f : FILE, (fputs l f).2.id = f.id := by
  induction l with
  | nil => intro f; rfl
  | cons c cs ih =>
    intro f
    unfold fputs
    simp only
    split
    · exact putc_id _ _
    · rw [ih]; exact putc_id _ _

theorem put_twobyte_id (n : Nat) (f : FILE) : (put_twobyte n f).2.id = f.id := by
  unfold put_twobyte
  simp only
  repeat' split
  all_goals simp only [putc_id]

theorem put_fourbyte_id (n : Nat) (f : FILE) : (put_fourbyte n f).2.id = f.id := by
  unfold put_fourbyte
  simp only
  repeat' split
  all_goals simp only [putc_id]

theorem put_samples_id (n : Nat) (sample : Nat) : ∀ f : FILE, (put_samples n sample f).2.id = f.id := by
  induction n with
  | zero => intro f; rfl
  | succ n ih => intro f; unfold put_samples; rw [ih]; exact putc_id _ _

theorem fseek_id (f : FILE) (o : Int) : (fseek f o).id = f.id := by
  unfold fseek; split <;> rfl

theorem SameSession.refl (s : Cassette) : SameSession s s := ⟨rfl, rfl, rfl, rfl, rfl⟩

theorem SameSession.trans {s t u : Cassette} (h1 : SameSession s t) (h2 : SameSession t u) :
    SameSession s u :=
  ⟨h2.1.trans h1.1, h2.2.1.trans h1.2.1, h2.2.2.1.trans h1.2.2.1, h2.2.2.2.1.trans h1.2.2.2.1,
    h2.2.2.2.2.trans h1.2.2.2.2⟩

theorem on_file_same (op : FILE → Int × FILE) (hop : ∀ f, (op f).2.id = f.id) (s : Cassette) :
    SameSession s (on_file op s) := by
  refine ⟨rfl, rfl, rfl, rfl, ?_⟩
  show (s.cassette_file.map (fun f => (op f).2)).map FILE.id = _
  cases s.cassette_file with
  | none => rfl
  | some f => simp [hop]

theorem out_debug_same (v : Int) (dd : ℚ) (s : Cassette) : SameSession s (out_debug v dd s).2 := by
  unfold out_debug put_debug
  exact SameSession.trans ⟨rfl, rfl, rfl, rfl, rfl⟩ (on_file_same _ (fputs_id _) _)

theorem put_cpt_same (v : Int) (du : Int) (s : Cassette) : SameSession s (put_cpt v du s) := by
  unfold put_cpt
  split
  · exact on_file_same _ (put_twobyte_id _) _
  · exact ((on_file_same _ (put_twobyte_id _) _).trans (on_file_same _ (putc_id _) _)).trans
      (on_file_same _ (put_fourbyte_id _) _)

theorem out_cpt_same (v : Int) (dd : ℚ) (s : Cassette) : SameSession s (out_cpt v dd s).2 := by
  unfold out_cpt
  exact SameSession.trans ⟨rfl, rfl, rfl, rfl, rfl⟩ (put_cpt_same _ _ _)

theorem out_sound_pacing_same (v : Int) (dd : ℚ) (s : Cassette) :
    SameSession s (out_sound_pacing v dd s).2 := by
  unfold out_sound_pacing
  simp only
  split
  · split <;> split <;> split <;> exact ⟨rfl, rfl, rfl, rfl, rfl⟩
  · exact SameSession.refl s

theorem out_wav_same (v : Int) (dd : ℚ) (s : Cassette) : SameSession s (out_wav v dd s).2 := by
  unfold out_wav
  simp only
  have h1 := out_sound_pacing_same v dd s
  split
  · refine h1.trans (SameSession.trans ⟨rfl, rfl, rfl, rfl, rfl⟩
      ((on_file_same _ (put_samples_id _ _) _).trans ⟨rfl, rfl, rfl, rfl, rfl⟩))
  · exact h1.trans (SameSession.trans ⟨rfl, rfl, rfl, rfl, rfl⟩
      (on_file_same _ (put_samples_id _ _) _))

theorem cas_put_bit_same (b : Int) (s : Cassette) : SameSession s (cas_put_bit b s) := by
  unfold cas_put_bit
  simp only
  split <;> split
  all_goals first
    | exact ⟨rfl, rfl, rfl, rfl, rfl⟩
    | exact SameSession.trans ⟨rfl, rfl, rfl, rfl, rfl⟩
        ((on_file_same _ (putc_id _) _).trans ⟨rfl, rfl, rfl, rfl, rfl⟩)

theorem out_cas_same (v : Int) (dd : ℚ) (s : Cassette) : SameSession s (out_cas v dd s).2 := by
  unfold out_cas
  simp only
  split
  · exact (on_file_same _ (putc_id _) _).trans ⟨rfl, rfl, rfl, rfl, rfl⟩
  · split
    · exact ⟨rfl, rfl, rfl, rfl, rfl⟩
    · exact SameSession.trans ⟨rfl, rfl, rfl, rfl, rfl⟩ (cas_put_bit_same _ _)

/-- Recording a transition stays within the session: it neither opens nor
closes a stream and leaves the state alone. -/
theorem transition_out_same (v : Int) (s : Cassette) : SameSession s (transition_out v s) := by
  unfold transition_out
  split
  · exact SameSession.refl s
  · simp only
    refine SameSession.trans ?_ ⟨rfl, rfl, rfl, rfl, rfl⟩
    split
    · exact out_debug_same _ _ _
    · split
      · exact out_cpt_same _ _ _
      · split
        · exact out_wav_same _ _ _
        · split
          · exact out_cas_same _ _ _
          · exact ⟨rfl, rfl, rfl, rfl, rfl⟩

theorem store_opened (h : Host) (n : String) (d : List Nat) : (h.store n d).opened = h.opened := rfl

theorem fclose_opened (f : FILE) (h : Host) : (fclose f h).opened = h.opened.erase f.id := by
  unfold fclose
  simp only
  split <;> rfl

theorem do_fclose_opened (s : Cassette) (i : Nat) (hf : s.cassette_file.map FILE.id = some i) :
    (do_fclose s).host.opened = s.host.opened.erase i := by
  unfold do_fclose
  cases hc : s.cassette_file with
  | none => rw [hc] at hf; simp at hf
  | some f =>
    rw [hc] at hf
    simp only [Option.map_some', Option.some.injEq] at hf
    simp only [fclose_opened, hf]

theorem put_control_opened (s : Cassette) : (put_control s).host.opened = s.host.opened := by
  unfold put_control
  simp only
  split <;> rfl

theorem do_fseek_same (o : Int) (s : Cassette) : SameSession s (do_fseek o s) :=
  on_file_same _ (fun f => fseek_id f o) s

theorem do_fclose_opened_same (s t : Cassette) (i : Nat) (h : SameSession s t)
    (hf : s.cassette_file.map FILE.id = some i) :
    (do_fclose t).host.opened = s.host.opened.erase i := by
  rw [do_fclose_opened t i (h.2.2.2.2.trans hf), h.2.2.2.1]

theorem close_session_opened (s : Cassette) (i : Nat) (h1 : s.cassette_state ≠ CLOSE)
    (h2 : s.cassette_state ≠ FAILED) (hf : s.cassette_file.map FILE.id = some i) :
    (close_session s).host.opened = s.host.opened.erase i := by
  unfold close_session
  rw [if_pos ⟨h1, h2⟩]
  simp only
  have key : ∀ t : Cassette, (if t.cassette_state ≠ SOUND then put_control t else t).host.opened
      = t.host.opened := by
    intro t; split
    · exact put_control_opened t
    · rfl
  rw [key]
  split
  · exact do_fclose_opened _ i hf
  · split
    · apply do_fclose_opened_same s _ i _ hf
      exact (((SameSession.trans ⟨rfl, rfl, rfl, rfl, rfl⟩ (do_fseek_same _ _)).trans
        (on_file_same _ (put_fourbyte_id _) _)).trans (do_fseek_same _ _)).trans
        (on_file_same _ (put_fourbyte_id _) _)
    · exact do_fclose_opened _ i hf

theorem close_session_idle (s : Cassette) (h : s.cassette_state = CLOSE ∨ s.cassette_state = FAILED) :
    close_session s = s := by
  unfold close_session
  rw [if_neg]
  intro hh
  rcases h with h | h
  · exact hh.1 h
  · exact hh.2 h

theorem close_session_motor (s : Cassette) : (close_session s).cassette_motor = s.cassette_motor := by
  unfold close_session
  simp only
  have key : ∀ t : Cassette, (if t.cassette_state ≠ SOUND then put_control t else t).cassette_motor
      = t.cassette_motor := by
    intro t; split
    · unfold put_control; simp only; split <;> rfl
    · rfl
  split
  · rw [key]
    split
    · unfold do_fclose; split <;> rfl
    · have h : ∀ t : Cassette, (do_fclose t).cassette_motor = t.cassette_motor := by
        intro t; unfold do_fclose; split <;> rfl
      rw [h]
      split <;> rfl
  · rfl

/-- The request for `CLOSE`: the state afterwards is `CLOSE` and the host is
the one `close_session` leaves. -/
theorem assert_close (s : Cassette) :
    (assert_state CLOSE s).2.cassette_state = CLOSE
    ∧ (assert_state CLOSE s).2.host = (close_session s).host
    ∧ (assert_state CLOSE s).2.cassette_motor = s.cassette_motor := by
  unfold assert_state
  by_cases h : s.cassette_state = CLOSE
  · rw [if_pos h, close_session_idle s (Or.inl h)]
    exact ⟨h, rfl, rfl⟩
  · rw [if_neg h, if_neg (by simp)]
    simp only [CLOSE, READ, SOUND, WRITE]
    norm_num
    exact close_session_motor s

theorem motor_off_idle (s : Cassette) (h : s.cassette_motor = 0) : trs_cassette_motor 0 s = s := by
  unfold trs_cassette_motor
  simp [h]

/-- Claim C10, counterexample: the Model 4 sound port is written once with the
motor off, which opens a `SOUND` session on the sound device; `MotorOff` then
finds the motor already off and does nothing: the state is still `SOUND` and
the stream of the session is still open. -/
theorem motor_off_leaves_sound_open :
    (trs_cassette_motor 0
        (trs_sound_out 1 (Cassette.initial (demo_host "tape" CAS_FORMAT) 1 4))).cassette_state
      = SOUND
    ∧ (trs_cassette_motor 0
        (trs_sound_out 1 (Cassette.initial (demo_host "tape" CAS_FORMAT) 1 4))).host.opened
      = [0]
    ∧ (trs_cassette_motor 0
        (trs_sound_out 1 (Cassette.initial (demo_host "tape" CAS_FORMAT) 1 4))).cassette_file.map
          FILE.id
      = some 0 := by
  have h0 : (assert_state SOUND (Cassette.initial (demo_host "tape" CAS_FORMAT) 1 4)).1 = 0 := by
    decide
  have hs : SameSession
      ((assert_state SOUND (Cassette.initial (demo_host "tape" CAS_FORMAT) 1 4)).2.say
        Call.trs_suspend_delay)
      (trs_sound_out 1 (Cassette.initial (demo_host "tape" CAS_FORMAT) 1 4)) := by
    unfold trs_sound_out
    rw [if_pos (by decide)]
    simp only [h0]
    rw [if_neg (by decide)]
    exact transition_out_same _ _
  obtain ⟨k1, k2, _, k4, k5⟩ := hs
  have hm : (trs_sound_out 1 (Cassette.initial (demo_host "tape" CAS_FORMAT) 1 4)).cassette_motor
      = 0 := by rw [k2]; decide
  rw [motor_off_idle _ hm, k1, k4, k5]
  decide

/-- Claim C10, amended: `MotorOff` with the motor on closes the session: the
state afterwards is `CLOSE`, the motor is off, and when a session was open (its
state neither `CLOSE` nor `FAILED`) on the stream `f`, that stream has been
closed, whatever was flushed to it first. -/
theorem motor_off_closes_session (s : Cassette) (hm : s.cassette_motor ≠ 0) :
    (trs_cassette_motor 0 s).cassette_state = CLOSE
    ∧ (trs_cassette_motor 0 s).cassette_motor = 0
    ∧ (∀ f, s.cassette_state ≠ CLOSE → s.cassette_state ≠ FAILED → s.cassette_file = some f →
        (trs_cassette_motor 0 s).host.opened = s.host.opened.erase f.id) := by
  obtain ⟨t, ht⟩ : ∃ t, t = (if s.cassette_state = WRITE then transition_out FLUSH s else s) :=
    ⟨_, rfl⟩
  have hst : SameSession s t := by
    rw [ht]; split
    · exact transition_out_same _ _
    · exact SameSession.refl s
  have hmotor : trs_cassette_motor 0 s = { (assert_state CLOSE t).2 with cassette_motor := 0 } := by
    unfold trs_cassette_motor
    rw [if_neg (by simp), if_pos hm, ht]
  obtain ⟨a1, a2, _⟩ := assert_close t
  rw [hmotor]
  refine ⟨a1, rfl, ?_⟩
  intro f h1 h2 hf
  show (assert_state CLOSE t).2.host.opened = _
  rw [a2, close_session_opened t f.id (by rw [hst.1]; exact h1) (by rw [hst.1]; exact h2)
    (by rw [hst.2.2.2.2, hf]; rfl), hst.2.2.2.1]

set_option maxRecDepth 100000 in
theorem motor_off_closes_session_witness :
    (trs_cassette_motor 0 (demo_writer "tape" CPT_FORMAT 1)).cassette_state = CLOSE
    ∧ (trs_cassette_motor 0 (demo_writer "tape" CPT_FORMAT 1)).cassette_motor = 0
    ∧ (trs_cassette_motor 0 (demo_writer "tape" CPT_FORMAT 1)).host.opened = [] :=
  ⟨(motor_off_closes_session (demo_writer "tape" CPT_FORMAT 1) (by decide)).1,
   (motor_off_closes_session (demo_writer "tape" CPT_FORMAT 1) (by decide)).2.1,
   ((motor_off_closes_session (demo_writer "tape" CPT_FORMAT 1) (by decide)).2.2
      (FILE.mk 0 "tape" [] 0 false true false) (by decide) (by decide) (by decide)).trans
      (by decide)⟩

theorem set_audio_format_congr (a b : Cassette) (h1 : a.host = b.host)
    (h2 : a.cassette_sample_rate = b.cassette_sample_rate) :
    set_audio_format a = set_audio_format b := by
  unfold set_audio_format
  rw [h1, h2]

theorem open_read_cases (s : Cassette) :
    ((open_read s).1 = -1 ∧ (open_read s).2.cassette_state = FAILED ∧ open_fails READ s = true)
    ∨ ((open_read s).1 = 0 ∧ open_fails READ s = false) := by
  unfold open_read open_fails open_failed
  simp only [if_true]
  obtain ⟨g, hg⟩ : ∃ g, g = do_fopen Mode.r (get_control s) := ⟨_, rfl⟩
  have hfmt : (get_control s).cassette_format = g.cassette_format := by rw [hg]; rfl
  rw [← hg, hfmt]
  rw [set_audio_format_congr _ { g with cassette_sample_rate := g.cassette_default_sample_rate }]
  rotate_left
  · rfl
  · rfl
  generalize set_audio_format { g with cassette_sample_rate := g.cassette_default_sample_rate } = q
  cases hf : g.cassette_file with
  | none =>
    by_cases hd : g.cassette_format = DIRECT_FORMAT
    · simp [hd, hf]
    · simp [hd, hf]
  | some f =>
    by_cases hd : g.cassette_format = DIRECT_FORMAT
    · by_cases ha : q < 0
      · simp [hd, hf, ha]
      · simp [hd, hf, ha]
    · by_cases hw : g.cassette_format = WAV_FORMAT
      · simp only [hd, hf, hw, if_false, if_true]
        generalize parse_wav_header f g = p
        by_cases hp : p.1 < 0
        · simp [hp]
        · simp [hp]
      · have hd' : ¬ g.cassette_format = 4 := hd
        have hw' : ¬ g.cassette_format = 3 := hw
        simp [hd', hf, hw']

theorem do_fseek_none (o : Int) (s : Cassette) :
    (do_fseek o s).cassette_file = none ↔ s.cassette_file = none := by
  unfold do_fseek on_file
  cases s.cassette_file <;> simp

theorem open_write_cases_plain (s : Cassette) (h6 : (get_control s).cassette_format ≠ 6)
    (h4 : (get_control s).cassette_format ≠ 4) (h3 : (get_control s).cassette_format ≠ 3) :
    ((open_write WRITE s).1 = -1 ∧ (open_write WRITE s).2.cassette_state = FAILED
        ∧ open_fails WRITE s = true)
    ∨ ((open_write WRITE s).1 = 0 ∧ open_fails WRITE s = false) := by
  unfold open_write open_fails open_failed
  simp only [WRITE, SOUND, READ, AUTODETECT_FORMAT, DIRECT_FORMAT, WAV_FORMAT, h6, h4, h3,
    if_false, Int.reduceEq, reduceIte]
  cases hf : (do_fopen Mode.rplus (get_control s)).cassette_file with
  | some f => simp [hf, do_fseek_none]
  | none =>
    simp only [hf, if_true]
    cases hf2 : (do_fopen Mode.w (do_fopen Mode.rplus (get_control s))).cassette_file with
    | some f => simp [hf2, do_fseek_none]
    | none => simp [hf2]

theorem set_audio_format_say (s : Cassette) (c : Call) :
    set_audio_format (s.say c) = set_audio_format s := rfl

theorem set_audio_format_ite (c : Prop) [Decidable c] (a b : Cassette) :
    set_audio_format (if c then a else b) = if c then set_audio_format a else set_audio_format b := by
  split <;> rfl

theorem open_write_cases_auto (s : Cassette) (h6 : (get_control s).cassette_format = 6) :
    ((open_write WRITE s).1 = -1 ∧ (open_write WRITE s).2.cassette_state = FAILED
        ∧ open_fails WRITE s = true)
    ∨ ((open_write WRITE s).1 = 0 ∧ open_fails WRITE s = false) := by
  unfold open_write open_fails open_failed
  simp only [WRITE, SOUND, READ, AUTODETECT_FORMAT, DIRECT_FORMAT, WAV_FORMAT, h6,
    if_false, if_true, Int.reduceEq, reduceIte]
  simp

theorem open_write_cases_direct (s g : Cassette) (hg : get_control s = g)
    (h4 : g.cassette_format = 4) :
    ((open_write WRITE s).1 = -1 ∧ (open_write WRITE s).2.cassette_state = FAILED
        ∧ open_fails WRITE s = true)
    ∨ ((open_write WRITE s).1 = 0 ∧ open_fails WRITE s = false) := by
  have h4' := eq_true h4
  have h6' : (g.cassette_format = 6) = False := by rw [h4]; decide
  unfold open_write open_fails open_failed
  simp only [WRITE, SOUND, READ, AUTODETECT_FORMAT, DIRECT_FORMAT, WAV_FORMAT, hg, h4', h6',
    if_false, if_true, Int.reduceEq, reduceIte, set_audio_format_say]
  generalize do_fopen Mode.w { g with cassette_sample_rate := g.cassette_default_sample_rate } = g1
  cases hf : g1.cassette_file with
  | none => simp [hf]
  | some f =>
    simp only [hf]
    generalize set_audio_format g1 = q
    by_cases hq : q < 0
    · simp [hq]
    · simp [hq]

theorem open_write_cases_sound (s g : Cassette)
    (hg : { s with cassette_format := 4, cassette_filename := DSP_FILENAME } = g) :
    ((open_write SOUND s).1 = -1 ∧ (open_write SOUND s).2.cassette_state = FAILED
        ∧ open_fails SOUND s = true)
    ∨ ((open_write SOUND s).1 = 0 ∧ open_fails SOUND s = false) := by
  have h4 : g.cassette_format = 4 := by rw [← hg]
  have h4' := eq_true h4
  have h6' : (g.cassette_format = 6) = False := by rw [h4]; decide
  unfold open_write open_fails open_failed
  simp only [WRITE, SOUND, READ, AUTODETECT_FORMAT, DIRECT_FORMAT, WAV_FORMAT, hg, h4', h6',
    if_false, if_true, Int.reduceEq, reduceIte, set_audio_format_say, set_audio_format_ite,
    ite_self]
  generalize do_fopen Mode.w { g with cassette_sample_rate := g.cassette_default_sample_rate } = g1
  cases hf : g1.cassette_file with
  | none => simp [hf]
  | some f =>
    simp only [hf]
    generalize set_audio_format g1 = q
    by_cases hq : q < 0
    · simp [hq]
    · simp [hq]

theorem open_write_cases_wav (s g g1 g2 : Cassette) (hg : get_control s = g)
    (hg1 : do_fopen Mode.rplus g = g1)
    (hg2 : do_fopen Mode.w { g1 with cassette_sample_rate := g1.cassette_default_sample_rate } = g2)
    (h3 : g.cassette_format = 3) :
    ((open_write WRITE s).1 = -1 ∧ (open_write WRITE s).2.cassette_state = FAILED
        ∧ open_fails WRITE s = true)
    ∨ ((open_write WRITE s).1 = 0 ∧ open_fails WRITE s = false) := by
  have h3' := eq_true h3
  have h6' : (g.cassette_format = 6) = False := by rw [h3]; decide
  have h4' : (g.cassette_format = 4) = False := by rw [h3]; decide
  obtain hf | ⟨f, hf⟩ : g1.cassette_file = none ∨ ∃ f, g1.cassette_file = some f := by
    cases g1.cassette_file <;> simp
  · obtain hf2 | ⟨f, hf2⟩ : g2.cassette_file = none ∨ ∃ f, g2.cassette_file = some f := by
      cases g2.cassette_file <;> simp
    · unfold open_write open_fails open_failed
      simp only [WRITE, SOUND, READ, AUTODETECT_FORMAT, DIRECT_FORMAT, WAV_FORMAT, hg, hg1, hg2,
        h3', h4', h6', if_false, if_true, Int.reduceEq, reduceIte]
      simp [hf, hf2]
    · obtain ⟨r, hr⟩ : ∃ r, create_wav_header f g2 = r := ⟨_, rfl⟩
      by_cases hneg : r.1 < 0
      · unfold open_write open_fails open_failed
        simp only [WRITE, SOUND, READ, AUTODETECT_FORMAT, DIRECT_FORMAT, WAV_FORMAT, hg, hg1, hg2,
          h3', h4', h6', if_false, if_true, Int.reduceEq, reduceIte]
        simp [hf, hf2, hr, hneg]
      · unfold open_write open_fails open_failed
        simp only [WRITE, SOUND, READ, AUTODETECT_FORMAT, DIRECT_FORMAT, WAV_FORMAT, hg, hg1, hg2,
          h3', h4', h6', if_false, if_true, Int.reduceEq, reduceIte]
        simp [hf, hf2, hr, hneg, do_fseek_none]
  · obtain ⟨r, hr⟩ : ∃ r, parse_wav_header f g1 = r := ⟨_, rfl⟩
    by_cases hneg : r.1 < 0
    · unfold open_write open_fails open_failed
      simp only [WRITE, SOUND, READ, AUTODETECT_FORMAT, DIRECT_FORMAT, WAV_FORMAT, hg, hg1, hg2,
        h3', h4', h6', if_false, if_true, Int.reduceEq, reduceIte]
      simp [hf, hr, hneg]
    · unfold open_write open_fails open_failed
      simp only [WRITE, SOUND, READ, AUTODETECT_FORMAT, DIRECT_FORMAT, WAV_FORMAT, hg, hg1, hg2,
        h3', h4', h6', if_false, if_true, Int.reduceEq, reduceIte]
      simp [hf, hr, hneg, do_fseek_none]

theorem open_write_cases (state : Int) (hs : state = WRITE ∨ state = SOUND) (s : Cassette) :
    ((open_write state s).1 = -1 ∧ (open_write state s).2.cassette_state = FAILED
        ∧ open_fails state s = true)
    ∨ ((open_write state s).1 = 0 ∧ open_fails state s = false) := by
  rcases hs with rfl | rfl
  · by_cases h6 : (get_control s).cassette_format = 6
    · exact open_write_cases_auto s h6
    · by_cases h4 : (get_control s).cassette_format = 4
      · exact open_write_cases_direct s _ rfl h4
      · by_cases h3 : (get_control s).cassette_format = 3
        · exact open_write_cases_wav s (get_control s) (do_fopen Mode.rplus (get_control s)) _ rfl rfl rfl h3
        · exact open_write_cases_plain s h6 h4 h3
  · exact open_write_cases_sound s _ rfl

/-- Claim C11 (open failure moves the session to `FAILED`): a request for
`READ`, `WRITE` or `SOUND` from a state that is neither the target nor `FAILED`
first leaves the current session; then, if opening fails for one of the causes
the specification lists (`open_fails`), `assert_state` returns -1 and the state
is `FAILED`, and otherwise it returns 0 and the state is the target. -/
theorem open_failure_moves_to_failed (target : Int) (s : Cassette)
    (ht : target = READ ∨ target = WRITE ∨ target = SOUND)
    (h1 : s.cassette_state ≠ target) (h2 : s.cassette_state ≠ FAILED) :
    (open_fails target (close_session s) = true →
        (assert_state target s).1 = -1 ∧ (assert_state target s).2.cassette_state = FAILED)
    ∧ (open_fails target (close_session s) = false →
        (assert_state target s).1 = 0 ∧ (assert_state target s).2.cassette_state = target) := by
  have hcases : ∀ r : Int × Cassette,
      ((r.1 = -1 ∧ r.2.cassette_state = FAILED ∧ open_fails target (close_session s) = true)
        ∨ (r.1 = 0 ∧ open_fails target (close_session s) = false)) →
      (open_fails target (close_session s) = true →
          (if r.1 < 0 then r else (0, { r.2 with cassette_state := target })).1 = -1
          ∧ (if r.1 < 0 then r else (0, { r.2 with cassette_state := target })).2.cassette_state
              = FAILED)
      ∧ (open_fails target (close_session s) = false →
          (if r.1 < 0 then r else (0, { r.2 with cassette_state := target })).1 = 0
          ∧ (if r.1 < 0 then r else (0, { r.2 with cassette_state := target })).2.cassette_state
              = target) := by
    intro r hr
    rcases hr with ⟨a, b, c⟩ | ⟨a, c⟩
    · have hlt : r.1 < 0 := by rw [a]; decide
      rw [if_pos hlt]
      exact ⟨fun _ => ⟨a, b⟩, fun h => by rw [c] at h; exact absurd h (by decide)⟩
    · have hlt : ¬ r.1 < 0 := by rw [a]; decide
      rw [if_neg hlt]
      exact ⟨fun h => by rw [c] at h; exact absurd h (by decide), fun _ => ⟨rfl, rfl⟩⟩
  have hnot : ¬ (s.cassette_state = FAILED ∧ target ≠ CLOSE) := fun h => h2 h.1
  unfold assert_state
  rw [if_neg h1, if_neg hnot]
  rcases ht with rfl | rfl | rfl
  · exact hcases _ (open_read_cases (close_session s))
  · exact hcases _ (open_write_cases WRITE (Or.inl rfl) (close_session s))
  · exact hcases _ (open_write_cases SOUND (Or.inr rfl) (close_session s))

set_option maxRecDepth 100000 in
theorem open_failure_moves_to_failed_witness :
    ((assert_state WRITE
        (trs_cassette_motor 1 (Cassette.initial (demo_host "tape" AUTODETECT_FORMAT) 1 1))).1 = -1
      ∧ (assert_state WRITE
        (trs_cassette_motor 1
          (Cassette.initial (demo_host "tape" AUTODETECT_FORMAT) 1 1))).2.cassette_state = FAILED)
    ∧ ((assert_state WRITE
        (trs_cassette_motor 1 (Cassette.initial (demo_host "tape" CPT_FORMAT) 1 1))).1 = 0
      ∧ (assert_state WRITE
        (trs_cassette_motor 1
          (Cassette.initial (demo_host "tape" CPT_FORMAT) 1 1))).2.cassette_state = WRITE) :=
  ⟨(open_failure_moves_to_failed WRITE
      (trs_cassette_motor 1 (Cassette.initial (demo_host "tape" AUTODETECT_FORMAT) 1 1))
      (Or.inr (Or.inl rfl)) (by decide) (by decide)).1 (by decide),
   (open_failure_moves_to_failed WRITE
      (trs_cassette_motor 1 (Cassette.initial (demo_host "tape" CPT_FORMAT) 1 1))
      (Or.inr (Or.inl rfl)) (by decide) (by decide)).2 (by decide)⟩

theorem putc_full (c : Int) (f : FILE) (h : f.full = true) : putc c f = (EOF, f) := by
  unfold putc; simp [h]

theorem put_twobyte_full (n : Nat) (f : FILE) (h : f.full = true) : put_twobyte n f = (-1, f) := by
  unfold put_twobyte; simp [putc_full _ f h]

theorem put_fourbyte_full (n : Nat) (f : FILE) (h : f.full = true) : put_fourbyte n f = (-1, f) := by
  unfold put_fourbyte; simp [putc_full _ f h]

theorem put_cpt_full (v d : Int) (s : Cassette) (f : FILE) (hf : s.cassette_file = some f)
    (h : f.full = true) : (put_cpt v d s).cassette_file = some f := by
  unfold put_cpt on_file
  split
  · simp [hf, put_twobyte_full _ f h]
  · simp [hf, put_twobyte_full _ f h, putc_full _ f h, put_fourbyte_full _ f h]

set_option maxRecDepth 100000 in
/-- Claim C12, counterexample: the pulse-train file sits on a full device.  The
first port write opens the file and records the transition; the write of the
record fails (`put_twobyte` returns -1), nothing is stored, and the session is
in `WRITE`, not `FAILED`, when `trs_cassette_out` returns. -/
theorem write_failure_leaves_write :
    ∃ s', trs_cassette_out 0 1
          (trs_cassette_motor 1 (Cassette.initial (full_host "tape" CPT_FORMAT) 1 1)) = some s'
      ∧ s'.cassette_state = WRITE
      ∧ s'.cassette_file = some (FILE.mk 0 "tape" [] 0 false true true)
      ∧ (put_twobyte 1 (FILE.mk 0 "tape" [] 0 false true true)).1 = -1 := by
  obtain ⟨a, ha⟩ : ∃ a : Cassette, a = (assert_state WRITE
      (trs_cassette_motor 1 (Cassette.initial (full_host "tape" CPT_FORMAT) 1 1))).2 := ⟨_, rfl⟩
  have h1 : (assert_state WRITE
      (trs_cassette_motor 1 (Cassette.initial (full_host "tape" CPT_FORMAT) 1 1))).1 = 0 := by
    decide
  have hst : a.cassette_state = WRITE := by rw [ha]; decide
  have hfmt : a.cassette_format = CPT_FORMAT := by rw [ha]; decide
  have hfile : a.cassette_file = some (FILE.mk 0 "tape" [] 0 false true true) := by
    rw [ha]; decide
  have hval : a.cassette_value = 0 := by rw [ha]; decide
  refine ⟨transition_out 1 a, ?_, ?_, ?_, by decide⟩
  · unfold trs_cassette_out
    rw [if_pos (by decide), if_neg (by decide)]
    simp only []
    rw [if_pos (by decide), h1, if_neg (by decide), ha]
  · rw [(transition_out_same 1 a).1, hst]
  · rw [transition_out_cpt a 1 hfmt (Or.inr (by rw [hval]; decide))]
    exact put_cpt_full _ _ a _ hfile rfl

/-- Claim C12, amended: `transition_out` does not look at the result of any
write and leaves the state alone, so a session in `WRITE` with the motor on is
still in `WRITE` when `trs_cassette_out` returns, whether or not the write
succeeded. -/
theorem write_failure_not_surfaced (fuel : Nat) (value : Int) (s : Cassette)
    (hm : s.cassette_motor ≠ 0) (hw : s.cassette_state = WRITE) :
    (transition_out value s).cassette_state = WRITE
    ∧ ∃ s', trs_cassette_out fuel value s = some s' ∧ s'.cassette_state = WRITE := by
  have hsame := (transition_out_same value s).1
  refine ⟨hsame.trans hw, ?_⟩
  have hr : ¬ s.cassette_state = READ := by rw [hw]; decide
  have ha : assert_state WRITE s = (1, s) := by
    have := assert_state_current s
    rw [hw] at this
    exact this
  unfold trs_cassette_out
  rw [if_pos hm, if_neg hr]
  simp only []
  by_cases hv : value ≠ s.cassette_value
  · rw [if_pos ⟨hr, hv⟩, ha]
    exact ⟨_, rfl, hsame.trans hw⟩
  · rw [if_neg (fun h => hv h.2)]
    exact ⟨_, rfl, hw⟩

set_option maxRecDepth 100000 in
theorem write_failure_not_surfaced_witness :
    (transition_out 2 (assert_state WRITE
        (trs_cassette_motor 1 (Cassette.initial (full_host "tape" CPT_FORMAT) 1 1))).2).cassette_state
      = WRITE
    ∧ ∃ s', trs_cassette_out 0 2 (assert_state WRITE
          (trs_cassette_motor 1 (Cassette.initial (full_host "tape" CPT_FORMAT) 1 1))).2 = some s'
        ∧ s'.cassette_state = WRITE :=
  write_failure_not_surfaced 0 2 (assert_state WRITE
    (trs_cassette_motor 1 (Cassette.initial (full_host "tape" CPT_FORMAT) 1 1))).2
    (by decide) (by decide)

theorem SameMode.mode_refl (s : Cassette) : SameMode s s := ⟨rfl, rfl, rfl, rfl⟩

theorem SameMode.mode_trans {s t u : Cassette} (h1 : SameMode s t) (h2 : SameMode t u) :
    SameMode s u :=
  ⟨h2.1.trans h1.1, h2.2.1.trans h1.2.1, h2.2.2.1.trans h1.2.2.1, h2.2.2.2.trans h1.2.2.2⟩

theorem on_file_mode (op : FILE → Int × FILE) (s : Cassette) : SameMode s (on_file op s) :=
  ⟨rfl, rfl, rfl, rfl⟩

theorem set_delta_mode (n : Nat) (s : Cassette) : SameMode s (set_delta n s) :=
  ⟨rfl, rfl, rfl, rfl⟩

theorem in_debug_mode (s : Cassette) : SameMode s (in_debug s).2 := by
  unfold in_debug
  split
  · exact SameMode.mode_refl s
  · simp only
    split
    · exact ⟨rfl, rfl, rfl, rfl⟩
    · exact ⟨rfl, rfl, rfl, rfl⟩

theorem get_cpt_mode (s : Cassette) : SameMode s (get_cpt s).2 := by
  unfold get_cpt
  split
  · exact SameMode.mode_refl s
  · simp only
    repeat' split
    all_goals exact ⟨rfl, rfl, rfl, rfl⟩

theorem in_cpt_mode (s : Cassette) : SameMode s (in_cpt s).2 := by
  have h := get_cpt_mode s
  unfold in_cpt
  split
  · rename_i s' heq
    rw [heq] at h
    exact h
  · rename_i d s' heq
    rw [heq] at h
    exact h.mode_trans (set_delta_mode _ _)

theorem classify_sample_mode (c : Int) (s : Cassette) : SameMode s (classify_sample c s).2 := by
  unfold classify_sample
  simp only
  repeat' split
  all_goals exact ⟨rfl, rfl, rfl, rfl⟩

theorem wav_scan_mode (rest : List Nat) : ∀ (n m : Nat) (s : Cassette),
    SameMode s (wav_scan rest n m s).2 := by
  induction rest with
  | nil => intro n m s; exact SameMode.mode_refl s
  | cons c rest ih =>
    intro n m s
    unfold wav_scan
    simp only
    have h1 := (on_file_mode (fun f => (0, { f with pos := f.pos + 1 })) s).mode_trans
      (classify_sample_mode (c : Int) (on_file (fun f => (0, { f with pos := f.pos + 1 })) s))
    split
    · exact h1
    · split
      · exact h1.mode_trans (ih _ _ _)
      · exact h1

theorem in_wav_mode (s : Cassette) : SameMode s (in_wav s).2 := by
  unfold in_wav
  simp only
  split
  · exact wav_scan_mode _ _ _ _
  · exact (wav_scan_mode _ _ _ _).mode_trans ⟨rfl, rfl, rfl, rfl⟩

theorem cas_emit_mode (s : Cassette) : SameMode s (cas_emit s).2 := by
  unfold cas_emit
  simp only
  split <;> exact ⟨rfl, rfl, rfl, rfl⟩

theorem in_cas_mode (s : Cassette) : SameMode s (in_cas s).2 := by
  unfold in_cas
  simp only
  repeat' split
  all_goals first
    | exact ⟨rfl, rfl, rfl, rfl⟩
    | exact SameMode.mode_trans ⟨rfl, rfl, rfl, rfl⟩ (cas_emit_mode _)

/-- Reading a transition stays within the session and leaves the state
alone. -/
theorem transition_in_mode (s : Cassette) : SameMode s (transition_in s).2 := by
  unfold transition_in
  simp only
  have key : ∀ r : Int × Cassette, SameMode s r.2 →
      SameMode s (if r.1 = 0 then (0, { r.2 with cassette_delta := ULONG_MAX }) else r).2 := by
    intro r h
    split
    · exact h.mode_trans ⟨rfl, rfl, rfl, rfl⟩
    · exact h
  apply key
  split
  · exact in_debug_mode s
  · split
    · exact in_cpt_mode s
    · split
      · exact in_wav_mode s
      · split
        · exact in_cas_mode s
        · exact ⟨rfl, rfl, rfl, rfl⟩

theorem ite_fail (r : Int × Cassette)
    (h : (if r.1 = 0 then ((0 : Int), { r.2 with cassette_delta := ULONG_MAX }) else r).1 = 0) :
    (if r.1 = 0 then ((0 : Int), { r.2 with cassette_delta := ULONG_MAX }) else r).2.cassette_delta
      = ULONG_MAX := by
  by_cases hr : r.1 = 0
  · rw [if_pos hr]
  · rw [if_neg hr] at h
    exact absurd h hr

theorem transition_in_fail (s : Cassette) (h : (transition_in s).1 = 0) :
    (transition_in s).2.cassette_delta = ULONG_MAX :=
  ite_fail _ h

theorem transition_in_zero (s : Cassette) (r : Int × Cassette)
    (hr : r = (if s.cassette_format = DEBUG_FORMAT then in_debug s
      else if s.cassette_format = CPT_FORMAT then in_cpt s
      else if s.cassette_format = DIRECT_FORMAT ∨ s.cassette_format = WAV_FORMAT then in_wav s
      else if s.cassette_format = CAS_FORMAT then in_cas s
      else (0, s.say (Call.error "input format not implemented"))))
    (h0 : r.1 = 0) : (transition_in s).1 = 0 := by
  unfold transition_in
  simp only
  rw [← hr, if_pos h0]

theorem in_debug_eof (s : Cassette) (f : FILE) (hf : s.cassette_file = some f)
    (heof : f.data.drop f.pos = []) : (in_debug s).1 = 0 := by
  unfold in_debug
  rw [hf]
  simp only
  have h : (fscanf_d_lu f).1 = none := by
    unfold fscanf_d_lu
    split
    · simp [heof, scan_number, skip_space]
    · rfl
  rw [h]

theorem in_cpt_eof (s : Cassette) (f : FILE) (hf : s.cassette_file = some f)
    (heof : f.data.drop f.pos = []) : (in_cpt s).1 = 0 := by
  have hg : (getc f).1 = -1 := by
    unfold getc
    split
    · rw [heof]; rfl
    · rfl
  have h : (get_cpt s).1 = none := by
    unfold get_cpt
    rw [hf]
    simp only
    have h2 : (get_twobyte f).1 = -1 := by
      unfold get_twobyte
      simp [hg]
    rw [if_pos h2]
  unfold in_cpt
  split
  · rfl
  · rename_i d s' heq
    rw [heq] at h
    exact absurd h (by simp)

theorem in_wav_eof (s : Cassette) (f : FILE) (hf : s.cassette_file = some f)
    (heof : f.data.drop f.pos = []) : (in_wav s).1 = 0 := by
  unfold in_wav
  simp only [hf, heof, ite_self, wav_scan]

theorem in_cas_eof (s : Cassette) (f : FILE) (hf : s.cassette_file = some f)
    (heof : f.data.drop f.pos = []) (hb : s.cassette_byte = 0x100)
    (hp : s.cassette_pulsestate = 0) (hn : s.cassette_bitnumber ≤ 0) : (in_cas s).1 = 0 := by
  have hg : (getc f).1 = EOF := by
    unfold getc
    split
    · rw [heof]
    · rfl
  have hlt : s.cassette_bitnumber - 1 < 0 := by omega
  unfold in_cas
  simp only [hp, if_true, hlt, hf, hg, hb]

/-- With the motor on in `READ`, no transition pending before the clock
(`cassette_delta` at its maximum, the elapsed time below it),
`trs_cassette_update` changes nothing. -/
theorem update_halted (fuel : Nat) (u : Cassette) (hm : u.cassette_motor ≠ 0)
    (hr : u.cassette_state = READ) (hd : u.cassette_delta = ULONG_MAX)
    (ht : tsub u.t_count u.cassette_transition < ULONG_MAX) :
    trs_cassette_update (fuel + 1) 0 u = some u := by
  have hw : u.cassette_state ≠ WRITE := by rw [hr]; decide
  have ha : assert_state READ u = (1, u) := by
    have := assert_state_current u
    rw [hr] at this
    exact this
  have hloop : update_loop (fuel + 1) 0 u = some (some 0, u) := by
    unfold update_loop
    rw [if_neg (by rw [hd]; omega)]
  unfold trs_cassette_update
  rw [if_pos ⟨hm, hw⟩, ha]
  simp only [hloop]
  simp

set_option maxRecDepth 100000 in
/-- Claim C13, counterexample: a CAS session opened on an empty file.  The
first call of `transition_in` reads the end of the file and returns 1: it
delivers the first step of the extra zero byte. -/
theorem cas_eof_first_returns_one :
    (cas_reader false []).cassette_format = CAS_FORMAT
    ∧ (cas_reader false []).cassette_state = READ
    ∧ (cas_reader false []).cassette_file = some (FILE.mk 0 "tape.cas" [] 0 true false false)
    ∧ (getc (FILE.mk 0 "tape.cas" [] 0 true false false)).1 = EOF
    ∧ (transition_in (cas_reader false [])).1 = 1 := by
  refine ⟨by decide, by decide, by decide, by decide, ?_⟩
  decide

theorem cas_emit_any (s : Cassette) :
    (cas_emit s).1 = 1
    ∧ (cas_emit s).2.cassette_next
        = (pulse_shape s.cassette_highspeed
            ((s.cassette_byte / 2 ^ s.cassette_bitnumber.toNat) % 2) s.cassette_pulsestate).2
    ∧ (cas_emit s).2.cassette_pulsestate
        = (if (pulse_shape s.cassette_highspeed
                ((s.cassette_byte / 2 ^ s.cassette_bitnumber.toNat) % 2)
                (s.cassette_pulsestate + 1)).2 = -1 then 0 else s.cassette_pulsestate + 1)
    ∧ (cas_emit s).2.cassette_byte = s.cassette_byte
    ∧ (cas_emit s).2.cassette_bitnumber = s.cassette_bitnumber
    ∧ (cas_emit s).2.cassette_file = s.cassette_file
    ∧ (cas_emit s).2.cassette_format = s.cassette_format
    ∧ (cas_emit s).2.cassette_highspeed = s.cassette_highspeed := by
  unfold cas_emit set_delta
  simp only
  split <;> simp_all

theorem emit_case_any (d : Cassette) (byte bn : Int) (fl : Option FILE) (rest : List Nat)
    (hfl : (cas_in_of { d with cassette_file := fl }).rest = rest)
    (t : Int × Nat) (a' : CasIn)
    (h : some (((pulse_shape d.cassette_highspeed (byte / 2 ^ bn.toNat % 2) d.cassette_pulsestate).2,
                ulong_of_int (pulse_shape d.cassette_highspeed (byte / 2 ^ bn.toNat % 2)
                  d.cassette_pulsestate).1),
               ({ rest := rest, byte := byte, bitnumber := bn,
                  pulsestate :=
                    if (pulse_shape d.cassette_highspeed (byte / 2 ^ bn.toNat % 2)
                          (d.cassette_pulsestate + 1)).2 = -1 then 0
                    else d.cassette_pulsestate + 1 } : CasIn)) = some (t, a')) :
    (cas_emit { d with cassette_bitnumber := bn, cassette_file := fl, cassette_byte := byte }).1 = 1
    ∧ (cas_emit { d with cassette_bitnumber := bn, cassette_file := fl,
                         cassette_byte := byte }).2.cassette_next = t.1
    ∧ cas_in_of (cas_emit { d with cassette_bitnumber := bn, cassette_file := fl,
                                   cassette_byte := byte }).2 = a'
    ∧ (cas_emit { d with cassette_bitnumber := bn, cassette_file := fl,
                         cassette_byte := byte }).2.cassette_format = d.cassette_format
    ∧ (cas_emit { d with cassette_bitnumber := bn, cassette_file := fl,
                         cassette_byte := byte }).2.cassette_highspeed = d.cassette_highspeed := by
  have he := cas_emit_any
    { d with cassette_bitnumber := bn, cassette_file := fl, cassette_byte := byte }
  obtain ⟨e1, e2, e4, e5, e6, e7, e8, e11⟩ := he
  simp only [Option.some.injEq, Prod.mk.injEq] at h
  obtain ⟨h1, h2⟩ := h
  subst h1 h2
  refine ⟨e1, e2, ?_, e8, e11⟩
  simp only [cas_in_of] at hfl ⊢
  simp only [e4, e5, e6, e7, hfl]

/-- The decoder on `Cassette` agrees with the decoder on its fields, at any
clock rate and round-off error, in all but the delay. -/
theorem in_cas_any (d : Cassette) :
    (cas_in_step d.cassette_highspeed (cas_in_of d) = none →
        (in_cas d).1 = 0
        ∧ cas_in_of (in_cas d).2
            = { cas_in_of d with bitnumber := if d.cassette_pulsestate = 0
                                               then d.cassette_bitnumber - 1
                                               else d.cassette_bitnumber }
        ∧ (in_cas d).2.cassette_format = d.cassette_format
        ∧ (in_cas d).2.cassette_highspeed = d.cassette_highspeed)
    ∧ (∀ t a', cas_in_step d.cassette_highspeed (cas_in_of d) = some (t, a') →
        (in_cas d).1 = 1 ∧ (in_cas d).2.cassette_next = t.1
        ∧ cas_in_of (in_cas d).2 = a'
        ∧ (in_cas d).2.cassette_format = d.cassette_format
        ∧ (in_cas d).2.cassette_highspeed = d.cassette_highspeed) := by
  obtain ⟨bn, hbn⟩ : ∃ bn, bn = if d.cassette_pulsestate = 0 then d.cassette_bitnumber - 1
      else d.cassette_bitnumber := ⟨_, rfl⟩
  have q1 : (cas_in_of d).pulsestate = d.cassette_pulsestate := rfl
  have q2 : (cas_in_of d).bitnumber = d.cassette_bitnumber := rfl
  have q3 : (cas_in_of d).byte = d.cassette_byte := rfl
  unfold in_cas cas_in_step
  rw [dec_bitnumber]
  simp only [q1, q2, q3, ← hbn]
  by_cases hneg : bn < 0
  · simp only [hneg, if_true]
    cases hfile : d.cassette_file with
    | none =>
      have hrest : (cas_in_of d).rest = [] := by simp only [cas_in_of, hfile]
      simp only [hrest, if_true]
      by_cases hb : d.cassette_byte = 0x100
      · simp [hb, cas_in_of, hfile]
      · simp only [hb, if_false]
        refine ⟨by simp, ?_⟩
        intro t a' h
        exact emit_case_any d 0x100 7 none [] (by simp [cas_in_of]) t a' h
    | some f =>
      have hg := getc_fields f
      cases hr : (if f.rd then f.data.drop f.pos else []) with
      | nil =>
        have hrest : (cas_in_of d).rest = [] := by simp only [cas_in_of, hfile, hr]
        rw [hr] at hg
        have hg1 : (getc f).1 = EOF := hg.1
        simp only [hrest, hg1, if_true]
        by_cases hb : d.cassette_byte = 0x100
        · have hg2 := hg.2
          simp only [List.tail_nil] at hg2
          simp [hb, cas_in_of, hfile, hr, hg2]
        · simp only [hb, if_false]
          refine ⟨by simp, ?_⟩
          intro t a' h
          exact emit_case_any d 0x100 7 (some (getc f).2) []
            (by simpa [cas_in_of] using hg.2) t a' h
      | cons x r =>
        have hrest : (cas_in_of d).rest = x :: r := by simp only [cas_in_of, hfile, hr]
        rw [hr] at hg
        have hg1 : (getc f).1 = (x : Int) := hg.1
        have hx : ¬ ((x : Int) = EOF) := by simp only [EOF]; omega
        simp only [hrest, hg1, hx, if_false]
        refine ⟨by simp, ?_⟩
        intro t a' h
        exact emit_case_any d (x : Int) 7 (some (getc f).2) r
          (by simpa [cas_in_of] using hg.2) t a' h
  · simp only [hneg, if_false]
    refine ⟨by simp, ?_⟩
    intro t a' h
    have := emit_case_any d d.cassette_byte bn d.cassette_file (cas_in_of d).rest
      (by simp [cas_in_of]) t a' h
    have e : ({ d with cassette_bitnumber := bn, cassette_file := d.cassette_file,
                       cassette_byte := d.cassette_byte } : Cassette)
        = { d with cassette_bitnumber := bn } := by cases d; rfl
    rw [e] at this
    exact this

/-- One call of `transition_in` in the CAS format, on the decoder fields. -/
theorem transition_in_cas_any (d : Cassette) (hfmt : d.cassette_format = CAS_FORMAT) :
    (cas_in_step d.cassette_highspeed (cas_in_of d) = none →
        (transition_in d).1 = 0 ∧ (transition_in d).2.cassette_delta = ULONG_MAX
        ∧ cas_in_of (transition_in d).2
            = { cas_in_of d with bitnumber := if d.cassette_pulsestate = 0
                                               then d.cassette_bitnumber - 1
                                               else d.cassette_bitnumber }
        ∧ (transition_in d).2.cassette_format = CAS_FORMAT
        ∧ (transition_in d).2.cassette_highspeed = d.cassette_highspeed)
    ∧ (∀ t a', cas_in_step d.cassette_highspeed (cas_in_of d) = some (t, a') →
        (transition_in d).1 = 1 ∧ (transition_in d).2.cassette_next = t.1
        ∧ cas_in_of (transition_in d).2 = a'
        ∧ (transition_in d).2.cassette_format = CAS_FORMAT
        ∧ (transition_in d).2.cassette_highspeed = d.cassette_highspeed) := by
  have h := in_cas_any d
  rw [transition_in_cas d hfmt]
  constructor
  · intro hn
    obtain ⟨k1, k2, k3, k4⟩ := h.1 hn
    rw [if_pos k1]
    exact ⟨rfl, rfl, k2, k3.trans hfmt, k4⟩
  · intro t a' hs
    obtain ⟨k1, k2, k3, k4, k5⟩ := h.2 t a' hs
    rw [if_neg (by rw [k1]; decide)]
    exact ⟨k1, k2, k3, k4.trans hfmt, k5⟩

theorem transition_in_n_run (hs : Int) (ts : List (Int × Nat)) :
    ∀ (d : Cassette) (a' : CasIn), d.cassette_format = CAS_FORMAT → d.cassette_highspeed = hs →
      cas_in_run hs ts (cas_in_of d) a' →
      (transition_in_n ts.length d).1 = ts.map (fun t => ((1 : Int), t.1))
      ∧ cas_in_of (transition_in_n ts.length d).2 = a'
      ∧ (transition_in_n ts.length d).2.cassette_format = CAS_FORMAT
      ∧ (transition_in_n ts.length d).2.cassette_highspeed = hs := by
  induction ts with
  | nil =>
    intro d a' hf hh hr
    simp only [cas_in_run] at hr
    exact ⟨rfl, hr, hf, hh⟩
  | cons t ts ih =>
    intro d a' hf hh hr
    obtain ⟨a1, h1, h2⟩ := hr
    rw [← hh] at h1
    obtain ⟨k1, k2, k3, k4, k5⟩ := (transition_in_cas_any d hf).2 t a1 h1
    obtain ⟨i1, i2, i3, i4⟩ := ih (transition_in d).2 a' k4 (k5.trans hh) (by rw [k3]; exact h2)
    show ((transition_in d).1, (transition_in d).2.cassette_next)
        :: (transition_in_n ts.length (transition_in d).2).1 = _ ∧ _
    refine ⟨?_, i2, i3, i4⟩
    rw [i1, k1, k2]
    rfl

theorem transition_in_n_add (n : Nat) : ∀ (m : Nat) (d : Cassette),
    (transition_in_n (n + m) d).2 = (transition_in_n m (transition_in_n n d).2).2 := by
  induction n with
  | zero => intro m d; simp [transition_in_n]
  | succ n ih =>
    intro m d
    have e : n + 1 + m = (n + m) + 1 := by omega
    rw [e]
    show (transition_in_n (n + m) (transition_in d).2).2 = _
    rw [ih]
    rfl

/-- Past the extra zero byte the decoder stays at the end of the file. -/
theorem transition_in_n_stuck (k : Nat) : ∀ (e : Cassette) (bn : Int),
    e.cassette_format = CAS_FORMAT → bn ≤ 0 → cas_in_of e = ⟨[], 0x100, bn, 0⟩ →
    (transition_in_n k e).2.cassette_format = CAS_FORMAT
    ∧ cas_in_of (transition_in_n k e).2 = ⟨[], 0x100, bn - k, 0⟩ := by
  induction k with
  | zero => intro e bn hf _ hc; exact ⟨hf, by simpa using hc⟩
  | succ k ih =>
    intro e bn hf hbn hc
    have hp : e.cassette_pulsestate = 0 := by
      have := congrArg CasIn.pulsestate hc; exact this
    have hb : e.cassette_bitnumber = bn := by
      have := congrArg CasIn.bitnumber hc; exact this
    have hstep : cas_in_step e.cassette_highspeed (cas_in_of e) = none := by
      rw [hc]
      have : bn - 1 < 0 := by omega
      simp [cas_in_step, this]
    obtain ⟨_, _, k3, k4, _⟩ := (transition_in_cas_any e hf).1 hstep
    rw [hc, hp, hb] at k3
    simp only [if_true] at k3
    obtain ⟨i1, i2⟩ := ih (transition_in e).2 (bn - 1) k4 (by omega) k3
    show (transition_in_n k (transition_in e).2).2.cassette_format = _ ∧ _
    refine ⟨i1, ?_⟩
    show cas_in_of (transition_in_n k (transition_in e).2).2 = _
    rw [i2]
    push_cast
    have : bn - 1 - (k : Int) = bn - ((k : Int) + 1) := by ring
    rw [this]

theorem tape_bits_bytes (B : List Nat) : tape_bits B = bytes_bits B ++ List.replicate 8 0 := by
  induction B with
  | nil => decide
  | cons c B ih => simp [tape_bits, bytes_bits, ih]

theorem bytes_bits_length (B : List Nat) : (bytes_bits B).length = 8 * B.length := by
  induction B with
  | nil => rfl
  | cons c B ih => simp [bytes_bits, bits_below, ih]; omega

/-- Claim C14 (CAS end-of-file quirk): let the decoder be in the CAS format at
speed `hs` with the fields motor-on leaves, reading a stream whose unread bytes
are `B`.  The bits it delivers are those of the bytes of `B` followed by eight
zero bits; `transition_in` returns 1 for every step of the pulse shapes of
these bits, with `cassette_next` as the shape says, and from the call after the
last of these steps on it returns 0 with `cassette_delta` at the largest
`unsigned long`, however often it is called. -/
theorem cas_eof_quirk (d : Cassette) (fd : FILE) (B : List Nat) (hs : Int)
    (hd : d.cassette_format = CAS_FORMAT ∧ d.cassette_highspeed = hs ∧ d.cassette_byte = 0
      ∧ d.cassette_bitnumber = 0 ∧ d.cassette_pulsestate = 0)
    (hhs : hs = 0 ∨ hs = 1)
    (hfd : d.cassette_file = some fd ∧ fd.rd = true ∧ fd.data.drop fd.pos = B)
    (hB : ∀ c ∈ B, c < 256) :
    (bytes_bits B ++ List.replicate 8 0).length = 8 * (B.length + 1)
    ∧ (transition_in_n (bits_steps hs (bytes_bits B ++ List.replicate 8 0)).length d).1
        = (bits_steps hs (bytes_bits B ++ List.replicate 8 0)).map (fun t => ((1 : Int), t.1))
    ∧ ∀ k : Nat,
        (transition_in (transition_in_n
          ((bits_steps hs (bytes_bits B ++ List.replicate 8 0)).length + k) d).2).1 = 0
        ∧ (transition_in (transition_in_n
          ((bits_steps hs (bytes_bits B ++ List.replicate 8 0)).length + k) d).2).2.cassette_delta
            = ULONG_MAX := by
  obtain ⟨d1, d4, d5, d6, d7⟩ := hd
  obtain ⟨d8, d9, d10⟩ := hfd
  have hin : cas_in_of d = ⟨B, 0, 0, 0⟩ := by
    simp [cas_in_of, d8, d9, d10, d5, d6, d7]
  rw [← tape_bits_bytes]
  have hrun := cas_in_run_tape hs hhs B 0 (by decide) hB
  rw [← hin] at hrun
  obtain ⟨r1, r2, r3, r4⟩ := transition_in_n_run hs _ d _ d1 d4 hrun
  refine ⟨?_, r1, ?_⟩
  · rw [tape_bits_bytes, List.length_append, bytes_bits_length, List.length_replicate]
    omega
  · intro k
    rw [transition_in_n_add]
    obtain ⟨s1, s2⟩ := transition_in_n_stuck k _ 0 r3 (le_refl _) r2
    have hstep : cas_in_step
        (transition_in_n k (transition_in_n (bits_steps hs (tape_bits B)).length d).2).2.cassette_highspeed
        (cas_in_of (transition_in_n k
          (transition_in_n (bits_steps hs (tape_bits B)).length d).2).2) = none := by
      rw [s2]
      have : -(k : Int) < 1 := by omega
      simp [cas_in_step, this]
    obtain ⟨t1, t2, _⟩ := (transition_in_cas_any _ s1).1 hstep
    exact ⟨t1, t2⟩

set_option maxRecDepth 100000 in
theorem cas_eof_quirk_witness :
    (bytes_bits [0xA5] ++ List.replicate 8 0).length = 8 * ([0xA5].length + 1)
    ∧ (transition_in_n (bits_steps 0 (bytes_bits [0xA5] ++ List.replicate 8 0)).length
          (cas_reader false [0xA5])).1
        = (bits_steps 0 (bytes_bits [0xA5] ++ List.replicate 8 0)).map (fun t => ((1 : Int), t.1))
    ∧ ∀ k : Nat,
        (transition_in (transition_in_n
          ((bits_steps 0 (bytes_bits [0xA5] ++ List.replicate 8 0)).length + k)
          (cas_reader false [0xA5])).2).1 = 0
        ∧ (transition_in (transition_in_n
          ((bits_steps 0 (bytes_bits [0xA5] ++ List.replicate 8 0)).length + k)
          (cas_reader false [0xA5])).2).2.cassette_delta = ULONG_MAX :=
  cas_eof_quirk (cas_reader false [0xA5]) (FILE.mk 0 "tape.cas" [0xA5] 0 true false false)
    [0xA5] 0 ⟨by decide, by decide, by decide, by decide, by decide⟩ (Or.inl rfl)
    ⟨by decide, rfl, rfl⟩ (by decide)

theorem cas_put_bit_push (f0 : FILE) (hwr : f0.wr = true) (hfull : f0.full = false) (b : Int)
    (s : Cassette) (p : Int × Int × List Nat)
    (h : s.cassette_bitnumber = p.1 ∧ s.cassette_byte = p.2.1
      ∧ s.cassette_file = some (store_bytes p.2.2 f0)) :
    (cas_put_bit b s).cassette_bitnumber = (cas_push b p).1
    ∧ (cas_put_bit b s).cassette_byte = (cas_push b p).2.1
    ∧ (cas_put_bit b s).cassette_file = some (store_bytes (cas_push b p).2.2 f0) := by
  obtain ⟨h1, h2, h3⟩ := h
  obtain ⟨c1, c2, c3, _⟩ := cas_put_bit_fields b s
  rw [h1, h2] at c2 c3
  rw [h1] at c1
  rw [h3] at c3
  unfold cas_push
  by_cases hb : (if p.1 - 1 < 0 then (7 : Int) else p.1 - 1) = 0
  · simp only [hb, if_true] at c1 c2 c3 ⊢
    refine ⟨c1, c2, ?_⟩
    rw [c3, Option.map_some', putc_ok _ _ (by simpa using hwr) (by simpa using hfull),
      ← store_bytes_append]
  · simp only [hb, if_false] at c1 c2 c3 ⊢
    exact ⟨c1, c2, c3⟩

theorem put_bits_pack (f0 : FILE) (hwr : f0.wr = true) (hfull : f0.full = false)
    (bits : List Int) : ∀ (s : Cassette) (p : Int × Int × List Nat),
    (s.cassette_bitnumber = p.1 ∧ s.cassette_byte = p.2.1
      ∧ s.cassette_file = some (store_bytes p.2.2 f0)) →
    (put_bits bits s).cassette_bitnumber = (cas_pack bits p).1
    ∧ (put_bits bits s).cassette_byte = (cas_pack bits p).2.1
    ∧ (put_bits bits s).cassette_file = some (store_bytes (cas_pack bits p).2.2 f0) := by
  induction bits with
  | nil => intro s p h; exact h
  | cons b bits ih =>
    intro s p h
    exact ih (cas_put_bit b s) (cas_push b p) (cas_put_bit_push f0 hwr hfull b s p h)

set_option maxRecDepth 1000000 in
theorem cas_pack_eight : ∀ b1 b2 b3 b4 b5 b6 b7 b8 : Fin 2,
    cas_pack [(b1.val : Int), (b2.val : Int), (b3.val : Int), (b4.val : Int), (b5.val : Int),
        (b6.val : Int), (b7.val : Int), (b8.val : Int)] (0, 0, [])
      = (0, 0, [b1.val * 128 + b2.val * 64 + b3.val * 32 + b4.val * 16 + b5.val * 8
                  + b6.val * 4 + b7.val * 2 + b8.val]) := by
  decide

set_option maxRecDepth 1000000 in
theorem cas_pack_fewer : ∀ (b1 b2 b3 b4 b5 b6 b7 b8 : Fin 2) (k : Fin 8),
    (cas_pack ([(b1.val : Int), (b2.val : Int), (b3.val : Int), (b4.val : Int), (b5.val : Int),
        (b6.val : Int), (b7.val : Int), (b8.val : Int)].take k.val) (0, 0, [])).2.2 = [] := by
  decide

theorem bit_fin (b : Int) (h : b = 0 ∨ b = 1) : ∃ c : Fin 2, b = ((c.val : Nat) : Int) := by
  rcases h with rfl | rfl
  · exact ⟨0, rfl⟩
  · exact ⟨1, rfl⟩

/-- Claim C15 (the CAS encoder packs bits most significant first): starting
from an empty bit buffer on a stream that takes writes, shifting in the eight
bits `b1 .. b8` writes exactly one byte, of value
`b1 * 128 + b2 * 64 + ... + b8`, and leaves the buffer empty again; after fewer
than eight of the bits nothing has been written. -/
theorem cas_packs_msb_first (s : Cassette) (f : FILE) (b1 b2 b3 b4 b5 b6 b7 b8 : Int)
    (hb : (b1 = 0 ∨ b1 = 1) ∧ (b2 = 0 ∨ b2 = 1) ∧ (b3 = 0 ∨ b3 = 1) ∧ (b4 = 0 ∨ b4 = 1)
      ∧ (b5 = 0 ∨ b5 = 1) ∧ (b6 = 0 ∨ b6 = 1) ∧ (b7 = 0 ∨ b7 = 1) ∧ (b8 = 0 ∨ b8 = 1))
    (hempty : s.cassette_bitnumber = 0 ∧ s.cassette_byte = 0)
    (hf : s.cassette_file = some f ∧ f.wr = true ∧ f.full = false) :
    (put_bits [b1, b2, b3, b4, b5, b6, b7, b8] s).cassette_file
        = some (store_bytes
            [(b1 * 128 + b2 * 64 + b3 * 32 + b4 * 16 + b5 * 8 + b6 * 4 + b7 * 2 + b8).toNat] f)
    ∧ (put_bits [b1, b2, b3, b4, b5, b6, b7, b8] s).cassette_bitnumber = 0
    ∧ (put_bits [b1, b2, b3, b4, b5, b6, b7, b8] s).cassette_byte = 0
    ∧ ∀ k : Nat, k < 8 →
        (put_bits ([b1, b2, b3, b4, b5, b6, b7, b8].take k) s).cassette_file = some f := by
  obtain ⟨h1, h2, h3, h4, h5, h6, h7, h8⟩ := hb
  obtain ⟨c1, rfl⟩ := bit_fin b1 h1
  obtain ⟨c2, rfl⟩ := bit_fin b2 h2
  obtain ⟨c3, rfl⟩ := bit_fin b3 h3
  obtain ⟨c4, rfl⟩ := bit_fin b4 h4
  obtain ⟨c5, rfl⟩ := bit_fin b5 h5
  obtain ⟨c6, rfl⟩ := bit_fin b6 h6
  obtain ⟨c7, rfl⟩ := bit_fin b7 h7
  obtain ⟨c8, rfl⟩ := bit_fin b8 h8
  have hrel : s.cassette_bitnumber = ((0 : Int), (0 : Int), ([] : List Nat)).1
      ∧ s.cassette_byte = ((0 : Int), (0 : Int), ([] : List Nat)).2.1
      ∧ s.cassette_file = some (store_bytes ((0 : Int), (0 : Int), ([] : List Nat)).2.2 f) :=
    ⟨hempty.1, hempty.2, hf.1⟩
  have h8b := put_bits_pack f hf.2.1 hf.2.2
    [((c1.val : Nat) : Int), ((c2.val : Nat) : Int), ((c3.val : Nat) : Int),
      ((c4.val : Nat) : Int), ((c5.val : Nat) : Int), ((c6.val : Nat) : Int),
      ((c7.val : Nat) : Int), ((c8.val : Nat) : Int)] s _ hrel
  obtain ⟨p1, p2, p3⟩ := h8b
  rw [cas_pack_eight c1 c2 c3 c4 c5 c6 c7 c8] at p1 p2 p3
  refine ⟨?_, p1, p2, ?_⟩
  · rw [p3]
    congr 3
  · intro k hk
    obtain ⟨_, _, q3⟩ := put_bits_pack f hf.2.1 hf.2.2
      ([((c1.val : Nat) : Int), ((c2.val : Nat) : Int), ((c3.val : Nat) : Int),
        ((c4.val : Nat) : Int), ((c5.val : Nat) : Int), ((c6.val : Nat) : Int),
        ((c7.val : Nat) : Int), ((c8.val : Nat) : Int)].take k) s _ hrel
    have := cas_pack_fewer c1 c2 c3 c4 c5 c6 c7 c8 ⟨k, hk⟩
    rw [q3, this]
    rfl

set_option maxRecDepth 100000 in
theorem cas_packs_msb_first_witness :
    (put_bits [1, 0, 1, 0, 0, 1, 0, 1] (demo_writer "out.cas" CAS_FORMAT 1)).cassette_file
      = some (store_bytes [0xA5] (FILE.mk 0 "out.cas" [] 0 false true false)) :=
  (cas_packs_msb_first (demo_writer "out.cas" CAS_FORMAT 1)
    (FILE.mk 0 "out.cas" [] 0 false true false) 1 0 1 0 0 1 0 1 (by decide)
    ⟨by decide, by decide⟩ ⟨by decide, rfl, rfl⟩).1

set_option maxRecDepth 100000 in
/-- Claim C17, counterexample: with the noise floor 64 that motor-on sets, the
sample 63 = 127 - 64 is classified as LOW (2), not as NEUTRAL (0), and
`transition_in` delivers it as a transition to 2. -/
theorem sample_at_low_threshold_is_low :
    (demo_reader WAV_FORMAT [63]).cassette_noisefloor = 64
    ∧ (classify_sample 63 (demo_reader WAV_FORMAT [63])).1 = 2
    ∧ (transition_in (demo_reader WAV_FORMAT [63])).2.cassette_next = 2 := by
  refine ⟨by decide, by decide, ?_⟩
  decide

theorem classify_sample_fst (c : Int) (s : Cassette) :
    (classify_sample c s).1
      = (if c > 127 + s.cassette_noisefloor then 1
         else if c ≤ 127 - s.cassette_noisefloor then 2 else 0) := by
  unfold classify_sample
  simp only
  split <;> rfl

theorem classify_sample_value (c : Int) (s : Cassette) :
    (classify_sample c s).2.cassette_value = s.cassette_value := by
  unfold classify_sample
  simp only
  repeat' split
  all_goals rfl

/-- Claim C17, amended (analog classification): the wave decoder classifies the
sample `c` at noise floor `f` as HIGH (1) if `c > 127 + f`, as LOW (2) if
`c <= 127 - f`, and as NEUTRAL (0) otherwise; when that class differs from the
current value, `transition_in` on a stream whose next byte is `c` returns 1 with
`cassette_next` equal to it. -/
theorem sample_classification (c : Nat) (s : Cassette) (fl : FILE) (rest : List Nat)
    (hfmt : s.cassette_format = WAV_FORMAT ∨ s.cassette_format = DIRECT_FORMAT)
    (hf : s.cassette_file = some fl ∧ fl.rd = true ∧ fl.data.drop fl.pos = c :: rest)
    (hne : (if (c : Int) > 127 + s.cassette_noisefloor then (1 : Int)
            else if (c : Int) ≤ 127 - s.cassette_noisefloor then 2 else 0) ≠ s.cassette_value) :
    (classify_sample (c : Int) s).1
        = (if (c : Int) > 127 + s.cassette_noisefloor then 1
           else if (c : Int) ≤ 127 - s.cassette_noisefloor then 2 else 0)
    ∧ (transition_in s).1 = 1
    ∧ (transition_in s).2.cassette_next
        = (if (c : Int) > 127 + s.cassette_noisefloor then 1
           else if (c : Int) ≤ 127 - s.cassette_noisefloor then 2 else 0) := by
  obtain ⟨s1, hs1⟩ : ∃ s1 : Cassette,
      s1 = on_file (fun f => (0, { f with pos := f.pos + 1 })) s := ⟨_, rfl⟩
  have hn1 : s1.cassette_noisefloor = s.cassette_noisefloor := by rw [hs1]; rfl
  have hv1 : s1.cassette_value = s.cassette_value := by rw [hs1]; rfl
  have hc1 := classify_sample_fst (c : Int) s1
  rw [hn1] at hc1
  have hcv := classify_sample_value (c : Int) s1
  rw [hv1] at hcv
  have hne' : ¬ ((classify_sample (c : Int) s1).1 = (classify_sample (c : Int) s1).2.cassette_value
      ∧ ulong_of_int (Int.tdiv s.cassette_sample_rate 100) > 0) := by
    rw [hc1, hcv]
    exact fun h => hne h.1
  have hscan : wav_scan (c :: rest) 0 (ulong_of_int (Int.tdiv s.cassette_sample_rate 100)) s
      = (some ((classify_sample (c : Int) s1).1, 1), (classify_sample (c : Int) s1).2) := by
    unfold wav_scan
    simp only [← hs1]
    rw [if_neg hne']
    simp
  have hin : (in_wav s).1 = 1 ∧ (in_wav s).2.cassette_next = (classify_sample (c : Int) s1).1 := by
    unfold in_wav
    simp only [hf.1, hf.2.1, hf.2.2, if_true, hscan]
    exact ⟨trivial, trivial⟩
  have ht : transition_in s = in_wav s := by
    have h1 : ¬ (in_wav s).1 = 0 := by rw [hin.1]; decide
    unfold transition_in
    rcases hfmt with h | h
    · simp only [h]
      simp [h1]
    · simp only [h]
      simp [h1]
  refine ⟨classify_sample_fst _ _, ?_, ?_⟩
  · rw [ht]; exact hin.1
  · rw [ht, hin.2, hc1]

set_option maxRecDepth 100000 in
theorem sample_classification_witness :
    (transition_in (demo_reader WAV_FORMAT [200])).1 = 1
    ∧ (transition_in (demo_reader WAV_FORMAT [200])).2.cassette_next = 1 :=
  ⟨(sample_classification 200 (demo_reader WAV_FORMAT [200]) (demo_tape [200]) []
      (Or.inl (by decide)) ⟨rfl, rfl, rfl⟩ (by decide)).2.1,
   (sample_classification 200 (demo_reader WAV_FORMAT [200]) (demo_tape [200]) []
      (Or.inl (by decide)) ⟨rfl, rfl, rfl⟩ (by decide)).2.2⟩

theorem fputs_ok (l : List Nat) (hl : ∀ c ∈ l, c < 256) : ∀ f : FILE, f.wr = true →
    f.full = false → fputs l f = (0, store_bytes l f) := by
  induction l with
  | nil => intro f _ _; rfl
  | cons c cs ih =>
    intro f hwr hfull
    have hc : c < 256 := hl c (List.mem_cons_self _ _)
    have hp := putc_nat_ok c f hwr hfull
    rw [Nat.mod_eq_of_lt hc] at hp
    unfold fputs
    simp only [hp]
    have hne : ¬ ((c : Int) = EOF) := by simp only [EOF]; omega
    rw [if_neg hne, ih (fun x hx => hl x (List.mem_cons_of_mem _ hx)) _ (by simpa using hwr)
      (by simpa using hfull)]
    rfl

theorem put_twobyte_ok2 (n : Nat) (f : FILE) (hw : f.wr = true) (hf : f.full = false) :
    put_twobyte n f = (0, store_bytes [n % 256, n / 256 % 256] f) :=
  put_twobyte_ok n f hw hf

theorem and_then_ok (a b : FILE → Int × FILE) (f g : FILE) (h : a f = (0, g)) :
    and_then a b f = b g := by
  unfold and_then
  simp [h]

/-- A header is written as the 44 bytes `wav_header`. -/
theorem create_wav_header_ok (f : FILE) (s : Cassette) (hw : f.wr = true) (hf : f.full = false)
    (h0 : 0 ≤ s.cassette_sample_rate) (h1 : s.cassette_sample_rate < 2 ^ 31) :
    (create_wav_header f s).1 = 0
    ∧ (create_wav_header f s).2.1 = store_bytes (wav_header s.cassette_sample_rate.toNat) f := by
  have w1 : ∀ l, (store_bytes l f).wr = true := fun l => by simpa using hw
  have f1 : ∀ l, (store_bytes l f).full = false := fun l => by simpa using hf
  have P4 : ∀ (n : Nat) (l : List Nat), put_fourbyte n (store_bytes l f)
      = (0, store_bytes (l ++ [n % 256, n / 256 % 256, n / 65536 % 256, n / 16777216 % 256]) f) :=
    fun n l => by rw [put_fourbyte_ok _ _ (w1 l) (f1 l), ← store_bytes_append]
  have P2 : ∀ (n : Nat) (l : List Nat), put_twobyte n (store_bytes l f)
      = (0, store_bytes (l ++ [n % 256, n / 256 % 256]) f) :=
    fun n l => by rw [put_twobyte_ok _ _ (w1 l) (f1 l), ← store_bytes_append]
  have PS : ∀ (b l : List Nat), (∀ c ∈ b, c < 256) → fputs b (store_bytes l f)
      = (0, store_bytes (l ++ b) f) :=
    fun b l hb => by rw [fputs_ok b hb _ (w1 l) (f1 l), ← store_bytes_append]
  have e1 : str_bytes "RIFF" = [82, 73, 70, 70] := rfl
  have e2 : str_bytes "WAVEfmt " = [87, 65, 86, 69, 102, 109, 116, 32] := rfl
  have e3 : str_bytes "data" = [100, 97, 116, 97] := rfl
  obtain ⟨s', hs'⟩ : ∃ s' : Cassette, s' = (if ({ s with wave_dataid_offset := WAVE_DATAID_OFFSET, wave_datasize_offset := WAVE_DATASIZE_OFFSET, wave_data_offset := WAVE_DATA_OFFSET } : Cassette).cassette_position < ({ s with wave_dataid_offset := WAVE_DATAID_OFFSET, wave_datasize_offset := WAVE_DATASIZE_OFFSET, wave_data_offset := WAVE_DATA_OFFSET } : Cassette).wave_data_offset then { ({ s with wave_dataid_offset := WAVE_DATAID_OFFSET, wave_datasize_offset := WAVE_DATASIZE_OFFSET, wave_data_offset := WAVE_DATA_OFFSET } : Cassette) with cassette_position := ({ s with wave_dataid_offset := WAVE_DATAID_OFFSET, wave_datasize_offset := WAVE_DATASIZE_OFFSET, wave_data_offset := WAVE_DATA_OFFSET } : Cassette).wave_data_offset } else { s with wave_dataid_offset := WAVE_DATAID_OFFSET, wave_datasize_offset := WAVE_DATASIZE_OFFSET, wave_data_offset := WAVE_DATA_OFFSET }) := ⟨_, rfl⟩
  have hr' : s'.cassette_sample_rate = s.cassette_sample_rate := by
    rw [hs']; split <;> rfl
  have hrate : to_uint s'.cassette_sample_rate = s.cassette_sample_rate.toNat := by
    unfold to_uint
    rw [hr', Int.emod_eq_of_lt h0 (by omega)]
  have hfield : to_uint (Int.tdiv (WAVE_FORMAT_MONO * s'.cassette_sample_rate * WAVE_FORMAT_8BIT) 8)
      = s.cassette_sample_rate.toNat := by
    have : Int.tdiv (WAVE_FORMAT_MONO * s'.cassette_sample_rate * WAVE_FORMAT_8BIT) 8
        = s'.cassette_sample_rate := by
      simp only [WAVE_FORMAT_MONO, WAVE_FORMAT_8BIT, one_mul]
      exact Int.mul_tdiv_cancel _ (by decide)
    rw [this, hrate]
  have k1 : to_ushort WAVE_FORMAT_PCM = 1 := by decide
  have k2 : to_ushort WAVE_FORMAT_MONO = 1 := by decide
  have k3 : to_ushort (Int.tdiv (WAVE_FORMAT_MONO * WAVE_FORMAT_8BIT) 8) = 1 := by decide
  have k4 : to_ushort WAVE_FORMAT_8BIT = 8 := by decide
  have F0 : fputs [82, 73, 70, 70] f = (0, store_bytes [82, 73, 70, 70] f) :=
    fputs_ok _ (by decide) f hw hf
  unfold create_wav_header
  simp only [← hs']
  rw [e1, e2, e3, hrate, hfield, k1, k2, k3, k4]
  rw [and_then_ok _ _ _ _ F0, and_then_ok _ _ _ _ (P4 _ _),
    and_then_ok _ _ _ _ (PS _ _ (by decide)), and_then_ok _ _ _ _ (P4 _ _),
    and_then_ok _ _ _ _ (P2 _ _), and_then_ok _ _ _ _ (P2 _ _), and_then_ok _ _ _ _ (P4 _ _),
    and_then_ok _ _ _ _ (P4 _ _), and_then_ok _ _ _ _ (P2 _ _), and_then_ok _ _ _ _ (P2 _ _),
    and_then_ok _ _ _ _ (PS _ _ (by decide)), and_then_ok _ _ _ _ (P4 _ _)]
  exact ⟨rfl, rfl⟩

theorem fread4_of_drop (f : FILE) (a b c d : Nat) (rest : List Nat) (hrd : f.rd = true)
    (h : f.data.drop f.pos = a :: b :: c :: d :: rest) :
    fread4 f = (some [a, b, c, d], { f with pos := f.pos + 4 }) := by
  unfold fread4
  simp [hrd, h]

theorem check_chunk_id_ok (e : String) (f : FILE) (s : Cassette) (a b c d : Nat)
    (rest : List Nat) (hrd : f.rd = true) (h : f.data.drop f.pos = a :: b :: c :: d :: rest)
    (he : str_bytes e = [a, b, c, d]) :
    check_chunk_id e f s = (0, { f with pos := f.pos + 4 }, s) := by
  unfold check_chunk_id
  rw [fread4_of_drop f a b c d rest hrd h]
  simp [he]

theorem skip_bytes_zero (f : FILE) (h : f.pos ≤ f.data.length) : skip_bytes 0 f = f := by
  unfold skip_bytes
  split
  · have : max f.pos (min (f.pos + 0) f.data.length) = f.pos := by
      rw [Nat.add_zero, Nat.min_eq_left h, Nat.max_self]
    rw [this]
  · rfl

theorem le4_value (r : Nat) (hr : r < 2 ^ 32) :
    r % 256 + 256 * (r / 256 % 256) + 65536 * (r / 65536 % 256) + 16777216 * (r / 16777216 % 256)
      = r := by
  omega

/-- A stream that starts with the 44 bytes `wav_header` parses. -/
theorem parse_wav_header_ok (r : Nat) (hr : r < 2 ^ 31) (i : Nat) (nm : String)
    (tail : List Nat) (w fu : Bool) (s : Cassette) :
    parse_wav_header (FILE.mk i nm (wav_header r ++ tail) 0 true w fu) s
      = (0, FILE.mk i nm (wav_header r ++ tail) 44 true w fu,
         (if s.cassette_position < 44 then
            { s with cassette_sample_rate := (r : Int), wave_dataid_offset := 36,
                     wave_datasize_offset := 40, wave_data_offset := 44,
                     cassette_position := 44 }
          else
            { s with cassette_sample_rate := (r : Int), wave_dataid_offset := 36,
                     wave_datasize_offset := 40, wave_data_offset := 44 })) := by
  have C1 : ∀ s : Cassette, check_chunk_id "RIFF" (FILE.mk i nm (wav_header r ++ tail) 0 true w fu) s
      = (0, FILE.mk i nm (wav_header r ++ tail) 4 true w fu, s) := fun s =>
    check_chunk_id_ok _ _ s 82 73 70 70 _ rfl rfl rfl
  have G1 : get_fourbyte (FILE.mk i nm (wav_header r ++ tail) 4 true w fu)
      = (0, 0, FILE.mk i nm (wav_header r ++ tail) 8 true w fu) :=
    get_fourbyte_of_drop _ 0 0 0 0 _ rfl rfl
  have C2 : ∀ s : Cassette, check_chunk_id "WAVE" (FILE.mk i nm (wav_header r ++ tail) 8 true w fu) s
      = (0, FILE.mk i nm (wav_header r ++ tail) 12 true w fu, s) := fun s =>
    check_chunk_id_ok _ _ s 87 65 86 69 _ rfl rfl rfl
  have C3 : ∀ s : Cassette, check_chunk_id "fmt " (FILE.mk i nm (wav_header r ++ tail) 12 true w fu) s
      = (0, FILE.mk i nm (wav_header r ++ tail) 16 true w fu, s) := fun s =>
    check_chunk_id_ok _ _ s 102 109 116 32 _ rfl rfl rfl
  have G2 : get_fourbyte (FILE.mk i nm (wav_header r ++ tail) 16 true w fu)
      = (0, 16, FILE.mk i nm (wav_header r ++ tail) 20 true w fu) :=
    get_fourbyte_of_drop _ 16 0 0 0 _ rfl rfl
  have T1 : get_twobyte (FILE.mk i nm (wav_header r ++ tail) 20 true w fu)
      = (0, 1, FILE.mk i nm (wav_header r ++ tail) 22 true w fu) :=
    get_twobyte_of_drop _ 1 0 _ rfl rfl
  have T2 : get_twobyte (FILE.mk i nm (wav_header r ++ tail) 22 true w fu)
      = (0, 1, FILE.mk i nm (wav_header r ++ tail) 24 true w fu) :=
    get_twobyte_of_drop _ 1 0 _ rfl rfl
  have G3 : get_fourbyte (FILE.mk i nm (wav_header r ++ tail) 24 true w fu)
      = (0, r, FILE.mk i nm (wav_header r ++ tail) 28 true w fu) := by
    have h := get_fourbyte_of_drop (FILE.mk i nm (wav_header r ++ tail) 24 true w fu)
      (r % 256) (r / 256 % 256) (r / 65536 % 256) (r / 16777216 % 256) _ rfl rfl
    rw [le4_value r (by omega)] at h
    exact h
  have G4 : get_fourbyte (FILE.mk i nm (wav_header r ++ tail) 28 true w fu)
      = (0, r, FILE.mk i nm (wav_header r ++ tail) 32 true w fu) := by
    have h := get_fourbyte_of_drop (FILE.mk i nm (wav_header r ++ tail) 28 true w fu)
      (r % 256) (r / 256 % 256) (r / 65536 % 256) (r / 16777216 % 256) _ rfl rfl
    rw [le4_value r (by omega)] at h
    exact h
  have T3 : get_twobyte (FILE.mk i nm (wav_header r ++ tail) 32 true w fu)
      = (0, 1, FILE.mk i nm (wav_header r ++ tail) 34 true w fu) :=
    get_twobyte_of_drop _ 1 0 _ rfl rfl
  have T4 : get_twobyte (FILE.mk i nm (wav_header r ++ tail) 34 true w fu)
      = (0, 8, FILE.mk i nm (wav_header r ++ tail) 36 true w fu) :=
    get_twobyte_of_drop _ 8 0 _ rfl rfl
  have S1 : skip_bytes (to_uint (((16 : Nat) : Int) - 16))
      (FILE.mk i nm (wav_header r ++ tail) 36 true w fu)
      = FILE.mk i nm (wav_header r ++ tail) 36 true w fu := by
    have : to_uint (((16 : Nat) : Int) - 16) = 0 := by decide
    rw [this]
    exact skip_bytes_zero _ (by simp [wav_header])
  have C4 : ∀ s : Cassette, check_chunk_id "data" (FILE.mk i nm (wav_header r ++ tail) 36 true w fu) s
      = (0, FILE.mk i nm (wav_header r ++ tail) 40 true w fu, s) := fun s =>
    check_chunk_id_ok _ _ s 100 97 116 97 _ rfl rfl rfl
  have G5 : get_fourbyte (FILE.mk i nm (wav_header r ++ tail) 40 true w fu)
      = (0, 0, FILE.mk i nm (wav_header r ++ tail) 44 true w fu) :=
    get_fourbyte_of_drop _ 0 0 0 0 _ rfl rfl
  have hrate : int_of_uint r = (r : Int) := by
    unfold int_of_uint
    have : r % 2 ^ 32 = r := Nat.mod_eq_of_lt (by omega)
    rw [this, if_pos (by omega)]
  have k3 : to_ushort (Int.tdiv (WAVE_FORMAT_MONO * WAVE_FORMAT_8BIT) 8) = 1 := by decide
  have k4 : to_ushort WAVE_FORMAT_8BIT = 8 := by decide
  unfold parse_wav_header
  rw [C1 s]
  dsimp only
  rw [if_neg (by decide), G1]
  dsimp only
  rw [if_neg (by decide), C2 s]
  dsimp only
  rw [if_neg (by decide), C3 s]
  dsimp only
  rw [if_neg (by decide), G2]
  dsimp only
  rw [if_neg (by decide), T1]
  dsimp only
  rw [if_neg (by decide), if_neg (by decide), T2]
  dsimp only
  rw [if_neg (by decide), if_neg (by decide), G3]
  dsimp only
  rw [if_neg (by decide), G4]
  dsimp only
  rw [if_neg (by decide), T3]
  dsimp only
  rw [if_neg (by decide), if_neg (by decide), T4]
  dsimp only
  rw [if_neg (by decide), if_neg (by decide), S1, C4]
  dsimp only
  rw [if_neg (by decide), G5]
  dsimp only
  rw [if_neg (by decide), hrate]
  simp only [ftell, Nat.cast_ofNat]

/-- C18: WAV header round trip. For a sample rate `r` with `0 < r < 2^31`,
`create_wav_header` on a fresh writable stream succeeds and writes exactly 44
bytes; `parse_wav_header` on a readable stream holding those bytes returns 0,
records `cassette_sample_rate = r`, sets the data-size offset to 40 and the
data offset to 44, and raises `cassette_position` to at least 44. -/
theorem wav_header_round_trip (r : Int) (s t : Cassette) (f : FILE) (i : Nat) (nm : String)
    (w fu : Bool) (h0 : 0 < r) (h1 : r < 2 ^ 31) (hs : s.cassette_sample_rate = r)
    (hw : f.wr = true) (hfull : f.full = false) (hdata : f.data = []) (hpos : f.pos = 0) :
    (create_wav_header f s).1 = 0
    ∧ (create_wav_header f s).2.1.data.length = 44
    ∧ (create_wav_header f s).2.1.pos = 44
    ∧ (parse_wav_header (FILE.mk i nm (create_wav_header f s).2.1.data 0 true w fu) t).1 = 0
    ∧ (parse_wav_header (FILE.mk i nm (create_wav_header f s).2.1.data 0 true w fu)
          t).2.2.cassette_sample_rate = r
    ∧ (parse_wav_header (FILE.mk i nm (create_wav_header f s).2.1.data 0 true w fu)
          t).2.2.wave_datasize_offset = 40
    ∧ (parse_wav_header (FILE.mk i nm (create_wav_header f s).2.1.data 0 true w fu)
          t).2.2.wave_data_offset = 44
    ∧ (parse_wav_header (FILE.mk i nm (create_wav_header f s).2.1.data 0 true w fu)
          t).2.2.cassette_position = max t.cassette_position 44 := by
  obtain ⟨c1, c2⟩ := create_wav_header_ok f s hw hfull (by omega) (by omega)
  have hn : ((s.cassette_sample_rate.toNat : Nat) : Int) = r := by
    rw [Int.toNat_of_nonneg (by omega), hs]
  have hlt : s.cassette_sample_rate.toNat < 2 ^ 31 := by omega
  have hd : (create_wav_header f s).2.1.data = wav_header s.cassette_sample_rate.toNat ++ [] := by
    rw [c2, store_bytes_eq _ _ (by rw [hpos]; exact Nat.zero_le _)]
    simp [hdata, hpos]
  have hlen : (wav_header s.cassette_sample_rate.toNat).length = 44 := rfl
  refine ⟨c1, by rw [hd, List.append_nil, hlen], by rw [c2, store_bytes_pos, hpos, hlen], ?_⟩
  rw [hd, parse_wav_header_ok _ hlt i nm [] w fu t, hn]
  refine ⟨rfl, ?_, ?_, ?_, ?_⟩
  · split <;> rfl
  · split <;> rfl
  · split <;> rfl
  · by_cases h : t.cassette_position < 44
    · rw [if_pos h]
      exact (max_eq_right (le_of_lt h)).symm
    · rw [if_neg h]
      exact (max_eq_left (not_lt.mp h)).symm

theorem wav_header_round_trip_witness :
    (parse_wav_header (FILE.mk 1 "out.wav"
        (create_wav_header (FILE.mk 0 "out.wav" [] 0 false true false)
          { Cassette.initial (demo_host "out.wav" WAV_FORMAT) 1 1 with
              cassette_sample_rate := 44100 }).2.1.data 0 true false false)
      (Cassette.initial (demo_host "out.wav" WAV_FORMAT) 1 1)).2.2.cassette_sample_rate = 44100 :=
  (wav_header_round_trip 44100
    { Cassette.initial (demo_host "out.wav" WAV_FORMAT) 1 1 with cassette_sample_rate := 44100 }
    (Cassette.initial (demo_host "out.wav" WAV_FORMAT) 1 1)
    (FILE.mk 0 "out.wav" [] 0 false true false) 1 "out.wav" false false
    (by decide) (by decide) rfl rfl rfl rfl rfl).2.2.2.2.1


theorem overwrite_length (data : List Nat) (off : Nat) (bytes : List Nat)
    (h : off + bytes.length ≤ data.length) : (overwrite data off bytes).length = data.length := by
  unfold overwrite
  simp only [List.length_append, List.length_take, List.length_drop]
  omega

theorem overwrite_get (data : List Nat) (off : Nat) (bytes : List Nat)
    (h : off + bytes.length ≤ data.length) (k : Nat) :
    (overwrite data off bytes)[k]? =
      if k < off then data[k]? else if k < off + bytes.length then bytes[k - off]? else data[k]? := by
  unfold overwrite
  have h1 : (data.take off).length = off := by simp; omega
  by_cases c1 : k < off
  · rw [if_pos c1, List.append_assoc, List.getElem?_append_left (by omega), List.getElem?_take_of_lt c1]
  · rw [if_neg c1, List.append_assoc, List.getElem?_append_right (by omega), h1]
    by_cases c2 : k < off + bytes.length
    · rw [if_pos c2, List.getElem?_append_left (by omega)]
    · rw [if_neg c2, List.getElem?_append_right (by omega), List.getElem?_drop]
      congr 1
      omega

theorem overwrite_field (data : List Nat) (off : Nat) (bytes : List Nat)
    (h : off + bytes.length ≤ data.length) :
    ((overwrite data off bytes).drop off).take bytes.length = bytes := by
  unfold overwrite
  have h1 : (data.take off).length = off := by simp; omega
  rw [List.append_assoc, List.drop_append_of_le_length (by omega)]
  have : List.drop off (List.take off data) = [] := by
    apply List.drop_eq_nil_of_le; omega
  rw [this, List.nil_append, List.take_left']
  rfl

theorem store_bytes_overwrite (a : List Nat) (f : FILE) (h : f.pos + a.length ≤ f.data.length) :
    store_bytes a f = { f with data := overwrite f.data f.pos a, pos := f.pos + a.length } := by
  rw [store_bytes_eq a f (by omega)]
  rfl

theorem put_control_files (s : Cassette) : (put_control s).host.files = s.host.files := by
  unfold put_control
  simp only
  split <;> rfl

theorem do_fclose_state (s : Cassette) : (do_fclose s).cassette_state = s.cassette_state := by
  unfold do_fclose
  split <;> rfl

theorem do_fclose_files (s : Cassette) (g : FILE) (h : s.cassette_file = some g) :
    (do_fclose s).host.files
      = if g.wr then (g.name, g.data) :: s.host.files.filter (fun e => e.1 != g.name)
        else s.host.files := by
  unfold do_fclose
  rw [h]
  simp only [fclose, Host.store]
  split <;> rfl

/-- The closing part of `assert_state` in `WRITE` with the WAV format, as a
sequence of stream operations. -/
theorem close_session_wav_steps (s : Cassette) (f : FILE) (hf : s.cassette_file = some f)
    (hst : s.cassette_state = WRITE) (hfmt : s.cassette_format = WAV_FORMAT) :
    close_session s =
      put_control (do_fclose
        (on_file (put_fourbyte (to_uint ((f.pos : Int) - s.wave_data_offset)))
          (do_fseek s.wave_datasize_offset
            (on_file (put_fourbyte (to_uint ((f.pos : Int) - WAVE_RIFF_OFFSET)))
              (do_fseek WAVE_RIFFSIZE_OFFSET { s with cassette_position := (f.pos : Int) }))))) := by
  have e1 : s.cassette_state ≠ CLOSE ∧ s.cassette_state ≠ FAILED := by rw [hst]; decide
  have e4 : ¬ s.cassette_format = DIRECT_FORMAT := by rw [hfmt]; decide
  have e3 : ¬ s.cassette_state = SOUND := by rw [hst]; decide
  unfold close_session
  rw [if_pos e1]
  dsimp only
  rw [if_neg e4, if_pos (show s.cassette_format = WAV_FORMAT ∧ s.cassette_state = WRITE from ⟨hfmt, hst⟩), hf]
  dsimp only [ftell]
  rw [if_pos]
  rfl
  rw [do_fclose_state]
  exact e3

/-- The stream at `fclose` when a WAV writing session is left: the two size
fields have been stored over the old bytes. -/
theorem close_session_wav_file (s : Cassette) (f : FILE) (hf : s.cassette_file = some f)
    (hw : f.wr = true) (hfull : f.full = false) (o : Nat) (ho : s.wave_datasize_offset = (o : Int))
    (h8 : 8 ≤ o) (hlen : o + 4 ≤ f.data.length) (a b : Nat) :
    (on_file (put_fourbyte b)
      (do_fseek s.wave_datasize_offset
        (on_file (put_fourbyte a)
          (do_fseek WAVE_RIFFSIZE_OFFSET { s with cassette_position := (f.pos : Int) })))).cassette_file
      = some { f with data := overwrite (overwrite f.data 4 (le32 a)) o (le32 b), pos := o + 4 } := by
  show Option.map _ (Option.map _ (Option.map _ (Option.map _ s.cassette_file))) = _
  rw [hf, ho]
  simp only [Option.map_some', Option.some.injEq]
  have s1 : fseek f WAVE_RIFFSIZE_OFFSET = { f with pos := 4 } := by
    unfold fseek
    rw [if_pos (by decide)]
    rfl
  rw [s1, put_fourbyte_ok a { f with pos := 4 } hw hfull]
  have s2 : store_bytes [a % 256, a / 256 % 256, a / 65536 % 256, a / 16777216 % 256]
      { f with pos := 4 } = { f with data := overwrite f.data 4 (le32 a), pos := 8 } :=
    store_bytes_overwrite _ _ (by show 4 + 4 ≤ f.data.length; omega)
  have s3 : fseek { f with data := overwrite f.data 4 (le32 a), pos := 8 } (o : Int)
      = { f with data := overwrite f.data 4 (le32 a), pos := o } := by
    unfold fseek
    rw [if_pos (Int.ofNat_nonneg o)]
    simp only [Int.toNat_ofNat]
  have l2 : (overwrite f.data 4 (le32 a)).length = f.data.length :=
    overwrite_length _ _ _ (by show 4 + 4 ≤ f.data.length; omega)
  rw [s2, s3, put_fourbyte_ok b { f with data := overwrite f.data 4 (le32 a), pos := o } hw hfull]
  exact store_bytes_overwrite _ _ (by show o + 4 ≤ (overwrite f.data 4 (le32 a)).length; omega)

theorem to_uint_sub (p q : Nat) (h : q ≤ p) (hp : p < 2 ^ 31) : to_uint ((p : Int) - q) = p - q := by
  unfold to_uint
  omega

theorem close_session_readonly (s : Cassette) (f : FILE) (hf : s.cassette_file = some f)
    (hst : s.cassette_state = READ) (hw : f.wr = false) :
    (close_session s).host.files = s.host.files := by
  have e1 : s.cassette_state ≠ CLOSE ∧ s.cassette_state ≠ FAILED := by rw [hst]; decide
  have e2 : ¬ (s.cassette_format = WAV_FORMAT ∧ s.cassette_state = WRITE) := by
    rw [hst]; intro h; exact absurd h.2 (by decide)
  have e3 : ¬ s.cassette_state = SOUND := by rw [hst]; decide
  unfold close_session
  rw [if_pos e1]
  dsimp only
  rw [if_neg e2]
  by_cases hd : s.cassette_format = DIRECT_FORMAT
  · rw [if_pos hd, if_pos (by rw [do_fclose_state]; exact e3), put_control_files]
    refine (do_fclose_files _ f ?_).trans ?_
    · exact hf
    · rw [hw]
      rfl
  · rw [if_neg hd, if_pos (by rw [do_fclose_state]; exact e3), put_control_files]
    refine (do_fclose_files _ f ?_).trans ?_
    · exact hf
    · rw [hw]
      rfl

theorem assert_state_close (s : Cassette) (h : s.cassette_state ≠ CLOSE) :
    (assert_state CLOSE s).2.host = (close_session s).host := by
  unfold assert_state
  rw [if_neg h, if_neg (fun hh => hh.2 rfl)]
  dsimp only
  rw [if_neg (show ¬ CLOSE = READ from by decide),
    if_neg (show ¬ (CLOSE = SOUND ∨ CLOSE = WRITE) from by decide)]
  dsimp only
  rw [if_neg (show ¬ ((0 : Int) < 0) from by decide)]

/-- C19: WAV size fields are finalised on close. When the closing part of
`assert_state` leaves `WRITE` in the WAV format with the stream at position
`p` (writable, the positions below inside the file, `p` at least 8 and at
least the data offset `d`), the file that `fclose` hands to the host is the
old one with the little-endian 32-bit field at offset 4 set to `p - 8` and the
field at the data-size offset `o` set to `p - d`: same length, and every other
byte unchanged. When it leaves `READ`, whose stream is not open for writing,
the host's files are unchanged. `assert_state CLOSE` leaves the host as this
closing part does. -/
theorem wav_sizes_finalised_on_close (s : Cassette) (f : FILE) (o d : Nat)
    (hf : s.cassette_file = some f) :
    (s.cassette_state = WRITE → s.cassette_format = WAV_FORMAT → f.wr = true → f.full = false →
      s.wave_datasize_offset = (o : Int) → s.wave_data_offset = (d : Int) →
      8 ≤ o → o + 4 ≤ f.data.length → 8 ≤ f.pos → d ≤ f.pos → f.pos < 2 ^ 31 →
      ∃ data' : List Nat,
        (close_session s).host.files
            = (f.name, data') :: s.host.files.filter (fun e => e.1 != f.name)
        ∧ (assert_state CLOSE s).2.host = (close_session s).host
        ∧ data'.length = f.data.length
        ∧ (data'.drop 4).take 4 = le32 (f.pos - 8)
        ∧ (data'.drop o).take 4 = le32 (f.pos - d)
        ∧ ∀ k : Nat, ¬ (4 ≤ k ∧ k < 8) → ¬ (o ≤ k ∧ k < o + 4) → data'[k]? = f.data[k]?)
    ∧ (s.cassette_state = READ → f.wr = false →
        (close_session s).host.files = s.host.files
        ∧ (assert_state CLOSE s).2.host = (close_session s).host) := by
  constructor
  · intro hst hfmt hw hfull ho hd h8 hlen hp8 hdp hp
    have l1 : 4 + (le32 (f.pos - 8)).length ≤ f.data.length := by
      show 4 + 4 ≤ f.data.length
      omega
    have n1 : (overwrite f.data 4 (le32 (f.pos - 8))).length = f.data.length :=
      overwrite_length _ _ _ l1
    have l2 : o + (le32 (f.pos - d)).length ≤ (overwrite f.data 4 (le32 (f.pos - 8))).length := by
      rw [n1]
      exact hlen
    refine ⟨overwrite (overwrite f.data 4 (le32 (f.pos - 8))) o (le32 (f.pos - d)), ?_, ?_, ?_, ?_, ?_, ?_⟩
    · rw [close_session_wav_steps s f hf hst hfmt, put_control_files,
        do_fclose_files _ _ (close_session_wav_file s f hf hw hfull o ho h8 hlen _ _), hd]
      have a1 : to_uint ((f.pos : Int) - WAVE_RIFF_OFFSET) = f.pos - 8 := to_uint_sub f.pos 8 hp8 hp
      rw [a1, to_uint_sub f.pos d hdp hp]
      simp only [hw, if_true]
      rfl
    · exact assert_state_close s (by rw [hst]; decide)
    · rw [overwrite_length _ _ _ l2, n1]
    · have e := overwrite_get (overwrite f.data 4 (le32 (f.pos - 8))) o (le32 (f.pos - d)) l2
      have e0 := overwrite_get f.data 4 (le32 (f.pos - 8)) l1
      have h4 : (le32 (f.pos - 8)).length = 4 := rfl
      apply List.ext_getElem?
      intro k
      simp only [List.getElem?_take, List.getElem?_drop]
      by_cases hk : k < 4
      · rw [if_pos hk, e, if_pos (by omega), e0, if_neg (by omega), h4, if_pos (by omega)]
        congr 1
        omega
      · rw [if_neg hk]
        exact (List.getElem?_eq_none (by rw [h4]; omega)).symm
    · exact overwrite_field _ o (le32 (f.pos - d)) l2
    · intro k k1 k2
      rw [overwrite_get _ _ _ l2, overwrite_get _ _ _ l1]
      have h4 : (le32 (f.pos - 8)).length = 4 := rfl
      have h5 : (le32 (f.pos - d)).length = 4 := rfl
      rw [h4, h5]
      by_cases c1 : k < o
      · rw [if_pos c1]
        by_cases c2 : k < 4
        · rw [if_pos c2]
        · rw [if_neg c2, if_neg (by omega)]
      · rw [if_neg c1, if_neg (by omega), if_neg (by omega), if_neg (by omega)]
  · intro hst hw
    exact ⟨close_session_readonly s f hf hst hw, assert_state_close s (by rw [hst]; decide)⟩

set_option maxRecDepth 100000 in
theorem wav_sizes_finalised_on_close_witness :
    (∃ data' : List Nat,
      (close_session (demo_writer "out.wav" WAV_FORMAT 1)).host.files
        = ("out.wav", data')
            :: (demo_writer "out.wav" WAV_FORMAT 1).host.files.filter (fun e => e.1 != "out.wav")
      ∧ (data'.drop 4).take 4 = le32 36 ∧ (data'.drop 40).take 4 = le32 0)
    ∧ (close_session (cas_reader false [0xA5])).host.files = (cas_reader false [0xA5]).host.files := by
  obtain ⟨d, h1, _, _, h4, h5, _⟩ :=
    (wav_sizes_finalised_on_close (demo_writer "out.wav" WAV_FORMAT 1)
      (FILE.mk 0 "out.wav" (wav_header 11025) 44 false true false) 40 44 (by decide)).1
      (by decide) (by decide) rfl rfl (by decide) (by decide) (by decide) (by decide) (by decide)
      (by decide) (by decide)
  exact ⟨⟨d, h1, h4, h5⟩,
    ((wav_sizes_finalised_on_close (cas_reader false [0xA5])
      (FILE.mk 0 "tape.cas" [0xA5] 0 true false false) 0 0 (by decide)).2 (by decide) rfl).1⟩


theorem to_ulong_floor (x : ℚ) (h0 : 0 ≤ x) (h1 : x < 2 ^ 64) : to_ulong x = ⌊x⌋.toNat := by
  have f0 : 0 ≤ ⌊x⌋ := Int.floor_nonneg.mpr h0
  have f1 : ⌊x⌋ < 2 ^ 64 := by
    rw [Int.floor_lt]
    exact_mod_cast h1
  unfold to_ulong trunc
  rw [if_pos h0, Int.emod_eq_of_lt f0 f1]

theorem to_ulong_lt (x : ℚ) : to_ulong x < 2 ^ 64 := by
  unfold to_ulong
  have := Int.emod_lt_of_pos (trunc x) (show (0 : Int) < 2 ^ 64 by norm_num)
  have := Int.emod_nonneg (trunc x) (show (2 : Int) ^ 64 ≠ 0 by norm_num)
  omega

/-- The expression `(unsigned long) delta_ts + 0.5` stored in an
`unsigned long`: the half that is added after the conversion is lost again. -/
theorem to_ulong_twice (x : ℚ) : to_ulong ((to_ulong x : ℚ) + 1 / 2) = to_ulong x :=
  to_ulong_natCast_half _ (to_ulong_lt x)

theorem classify_sample_frame (c : Int) (s : Cassette) :
    (classify_sample c s).2.cassette_sample_rate = s.cassette_sample_rate
    ∧ (classify_sample c s).2.clockMHz = s.clockMHz
    ∧ (classify_sample c s).2.cassette_roundoff_error = s.cassette_roundoff_error := by
  unfold classify_sample
  simp only
  repeat' split
  all_goals exact ⟨rfl, rfl, rfl⟩

/-- The wave decoder on a stream whose next sample differs in class from the
current value: one sample is consumed, and the tick count delivered is the
ideal duration truncated, not rounded. -/
theorem in_wav_one_sample (c : Nat) (s : Cassette) (fl : FILE) (rest : List Nat)
    (hfmt : s.cassette_format = WAV_FORMAT ∨ s.cassette_format = DIRECT_FORMAT)
    (hf : s.cassette_file = some fl ∧ fl.rd = true ∧ fl.data.drop fl.pos = c :: rest)
    (hne : (if (c : Int) > 127 + s.cassette_noisefloor then (1 : Int)
            else if (c : Int) ≤ 127 - s.cassette_noisefloor then 2 else 0) ≠ s.cassette_value) :
    (transition_in s).1 = 1
    ∧ (transition_in s).2.cassette_delta
        = to_ulong (1 * (1000000 / (s.cassette_sample_rate : ℚ)) * s.clockMHz
            - s.cassette_roundoff_error)
    ∧ (transition_in s).2.cassette_roundoff_error
        = ((to_ulong (1 * (1000000 / (s.cassette_sample_rate : ℚ)) * s.clockMHz
            - s.cassette_roundoff_error) : Nat) : ℚ)
          - (1 * (1000000 / (s.cassette_sample_rate : ℚ)) * s.clockMHz
            - s.cassette_roundoff_error) := by
  obtain ⟨s1, hs1⟩ : ∃ s1 : Cassette,
      s1 = on_file (fun f => (0, { f with pos := f.pos + 1 })) s := ⟨_, rfl⟩
  have hn1 : s1.cassette_noisefloor = s.cassette_noisefloor := by rw [hs1]; rfl
  have hv1 : s1.cassette_value = s.cassette_value := by rw [hs1]; rfl
  have hc1 := classify_sample_fst (c : Int) s1
  rw [hn1] at hc1
  have hcv := classify_sample_value (c : Int) s1
  rw [hv1] at hcv
  obtain ⟨fr1, fr2, fr3⟩ := classify_sample_frame (c : Int) s1
  have fr1' : (classify_sample (c : Int) s1).2.cassette_sample_rate = s.cassette_sample_rate := by
    rw [fr1, hs1]; rfl
  have fr2' : (classify_sample (c : Int) s1).2.clockMHz = s.clockMHz := by rw [fr2, hs1]; rfl
  have fr3' : (classify_sample (c : Int) s1).2.cassette_roundoff_error
      = s.cassette_roundoff_error := by rw [fr3, hs1]; rfl
  have hne' : ¬ ((classify_sample (c : Int) s1).1 = (classify_sample (c : Int) s1).2.cassette_value
      ∧ ulong_of_int (Int.tdiv s.cassette_sample_rate 100) > 0) := by
    rw [hc1, hcv]
    exact fun h => hne h.1
  have hscan : wav_scan (c :: rest) 0 (ulong_of_int (Int.tdiv s.cassette_sample_rate 100)) s
      = (some ((classify_sample (c : Int) s1).1, 1), (classify_sample (c : Int) s1).2) := by
    unfold wav_scan
    simp only [← hs1]
    rw [if_neg hne']
    simp
  have hin : (in_wav s).1 = 1
      ∧ (in_wav s).2.cassette_delta
          = to_ulong (1 * (1000000 / (s.cassette_sample_rate : ℚ)) * s.clockMHz
              - s.cassette_roundoff_error)
      ∧ (in_wav s).2.cassette_roundoff_error
          = ((to_ulong (1 * (1000000 / (s.cassette_sample_rate : ℚ)) * s.clockMHz
              - s.cassette_roundoff_error) : Nat) : ℚ)
            - (1 * (1000000 / (s.cassette_sample_rate : ℚ)) * s.clockMHz
              - s.cassette_roundoff_error) := by
    unfold in_wav
    simp only [hf.1, hf.2.1, hf.2.2, if_true, hscan, fr1', fr2', fr3', to_ulong_twice, Nat.cast_one]
    exact ⟨trivial, trivial, trivial⟩
  have ht : transition_in s = in_wav s := by
    have h1 : ¬ (in_wav s).1 = 0 := by rw [hin.1]; decide
    unfold transition_in
    rcases hfmt with h | h
    · simp only [h]
      simp [h1]
    · simp only [h]
      simp [h1]
  rw [ht]
  exact hin

/-- The conversion used by the text, pulse-train and bitstream decoders: when
the ideal duration `x` satisfies `0 <= x + 1/2 < 2^64`, `set_delta` delivers
`floor (x + 1/2)` and leaves a round-off error of absolute value at most 1/2. -/
theorem set_delta_rounds (n : Nat) (s : Cassette)
    (h0 : 0 ≤ (n : ℚ) * s.clockMHz - s.cassette_roundoff_error + 1 / 2)
    (h1 : (n : ℚ) * s.clockMHz - s.cassette_roundoff_error + 1 / 2 < 2 ^ 64) :
    ((set_delta n s).cassette_delta : Int)
        = ⌊(n : ℚ) * s.clockMHz - s.cassette_roundoff_error + 1 / 2⌋
    ∧ (set_delta n s).cassette_roundoff_error
        = ((set_delta n s).cassette_delta : ℚ) - ((n : ℚ) * s.clockMHz - s.cassette_roundoff_error)
    ∧ |(set_delta n s).cassette_roundoff_error| ≤ 1 / 2 := by
  have hd : (set_delta n s).cassette_delta
      = to_ulong ((n : ℚ) * s.clockMHz - s.cassette_roundoff_error + 1 / 2) := rfl
  have he : (set_delta n s).cassette_roundoff_error
      = ((set_delta n s).cassette_delta : ℚ) - ((n : ℚ) * s.clockMHz - s.cassette_roundoff_error) :=
    rfl
  have hfl := to_ulong_floor _ h0 h1
  have f0 : 0 ≤ ⌊(n : ℚ) * s.clockMHz - s.cassette_roundoff_error + 1 / 2⌋ := Int.floor_nonneg.mpr h0
  have hc : ((set_delta n s).cassette_delta : Int)
      = ⌊(n : ℚ) * s.clockMHz - s.cassette_roundoff_error + 1 / 2⌋ := by
    rw [hd, hfl, Int.toNat_of_nonneg f0]
  refine ⟨hc, he, ?_⟩
  have hq : ((set_delta n s).cassette_delta : ℚ)
      = ((⌊(n : ℚ) * s.clockMHz - s.cassette_roundoff_error + 1 / 2⌋ : Int) : ℚ) := by
    rw [← hc]
    norm_cast
  rw [he, hq, abs_le]
  have l1 := Int.floor_le ((n : ℚ) * s.clockMHz - s.cassette_roundoff_error + 1 / 2)
  have l2 := Int.lt_floor_add_one ((n : ℚ) * s.clockMHz - s.cassette_roundoff_error + 1 / 2)
  constructor <;> linarith

set_option maxRecDepth 100000 in
/-- C20, the wave decoder at one sample of 11025 per second and 1 MHz: the
ideal duration is 1000000/11025 ticks (about 90.70) with no prior error; the
decoder returns 90, not the nearest integer 91, and leaves the round-off error
-310/441, whose absolute value exceeds 1/2. The text, pulse-train and bitstream
decoders would deliver 91 (`set_delta_rounds`). -/
theorem wav_decode_truncates :
    (wav_reader [200]).cassette_format = WAV_FORMAT
    ∧ (wav_reader [200]).cassette_sample_rate = 11025
    ∧ (wav_reader [200]).clockMHz = 1
    ∧ (wav_reader [200]).cassette_roundoff_error = 0
    ∧ (transition_in (wav_reader [200])).1 = 1
    ∧ (transition_in (wav_reader [200])).2.cassette_delta = 90
    ∧ (transition_in (wav_reader [200])).2.cassette_roundoff_error = -310 / 441
    ∧ ⌊(1000000 / 11025 : ℚ) + 1 / 2⌋ = 91
    ∧ 1 / 2 < |(transition_in (wav_reader [200])).2.cassette_roundoff_error| := by
  have hr : (wav_reader [200]).cassette_sample_rate = 11025 := by decide
  have hc : (wav_reader [200]).clockMHz = 1 := by decide
  have he : (wav_reader [200]).cassette_roundoff_error = 0 := by decide
  obtain ⟨h1, h2, h3⟩ := in_wav_one_sample 200 (wav_reader [200])
    (FILE.mk 0 "tape.wav" (wav_header 11025 ++ [200]) 44 true false false) []
    (Or.inl (by decide)) ⟨by decide, rfl, by decide⟩ (by decide)
  rw [hr, hc, he] at h2 h3
  have hx : to_ulong (1 * (1000000 / ((11025 : Int) : ℚ)) * 1 - 0) = 90 := by
    rw [to_ulong_floor _ (by norm_num) (by norm_num)]
    have : ⌊(1 * (1000000 / ((11025 : Int) : ℚ)) * 1 - 0 : ℚ)⌋ = 90 := by
      rw [Int.floor_eq_iff]
      constructor <;> norm_num
    rw [this]
    rfl
  rw [hx] at h2 h3
  have h3' : (transition_in (wav_reader [200])).2.cassette_roundoff_error = -310 / 441 := by
    rw [h3]
    norm_num
  refine ⟨by decide, hr, hc, he, h1, h2, h3', ?_, ?_⟩
  · rw [Int.floor_eq_iff]
    constructor <;> norm_num
  · rw [h3']
    norm_num [abs_of_neg]


theorem on_file_t_count (op : FILE → Int × FILE) (s : Cassette) :
    (on_file op s).t_count = s.t_count := rfl

theorem out_debug_val (v : Int) (dd : ℚ) (s : Cassette) :
    (out_debug v dd s).1 = (if v = FLUSH then s.cassette_value else v)
    ∧ (out_debug v dd s).2.t_count = s.t_count
    ∧ (out_debug v dd s).2.cassette_value = s.cassette_value := ⟨rfl, rfl, rfl⟩

theorem put_cpt_val (v d : Int) (s : Cassette) :
    (put_cpt v d s).t_count = s.t_count ∧ (put_cpt v d s).cassette_value = s.cassette_value := by
  unfold put_cpt
  split <;> exact ⟨rfl, rfl⟩

theorem out_cpt_val (v : Int) (dd : ℚ) (s : Cassette) :
    (out_cpt v dd s).1 = (if v = FLUSH then s.cassette_value else v)
    ∧ (out_cpt v dd s).2.t_count = s.t_count
    ∧ (out_cpt v dd s).2.cassette_value = s.cassette_value :=
  ⟨rfl, (put_cpt_val _ _ _).1, (put_cpt_val _ _ _).2⟩

theorem out_sound_pacing_val (v : Int) (dd : ℚ) (s : Cassette) :
    (out_sound_pacing v dd s).2.t_count = s.t_count
    ∧ (out_sound_pacing v dd s).2.cassette_value = s.cassette_value := by
  unfold out_sound_pacing
  simp only
  repeat' split
  all_goals exact ⟨rfl, rfl⟩

theorem out_wav_val (v : Int) (dd : ℚ) (s : Cassette) :
    (out_wav v dd s).1 = (if v = FLUSH then s.cassette_value else v)
    ∧ (out_wav v dd s).2.t_count = s.t_count
    ∧ (out_wav v dd s).2.cassette_value = s.cassette_value := by
  obtain ⟨h1, h2⟩ := out_sound_pacing_val v dd s
  unfold out_wav
  simp only
  split
  · exact ⟨h2, h1, h2⟩
  · exact ⟨rfl, h1, h2⟩

theorem cas_put_bit_val (b : Int) (s : Cassette) :
    (cas_put_bit b s).t_count = s.t_count
    ∧ (cas_put_bit b s).cassette_value = s.cassette_value := by
  unfold cas_put_bit
  simp only
  repeat' split
  all_goals exact ⟨rfl, rfl⟩

theorem out_cas_val (v : Int) (dd : ℚ) (s : Cassette) :
    (out_cas v dd s).1 = v
    ∧ (out_cas v dd s).2.t_count = s.t_count
    ∧ (out_cas v dd s).2.cassette_value = s.cassette_value := by
  unfold out_cas
  simp only
  split
  · exact ⟨rfl, rfl, rfl⟩
  · split
    · exact ⟨rfl, rfl, rfl⟩
    · exact ⟨rfl, (cas_put_bit_val _ _).1, (cas_put_bit_val _ _).2⟩

/-- The value `transition_out` stores, the tick count, and the previous value
of the state that the arm of the format hands back. -/
theorem transition_out_arm (v : Int) (s : Cassette) :
    ∃ r : Int × Cassette,
      (¬ (v ≠ FLUSH ∧ v = s.cassette_value) →
        transition_out v s
          = { r.2 with last_sound := if r.2.cassette_value ≠ r.1 then r.2.t_count
                                     else r.2.last_sound,
                       cassette_transition := r.2.t_count, cassette_value := r.1 })
      ∧ r.2.t_count = s.t_count ∧ r.2.cassette_value = s.cassette_value
      ∧ r.1 = (if v = FLUSH ∧ (s.cassette_format = DEBUG_FORMAT ∨ s.cassette_format = CPT_FORMAT
                  ∨ s.cassette_format = WAV_FORMAT ∨ s.cassette_format = DIRECT_FORMAT)
               then s.cassette_value else v) := by
  by_cases h1 : s.cassette_format = DEBUG_FORMAT
  · refine ⟨out_debug v (ddelta_us s) s, ?_, (out_debug_val _ _ _).2.1, (out_debug_val _ _ _).2.2, ?_⟩
    · intro h
      unfold transition_out
      rw [if_neg h]
      dsimp only
      rw [if_pos h1]
    · rw [(out_debug_val _ _ _).1]
      simp only [h1, true_or, and_true]
  by_cases h2 : s.cassette_format = CPT_FORMAT
  · refine ⟨out_cpt v (ddelta_us s) s, ?_, (out_cpt_val _ _ _).2.1, (out_cpt_val _ _ _).2.2, ?_⟩
    · intro h
      unfold transition_out
      rw [if_neg h]
      dsimp only
      rw [if_neg h1, if_pos h2]
    · rw [(out_cpt_val _ _ _).1]
      simp only [h2, true_or, or_true, and_true]
  by_cases h3 : s.cassette_format = WAV_FORMAT ∨ s.cassette_format = DIRECT_FORMAT
  · refine ⟨out_wav v (ddelta_us s) s, ?_, (out_wav_val _ _ _).2.1, (out_wav_val _ _ _).2.2, ?_⟩
    · intro h
      unfold transition_out
      rw [if_neg h]
      dsimp only
      rw [if_neg h1, if_neg h2, if_pos h3]
    · rw [(out_wav_val _ _ _).1]
      have : (s.cassette_format = DEBUG_FORMAT ∨ s.cassette_format = CPT_FORMAT
                  ∨ s.cassette_format = WAV_FORMAT ∨ s.cassette_format = DIRECT_FORMAT) :=
        Or.inr (Or.inr h3)
      simp only [this, and_true]
  have h4 : ¬ (s.cassette_format = DEBUG_FORMAT ∨ s.cassette_format = CPT_FORMAT
                  ∨ s.cassette_format = WAV_FORMAT ∨ s.cassette_format = DIRECT_FORMAT) := by
    rintro (h | h | h | h)
    · exact h1 h
    · exact h2 h
    · exact h3 (Or.inl h)
    · exact h3 (Or.inr h)
  by_cases h5 : s.cassette_format = CAS_FORMAT
  · refine ⟨out_cas v (ddelta_us s) s, ?_, (out_cas_val _ _ _).2.1, (out_cas_val _ _ _).2.2, ?_⟩
    · intro h
      unfold transition_out
      rw [if_neg h]
      dsimp only
      rw [if_neg h1, if_neg h2, if_neg h3, if_pos h5]
    · rw [(out_cas_val _ _ _).1, if_neg (fun h => h4 h.2)]
  · refine ⟨(v, s.say (Call.error "output format not implemented")), ?_, rfl, rfl, ?_⟩
    · intro h
      unfold transition_out
      rw [if_neg h]
      dsimp only
      rw [if_neg h1, if_neg h2, if_neg h3, if_neg h5]
    · rw [if_neg (fun h => h4 h.2)]

/-- Claim C27 (the engine acts only on a changed value): for a value `v` other
than `FLUSH`, `transition_out v` with `v` equal to `cassette_value` returns the
state as it was (nothing is written; value, transition time, round-off error,
recogniser state and bit buffer are unchanged); with `v` different from
`cassette_value` it leaves `cassette_value = v` and `cassette_transition` equal
to the current tick count, in every format. -/
theorem acts_only_on_changed_value (v : Int) (s : Cassette) (hv : v ≠ FLUSH) :
    (v = s.cassette_value → transition_out v s = s)
    ∧ (v ≠ s.cassette_value →
        (transition_out v s).cassette_value = v
        ∧ (transition_out v s).cassette_transition = s.t_count) := by
  constructor
  · intro h
    unfold transition_out
    rw [if_pos ⟨hv, h⟩]
  · intro h
    obtain ⟨r, h1, h2, _, h4⟩ := transition_out_arm v s
    rw [h1 (fun hh => h hh.2)]
    refine ⟨?_, h2⟩
    show r.1 = v
    rw [h4, if_neg (fun hh => hv hh.1)]

set_option maxRecDepth 100000 in
theorem acts_only_on_changed_value_witness :
    transition_out 0 (demo_writer "tape" CPT_FORMAT 1) = demo_writer "tape" CPT_FORMAT 1
    ∧ (transition_out 1 (demo_writer "tape" CPT_FORMAT 1)).cassette_value = 1 :=
  ⟨(acts_only_on_changed_value 0 (demo_writer "tape" CPT_FORMAT 1) (by decide)).1 (by decide),
   ((acts_only_on_changed_value 1 (demo_writer "tape" CPT_FORMAT 1) (by decide)).2
      (by decide)).1⟩

/-- In the CAS format `FLUSH` stays in `value`: the arm has no
`if (value == FLUSH) value = cassette_value`, and `cassette_value` becomes
`FLUSH`. -/
theorem cas_flush_value (s : Cassette) (hfmt : s.cassette_format = CAS_FORMAT) :
    (transition_out FLUSH s).cassette_value = FLUSH := by
  obtain ⟨r, h1, _, _, h4⟩ := transition_out_arm FLUSH s
  rw [h1 (fun hh => hh.1 rfl)]
  show r.1 = FLUSH
  rw [h4, if_neg]
  rintro ⟨_, h | h | h | h⟩ <;> rw [hfmt] at h <;> exact absurd h (by decide)

/-- Claim C22, amended (`FLUSH` is not stored as a signal level by the text,
pulse-train and wave encoders): in the DEBUG, CPT, WAV and DIRECT formats
`transition_out FLUSH` leaves `cassette_value` as it was; hence in these
formats `transition_out` keeps `cassette_value` in {0,1,2,3} whenever the value
presented is `FLUSH` or in {0,1,2,3}. -/
theorem flush_keeps_value (s : Cassette)
    (hfmt : s.cassette_format = DEBUG_FORMAT ∨ s.cassette_format = CPT_FORMAT
      ∨ s.cassette_format = WAV_FORMAT ∨ s.cassette_format = DIRECT_FORMAT) :
    (transition_out FLUSH s).cassette_value = s.cassette_value
    ∧ ∀ v : Int, (v = FLUSH ∨ (0 ≤ v ∧ v ≤ 3)) → (0 ≤ s.cassette_value ∧ s.cassette_value ≤ 3) →
        0 ≤ (transition_out v s).cassette_value ∧ (transition_out v s).cassette_value ≤ 3 := by
  have key : ∀ v : Int, ¬ (v ≠ FLUSH ∧ v = s.cassette_value) →
      (transition_out v s).cassette_value = if v = FLUSH then s.cassette_value else v := by
    intro v hv
    obtain ⟨r, h1, _, _, h4⟩ := transition_out_arm v s
    rw [h1 hv]
    show r.1 = _
    rw [h4]
    by_cases hF : v = FLUSH
    · rw [if_pos ⟨hF, hfmt⟩, if_pos hF]
    · rw [if_neg (fun hh => hF hh.1), if_neg hF]
  refine ⟨?_, ?_⟩
  · rw [key FLUSH (fun hh => hh.1 rfl), if_pos rfl]
  · intro v hv hs
    by_cases hsame : v ≠ FLUSH ∧ v = s.cassette_value
    · have : transition_out v s = s := by
        unfold transition_out
        rw [if_pos hsame]
      rw [this]
      exact hs
    · rw [key v hsame]
      rcases hv with hv | hv
      · rw [if_pos hv]
        exact hs
      · have : ¬ v = FLUSH := by
          intro h
          rw [h] at hv
          exact absurd hv.2 (by decide)
        rw [if_neg this]
        exact hv

theorem cas_put_bit_pulsestate (b : Int) (s : Cassette) :
    (cas_put_bit b s).cassette_pulsestate = s.cassette_pulsestate := by
  unfold cas_put_bit
  simp only
  repeat' split
  all_goals rfl

/-- The bit buffer of the CAS encoder: bit number, byte and stream. -/
theorem cas_put_bit_congr (b : Int) (s t : Cassette)
    (h : t.cassette_bitnumber = s.cassette_bitnumber ∧ t.cassette_byte = s.cassette_byte
      ∧ t.cassette_file = s.cassette_file) :
    (cas_put_bit b t).cassette_bitnumber = (cas_put_bit b s).cassette_bitnumber
    ∧ (cas_put_bit b t).cassette_byte = (cas_put_bit b s).cassette_byte
    ∧ (cas_put_bit b t).cassette_file = (cas_put_bit b s).cassette_file := by
  obtain ⟨h1, h2, h3⟩ := h
  unfold cas_put_bit on_file
  simp only [h1, h2, h3]
  repeat' split
  all_goals exact ⟨rfl, rfl, rfl⟩

/-- One call of `transition_out` in the CAS format with a changed value other
than `FLUSH`: the recogniser state afterwards, and the bit buffer, which is
unchanged when the recogniser finds no bit and has the bit shifted in when it
finds one. -/
theorem transition_out_cas_bit (s : Cassette) (v : Int) (hfmt : s.cassette_format = CAS_FORMAT)
    (hv : v ≠ FLUSH) (hne : v ≠ s.cassette_value) (st bit : Int)
    (hr : cas_recognise s.cassette_pulsestate s.cassette_value v (ddelta_us s) = (st, bit)) :
    (transition_out v s).cassette_pulsestate = st
    ∧ (bit = 2 →
        (transition_out v s).cassette_bitnumber = s.cassette_bitnumber
        ∧ (transition_out v s).cassette_byte = s.cassette_byte
        ∧ (transition_out v s).cassette_file = s.cassette_file)
    ∧ (bit ≠ 2 →
        (transition_out v s).cassette_bitnumber = (cas_put_bit bit s).cassette_bitnumber
        ∧ (transition_out v s).cassette_byte = (cas_put_bit bit s).cassette_byte
        ∧ (transition_out v s).cassette_file = (cas_put_bit bit s).cassette_file) := by
  rw [transition_out_cas s v hfmt hv hne, hr]
  by_cases hb : bit = 2
  · refine ⟨?_, fun _ => ?_, fun h => absurd hb h⟩
    · simp only [hb, if_true]
    · simp only [hb, if_true]
      exact ⟨trivial, trivial, trivial⟩
  · refine ⟨?_, fun h => absurd h hb, fun _ => ?_⟩
    · simp only [hb, if_false]
      exact cas_put_bit_pulsestate _ _
    · simp only [hb, if_false]
      exact cas_put_bit_congr bit s { s with cassette_pulsestate := st } ⟨rfl, rfl, rfl⟩

theorem transition_out_cas_eq (s : Cassette) (v : Int) (hfmt : s.cassette_format = CAS_FORMAT)
    (h : ¬ (v ≠ FLUSH ∧ v = s.cassette_value)) :
    transition_out v s
      = { (out_cas v (ddelta_us s) s).2 with
            last_sound := if (out_cas v (ddelta_us s) s).2.cassette_value
                              ≠ (out_cas v (ddelta_us s) s).1
                          then (out_cas v (ddelta_us s) s).2.t_count
                          else (out_cas v (ddelta_us s) s).2.last_sound,
            cassette_transition := (out_cas v (ddelta_us s) s).2.t_count,
            cassette_value := (out_cas v (ddelta_us s) s).1 } := by
  unfold transition_out
  rw [if_neg h]
  dsimp only
  rw [if_neg (by rw [hfmt]; decide), if_neg (by rw [hfmt]; decide),
    if_neg (by rw [hfmt]; decide), if_pos hfmt]

theorem out_cas_pulsestate (v : Int) (dd : ℚ) (s : Cassette) :
    (out_cas v dd s).2.cassette_pulsestate
      = if v = FLUSH ∧ s.cassette_bitnumber ≠ 0 then s.cassette_pulsestate
        else (cas_recognise s.cassette_pulsestate s.cassette_value v dd).1 := by
  unfold out_cas
  dsimp only
  split
  · rfl
  · split
    · rfl
    · exact cas_put_bit_pulsestate _ _

theorem cas_recognise_high (cv v : Int) (dd : ℚ) :
    (cas_recognise ST_HIGH cv v dd).1 = ST_HIGH := by
  unfold cas_recognise
  rw [if_neg (by decide), if_neg (by decide), if_neg (by decide), if_pos rfl]
  split <;> rfl

theorem transition_out_format (v : Int) (s : Cassette) :
    (transition_out v s).cassette_format = s.cassette_format :=
  (transition_out_same v s).2.2.1

/-- The recogniser never leaves the high-speed state. -/
theorem transition_out_stays_high (v : Int) (s : Cassette) (hfmt : s.cassette_format = CAS_FORMAT)
    (hst : s.cassette_pulsestate = ST_HIGH) :
    (transition_out v s).cassette_pulsestate = ST_HIGH := by
  by_cases h : v ≠ FLUSH ∧ v = s.cassette_value
  · have : transition_out v s = s := by
      unfold transition_out
      rw [if_pos h]
    rw [this, hst]
  · rw [transition_out_cas_eq s v hfmt h]
    show (out_cas v (ddelta_us s) s).2.cassette_pulsestate = ST_HIGH
    rw [out_cas_pulsestate]
    split
    · exact hst
    · rw [hst]
      exact cas_recognise_high _ _ _

theorem out_run_stays_high (rs : List (Int × Nat)) : ∀ s : Cassette,
    s.cassette_format = CAS_FORMAT → s.cassette_pulsestate = ST_HIGH →
    (out_run rs s).cassette_pulsestate = ST_HIGH := by
  induction rs with
  | nil => intro s _ h; exact h
  | cons r rs ih =>
    intro s hf hp
    show (out_run rs (transition_out r.1 { s with t_count := tadd s.t_count r.2 })).cassette_pulsestate
      = ST_HIGH
    apply ih
    · rw [transition_out_format]
      exact hf
    · exact transition_out_stays_high _ _ hf hp

theorem recognise_gotclk (d : ℚ) :
    cas_recognise ST_LOGOTCLK 0 1 d = if d > 1250 then (ST_INITIAL, 0) else (ST_LOGOTDAT, 1) := by
  unfold cas_recognise
  rw [if_neg (by decide), if_pos rfl, if_pos ⟨rfl, rfl⟩]
  rfl

theorem recognise_high (cv v : Int) (d : ℚ) :
    cas_recognise ST_HIGH cv v d
      = if cv = 1 ∧ v = 2 then (ST_HIGH, if d < 282 then 1 else 0) else (ST_HIGH, 2) := by
  unfold cas_recognise
  rw [if_neg (by decide), if_neg (by decide), if_neg (by decide), if_pos rfl]
  rfl

theorem int_lor_zero (x : Int) : Int.lor x 0 = x := by
  cases x with
  | ofNat m => show Int.ofNat (m ||| 0) = Int.ofNat m; rw [Nat.or_zero]
  | negSucc m =>
    show Int.negSucc (Nat.ldiff m 0) = Int.negSucc m
    have h : Nat.ldiff m 0 = m := by
      apply Nat.eq_of_testBit_eq
      intro i
      simp [Nat.testBit_ldiff]
    rw [h]

/-- The bit buffer after `cas_put_bit 0`: the bit number steps down from 7
to 0 cyclically, the byte under assembly keeps its bits, and when bit number 0
is reached the byte is written and the buffer cleared. -/
theorem cas_put_bit_zero (s : Cassette) :
    (cas_put_bit 0 s).cassette_bitnumber
        = (if s.cassette_bitnumber - 1 < 0 then 7 else s.cassette_bitnumber - 1)
    ∧ (cas_put_bit 0 s).cassette_byte
        = (if (if s.cassette_bitnumber - 1 < 0 then (7 : Int) else s.cassette_bitnumber - 1) = 0
           then 0 else s.cassette_byte)
    ∧ (cas_put_bit 0 s).cassette_file
        = (if (if s.cassette_bitnumber - 1 < 0 then (7 : Int) else s.cassette_bitnumber - 1) = 0
           then s.cassette_file.map (fun f => (putc s.cassette_byte f).2)
           else s.cassette_file) := by
  obtain ⟨h1, h2, h3, _⟩ := cas_put_bit_fields 0 s
  rw [zero_mul, int_lor_zero] at h2 h3
  exact ⟨h1, h2, h3⟩

/-- The bit buffer after `cas_put_bit 1`: the bit number steps down from 7
to 0 cyclically, the bit of that number is set in the byte under assembly, and
when bit number 0 is reached the byte is written and the buffer cleared. -/
theorem cas_put_bit_one (s : Cassette) :
    (cas_put_bit 1 s).cassette_bitnumber
        = (if s.cassette_bitnumber - 1 < 0 then 7 else s.cassette_bitnumber - 1)
    ∧ (cas_put_bit 1 s).cassette_byte
        = (if (if s.cassette_bitnumber - 1 < 0 then (7 : Int) else s.cassette_bitnumber - 1) = 0
           then 0
           else Int.lor s.cassette_byte (2 ^
             (if s.cassette_bitnumber - 1 < 0 then (7 : Int) else s.cassette_bitnumber - 1).toNat))
    ∧ (cas_put_bit 1 s).cassette_file
        = (if (if s.cassette_bitnumber - 1 < 0 then (7 : Int) else s.cassette_bitnumber - 1) = 0
           then s.cassette_file.map (fun f => (putc (Int.lor s.cassette_byte 1) f).2)
           else s.cassette_file) := by
  obtain ⟨h1, h2, h3, _⟩ := cas_put_bit_fields 1 s
  rw [one_mul] at h2 h3
  refine ⟨h1, h2, ?_⟩
  rw [h3]
  by_cases h0 : (if s.cassette_bitnumber - 1 < 0 then (7 : Int) else s.cassette_bitnumber - 1) = 0
  · rw [if_pos h0, if_pos h0, h0]
    rfl
  · rw [if_neg h0, if_neg h0]

/-- Claim C23 (low-speed threshold): in the CAS encoder in recogniser state
`ST_LOGOTCLK`, an edge from value 0 to value 1 after an ideal elapsed time of
`d = ddelta_us s` microseconds shifts in the bit 0 and returns the recogniser to
`ST_INITIAL` if `d > 1250`, and otherwise shifts in the bit 1 and moves to
`ST_LOGOTDAT`.  Shifting in a bit is stated by its effect on the bit buffer:
the bit number steps from `n` to `n - 1`, or to 7 when `n - 1` is negative; the
bit 1 sets the bit of the new number in the byte under assembly, the bit 0
leaves the byte as it is; and when the new bit number is 0 the finished byte is
written to the file with `putc` and the byte under assembly is cleared.  The
recogniser is back in `ST_INITIAL` exactly when `d > 1250`.  The decision at
1249 and at 1250 is bit 1, at 1251 bit 0. -/
theorem low_speed_threshold (s : Cassette) (hfmt : s.cassette_format = CAS_FORMAT)
    (hst : s.cassette_pulsestate = ST_LOGOTCLK) (hv : s.cassette_value = 0) :
    (transition_out 1 s).cassette_bitnumber
        = (if s.cassette_bitnumber - 1 < 0 then 7 else s.cassette_bitnumber - 1)
    ∧ (ddelta_us s > 1250 →
        (transition_out 1 s).cassette_pulsestate = ST_INITIAL
        ∧ (transition_out 1 s).cassette_byte
            = (if (transition_out 1 s).cassette_bitnumber = 0 then 0 else s.cassette_byte)
        ∧ (transition_out 1 s).cassette_file
            = (if (transition_out 1 s).cassette_bitnumber = 0
               then s.cassette_file.map (fun f => (putc s.cassette_byte f).2)
               else s.cassette_file))
    ∧ (¬ ddelta_us s > 1250 →
        (transition_out 1 s).cassette_pulsestate = ST_LOGOTDAT
        ∧ (transition_out 1 s).cassette_byte
            = (if (transition_out 1 s).cassette_bitnumber = 0 then 0
               else Int.lor s.cassette_byte
                 (2 ^ (transition_out 1 s).cassette_bitnumber.toNat))
        ∧ (transition_out 1 s).cassette_file
            = (if (transition_out 1 s).cassette_bitnumber = 0
               then s.cassette_file.map (fun f => (putc (Int.lor s.cassette_byte 1) f).2)
               else s.cassette_file))
    ∧ ((transition_out 1 s).cassette_pulsestate = ST_INITIAL ↔ ddelta_us s > 1250)
    ∧ cas_recognise ST_LOGOTCLK 0 1 1249 = (ST_LOGOTDAT, 1)
    ∧ cas_recognise ST_LOGOTCLK 0 1 1250 = (ST_LOGOTDAT, 1)
    ∧ cas_recognise ST_LOGOTCLK 0 1 1251 = (ST_INITIAL, 0) := by
  have hne : (1 : Int) ≠ s.cassette_value := by rw [hv]; decide
  have hrec := recognise_gotclk (ddelta_us s)
  have hbig : ddelta_us s > 1250 →
      (transition_out 1 s).cassette_pulsestate = ST_INITIAL
      ∧ (transition_out 1 s).cassette_bitnumber = (cas_put_bit 0 s).cassette_bitnumber
      ∧ (transition_out 1 s).cassette_byte = (cas_put_bit 0 s).cassette_byte
      ∧ (transition_out 1 s).cassette_file = (cas_put_bit 0 s).cassette_file := by
    intro h
    rw [if_pos h] at hrec
    obtain ⟨k1, _, k3⟩ := transition_out_cas_bit s 1 hfmt (by decide) hne ST_INITIAL 0
      (by rw [hst, hv]; exact hrec)
    exact ⟨k1, k3 (by decide)⟩
  have hsmall : ¬ ddelta_us s > 1250 →
      (transition_out 1 s).cassette_pulsestate = ST_LOGOTDAT
      ∧ (transition_out 1 s).cassette_bitnumber = (cas_put_bit 1 s).cassette_bitnumber
      ∧ (transition_out 1 s).cassette_byte = (cas_put_bit 1 s).cassette_byte
      ∧ (transition_out 1 s).cassette_file = (cas_put_bit 1 s).cassette_file := by
    intro h
    rw [if_neg h] at hrec
    obtain ⟨k1, _, k3⟩ := transition_out_cas_bit s 1 hfmt (by decide) hne ST_LOGOTDAT 1
      (by rw [hst, hv]; exact hrec)
    exact ⟨k1, k3 (by decide)⟩
  obtain ⟨z1, z2, z3⟩ := cas_put_bit_zero s
  obtain ⟨o1, o2, o3⟩ := cas_put_bit_one s
  have hbn : (transition_out 1 s).cassette_bitnumber
      = (if s.cassette_bitnumber - 1 < 0 then 7 else s.cassette_bitnumber - 1) := by
    by_cases h : ddelta_us s > 1250
    · rw [(hbig h).2.1, z1]
    · rw [(hsmall h).2.1, o1]
  refine ⟨hbn, ?_, ?_, ⟨?_, fun h => (hbig h).1⟩, ?_, ?_, ?_⟩
  · intro h
    obtain ⟨k1, _, k3, k4⟩ := hbig h
    refine ⟨k1, ?_, ?_⟩
    · rw [hbn, k3, z2]
    · rw [hbn, k4, z3]
  · intro h
    obtain ⟨k1, _, k3, k4⟩ := hsmall h
    refine ⟨k1, ?_, ?_⟩
    · rw [hbn, k3, o2]
    · rw [hbn, k4, o3]
  · intro h
    by_contra hc
    rw [(hsmall hc).1] at h
    exact absurd h (by decide)
  · rw [recognise_gotclk, if_neg (by norm_num)]
  · rw [recognise_gotclk, if_neg (by norm_num)]
  · rw [recognise_gotclk, if_pos (by norm_num)]

/-- Claim C24 (high-speed threshold): in the CAS encoder in recogniser state
`ST_HIGH` the recogniser stays in `ST_HIGH` whatever is presented to
`transition_out`, and however many transitions follow; an edge from value 1 to
value 2 after an ideal elapsed time of `d = ddelta_us s` microseconds shifts in
exactly one bit, 1 if `d < 282` and 0 otherwise; any other changed value (not
`FLUSH`) leaves the bit buffer as it was.  Shifting in a bit is stated by its
effect on the bit buffer: the bit number steps from `n` to `n - 1`, or to 7
when `n - 1` is negative; the bit 1 sets the bit of the new number in the byte
under assembly, the bit 0 leaves the byte as it is; and when the new bit number
is 0 the finished byte is written to the file with `putc` and the byte under
assembly is cleared.  The decision at 281 is bit 1, at 282 and at 283 bit 0. -/
theorem high_speed_threshold (s : Cassette) (hfmt : s.cassette_format = CAS_FORMAT)
    (hst : s.cassette_pulsestate = ST_HIGH) :
    (∀ v : Int, (transition_out v s).cassette_pulsestate = ST_HIGH)
    ∧ (∀ rs : List (Int × Nat), (out_run rs s).cassette_pulsestate = ST_HIGH)
    ∧ (s.cassette_value = 1 →
        (transition_out 2 s).cassette_bitnumber
          = (if s.cassette_bitnumber - 1 < 0 then 7 else s.cassette_bitnumber - 1))
    ∧ (s.cassette_value = 1 → ddelta_us s < 282 →
        (transition_out 2 s).cassette_byte
            = (if (transition_out 2 s).cassette_bitnumber = 0 then 0
               else Int.lor s.cassette_byte
                 (2 ^ (transition_out 2 s).cassette_bitnumber.toNat))
        ∧ (transition_out 2 s).cassette_file
            = (if (transition_out 2 s).cassette_bitnumber = 0
               then s.cassette_file.map (fun f => (putc (Int.lor s.cassette_byte 1) f).2)
               else s.cassette_file))
    ∧ (s.cassette_value = 1 → ¬ ddelta_us s < 282 →
        (transition_out 2 s).cassette_byte
            = (if (transition_out 2 s).cassette_bitnumber = 0 then 0 else s.cassette_byte)
        ∧ (transition_out 2 s).cassette_file
            = (if (transition_out 2 s).cassette_bitnumber = 0
               then s.cassette_file.map (fun f => (putc s.cassette_byte f).2)
               else s.cassette_file))
    ∧ (∀ v : Int, v ≠ FLUSH → ¬ (s.cassette_value = 1 ∧ v = 2) →
        (transition_out v s).cassette_bitnumber = s.cassette_bitnumber
        ∧ (transition_out v s).cassette_byte = s.cassette_byte
        ∧ (transition_out v s).cassette_file = s.cassette_file)
    ∧ cas_recognise ST_HIGH 1 2 281 = (ST_HIGH, 1)
    ∧ cas_recognise ST_HIGH 1 2 282 = (ST_HIGH, 0)
    ∧ cas_recognise ST_HIGH 1 2 283 = (ST_HIGH, 0) := by
  have hone : s.cassette_value = 1 → ddelta_us s < 282 →
      (transition_out 2 s).cassette_bitnumber = (cas_put_bit 1 s).cassette_bitnumber
      ∧ (transition_out 2 s).cassette_byte = (cas_put_bit 1 s).cassette_byte
      ∧ (transition_out 2 s).cassette_file = (cas_put_bit 1 s).cassette_file := by
    intro hv hd
    have hrec := recognise_high 1 2 (ddelta_us s)
    rw [if_pos ⟨rfl, rfl⟩, if_pos hd] at hrec
    exact (transition_out_cas_bit s 2 hfmt (by decide) (by rw [hv]; decide) ST_HIGH 1
      (by rw [hst, hv]; exact hrec)).2.2 (by decide)
  have hzero : s.cassette_value = 1 → ¬ ddelta_us s < 282 →
      (transition_out 2 s).cassette_bitnumber = (cas_put_bit 0 s).cassette_bitnumber
      ∧ (transition_out 2 s).cassette_byte = (cas_put_bit 0 s).cassette_byte
      ∧ (transition_out 2 s).cassette_file = (cas_put_bit 0 s).cassette_file := by
    intro hv hd
    have hrec := recognise_high 1 2 (ddelta_us s)
    rw [if_pos ⟨rfl, rfl⟩, if_neg hd] at hrec
    exact (transition_out_cas_bit s 2 hfmt (by decide) (by rw [hv]; decide) ST_HIGH 0
      (by rw [hst, hv]; exact hrec)).2.2 (by decide)
  obtain ⟨z1, z2, z3⟩ := cas_put_bit_zero s
  obtain ⟨o1, o2, o3⟩ := cas_put_bit_one s
  have hbn : s.cassette_value = 1 → (transition_out 2 s).cassette_bitnumber
      = (if s.cassette_bitnumber - 1 < 0 then 7 else s.cassette_bitnumber - 1) := by
    intro hv
    by_cases h : ddelta_us s < 282
    · rw [(hone hv h).1, o1]
    · rw [(hzero hv h).1, z1]
  refine ⟨fun v => transition_out_stays_high v s hfmt hst,
    fun rs => out_run_stays_high rs s hfmt hst, hbn, ?_, ?_, ?_, ?_, ?_, ?_⟩
  · intro hv hd
    obtain ⟨_, k3, k4⟩ := hone hv hd
    refine ⟨?_, ?_⟩
    · rw [hbn hv, k3, o2]
    · rw [hbn hv, k4, o3]
  · intro hv hd
    obtain ⟨_, k3, k4⟩ := hzero hv hd
    refine ⟨?_, ?_⟩
    · rw [hbn hv, k3, z2]
    · rw [hbn hv, k4, z3]
  · intro v hv hedge
    by_cases hsame : v = s.cassette_value
    · have : transition_out v s = s := by
        unfold transition_out
        rw [if_pos ⟨hv, hsame⟩]
      rw [this]
      exact ⟨rfl, rfl, rfl⟩
    · have hrec := recognise_high s.cassette_value v (ddelta_us s)
      rw [if_neg hedge] at hrec
      exact (transition_out_cas_bit s v hfmt hv hsame ST_HIGH 2
        (by rw [hst]; exact hrec)).2.1 rfl
  · rw [recognise_high, if_pos ⟨rfl, rfl⟩, if_pos (by norm_num)]
  · rw [recognise_high, if_pos ⟨rfl, rfl⟩, if_neg (by norm_num)]
  · rw [recognise_high, if_pos ⟨rfl, rfl⟩, if_neg (by norm_num)]

/-- The elapsed time seen by the encoder `ticks` ticks after the clock pulse
1, 2, 0 of a low-speed bit, at 1 MHz. -/
theorem demo_gotclk_ddelta (ticks : Nat) (h : ticks < 2 ^ 63) :
    ddelta_us { out_run [(1, 0), (2, 128), (0, 128)] (demo_writer "out.cas" CAS_FORMAT 1) with
        t_count := 256 + ticks } = ticks := by
  have e : tsub (256 + ticks)
      (out_run [(1, 0), (2, 128), (0, 128)] (demo_writer "out.cas" CAS_FORMAT 1)).cassette_transition
      = ticks := by
    have : (out_run [(1, 0), (2, 128), (0, 128)]
        (demo_writer "out.cas" CAS_FORMAT 1)).cassette_transition = 256 := by decide
    rw [this]
    unfold tsub
    omega
  have c : (out_run [(1, 0), (2, 128), (0, 128)] (demo_writer "out.cas" CAS_FORMAT 1)).clockMHz
      = 1 := by decide
  have r : (out_run [(1, 0), (2, 128), (0, 128)]
      (demo_writer "out.cas" CAS_FORMAT 1)).cassette_roundoff_error = 0 := by decide
  show ((tsub (256 + ticks) _ : Nat) : ℚ) / _ - _ = _
  rw [e, c, r]
  norm_num

/-- The elapsed time seen by the encoder `ticks` ticks after the rising edge
2, 1 that puts the recogniser in `ST_HIGH`, at 1 MHz. -/
theorem demo_high_ddelta (ticks : Nat) (h : ticks < 2 ^ 63) :
    ddelta_us { out_run [(2, 0), (1, 188)] (demo_writer "out.cas" CAS_FORMAT 1) with
        t_count := 188 + ticks } = ticks := by
  have e : tsub (188 + ticks)
      (out_run [(2, 0), (1, 188)] (demo_writer "out.cas" CAS_FORMAT 1)).cassette_transition
      = ticks := by
    have : (out_run [(2, 0), (1, 188)]
        (demo_writer "out.cas" CAS_FORMAT 1)).cassette_transition = 188 := by decide
    rw [this]
    unfold tsub
    omega
  have c : (out_run [(2, 0), (1, 188)] (demo_writer "out.cas" CAS_FORMAT 1)).clockMHz
      = 1 := by decide
  have r : (out_run [(2, 0), (1, 188)]
      (demo_writer "out.cas" CAS_FORMAT 1)).cassette_roundoff_error = 0 := by decide
  show ((tsub (188 + ticks) _ : Nat) : ℚ) / _ - _ = _
  rw [e, c, r]
  norm_num

set_option maxRecDepth 100000 in
theorem low_speed_threshold_witness :
    ((transition_out 1
      { out_run [(1, 0), (2, 128), (0, 128)] (demo_writer "out.cas" CAS_FORMAT 1) with
          t_count := 256 + 1250 }).cassette_pulsestate = ST_LOGOTDAT
      ∧ (transition_out 1
      { out_run [(1, 0), (2, 128), (0, 128)] (demo_writer "out.cas" CAS_FORMAT 1) with
          t_count := 256 + 1250 }).cassette_bitnumber = 7
      ∧ (transition_out 1
      { out_run [(1, 0), (2, 128), (0, 128)] (demo_writer "out.cas" CAS_FORMAT 1) with
          t_count := 256 + 1250 }).cassette_byte = 0x80)
    ∧ ((transition_out 1
      { out_run [(1, 0), (2, 128), (0, 128)] (demo_writer "out.cas" CAS_FORMAT 1) with
          t_count := 256 + 1251 }).cassette_pulsestate = ST_INITIAL
      ∧ (transition_out 1
      { out_run [(1, 0), (2, 128), (0, 128)] (demo_writer "out.cas" CAS_FORMAT 1) with
          t_count := 256 + 1251 }).cassette_bitnumber = 7
      ∧ (transition_out 1
      { out_run [(1, 0), (2, 128), (0, 128)] (demo_writer "out.cas" CAS_FORMAT 1) with
          t_count := 256 + 1251 }).cassette_byte = 0) := by
  have a := low_speed_threshold
      { out_run [(1, 0), (2, 128), (0, 128)] (demo_writer "out.cas" CAS_FORMAT 1) with
          t_count := 256 + 1250 } (by decide) (by decide) (by decide)
  have b := low_speed_threshold
      { out_run [(1, 0), (2, 128), (0, 128)] (demo_writer "out.cas" CAS_FORMAT 1) with
          t_count := 256 + 1251 } (by decide) (by decide) (by decide)
  have a7 := a.1.trans (show _ = (7 : Int) by decide)
  have b7 := b.1.trans (show _ = (7 : Int) by decide)
  obtain ⟨a1, a2, _⟩ := a.2.2.1 (by rw [demo_gotclk_ddelta 1250 (by norm_num)]; norm_num)
  obtain ⟨b1, b2, _⟩ := b.2.1 (by rw [demo_gotclk_ddelta 1251 (by norm_num)]; norm_num)
  rw [a7] at a2
  rw [b7] at b2
  exact ⟨⟨a1, a7, a2.trans (by decide)⟩, ⟨b1, b7, b2.trans (by decide)⟩⟩

set_option maxRecDepth 100000 in
theorem high_speed_threshold_witness :
    ((transition_out 2
      { out_run [(2, 0), (1, 188)] (demo_writer "out.cas" CAS_FORMAT 1) with
          t_count := 188 + 281 }).cassette_pulsestate = ST_HIGH
      ∧ (transition_out 2
      { out_run [(2, 0), (1, 188)] (demo_writer "out.cas" CAS_FORMAT 1) with
          t_count := 188 + 281 }).cassette_bitnumber = 7
      ∧ (transition_out 2
      { out_run [(2, 0), (1, 188)] (demo_writer "out.cas" CAS_FORMAT 1) with
          t_count := 188 + 281 }).cassette_byte = 0x80)
    ∧ ((transition_out 2
      { out_run [(2, 0), (1, 188)] (demo_writer "out.cas" CAS_FORMAT 1) with
          t_count := 188 + 282 }).cassette_pulsestate = ST_HIGH
      ∧ (transition_out 2
      { out_run [(2, 0), (1, 188)] (demo_writer "out.cas" CAS_FORMAT 1) with
          t_count := 188 + 282 }).cassette_bitnumber = 7
      ∧ (transition_out 2
      { out_run [(2, 0), (1, 188)] (demo_writer "out.cas" CAS_FORMAT 1) with
          t_count := 188 + 282 }).cassette_byte = 0) := by
  have a := high_speed_threshold
      { out_run [(2, 0), (1, 188)] (demo_writer "out.cas" CAS_FORMAT 1) with
          t_count := 188 + 281 } (by decide) (by decide)
  have b := high_speed_threshold
      { out_run [(2, 0), (1, 188)] (demo_writer "out.cas" CAS_FORMAT 1) with
          t_count := 188 + 282 } (by decide) (by decide)
  have a7 := (a.2.2.1 (by decide)).trans (show _ = (7 : Int) by decide)
  have b7 := (b.2.2.1 (by decide)).trans (show _ = (7 : Int) by decide)
  obtain ⟨a2, _⟩ := a.2.2.2.1 (by decide)
    (by rw [demo_high_ddelta 281 (by norm_num)]; norm_num)
  obtain ⟨b2, _⟩ := b.2.2.2.2.1 (by decide)
    (by rw [demo_high_ddelta 282 (by norm_num)]; norm_num)
  rw [a7] at a2
  rw [b7] at b2
  exact ⟨⟨a.1 2, a7, a2.trans (by decide)⟩, ⟨b.1 2, b7, b2.trans (by decide)⟩⟩


set_option maxRecDepth 100000 in
theorem cas_pack_partial : ∀ (b1 b2 b3 b4 b5 b6 b7 : Fin 2) (k : Fin 8),
    cas_pack ([(b1.val : Int), (b2.val : Int), (b3.val : Int), (b4.val : Int), (b5.val : Int),
        (b6.val : Int), (b7.val : Int)].take k.val) (0, 0, [])
      = (if k.val = 0 then 0 else 8 - (k.val : Int),
         msb_value ([(b1.val : Int), (b2.val : Int), (b3.val : Int), (b4.val : Int),
           (b5.val : Int), (b6.val : Int), (b7.val : Int)].take k.val) 7, []) := by
  decide

theorem msb_value_lt : ∀ (b1 b2 b3 b4 b5 b6 b7 : Fin 2) (k : Fin 8),
    0 ≤ msb_value ([(b1.val : Int), (b2.val : Int), (b3.val : Int), (b4.val : Int),
           (b5.val : Int), (b6.val : Int), (b7.val : Int)].take k.val) 7
    ∧ msb_value ([(b1.val : Int), (b2.val : Int), (b3.val : Int), (b4.val : Int),
           (b5.val : Int), (b6.val : Int), (b7.val : Int)].take k.val) 7 < 256 := by
  decide

theorem recognise_flush (p cv : Int) (dd : ℚ) : cas_recognise p cv FLUSH dd = (p, 2) := by
  unfold cas_recognise
  have n0 : ¬ (FLUSH = (0 : Int)) := by decide
  have n1 : ¬ (FLUSH = (1 : Int)) := by decide
  have n2 : ¬ (FLUSH = (2 : Int)) := by decide
  simp only [n0, n1, n2, and_false, if_false, ite_self]

/-- `transition_out FLUSH` in the CAS format: a pending partial byte is written
and the byte buffer cleared; with no bit pending nothing is written. -/
theorem transition_out_cas_flush (s : Cassette) (hfmt : s.cassette_format = CAS_FORMAT) :
    (s.cassette_bitnumber ≠ 0 →
        (transition_out FLUSH s).cassette_file
            = s.cassette_file.map (fun f => (putc s.cassette_byte f).2)
        ∧ (transition_out FLUSH s).cassette_byte = 0)
    ∧ (s.cassette_bitnumber = 0 →
        (transition_out FLUSH s).cassette_file = s.cassette_file
        ∧ (transition_out FLUSH s).cassette_byte = s.cassette_byte) := by
  rw [transition_out_cas_eq s FLUSH hfmt (fun h => h.1 rfl)]
  constructor
  · intro h
    unfold out_cas
    rw [if_pos ⟨rfl, h⟩]
    exact ⟨rfl, rfl⟩
  · intro h
    unfold out_cas
    rw [if_neg (fun hh => hh.2 h)]
    dsimp only
    rw [recognise_flush, if_pos rfl]
    exact ⟨rfl, rfl⟩

theorem put_bits_format (bits : List Int) : ∀ s : Cassette,
    (put_bits bits s).cassette_format = s.cassette_format := by
  induction bits with
  | nil => intro s; rfl
  | cons b bs ih =>
    intro s
    show (put_bits bs (cas_put_bit b s)).cassette_format = _
    rw [ih, (cas_put_bit_fields b s).2.2.2.1]

/-- Claim C26 (CAS `FLUSH` of a partial byte): starting from an empty bit
buffer on a stream that takes writes, after the `k` bits `b1 .. bk`
(`k <= 7`) have been shifted in nothing has been written; `transition_out
FLUSH` then writes, for `1 <= k`, exactly one byte, whose `k` most significant
bits are `b1 .. bk` in order and whose other bits are 0, and clears the byte
buffer; for `k = 0` it writes nothing. -/
theorem cas_flush_partial_byte (s : Cassette) (f : FILE) (b1 b2 b3 b4 b5 b6 b7 : Int) (k : Nat)
    (hfmt : s.cassette_format = CAS_FORMAT)
    (hb : (b1 = 0 ∨ b1 = 1) ∧ (b2 = 0 ∨ b2 = 1) ∧ (b3 = 0 ∨ b3 = 1) ∧ (b4 = 0 ∨ b4 = 1)
      ∧ (b5 = 0 ∨ b5 = 1) ∧ (b6 = 0 ∨ b6 = 1) ∧ (b7 = 0 ∨ b7 = 1))
    (hk : k ≤ 7)
    (hempty : s.cassette_bitnumber = 0 ∧ s.cassette_byte = 0)
    (hf : s.cassette_file = some f ∧ f.wr = true ∧ f.full = false) :
    (put_bits ([b1, b2, b3, b4, b5, b6, b7].take k) s).cassette_file = some f
    ∧ (1 ≤ k →
        (transition_out FLUSH (put_bits ([b1, b2, b3, b4, b5, b6, b7].take k) s)).cassette_file
            = some (store_bytes [(msb_value ([b1, b2, b3, b4, b5, b6, b7].take k) 7).toNat] f)
        ∧ (transition_out FLUSH
            (put_bits ([b1, b2, b3, b4, b5, b6, b7].take k) s)).cassette_byte = 0)
    ∧ (k = 0 →
        (transition_out FLUSH (put_bits ([b1, b2, b3, b4, b5, b6, b7].take k) s)).cassette_file
            = some f) := by
  obtain ⟨h1, h2, h3, h4, h5, h6, h7⟩ := hb
  obtain ⟨c1, rfl⟩ := bit_fin b1 h1
  obtain ⟨c2, rfl⟩ := bit_fin b2 h2
  obtain ⟨c3, rfl⟩ := bit_fin b3 h3
  obtain ⟨c4, rfl⟩ := bit_fin b4 h4
  obtain ⟨c5, rfl⟩ := bit_fin b5 h5
  obtain ⟨c6, rfl⟩ := bit_fin b6 h6
  obtain ⟨c7, rfl⟩ := bit_fin b7 h7
  obtain ⟨bits, hbits⟩ : ∃ bits : List Int, bits = [((c1.val : Nat) : Int), ((c2.val : Nat) : Int),
      ((c3.val : Nat) : Int), ((c4.val : Nat) : Int), ((c5.val : Nat) : Int),
      ((c6.val : Nat) : Int), ((c7.val : Nat) : Int)].take k := ⟨_, rfl⟩
  have hpk := cas_pack_partial c1 c2 c3 c4 c5 c6 c7 ⟨k, by omega⟩
  have hlt := msb_value_lt c1 c2 c3 c4 c5 c6 c7 ⟨k, by omega⟩
  simp only [← hbits] at hpk hlt ⊢
  have hrel : s.cassette_bitnumber = ((0 : Int), (0 : Int), ([] : List Nat)).1
      ∧ s.cassette_byte = ((0 : Int), (0 : Int), ([] : List Nat)).2.1
      ∧ s.cassette_file = some (store_bytes ((0 : Int), (0 : Int), ([] : List Nat)).2.2 f) :=
    ⟨hempty.1, hempty.2, hf.1⟩
  obtain ⟨p1, p2, p3⟩ := put_bits_pack f hf.2.1 hf.2.2 bits s _ hrel
  rw [hpk] at p1 p2 p3
  have hfile : (put_bits bits s).cassette_file = some f := p3
  have hfm : (put_bits bits s).cassette_format = CAS_FORMAT := by rw [put_bits_format, hfmt]
  obtain ⟨fl1, fl2⟩ := transition_out_cas_flush (put_bits bits s) hfm
  refine ⟨hfile, ?_, ?_⟩
  · intro hk1
    have hbn : (put_bits bits s).cassette_bitnumber ≠ 0 := by
      rw [p1]
      show (if k = 0 then (0 : Int) else 8 - (k : Int)) ≠ 0
      rw [if_neg (by omega)]
      omega
    obtain ⟨g1, g2⟩ := fl1 hbn
    refine ⟨?_, g2⟩
    rw [g1, hfile, p2, Option.map_some']
    show some (putc (msb_value bits 7) f).2 = _
    rw [putc_ok _ _ hf.2.1 hf.2.2, Int.emod_eq_of_lt hlt.1 hlt.2]
  · intro hk0
    have hbn : (put_bits bits s).cassette_bitnumber = 0 := by
      rw [p1]
      show (if k = 0 then (0 : Int) else 8 - (k : Int)) = 0
      rw [if_pos hk0]
    rw [(fl2 hbn).1, hfile]

set_option maxRecDepth 100000 in
theorem cas_flush_partial_byte_witness :
    (transition_out FLUSH (put_bits [1, 0, 1] (demo_writer "out.cas" CAS_FORMAT 1))).cassette_file
      = some (store_bytes [0xA0] (FILE.mk 0 "out.cas" [] 0 false true false)) :=
  ((cas_flush_partial_byte (demo_writer "out.cas" CAS_FORMAT 1)
      (FILE.mk 0 "out.cas" [] 0 false true false) 1 0 1 0 0 0 0 3 (by decide) (by decide)
      (by decide) (by decide) (by decide)).2.1 (by decide)).1


theorem cas_emit_delta (s : Cassette) :
    (cas_emit s).2.cassette_delta
        = to_ulong ((ulong_of_int (pulse_shape s.cassette_highspeed
              ((s.cassette_byte / 2 ^ s.cassette_bitnumber.toNat) % 2) s.cassette_pulsestate).1 : ℚ)
            * s.clockMHz - s.cassette_roundoff_error + 1 / 2)
    ∧ (cas_emit s).2.clockMHz = s.clockMHz := by
  unfold cas_emit set_delta
  simp only
  split <;> simp_all

theorem emit_case_delta (d : Cassette) (byte bn : Int) (fl : Option FILE) (rest : List Nat)
    (t : Int × Nat) (a' : CasIn)
    (h : some (((pulse_shape d.cassette_highspeed (byte / 2 ^ bn.toNat % 2) d.cassette_pulsestate).2,
                ulong_of_int (pulse_shape d.cassette_highspeed (byte / 2 ^ bn.toNat % 2)
                  d.cassette_pulsestate).1),
               ({ rest := rest, byte := byte, bitnumber := bn,
                  pulsestate :=
                    if (pulse_shape d.cassette_highspeed (byte / 2 ^ bn.toNat % 2)
                          (d.cassette_pulsestate + 1)).2 = -1 then 0
                    else d.cassette_pulsestate + 1 } : CasIn)) = some (t, a')) :
    (cas_emit { d with cassette_bitnumber := bn, cassette_file := fl,
                       cassette_byte := byte }).2.cassette_delta
      = to_ulong ((t.2 : ℚ) * d.clockMHz - d.cassette_roundoff_error + 1 / 2)
    ∧ (cas_emit { d with cassette_bitnumber := bn, cassette_file := fl,
                         cassette_byte := byte }).2.clockMHz = d.clockMHz := by
  have he := cas_emit_delta
    { d with cassette_bitnumber := bn, cassette_file := fl, cassette_byte := byte }
  simp only [Option.some.injEq, Prod.mk.injEq] at h
  obtain ⟨h1, h2⟩ := h
  subst h1 h2
  exact he

/-- The delay the CAS decoder delivers: the table's `delta_us` converted to
ticks at the clock rate, less the round-off error carried over, rounded to
nearest. -/
theorem in_cas_delta (d : Cassette) (t : Int × Nat) (a' : CasIn)
    (h : cas_in_step d.cassette_highspeed (cas_in_of d) = some (t, a')) :
    (in_cas d).2.cassette_delta
      = to_ulong ((t.2 : ℚ) * d.clockMHz - d.cassette_roundoff_error + 1 / 2)
    ∧ (in_cas d).2.clockMHz = d.clockMHz := by
  obtain ⟨bn, hbn⟩ : ∃ bn, bn = if d.cassette_pulsestate = 0 then d.cassette_bitnumber - 1
      else d.cassette_bitnumber := ⟨_, rfl⟩
  have q1 : (cas_in_of d).pulsestate = d.cassette_pulsestate := rfl
  have q2 : (cas_in_of d).bitnumber = d.cassette_bitnumber := rfl
  have q3 : (cas_in_of d).byte = d.cassette_byte := rfl
  revert h
  unfold in_cas cas_in_step
  rw [dec_bitnumber]
  simp only [q1, q2, q3, ← hbn]
  by_cases hneg : bn < 0
  · simp only [hneg, if_true]
    cases hfile : d.cassette_file with
    | none =>
      have hrest : (cas_in_of d).rest = [] := by simp only [cas_in_of, hfile]
      simp only [hrest, if_true]
      by_cases hb : d.cassette_byte = 0x100
      · simp [hb]
      · simp only [hb, if_false]
        intro h
        exact emit_case_delta d 0x100 7 none [] t a' h
    | some f =>
      have hg := getc_fields f
      cases hr : (if f.rd then f.data.drop f.pos else []) with
      | nil =>
        have hrest : (cas_in_of d).rest = [] := by simp only [cas_in_of, hfile, hr]
        rw [hr] at hg
        have hg1 : (getc f).1 = EOF := hg.1
        simp only [hrest, hg1, if_true]
        by_cases hb : d.cassette_byte = 0x100
        · simp [hb]
        · simp only [hb, if_false]
          intro h
          exact emit_case_delta d 0x100 7 (some (getc f).2) [] t a' h
      | cons x r =>
        have hrest : (cas_in_of d).rest = x :: r := by simp only [cas_in_of, hfile, hr]
        rw [hr] at hg
        have hg1 : (getc f).1 = (x : Int) := hg.1
        have hx : ¬ ((x : Int) = EOF) := by simp only [EOF]; omega
        simp only [hrest, hg1, hx, if_false]
        intro h
        exact emit_case_delta d (x : Int) 7 (some (getc f).2) r t a' h
  · simp only [hneg, if_false]
    intro h
    have := emit_case_delta d d.cassette_byte bn d.cassette_file (cas_in_of d).rest t a' h
    have e : ({ d with cassette_bitnumber := bn, cassette_file := d.cassette_file,
                       cassette_byte := d.cassette_byte } : Cassette)
        = { d with cassette_bitnumber := bn } := by cases d; rfl
    rw [e] at this
    exact this

theorem shape_table : ∀ (hs c : Fin 2) (p : Fin 7),
    p.val < (shape_steps hs.val c.val).length →
      ((pulse_shape hs.val c.val p.val).2 = 0 ∨ (pulse_shape hs.val c.val p.val).2 = 1
        ∨ (pulse_shape hs.val c.val p.val).2 = 2)
      ∧ 0 ≤ (pulse_shape hs.val c.val p.val).1
      ∧ ((pulse_shape hs.val c.val (p.val + 1)).2 = -1
          ↔ p.val + 1 = (shape_steps hs.val c.val).length)
      ∧ (shape_steps hs.val c.val).get? p.val
          = some ((pulse_shape hs.val c.val p.val).2,
                  ulong_of_int (pulse_shape hs.val c.val p.val).1) := by
  decide

theorem shape_length : ∀ (hs c : Fin 2),
    1 < (shape_steps hs.val c.val).length ∧ (shape_steps hs.val c.val).length ≤ 7 := by
  decide

theorem bit01 (n : Int) : n % 2 = 0 ∨ n % 2 = 1 := Int.emod_two_eq n

theorem fin2_of (x : Int) (h : x = 0 ∨ x = 1) : ∃ c : Fin 2, x = ((c.val : Nat) : Int) := by
  rcases h with h | h
  · exact ⟨0, by rw [h]; rfl⟩
  · exact ⟨1, by rw [h]; rfl⟩

/-- The pulse table at an index in range, for a speed and a bit that are 0 or
1: the entry is not the sentinel, it is the step of that index, and the entry
after it is the sentinel exactly at the end of the shape. -/
theorem shape_entry (hs c p : Int) (hhs : hs = 0 ∨ hs = 1) (hc : c = 0 ∨ c = 1) (h0 : 0 ≤ p)
    (hp : p < ((shape_steps hs c).length : Int)) :
    ((pulse_shape hs c p).2 = 0 ∨ (pulse_shape hs c p).2 = 1 ∨ (pulse_shape hs c p).2 = 2)
    ∧ 0 ≤ (pulse_shape hs c p).1
    ∧ ((pulse_shape hs c (p + 1)).2 = -1 ↔ p + 1 = ((shape_steps hs c).length : Int))
    ∧ (shape_steps hs c).get? p.toNat
        = some ((pulse_shape hs c p).2, ulong_of_int (pulse_shape hs c p).1)
    ∧ p ≤ 6 := by
  obtain ⟨a, rfl⟩ := fin2_of hs hhs
  obtain ⟨b, rfl⟩ := fin2_of c hc
  have hl := shape_length a b
  obtain ⟨n, rfl⟩ := Int.eq_ofNat_of_zero_le h0
  have hn : n < 7 := by omega
  have hlt : n < (shape_steps ((a.val : Nat) : Int) ((b.val : Nat) : Int)).length := by omega
  obtain ⟨t1, t2, t3, t4⟩ := shape_table a b ⟨n, hn⟩ hlt
  refine ⟨t1, t2, ?_, ?_, by omega⟩
  · constructor
    · intro h
      have := t3.1 h
      simp only at this
      omega
    · intro h
      apply t3.2
      simp only
      omega
  · rw [Int.toNat_ofNat]
    exact t4

/-- What a successful step of the decoder does to its fields. -/
theorem cas_in_step_some (hs : Int) (a a' : CasIn) (t : Int × Nat)
    (h : cas_in_step hs a = some (t, a')) :
    t = ((pulse_shape hs (cas_bit a') a.pulsestate).2,
         ulong_of_int (pulse_shape hs (cas_bit a') a.pulsestate).1)
    ∧ a'.pulsestate = (if (pulse_shape hs (cas_bit a') (a.pulsestate + 1)).2 = -1 then 0
                       else a.pulsestate + 1)
    ∧ 0 ≤ a'.bitnumber
    ∧ ((if a.pulsestate = 0 then a.bitnumber - 1 else a.bitnumber) < 0 →
        a'.bitnumber = 7 ∧ a'.rest = a.rest.tail
        ∧ (a.rest = [] → a.byte ≠ 0x100 ∧ a'.byte = 0x100)
        ∧ (∀ c r, a.rest = c :: r → a'.byte = (c : Int)))
    ∧ (¬ (if a.pulsestate = 0 then a.bitnumber - 1 else a.bitnumber) < 0 →
        a'.bitnumber = (if a.pulsestate = 0 then a.bitnumber - 1 else a.bitnumber)
        ∧ a'.rest = a.rest ∧ a'.byte = a.byte) := by
  obtain ⟨bn, hbn⟩ : ∃ bn, bn = if a.pulsestate = 0 then a.bitnumber - 1 else a.bitnumber :=
    ⟨_, rfl⟩
  unfold cas_in_step at h
  simp only [← hbn] at h ⊢
  by_cases hneg : bn < 0
  · simp only [hneg, if_true] at h
    cases hr : a.rest with
    | nil =>
      simp only [hr] at h
      by_cases hb : a.byte = 0x100
      · simp [hb] at h
      · simp only [hb, if_false, Option.some.injEq, Prod.mk.injEq] at h
        obtain ⟨h1, h2⟩ := h
        subst h2
        refine ⟨h1.symm, rfl, (show (0 : Int) ≤ 7 by decide), fun _ => ⟨rfl, rfl, fun _ => ⟨hb, rfl⟩, ?_⟩,
          fun hh => absurd hneg hh⟩
        intro c r hc
        exact absurd hc (by simp)
    | cons c r =>
      simp only [hr, Option.some.injEq, Prod.mk.injEq] at h
      obtain ⟨h1, h2⟩ := h
      subst h2
      refine ⟨h1.symm, rfl, (show (0 : Int) ≤ 7 by decide), fun _ => ⟨rfl, rfl, fun hh => absurd hh (by simp), ?_⟩,
        fun hh => absurd hneg hh⟩
      intro c' r' hc
      simp only [List.cons.injEq] at hc
      rw [hc.1]
  · simp only [hneg, if_false, Option.some.injEq, Prod.mk.injEq] at h
    obtain ⟨h1, h2⟩ := h
    subst h2
    exact ⟨h1.symm, rfl, not_lt.mp hneg, fun hh => absurd hh hneg, fun _ => ⟨rfl, rfl, rfl⟩⟩

theorem cas_in_step_none (hs : Int) (a : CasIn) (h : cas_in_step hs a = none) :
    (if a.pulsestate = 0 then a.bitnumber - 1 else a.bitnumber) < 0 ∧ a.rest = []
    ∧ a.byte = 0x100 := by
  obtain ⟨bn, hbn⟩ : ∃ bn, bn = if a.pulsestate = 0 then a.bitnumber - 1 else a.bitnumber :=
    ⟨_, rfl⟩
  unfold cas_in_step at h
  simp only [← hbn] at h ⊢
  by_cases hneg : bn < 0
  · simp only [hneg, if_true] at h
    cases hr : a.rest with
    | nil =>
      simp only [hr] at h
      by_cases hb : a.byte = 0x100
      · exact ⟨hneg, rfl, hb⟩
      · simp [hb] at h
    | cons c r => simp [hr] at h
  · simp [hneg] at h

theorem shape_length_int (hs c : Int) (hhs : hs = 0 ∨ hs = 1) (hc : c = 0 ∨ c = 1) :
    (1 : Int) < ((shape_steps hs c).length : Int) ∧ ((shape_steps hs c).length : Int) ≤ 7 := by
  obtain ⟨a, rfl⟩ := fin2_of hs hhs
  obtain ⟨b, rfl⟩ := fin2_of c hc
  have := shape_length a b
  omega

theorem cas_bit01 (a : CasIn) : cas_bit a = 0 ∨ cas_bit a = 1 := bit01 _

/-- A successful step of the decoder reads an entry before the sentinel and
keeps the index in range. -/
theorem cas_in_step_ok (hs : Int) (hhs : hs = 0 ∨ hs = 1) (a a' : CasIn) (t : Int × Nat)
    (hok : CasInOk hs a) (h : cas_in_step hs a = some (t, a')) :
    CasInOk hs a'
    ∧ a.pulsestate < ((shape_steps hs (cas_bit a')).length : Int)
    ∧ (shape_steps hs (cas_bit a')).get? a.pulsestate.toNat = some t
    ∧ (t.1 = 0 ∨ t.1 = 1 ∨ t.1 = 2)
    ∧ t.1 = (pulse_shape hs (cas_bit a') a.pulsestate).2
    ∧ 0 ≤ (pulse_shape hs (cas_bit a') a.pulsestate).1 := by
  obtain ⟨k1, k2, k3, k4, k5⟩ := cas_in_step_some hs a a' t h
  obtain ⟨o1, o2, o3⟩ := hok
  have hc := cas_bit01 a'
  have hlen := shape_length_int hs (cas_bit a') hhs hc
  have hp : a.pulsestate < ((shape_steps hs (cas_bit a')).length : Int) := by
    by_cases hz : a.pulsestate = 0
    · rw [hz]
      omega
    · have hbn := o3 hz
      have hnn : ¬ (if a.pulsestate = 0 then a.bitnumber - 1 else a.bitnumber) < 0 := by
        rw [if_neg hz]
        omega
      obtain ⟨e1, _, e3⟩ := k5 hnn
      rw [if_neg hz] at e1
      have : cas_bit a' = cas_bit a := by
        unfold cas_bit
        rw [e1, e3]
      rw [this]
      exact o2
  obtain ⟨s1, s2, s3, s4, s5⟩ := shape_entry hs (cas_bit a') a.pulsestate hhs hc o1 hp
  refine ⟨⟨?_, ?_, ?_⟩, hp, ?_, ?_, ?_, s2⟩
  · rw [k2]
    split
    · exact le_refl _
    · omega
  · rw [k2]
    split
    · omega
    · rename_i hne
      have : ¬ (a.pulsestate + 1 = ((shape_steps hs (cas_bit a')).length : Int)) :=
        fun hh => hne (s3.2 hh)
      omega
  · intro _
    exact k3
  · rw [s4, k1]
  · rw [k1]
    exact s1
  · rw [k1]

theorem cas_in_step_fail_ok (hs : Int) (hhs : hs = 0 ∨ hs = 1) (a : CasIn)
    (hok : CasInOk hs a) (h : cas_in_step hs a = none) :
    a.pulsestate = 0
    ∧ CasInOk hs { a with bitnumber := if a.pulsestate = 0 then a.bitnumber - 1
                                       else a.bitnumber } := by
  obtain ⟨n1, _, _⟩ := cas_in_step_none hs a h
  obtain ⟨o1, o2, o3⟩ := hok
  have hz : a.pulsestate = 0 := by
    by_contra hz
    rw [if_neg hz] at n1
    have := o3 hz
    omega
  refine ⟨hz, ?_, ?_, ?_⟩
  · exact o1
  · show a.pulsestate < _
    have := shape_length_int hs (cas_bit { a with bitnumber := if a.pulsestate = 0
      then a.bitnumber - 1 else a.bitnumber }) hhs (cas_bit01 _)
    omega
  · intro hne
    exact absurd hz hne

/-- The index stays in range over any number of calls of `transition_in`. -/
theorem transition_in_n_ok (hs : Int) (hhs : hs = 0 ∨ hs = 1) (n : Nat) : ∀ d : Cassette,
    d.cassette_format = CAS_FORMAT → d.cassette_highspeed = hs → CasInOk hs (cas_in_of d) →
    (transition_in_n n d).2.cassette_format = CAS_FORMAT
    ∧ (transition_in_n n d).2.cassette_highspeed = hs
    ∧ CasInOk hs (cas_in_of (transition_in_n n d).2) := by
  induction n with
  | zero => intro d h1 h2 h3; exact ⟨h1, h2, h3⟩
  | succ n ih =>
    intro d h1 h2 h3
    show (transition_in_n n (transition_in d).2).2.cassette_format = CAS_FORMAT
      ∧ (transition_in_n n (transition_in d).2).2.cassette_highspeed = hs
      ∧ CasInOk hs (cas_in_of (transition_in_n n (transition_in d).2).2)
    obtain ⟨c1, c2⟩ := transition_in_cas_any d h1
    rw [h2] at c1 c2
    cases hstep : cas_in_step hs (cas_in_of d) with
    | none =>
      obtain ⟨_, _, k3, k4, k5⟩ := c1 hstep
      apply ih _ k4 k5
      rw [k3]
      exact (cas_in_step_fail_ok hs hhs _ h3 hstep).2
    | some r =>
      obtain ⟨_, _, k3, k4, k5⟩ := c2 r.1 r.2 hstep
      apply ih _ k4 k5
      rw [k3]
      exact (cas_in_step_ok hs hhs _ r.2 r.1 h3 hstep).1

/-- Claim C30 (pulse-table indexing is always in range): in the CAS format at
speed `hs` (0 or 1), starting with `cassette_pulsestate = 0` as motor-on leaves
it, after any number `n` of calls of `transition_in` on any file contents
`cassette_pulsestate` is at least 0 and below the number of steps before the
sentinel of the shape of the bit being decoded, hence at most 6; the next call
returns 0 or 1, and when it returns 1 the entry `pulse_shape[hs][c][state]` it
read (`c` the bit, `state` the index before the call) lies before the sentinel:
its `delta_us` is not -1 and `cassette_next` is 0, 1 or 2. -/
theorem pulse_index_in_range (d : Cassette) (hs : Int) (n : Nat)
    (hfmt : d.cassette_format = CAS_FORMAT)
    (hhs : d.cassette_highspeed = hs ∧ (hs = 0 ∨ hs = 1))
    (hp : d.cassette_pulsestate = 0) :
    0 ≤ (transition_in_n n d).2.cassette_pulsestate
    ∧ (transition_in_n n d).2.cassette_pulsestate
        < ((shape_steps hs (cas_bit (cas_in_of (transition_in_n n d).2))).length : Int)
    ∧ (transition_in_n n d).2.cassette_pulsestate ≤ 6
    ∧ ((transition_in (transition_in_n n d).2).1 = 0
        ∨ (transition_in (transition_in_n n d).2).1 = 1)
    ∧ ((transition_in (transition_in_n n d).2).1 = 1 →
        ∃ c : Int, (c = 0 ∨ c = 1)
          ∧ (transition_in_n n d).2.cassette_pulsestate < ((shape_steps hs c).length : Int)
          ∧ (transition_in (transition_in_n n d).2).2.cassette_next
              = (pulse_shape hs c (transition_in_n n d).2.cassette_pulsestate).2
          ∧ (pulse_shape hs c (transition_in_n n d).2.cassette_pulsestate).1 ≠ -1
          ∧ ((transition_in (transition_in_n n d).2).2.cassette_next = 0
              ∨ (transition_in (transition_in_n n d).2).2.cassette_next = 1
              ∨ (transition_in (transition_in_n n d).2).2.cassette_next = 2)) := by
  have hok0 : CasInOk hs (cas_in_of d) := by
    refine ⟨?_, ?_, ?_⟩
    · show 0 ≤ d.cassette_pulsestate
      rw [hp]
    · show d.cassette_pulsestate < _
      have := shape_length_int hs (cas_bit (cas_in_of d)) hhs.2 (cas_bit01 _)
      omega
    · intro h
      exact absurd hp h
  obtain ⟨f1, f2, f3⟩ := transition_in_n_ok hs hhs.2 n d hfmt hhs.1 hok0
  obtain ⟨s, hs_def⟩ : ∃ s : Cassette, s = (transition_in_n n d).2 := ⟨_, rfl⟩
  rw [← hs_def] at f1 f2 f3 ⊢
  have hlen := shape_length_int hs (cas_bit (cas_in_of s)) hhs.2 (cas_bit01 _)
  obtain ⟨o1, o2, o3⟩ := f3
  have o1' : 0 ≤ s.cassette_pulsestate := o1
  have o2' : s.cassette_pulsestate < ((shape_steps hs (cas_bit (cas_in_of s))).length : Int) := o2
  obtain ⟨c1, c2⟩ := transition_in_cas_any s f1
  rw [f2] at c1 c2
  refine ⟨o1', o2', by omega, ?_, ?_⟩
  · cases hstep : cas_in_step hs (cas_in_of s) with
    | none => exact Or.inl (c1 hstep).1
    | some r => exact Or.inr (c2 r.1 r.2 hstep).1
  · intro hret
    cases hstep : cas_in_step hs (cas_in_of s) with
    | none =>
      rw [(c1 hstep).1] at hret
      exact absurd hret (by decide)
    | some r =>
      obtain ⟨_, k2, _, _, _⟩ := c2 r.1 r.2 hstep
      obtain ⟨_, g2, _, g4, g5, g6⟩ := cas_in_step_ok hs hhs.2 _ r.2 r.1 ⟨o1, o2, o3⟩ hstep
      refine ⟨cas_bit r.2, cas_bit01 _, g2, ?_, ?_, ?_⟩
      · rw [k2]
        exact g5
      · intro hneg
        have : (0 : Int) ≤ -1 := by
          rw [← hneg]
          exact g6
        omega
      · rw [k2]
        exact g4

set_option maxRecDepth 100000 in
theorem pulse_index_in_range_witness :
    (transition_in_n 5 (cas_reader false [0xA5])).2.cassette_pulsestate ≤ 6 :=
  (pulse_index_in_range (cas_reader false [0xA5]) 0 5 (by decide) ⟨by decide, Or.inl rfl⟩
    (by decide)).2.2.1


theorem cas_in_step_suffix (hs : Int) (a a' : CasIn) (t : Int × Nat)
    (h : cas_in_step hs a = some (t, a')) : a'.rest <:+ a.rest := by
  obtain ⟨_, _, _, k4, k5⟩ := cas_in_step_some hs a a' t h
  by_cases hneg : (if a.pulsestate = 0 then a.bitnumber - 1 else a.bitnumber) < 0
  · rw [(k4 hneg).2.1]
    exact List.tail_suffix _
  · rw [(k5 hneg).2.1]

theorem cas_in_run_suffix (hs : Int) (ts : List (Int × Nat)) : ∀ a a' : CasIn,
    cas_in_run hs ts a a' → a'.rest <:+ a.rest := by
  induction ts with
  | nil =>
    intro a a' h
    simp only [cas_in_run] at h
    rw [h]
  | cons t ts ih =>
    intro a a' h
    obtain ⟨a1, h1, h2⟩ := h
    exact (ih a1 a' h2).trans (cas_in_step_suffix hs a a1 t h1)

/-- A run of the decoder, cut at its step `i`. -/
theorem cas_in_run_split (hs : Int) (ts : List (Int × Nat)) : ∀ (i : Nat) (t : Int × Nat)
    (a a' : CasIn), ts.get? i = some t → cas_in_run hs ts a a' →
    ∃ a1 a2, cas_in_run hs (ts.take i) a a1 ∧ cas_in_step hs a1 = some (t, a2)
      ∧ cas_in_run hs (ts.drop (i + 1)) a2 a' := by
  induction ts with
  | nil => intro i t a a' h; simp at h
  | cons u us ih =>
    intro i t a a' hget hrun
    obtain ⟨b1, h1, h2⟩ := hrun
    cases i with
    | zero =>
      simp only [List.get?_cons_zero, Option.some.injEq] at hget
      subst hget
      exact ⟨a, b1, rfl, h1, h2⟩
    | succ j =>
      simp only [List.get?_cons_succ] at hget
      obtain ⟨a1, a2, r1, r2, r3⟩ := ih j t b1 a' hget h2
      exact ⟨a1, a2, ⟨b1, h1, r1⟩, r2, r3⟩

theorem cas_in_step_byte_start (hs : Int) (b : Nat) (rest : List Nat) (byte0 bn0 : Int)
    (hbn : bn0 ≤ 0) :
    cas_in_step hs ⟨b :: rest, byte0, bn0, 0⟩ = cas_in_step hs ⟨rest, (b : Int), 8, 0⟩ := by
  have h1 : bn0 - 1 < 0 := by omega
  unfold cas_in_step
  simp only [if_true, h1]
  rfl

theorem transition_in_cas_delta (d : Cassette) (hfmt : d.cassette_format = CAS_FORMAT)
    (t : Int × Nat) (a' : CasIn)
    (h : cas_in_step d.cassette_highspeed (cas_in_of d) = some (t, a')) :
    (transition_in d).2.cassette_delta
      = to_ulong ((t.2 : ℚ) * d.clockMHz - d.cassette_roundoff_error + 1 / 2) := by
  have h1 := ((in_cas_any d).2 t a' h).1
  rw [transition_in_cas d hfmt, if_neg (by rw [h1]; decide)]
  exact (in_cas_delta d t a' h).1

/-- Claim C25 (CAS decode walks the pulse-shape table): in the CAS format at
speed `hs` (0 or 1), at a byte boundary (`cassette_pulsestate = 0`,
`cassette_bitnumber <= 0`) of a stream whose unread bytes are `b :: rest`, let
`ts` be the steps before the sentinel of the shapes of the bits of `b`, bit 7
first, in table order.  Call `i + 1` of `transition_in` (for `i` below the
length of `ts`) returns 1 with `cassette_next` the next value of step `i` and
`cassette_delta` its `delta_us` times the clock rate, less the round-off error
carried over, rounded to nearest; the unread bytes are `rest` after each of
these calls, the fields after the last of them are those of a finished byte,
and only the call after it reads on. -/
theorem cas_decode_walks_table (d : Cassette) (fd : FILE) (hs : Int) (b : Nat) (rest : List Nat)
    (hfmt : d.cassette_format = CAS_FORMAT)
    (hhs : d.cassette_highspeed = hs ∧ (hs = 0 ∨ hs = 1))
    (hstart : d.cassette_pulsestate = 0 ∧ d.cassette_bitnumber ≤ 0)
    (hfd : d.cassette_file = some fd ∧ fd.rd = true ∧ fd.data.drop fd.pos = b :: rest) :
    bits_below (b : Int) 8
        = [(b : Int) / 2 ^ 7 % 2, (b : Int) / 2 ^ 6 % 2, (b : Int) / 2 ^ 5 % 2,
           (b : Int) / 2 ^ 4 % 2, (b : Int) / 2 ^ 3 % 2, (b : Int) / 2 ^ 2 % 2,
           (b : Int) / 2 ^ 1 % 2, (b : Int) / 2 ^ 0 % 2]
    ∧ (∀ (i : Nat) (t : Int × Nat),
        (bits_steps hs (bits_below (b : Int) 8)).get? i = some t →
          (transition_in (transition_in_n i d).2).1 = 1
          ∧ (transition_in (transition_in_n i d).2).2.cassette_next = t.1
          ∧ (transition_in (transition_in_n i d).2).2.cassette_delta
              = to_ulong ((t.2 : ℚ) * (transition_in_n i d).2.clockMHz
                  - (transition_in_n i d).2.cassette_roundoff_error + 1 / 2)
          ∧ (cas_in_of (transition_in (transition_in_n i d).2).2).rest = rest)
    ∧ cas_in_of (transition_in_n (bits_steps hs (bits_below (b : Int) 8)).length d).2
        = ⟨rest, (b : Int), 0, 0⟩
    ∧ (cas_in_of (transition_in
          (transition_in_n (bits_steps hs (bits_below (b : Int) 8)).length d).2).2).rest
        = rest.tail := by
  obtain ⟨ts, hts⟩ : ∃ ts, ts = bits_steps hs (bits_below (b : Int) 8) := ⟨_, rfl⟩
  rw [← hts]
  have ha0 : cas_in_of d = ⟨b :: rest, d.cassette_byte, d.cassette_bitnumber, 0⟩ := by
    simp [cas_in_of, hfd.1, hfd.2.1, hfd.2.2, hstart.1]
  have hrun : cas_in_run hs ts (cas_in_of d) ⟨rest, (b : Int), 0, 0⟩ := by
    rw [hts, ha0]
    exact cas_in_run_fetch hs hhs.2 rest (b : Int) _
      (cas_in_step_byte_start hs b rest _ _ hstart.2)
  obtain ⟨e1, e2, e3, e4⟩ := transition_in_n_run hs ts d _ hfmt hhs.1 hrun
  refine ⟨rfl, ?_, e2, ?_⟩
  · intro i t hget
    obtain ⟨a1, a2, r1, r2, r3⟩ := cas_in_run_split hs ts i t _ _ hget hrun
    have hi : i < ts.length := by
      by_contra hc
      rw [List.get?_eq_none.mpr (by omega)] at hget
      exact absurd hget (by simp)
    have hlen : (ts.take i).length = i := by
      rw [List.length_take]
      omega
    obtain ⟨p1, p2, p3, p4⟩ := transition_in_n_run hs (ts.take i) d a1 hfmt hhs.1 r1
    rw [hlen] at p1 p2 p3 p4
    have r2' : cas_in_step (transition_in_n i d).2.cassette_highspeed
        (cas_in_of (transition_in_n i d).2) = some (t, a2) := by
      rw [p4, p2]
      exact r2
    obtain ⟨k1, k2, k3, _, _⟩ := (transition_in_cas_any _ p3).2 t a2 r2'
    refine ⟨k1, k2, transition_in_cas_delta _ p3 t a2 r2', ?_⟩
    rw [k3]
    -- the unread bytes: `rest` from the first step of the byte to its last
    have hfin : rest <:+ a2.rest := cas_in_run_suffix hs _ a2 _ r3
    have hup : a2.rest <:+ rest := by
      cases i with
      | zero =>
        simp only [List.take_zero, cas_in_run] at r1
        rw [← r1, ha0] at r2
        obtain ⟨_, _, _, k4, _⟩ := cas_in_step_some hs _ a2 t r2
        have hneg : (if (0 : Int) = 0 then d.cassette_bitnumber - 1 else d.cassette_bitnumber) < 0 := by
          rw [if_pos rfl]
          omega
        rw [(k4 hneg).2.1]
        exact List.suffix_refl _
      | succ j =>
        cases hts' : ts with
        | nil =>
          rw [hts'] at hget
          simp at hget
        | cons u us =>
          rw [hts'] at r1
          obtain ⟨b1, q1, q2⟩ := r1
          rw [ha0] at q1
          obtain ⟨_, _, _, k4, _⟩ := cas_in_step_some hs _ b1 u q1
          have hneg : (if (0 : Int) = 0 then d.cassette_bitnumber - 1
              else d.cassette_bitnumber) < 0 := by
            rw [if_pos rfl]
            omega
          have hb1 : b1.rest = rest := (k4 hneg).2.1
          have s1 : a1.rest <:+ b1.rest := cas_in_run_suffix hs _ b1 a1 q2
          have s2 : a2.rest <:+ a1.rest := cas_in_step_suffix hs a1 a2 t r2
          rw [hb1] at s1
          exact s2.trans s1
    exact List.IsSuffix.eq_of_length_le hup (List.IsSuffix.length_le hfin)
  · obtain ⟨c1, c2⟩ := transition_in_cas_any (transition_in_n ts.length d).2 e3
    rw [e4, e2] at c1 c2
    cases hstep : cas_in_step hs ⟨rest, (b : Int), 0, 0⟩ with
    | none =>
      obtain ⟨_, _, k3, _, _⟩ := c1 hstep
      rw [k3]
      obtain ⟨_, n2, _⟩ := cas_in_step_none hs _ hstep
      show rest = rest.tail
      have : rest = [] := n2
      rw [this]
      rfl
    | some r =>
      obtain ⟨_, _, k3, _, _⟩ := c2 r.1 r.2 hstep
      rw [k3]
      obtain ⟨_, _, _, k4, _⟩ := cas_in_step_some hs _ r.2 r.1 hstep
      have hneg : (if (0 : Int) = 0 then (0 : Int) - 1 else 0) < 0 := by decide
      exact (k4 hneg).2.1

set_option maxRecDepth 100000 in
theorem cas_decode_walks_table_witness :
    bits_steps 1 (bits_below ((0xA5 : Nat) : Int) 8)
        = [(1, 0), (2, 188), (1, 188), (1, 0), (2, 376), (1, 376), (1, 0), (2, 188), (1, 188),
           (1, 0), (2, 376), (1, 376), (1, 0), (2, 376), (1, 376), (1, 0), (2, 188), (1, 188),
           (1, 0), (2, 376), (1, 376), (1, 0), (2, 188), (1, 188)]
    ∧ cas_in_of (transition_in_n (bits_steps 1 (bits_below ((0xA5 : Nat) : Int) 8)).length
        (cas_reader true [0xA5, 0x3C])).2 = ⟨[0x3C], 0xA5, 0, 0⟩ :=
  ⟨by decide,
   (cas_decode_walks_table (cas_reader true [0xA5, 0x3C])
      (FILE.mk 0 "tape.cas" [0xA5, 0x3C] 0 true false false) 1 0xA5 [0x3C] (by decide)
      ⟨by decide, Or.inr rfl⟩ ⟨by decide, by decide⟩ ⟨by decide, rfl, rfl⟩).2.2.1⟩


theorem to_int_floor (x : ℚ) (h0 : 0 ≤ x) (h1 : x < 2 ^ 31) : to_int x = ⌊x⌋ := by
  have f0 : 0 ≤ ⌊x⌋ := Int.floor_nonneg.mpr h0
  have f1 : ⌊x⌋ < 2 ^ 31 := by
    rw [Int.floor_lt]
    exact_mod_cast h1
  unfold to_int trunc
  rw [if_pos h0]
  unfold to_uint int_of_uint
  have e : (⌊x⌋ % 2 ^ 32).toNat % 2 ^ 32 = ⌊x⌋.toNat := by omega
  rw [e, if_pos (by omega)]
  omega

/-- Away from a tie, `round_even` gives the integer within a half. -/
theorem round_even_of_lt (t : ℚ) (m : Int) (h1 : (m : ℚ) - 1 / 2 < t) (h2 : t < m + 1 / 2) :
    round_even t = m := by
  unfold round_even
  by_cases hm : (m : ℚ) ≤ t
  · have hf : ⌊t⌋ = m := by
      rw [Int.floor_eq_iff]
      constructor
      · exact hm
      · linarith
    rw [hf, if_pos (by linarith)]
  · have hf : ⌊t⌋ = m - 1 := by
      rw [Int.floor_eq_iff]
      push_cast
      constructor
      · linarith
      · linarith [not_le.mp hm]
    rw [hf]
    push_cast
    rw [if_neg (by linarith), if_pos (by linarith)]
    ring

/-- The value of `fl_round` in the binade of `2 ^ k`, away from a tie. -/
theorem fl_round_eq (p : Nat) (emin k m : Int) (x : ℚ) (hk : emin ≤ k)
    (h1 : (2 : ℚ) ^ k ≤ |x|) (h2 : |x| < (2 : ℚ) ^ (k + 1))
    (hm : (m : ℚ) - 1 / 2 < x / 2 ^ (k - ((p - 1 : Nat) : Int))
      ∧ x / 2 ^ (k - ((p - 1 : Nat) : Int)) < (m : ℚ) + 1 / 2) :
    fl_round p emin x = (m : ℚ) * 2 ^ (k - ((p - 1 : Nat) : Int)) := by
  have hpos : 0 < |x| := lt_of_lt_of_le (by positivity) h1
  have hlog : Int.log 2 |x| = k := by
    apply le_antisymm
    · have : Int.log 2 |x| < k + 1 := by
        rw [← Int.lt_zpow_iff_log_lt (by norm_num) hpos]
        exact_mod_cast h2
      omega
    · rw [← Int.zpow_le_iff_le_log (by norm_num) hpos]
      exact_mod_cast h1
  unfold fl_round
  rw [hlog, max_eq_left hk, round_even_of_lt _ m hm.1 hm.2]

/-- The `float` nearest to a positive `x` in the binade of `2 ^ k`. -/
theorem fl32_eq (x y : ℚ) (k m : Int) (hk : -126 ≤ k) (h1 : (2 : ℚ) ^ k ≤ x)
    (h2 : x < (2 : ℚ) ^ (k + 1))
    (hm : (m : ℚ) - 1 / 2 < x / 2 ^ (k - 23) ∧ x / 2 ^ (k - 23) < (m : ℚ) + 1 / 2)
    (hy : (m : ℚ) * 2 ^ (k - 23) = y) : fl32 x = y := by
  have hx : 0 < x := lt_of_lt_of_le (by positivity) h1
  rw [← hy]
  exact fl_round_eq 24 (-126) k m x hk (by rw [abs_of_pos hx]; exact h1)
    (by rw [abs_of_pos hx]; exact h2) hm

theorem SameData.data_refl (f : FILE) : SameData f f := rfl

theorem SameData.data_trans {f g h : FILE} (h1 : SameData f g) (h2 : SameData g h) :
    SameData f h := Eq.trans h2 h1

theorem sameData_pos (f : FILE) (p : Nat) : SameData f { f with pos := p } := rfl

theorem sameData_rd {f g : FILE} (h : SameData f g) : g.rd = f.rd := by
  have := congrArg FILE.rd (show ({ g with pos := 0 } : FILE) = { f with pos := 0 } from h)
  exact this

theorem sameData_data {f g : FILE} (h : SameData f g) : g.data = f.data := by
  have := congrArg FILE.data (show ({ g with pos := 0 } : FILE) = { f with pos := 0 } from h)
  exact this

/-- The libc call `getc`: the stream moves on by one byte, or is at its end. -/
theorem getc_unread (f : FILE) :
    SameData f (getc f).2
    ∧ unread (getc f).2 = (unread f).tail
    ∧ ((getc f).1 = EOF ↔ unread f = [])
    ∧ ((getc f).1 ≠ EOF → 0 ≤ (getc f).1) := by
  have h := getc_fields f
  refine ⟨?_, h.2, ?_, ?_⟩
  · unfold getc
    split
    · split <;> rfl
    · rfl
  · have h1 := h.1
    show (getc f).1 = EOF ↔ (if f.rd then f.data.drop f.pos else []) = []
    cases hr : (if f.rd then f.data.drop f.pos else []) with
    | nil =>
      rw [hr] at h1
      simp [h1]
    | cons c r =>
      rw [hr] at h1
      have : (getc f).1 = (c : Int) := h1
      rw [this]
      simp only [EOF, reduceCtorEq, iff_false]
  · intro _
    have h1 := h.1
    cases hr : (if f.rd then f.data.drop f.pos else []) with
    | nil =>
      rw [hr] at h1
      rename_i hne
      exact absurd h1 hne
    | cons c r =>
      rw [hr] at h1
      have : (getc f).1 = (c : Int) := h1
      rw [this]
      omega

theorem tail_length_le (l : List Nat) : l.tail.length ≤ l.length := by
  cases l with
  | nil => exact le_refl _
  | cons a t => simp

theorem tail_length_lt (l : List Nat) (h : l ≠ []) : l.tail.length < l.length := by
  cases l with
  | nil => exact absurd rfl h
  | cons a t => simp

theorem get_twobyte_unread (f : FILE) :
    SameData f (get_twobyte f).2.2
    ∧ (unread (get_twobyte f).2.2).length ≤ (unread f).length
    ∧ ((get_twobyte f).1 ≠ -1 → (unread (get_twobyte f).2.2).length < (unread f).length) := by
  obtain ⟨a1, a2, a3, _⟩ := getc_unread f
  obtain ⟨b1, b2, b3, _⟩ := getc_unread (getc f).2
  unfold get_twobyte
  dsimp only
  split
  · refine ⟨a1, ?_, fun h => absurd rfl h⟩
    rw [a2]
    exact tail_length_le _
  · rename_i hne
    have hne' : unread f ≠ [] := fun h => hne (a3.2 h)
    have l1 := tail_length_lt _ hne'
    rw [← a2] at l1
    have l2 : (unread (getc (getc f).2).2).length ≤ (unread (getc f).2).length := by
      rw [b2]
      exact tail_length_le _
    split
    · refine ⟨a1.data_trans b1, ?_, fun h => absurd rfl h⟩
      show (unread (getc (getc f).2).2).length ≤ _
      omega
    · refine ⟨a1.data_trans b1, ?_, fun _ => ?_⟩
      · show (unread (getc (getc f).2).2).length ≤ _
        omega
      · show (unread (getc (getc f).2).2).length < _
        omega

theorem get_fourbyte_unread (f : FILE) :
    SameData f (get_fourbyte f).2.2
    ∧ (unread (get_fourbyte f).2.2).length ≤ (unread f).length := by
  obtain ⟨a1, a2, _, _⟩ := getc_unread f
  obtain ⟨b1, b2, _, _⟩ := getc_unread (getc f).2
  obtain ⟨c1, c2, _, _⟩ := getc_unread (getc (getc f).2).2
  obtain ⟨d1, d2, _, _⟩ := getc_unread (getc (getc (getc f).2).2).2
  have l1 : (unread (getc f).2).length ≤ (unread f).length := by
    rw [a2]; exact tail_length_le _
  have l2 : (unread (getc (getc f).2).2).length ≤ (unread (getc f).2).length := by
    rw [b2]; exact tail_length_le _
  have l3 : (unread (getc (getc (getc f).2).2).2).length
      ≤ (unread (getc (getc f).2).2).length := by
    rw [c2]; exact tail_length_le _
  have l4 : (unread (getc (getc (getc (getc f).2).2).2).2).length
      ≤ (unread (getc (getc (getc f).2).2).2).length := by
    rw [d2]; exact tail_length_le _
  unfold get_fourbyte
  dsimp only
  split
  · exact ⟨a1, l1⟩
  · split
    · exact ⟨a1.data_trans b1, l2.trans l1⟩
    · split
      · exact ⟨(a1.data_trans b1).data_trans c1, (l3.trans l2).trans l1⟩
      · split
        · exact ⟨((a1.data_trans b1).data_trans c1).data_trans d1,
            ((l4.trans l3).trans l2).trans l1⟩
        · exact ⟨((a1.data_trans b1).data_trans c1).data_trans d1,
            ((l4.trans l3).trans l2).trans l1⟩

theorem NothingWritten.nw_refl (s : Cassette) : NothingWritten s s := by
  refine ⟨rfl, ?_⟩
  cases h : s.cassette_file with
  | none => exact Or.inl ⟨rfl, rfl⟩
  | some f => exact Or.inr ⟨f, f, rfl, rfl, SameData.data_refl f⟩

theorem NothingWritten.nw_trans {s t u : Cassette} (h1 : NothingWritten s t)
    (h2 : NothingWritten t u) : NothingWritten s u := by
  refine ⟨h2.1.trans h1.1, ?_⟩
  rcases h1.2 with ⟨a1, a2⟩ | ⟨f, g, a1, a2, a3⟩
  · rcases h2.2 with ⟨b1, b2⟩ | ⟨f', g', b1, b2, b3⟩
    · exact Or.inl ⟨a1, b2⟩
    · rw [a2] at b1
      exact absurd b1 (by simp)
  · rcases h2.2 with ⟨b1, b2⟩ | ⟨f', g', b1, b2, b3⟩
    · rw [a2] at b1
      exact absurd b1 (by simp)
    · rw [a2] at b1
      simp only [Option.some.injEq] at b1
      subst b1
      exact Or.inr ⟨f, g', a1, b2, a3.data_trans b3⟩

theorem ReadFrame.rf_refl (s : Cassette) : ReadFrame s s := ⟨NothingWritten.nw_refl s, rfl, rfl⟩

theorem ReadFrame.rf_trans {s t u : Cassette} (h1 : ReadFrame s t) (h2 : ReadFrame t u) :
    ReadFrame s u :=
  ⟨h1.1.nw_trans h2.1, h2.2.1.trans h1.2.1, h2.2.2.trans h1.2.2⟩

/-- A change that leaves host, stream, clock and transition time alone. -/
theorem readFrame_of_eq (s t : Cassette) (h1 : t.host = s.host)
    (h2 : t.cassette_file = s.cassette_file) (h3 : t.t_count = s.t_count)
    (h4 : t.cassette_transition = s.cassette_transition) : ReadFrame s t := by
  refine ⟨⟨h1, ?_⟩, h3, h4⟩
  cases h : s.cassette_file with
  | none => exact Or.inl ⟨rfl, by rw [h2, h]⟩
  | some f => exact Or.inr ⟨f, f, rfl, by rw [h2, h], SameData.data_refl f⟩

/-- A change of the stream alone, to the same data at another position. -/
theorem readFrame_of_file (s t : Cassette) (f g : FILE) (h1 : t.host = s.host)
    (hf : s.cassette_file = some f) (hg : t.cassette_file = some g) (hd : SameData f g)
    (h3 : t.t_count = s.t_count) (h4 : t.cassette_transition = s.cassette_transition) :
    ReadFrame s t :=
  ⟨⟨h1, Or.inr ⟨f, g, hf, hg, hd⟩⟩, h3, h4⟩

theorem rest_of_file (s : Cassette) (f : FILE) (h : s.cassette_file = some f) :
    (cas_in_of s).rest = unread f := by
  simp only [cas_in_of, h]
  rfl

theorem rest_of_none (s : Cassette) (h : s.cassette_file = none) : (cas_in_of s).rest = [] := by
  simp only [cas_in_of, h]

theorem set_delta_frame (n : Nat) (s : Cassette) :
    ReadFrame s (set_delta n s) ∧ (cas_in_of (set_delta n s)).rest = (cas_in_of s).rest :=
  ⟨readFrame_of_eq _ _ rfl rfl rfl rfl, rfl⟩

theorem skip_space_length (l : List Nat) : (skip_space l).length ≤ l.length := by
  induction l with
  | nil => exact le_refl _
  | cons c cs ih =>
    unfold skip_space
    split
    · exact Nat.le_succ_of_le ih
    · exact le_refl _

theorem scan_digits_length (l : List Nat) : ∀ acc : Nat,
    (scan_digits acc l).2.length ≤ l.length := by
  induction l with
  | nil => intro acc; exact le_refl _
  | cons c cs ih =>
    intro acc
    unfold scan_digits
    split
    · exact Nat.le_succ_of_le (ih _)
    · exact le_refl _

theorem scan_digits_digit (c : Nat) (cs : List Nat) (acc : Nat) (h : is_digit c = true) :
    (scan_digits acc (c :: cs)).2.length ≤ cs.length := by
  unfold scan_digits
  rw [if_pos h]
  exact scan_digits_length _ _

theorem scan_number_length (l : List Nat) :
    (scan_number l).2.length ≤ l.length
    ∧ ((scan_number l).1 ≠ none → (scan_number l).2.length < l.length) := by
  have hsk := skip_space_length l
  unfold scan_number
  dsimp only
  generalize skip_space l = m at hsk ⊢
  split
  · exact ⟨Nat.zero_le _, fun h => absurd rfl h⟩
  · rename_i c cs heq
    have hlen : (c :: cs).length ≤ m.length := by
      rw [← heq]
      split <;> simp
    simp only [List.length_cons] at hlen
    by_cases hd : is_digit c = true
    · rw [if_pos hd]
      have := scan_digits_digit c cs 0 hd
      refine ⟨?_, fun _ => ?_⟩
      · show (scan_digits 0 (c :: cs)).2.length ≤ _
        omega
      · show (scan_digits 0 (c :: cs)).2.length < _
        omega
    · rw [if_neg hd]
      refine ⟨?_, fun h => absurd rfl h⟩
      show (c :: cs).length ≤ _
      simp only [List.length_cons]
      omega

/-- The call `fscanf`: the stream moves on, by at least one byte when both
numbers are read. -/
theorem fscanf_unread (f : FILE) :
    SameData f (fscanf_d_lu f).2
    ∧ (unread (fscanf_d_lu f).2).length ≤ (unread f).length
    ∧ ((fscanf_d_lu f).1 ≠ none → (unread (fscanf_d_lu f).2).length < (unread f).length) := by
  by_cases hrd : f.rd = true
  · have u0 : unread f = f.data.drop f.pos := by
      unfold unread
      rw [if_pos hrd]
    have upos : ∀ p : Nat, unread { f with pos := p } = f.data.drop p := by
      intro p
      unfold unread
      rw [if_pos hrd]
    obtain ⟨a1, a2⟩ := scan_number_length (f.data.drop f.pos)
    obtain ⟨b1, b2⟩ := scan_number_length (scan_number (f.data.drop f.pos)).2
    have hsk := skip_space_length (scan_number (scan_number (f.data.drop f.pos)).2).2
    have hdrop : (f.data.drop f.pos).length = f.data.length - f.pos := List.length_drop _ _
    unfold fscanf_d_lu
    rw [if_pos hrd]
    dsimp only
    cases h1 : (scan_number (f.data.drop f.pos)).1 with
    | none =>
      dsimp only
      refine ⟨sameData_pos f _, ?_, fun h => absurd rfl h⟩
      rw [upos, u0, List.length_drop, List.length_drop]
      omega
    | some next =>
      dsimp only
      have a2' := a2 (by rw [h1]; simp)
      cases h2 : (scan_number (scan_number (f.data.drop f.pos)).2).1 with
      | none =>
        dsimp only
        refine ⟨sameData_pos f _, ?_, fun h => absurd rfl h⟩
        rw [upos, u0, List.length_drop, List.length_drop]
        omega
      | some d =>
        dsimp only
        refine ⟨sameData_pos f _, ?_, fun _ => ?_⟩
        · rw [upos, u0, List.length_drop, List.length_drop]
          omega
        · rw [upos, u0, List.length_drop, List.length_drop]
          omega
  · have : fscanf_d_lu f = (none, f) := by
      unfold fscanf_d_lu
      rw [if_neg hrd]
    rw [this]
    exact ⟨SameData.data_refl f, le_refl _, fun h => absurd rfl h⟩

/-- The text decoder: storage and clock are left alone, and a record read
shortens what is left of the file. -/
theorem in_debug_progress (s : Cassette) :
    ReadFrame s (in_debug s).2
    ∧ (cas_in_of (in_debug s).2).rest.length ≤ (cas_in_of s).rest.length
    ∧ ((in_debug s).1 ≠ 0 →
        (cas_in_of (in_debug s).2).rest.length < (cas_in_of s).rest.length) := by
  cases hf : s.cassette_file with
  | none =>
    have : in_debug s = (0, s) := by
      unfold in_debug
      rw [hf]
    rw [this]
    exact ⟨ReadFrame.rf_refl s, le_refl _, fun h => absurd rfl h⟩
  | some f =>
    obtain ⟨a1, a2, a3⟩ := fscanf_unread f
    have hr0 := rest_of_file s f hf
    cases hsc : (fscanf_d_lu f).1 with
    | none =>
      have : in_debug s = (0, { s with cassette_file := some (fscanf_d_lu f).2 }) := by
        unfold in_debug
        rw [hf]
        dsimp only
        rw [hsc]
      rw [this]
      refine ⟨readFrame_of_file _ _ f _ rfl hf rfl a1 rfl rfl, ?_, fun h => absurd rfl h⟩
      rw [hr0, rest_of_file _ (fscanf_d_lu f).2 rfl]
      exact a2
    | some p =>
      have : in_debug s = (1, { set_delta p.2 { s with cassette_file := some (fscanf_d_lu f).2 }
          with cassette_next := p.1 }) := by
        unfold in_debug
        rw [hf]
        dsimp only
        rw [hsc]
      rw [this]
      have a3' := a3 (by rw [hsc]; simp)
      refine ⟨readFrame_of_file _ _ f _ rfl hf rfl a1 rfl rfl, ?_, fun _ => ?_⟩
      · rw [hr0, rest_of_file _ (fscanf_d_lu f).2 rfl]
        exact a2
      · rw [hr0, rest_of_file _ (fscanf_d_lu f).2 rfl]
        exact a3'

theorem get_cpt_progress (s : Cassette) :
    ReadFrame s (get_cpt s).2
    ∧ (cas_in_of (get_cpt s).2).rest.length ≤ (cas_in_of s).rest.length
    ∧ ((get_cpt s).1 ≠ none →
        (cas_in_of (get_cpt s).2).rest.length < (cas_in_of s).rest.length) := by
  cases hf : s.cassette_file with
  | none =>
    have : get_cpt s = (none, s) := by
      unfold get_cpt
      rw [hf]
    rw [this]
    exact ⟨ReadFrame.rf_refl s, le_refl _, fun h => absurd rfl h⟩
  | some f =>
    have hr0 := rest_of_file s f hf
    obtain ⟨a1, a2, a3⟩ := get_twobyte_unread f
    obtain ⟨b1, b2, _, _⟩ := getc_unread (get_twobyte f).2.2
    obtain ⟨c1, c2⟩ := get_fourbyte_unread (getc (get_twobyte f).2.2).2
    have lb : (unread (getc (get_twobyte f).2.2).2).length
        ≤ (unread (get_twobyte f).2.2).length := by
      rw [b2]
      exact tail_length_le _
    unfold get_cpt
    rw [hf]
    dsimp only
    by_cases h1 : (get_twobyte f).1 = -1
    · rw [if_pos h1]
      refine ⟨readFrame_of_file _ _ f _ rfl hf rfl a1 rfl rfl, ?_, fun h => absurd rfl h⟩
      rw [hr0, rest_of_file _ (get_twobyte f).2.2 rfl]
      exact a2
    · rw [if_neg h1]
      have a3' := a3 h1
      by_cases h2 : (get_twobyte f).2.1 = 0xffff
      · rw [if_pos h2]
        by_cases h3 : (getc (get_twobyte f).2.2).1 = EOF
        · rw [if_pos h3]
          refine ⟨readFrame_of_file _ _ f _ rfl hf rfl (a1.data_trans b1) rfl rfl, ?_,
            fun h => absurd rfl h⟩
          rw [hr0, rest_of_file _ (getc (get_twobyte f).2.2).2 rfl]
          omega
        · rw [if_neg h3]
          by_cases h4 : (get_fourbyte (getc (get_twobyte f).2.2).2).1 = -1
          · rw [if_pos h4]
            refine ⟨readFrame_of_file _ _ f _ rfl hf rfl ((a1.data_trans b1).data_trans c1)
              rfl rfl, ?_, fun h => absurd rfl h⟩
            rw [hr0, rest_of_file _ (get_fourbyte (getc (get_twobyte f).2.2).2).2.2 rfl]
            omega
          · rw [if_neg h4]
            refine ⟨readFrame_of_file _ _ f _ rfl hf rfl ((a1.data_trans b1).data_trans c1)
              rfl rfl, ?_, fun _ => ?_⟩
            · rw [hr0, rest_of_file _ (get_fourbyte (getc (get_twobyte f).2.2).2).2.2 rfl]
              omega
            · rw [hr0, rest_of_file _ (get_fourbyte (getc (get_twobyte f).2.2).2).2.2 rfl]
              omega
      · rw [if_neg h2]
        refine ⟨readFrame_of_file _ _ f _ rfl hf rfl a1 rfl rfl, ?_, fun _ => ?_⟩
        · rw [hr0, rest_of_file _ (get_twobyte f).2.2 rfl]
          exact a2
        · rw [hr0, rest_of_file _ (get_twobyte f).2.2 rfl]
          exact a3'

/-- The pulse-train decoder: storage and clock are left alone, and a record
read shortens what is left of the file. -/
theorem in_cpt_progress (s : Cassette) :
    ReadFrame s (in_cpt s).2
    ∧ (cas_in_of (in_cpt s).2).rest.length ≤ (cas_in_of s).rest.length
    ∧ ((in_cpt s).1 ≠ 0 →
        (cas_in_of (in_cpt s).2).rest.length < (cas_in_of s).rest.length) := by
  obtain ⟨g1, g2, g3⟩ := get_cpt_progress s
  unfold in_cpt
  split
  · rename_i s' heq
    rw [heq] at g1 g2
    exact ⟨g1, g2, fun h => absurd rfl h⟩
  · rename_i d s' heq
    rw [heq] at g1 g2 g3
    obtain ⟨f1, f2⟩ := set_delta_frame d s'
    refine ⟨g1.rf_trans f1, ?_, fun _ => ?_⟩
    · show (cas_in_of (set_delta d s')).rest.length ≤ _
      rw [f2]
      exact g2
    · show (cas_in_of (set_delta d s')).rest.length < _
      rw [f2]
      exact g3 (by simp)

theorem classify_sample_frame2 (c : Int) (s : Cassette) :
    ReadFrame s (classify_sample c s).2
    ∧ (cas_in_of (classify_sample c s).2).rest = (cas_in_of s).rest := by
  unfold classify_sample
  simp only
  repeat' split
  all_goals exact ⟨readFrame_of_eq _ _ rfl rfl rfl rfl, rfl⟩

theorem step_pos_frame (s : Cassette) :
    ReadFrame s (on_file (fun f => (0, { f with pos := f.pos + 1 })) s)
    ∧ (cas_in_of (on_file (fun f => (0, { f with pos := f.pos + 1 })) s)).rest
        = (cas_in_of s).rest.tail := by
  cases hf : s.cassette_file with
  | none =>
    have : on_file (fun f => (0, { f with pos := f.pos + 1 })) s = s := by
      unfold on_file
      rw [hf]
      cases s
      simp_all
    rw [this, rest_of_none s hf]
    exact ⟨ReadFrame.rf_refl s, rfl⟩
  | some f =>
    have hg : (on_file (fun f => (0, { f with pos := f.pos + 1 })) s).cassette_file
        = some { f with pos := f.pos + 1 } := by
      unfold on_file
      rw [hf]
      rfl
    refine ⟨readFrame_of_file _ _ f _ rfl hf hg (sameData_pos f _) rfl rfl, ?_⟩
    rw [rest_of_file _ _ hg, rest_of_file _ _ hf]
    unfold unread
    by_cases hrd : f.rd = true
    · rw [if_pos hrd, if_pos hrd]
      simp only [List.tail_drop]
    · rw [if_neg hrd, if_neg hrd]
      rfl

theorem wav_scan_progress (rest : List Nat) : ∀ (n m : Nat) (s : Cassette),
    (cas_in_of s).rest = rest →
    ReadFrame s (wav_scan rest n m s).2
    ∧ (cas_in_of (wav_scan rest n m s).2).rest.length ≤ rest.length
    ∧ ((wav_scan rest n m s).1 ≠ none →
        (cas_in_of (wav_scan rest n m s).2).rest.length < rest.length) := by
  induction rest with
  | nil =>
    intro n m s h
    refine ⟨ReadFrame.rf_refl s, ?_, fun hh => absurd rfl hh⟩
    show (cas_in_of s).rest.length ≤ _
    rw [h]
  | cons c rest ih =>
    intro n m s h
    obtain ⟨p1, p2⟩ := step_pos_frame s
    obtain ⟨q1, q2⟩ := classify_sample_frame2 (c : Int)
      (on_file (fun f => (0, { f with pos := f.pos + 1 })) s)
    have hrest : (cas_in_of (classify_sample (c : Int)
        (on_file (fun f => (0, { f with pos := f.pos + 1 })) s)).2).rest = rest := by
      rw [q2, p2, h]
      rfl
    have hfr := p1.rf_trans q1
    unfold wav_scan
    dsimp only
    split
    · refine ⟨hfr, ?_, fun _ => ?_⟩
      · rw [hrest]
        exact Nat.le_succ _
      · rw [hrest]
        exact Nat.lt_succ_self _
    · split
      · obtain ⟨i1, i2, i3⟩ := ih (n + 1) (m - 1) _ hrest
        refine ⟨hfr.rf_trans i1, Nat.le_succ_of_le i2, fun hh => ?_⟩
        exact Nat.lt_succ_of_le i2
      · refine ⟨hfr, ?_, fun _ => ?_⟩
        · rw [hrest]
          exact Nat.le_succ _
        · rw [hrest]
          exact Nat.lt_succ_self _

/-- The wave decoder: storage and clock are left alone, and a transition read
shortens what is left of the file. -/
theorem in_wav_progress (s : Cassette) :
    ReadFrame s (in_wav s).2
    ∧ (cas_in_of (in_wav s).2).rest.length ≤ (cas_in_of s).rest.length
    ∧ ((in_wav s).1 ≠ 0 →
        (cas_in_of (in_wav s).2).rest.length < (cas_in_of s).rest.length) := by
  obtain ⟨w1, w2, w3⟩ := wav_scan_progress (cas_in_of s).rest 0
    (ulong_of_int (Int.tdiv s.cassette_sample_rate 100)) s rfl
  unfold in_wav
  dsimp only
  split
  · exact ⟨w1, w2, fun h => absurd rfl h⟩
  · rename_i nx ns heq
    have w3' := w3 (by
      intro hh
      have : (wav_scan (cas_in_of s).rest 0
          (ulong_of_int (Int.tdiv s.cassette_sample_rate 100)) s).1 = some (nx, ns) := heq
      rw [this] at hh
      exact absurd hh (by simp))
    exact ⟨w1.rf_trans (readFrame_of_eq _ _ rfl rfl rfl rfl), w2, fun _ => w3'⟩

theorem cas_emit_frame (s : Cassette) : ReadFrame s (cas_emit s).2 := by
  unfold cas_emit
  simp only
  split <;> exact readFrame_of_eq _ _ rfl rfl rfl rfl

theorem fetch_frame (s : Cassette) (bn byte : Int) :
    ReadFrame s { s with cassette_bitnumber := bn,
                         cassette_file := (match s.cassette_file with
                            | none => ((EOF : Int), (none : Option FILE))
                            | some f => ((getc f).1, some (getc f).2)).2,
                         cassette_byte := byte } := by
  cases hf : s.cassette_file with
  | none => exact readFrame_of_eq _ _ rfl (by rw [hf]) rfl rfl
  | some f => exact readFrame_of_file _ _ f (getc f).2 rfl hf rfl (getc_unread f).1 rfl rfl

theorem in_cas_body_frame (s : Cassette) :
    ReadFrame s (if s.cassette_bitnumber < 0 then
      (if (match s.cassette_file with
            | none => ((EOF : Int), (none : Option FILE))
            | some f => ((getc f).1, some (getc f).2)).1 = EOF then
        (if s.cassette_byte = 0x100 then
          ((0 : Int), { s with cassette_file := (match s.cassette_file with
            | none => ((EOF : Int), (none : Option FILE))
            | some f => ((getc f).1, some (getc f).2)).2 })
        else cas_emit { s with
            cassette_byte := 0x100, cassette_bitnumber := 7,
            cassette_file := (match s.cassette_file with
            | none => ((EOF : Int), (none : Option FILE))
            | some f => ((getc f).1, some (getc f).2)).2 })
      else cas_emit { s with
            cassette_bitnumber := 7,
            cassette_byte := (match s.cassette_file with
            | none => ((EOF : Int), (none : Option FILE))
            | some f => ((getc f).1, some (getc f).2)).1,
            cassette_file := (match s.cassette_file with
            | none => ((EOF : Int), (none : Option FILE))
            | some f => ((getc f).1, some (getc f).2)).2 })
      else cas_emit s).2 := by
  by_cases h1 : s.cassette_bitnumber < 0
  · rw [if_pos h1]
    by_cases h2 : (match s.cassette_file with
            | none => ((EOF : Int), (none : Option FILE))
            | some f => ((getc f).1, some (getc f).2)).1 = EOF
    · rw [if_pos h2]
      by_cases h3 : s.cassette_byte = 0x100
      · rw [if_pos h3]
        exact fetch_frame s s.cassette_bitnumber s.cassette_byte
      · rw [if_neg h3]
        exact (fetch_frame s 7 0x100).rf_trans (cas_emit_frame _)
    · rw [if_neg h2]
      exact (fetch_frame s 7 _).rf_trans (cas_emit_frame _)
  · rw [if_neg h1]
    exact cas_emit_frame s

/-- The bitstream decoder leaves storage and clock alone. -/
theorem in_cas_frame (s : Cassette) : ReadFrame s (in_cas s).2 := by
  have f1 : ReadFrame s (if s.cassette_pulsestate = 0 then
      { s with cassette_bitnumber := s.cassette_bitnumber - 1 } else s) := by
    split <;> exact readFrame_of_eq _ _ rfl rfl rfl rfl
  exact f1.rf_trans (in_cas_body_frame _)

/-- The bound of the CAS decoder drops with every transition delivered. -/
theorem cas_bound_step (hs : Int) (hhs : hs = 0 ∨ hs = 1) (a a' : CasIn) (t : Int × Nat)
    (hok : CasInOk hs a) (h : cas_in_step hs a = some (t, a')) :
    cas_bound a' < cas_bound a := by
  obtain ⟨_, k2, k3, k4, k5⟩ := cas_in_step_some hs a a' t h
  obtain ⟨_, c2, _⟩ := cas_in_step_ok hs hhs a a' t hok h
  obtain ⟨o1, o2, o3⟩ := hok
  have hlen := shape_length_int hs (cas_bit a') hhs (cas_bit01 a')
  have hp' : a'.pulsestate = 0 ∨ a'.pulsestate = a.pulsestate + 1 := by
    rw [k2]; split
    · exact Or.inl rfl
    · exact Or.inr rfl
  have hP : (if a'.pulsestate = 0 then 0 else (7 - a'.pulsestate).toNat) ≤ 6
      ∧ (a.pulsestate ≠ 0 → (if a'.pulsestate = 0 then 0 else (7 - a'.pulsestate).toNat)
          < (if a.pulsestate = 0 then 0 else (7 - a.pulsestate).toNat)) := by
    constructor
    · split
      · omega
      · omega
    · intro hz
      rw [if_neg hz]
      split
      · omega
      · omega
  obtain ⟨P', hP'⟩ : ∃ P', P' = (if a'.pulsestate = 0 then 0 else (7 - a'.pulsestate).toNat) :=
    ⟨_, rfl⟩
  rw [← hP'] at hP
  obtain ⟨P, hPd⟩ : ∃ P, P = (if a.pulsestate = 0 then 0 else (7 - a.pulsestate).toNat) :=
    ⟨_, rfl⟩
  have hP0 : a.pulsestate = 0 → P = 0 := fun hz => by rw [hPd, if_pos hz]
  rw [← hPd] at hP
  unfold cas_bound
  rw [← hP', ← hPd]
  have hE : (if a'.byte = 0x100 ∧ a'.rest = [] then 0 else 1) ≤ 1 := by split <;> omega
  obtain ⟨E', hE'⟩ : ∃ E', E' = (if a'.byte = 0x100 ∧ a'.rest = [] then 0 else 1) := ⟨_, rfl⟩
  rw [← hE'] at hE ⊢
  by_cases hneg : (if a.pulsestate = 0 then a.bitnumber - 1 else a.bitnumber) < 0
  · obtain ⟨e1, e2, e3, e4⟩ := k4 hneg
    have hp0 : a.pulsestate = 0 := by
      by_contra hz
      rw [if_neg hz] at hneg
      have := o3 hz
      omega
    rw [if_pos hp0] at hneg
    have hb : a.bitnumber.toNat = 0 := by omega
    have hz := hP0 hp0
    rw [e1, e2, hb, hz]
    cases hr : a.rest with
    | nil =>
      obtain ⟨e5, e6⟩ := e3 hr
      have : E' = 0 := by rw [hE', if_pos ⟨e6, by rw [e2, hr]; rfl⟩]
      rw [this, if_neg (fun hh => e5 hh.1)]
      show 56 * (0 + 0) + 7 * (7 : Int).toNat + P' < 56 * (0 + 1) + 7 * 0 + 0
      have : (7 : Int).toNat = 7 := rfl
      omega
    | cons c r =>
      rw [if_neg (fun hh => by simp at hh)]
      show 56 * (r.length + E') + 7 * (7 : Int).toNat + P' < 56 * (r.length + 1 + 1) + 7 * 0 + 0
      have : (7 : Int).toNat = 7 := rfl
      omega
  · obtain ⟨e1, e2, e3⟩ := k5 hneg
    rw [hE', e2, e3, e1]
    by_cases hp0 : a.pulsestate = 0
    · rw [if_pos hp0] at hneg ⊢
      have hz := hP0 hp0
      have : (a.bitnumber - 1).toNat + 1 = a.bitnumber.toNat := by omega
      omega
    · rw [if_neg hp0]
      have := hP.2 hp0
      omega

/-- A failed step does not raise the bound of the CAS decoder. -/
theorem cas_bound_fail (hs : Int) (a : CasIn) (h : cas_in_step hs a = none) :
    cas_bound { a with bitnumber := if a.pulsestate = 0 then a.bitnumber - 1
                                    else a.bitnumber } ≤ cas_bound a := by
  obtain ⟨n1, n2, n3⟩ := cas_in_step_none hs a h
  unfold cas_bound
  have : (if a.pulsestate = 0 then a.bitnumber - 1 else a.bitnumber).toNat = 0 := by omega
  show 56 * (a.rest.length + (if a.byte = 0x100 ∧ a.rest = [] then 0 else 1))
      + 7 * (if a.pulsestate = 0 then a.bitnumber - 1 else a.bitnumber).toNat
      + (if a.pulsestate = 0 then 0 else (7 - a.pulsestate).toNat) ≤ _
  rw [this]
  omega

/-- What the arms of the decoder share, whatever becomes of `cassette_delta`
afterwards. -/
theorem arm_progress (s : Cassette) (r : Int × Cassette)
    (h : ReadFrame s r.2
      ∧ (cas_in_of r.2).rest.length ≤ (cas_in_of s).rest.length
      ∧ (r.1 ≠ 0 → (cas_in_of r.2).rest.length < (cas_in_of s).rest.length)) :
    ReadFrame s (if r.1 = 0 then ((0 : Int), { r.2 with cassette_delta := ULONG_MAX }) else r).2
    ∧ (cas_in_of (if r.1 = 0 then ((0 : Int), { r.2 with cassette_delta := ULONG_MAX })
        else r).2).rest.length ≤ (cas_in_of s).rest.length
    ∧ ((if r.1 = 0 then ((0 : Int), { r.2 with cassette_delta := ULONG_MAX }) else r).1 ≠ 0 →
        (cas_in_of (if r.1 = 0 then ((0 : Int), { r.2 with cassette_delta := ULONG_MAX })
          else r).2).rest.length < (cas_in_of s).rest.length) := by
  obtain ⟨h1, h2, h3⟩ := h
  by_cases h0 : r.1 = 0
  · rw [if_pos h0]
    exact ⟨h1.rf_trans (readFrame_of_eq _ _ rfl rfl rfl rfl), h2, fun hh => absurd rfl hh⟩
  · rw [if_neg h0]
    exact ⟨h1, h2, fun _ => h3 h0⟩

/-- Reading a transition leaves storage and clock alone. -/
theorem transition_in_frame (s : Cassette) : ReadFrame s (transition_in s).2 := by
  unfold transition_in
  dsimp only
  have key : ∀ r : Int × Cassette, ReadFrame s r.2 →
      ReadFrame s (if r.1 = 0 then ((0 : Int), { r.2 with cassette_delta := ULONG_MAX })
        else r).2 := by
    intro r h
    split
    · exact h.rf_trans (readFrame_of_eq _ _ rfl rfl rfl rfl)
    · exact h
  apply key
  split
  · exact (in_debug_progress s).1
  · split
    · exact (in_cpt_progress s).1
    · split
      · exact (in_wav_progress s).1
      · split
        · exact in_cas_frame s
        · exact readFrame_of_eq _ _ rfl rfl rfl rfl

/-- Outside the CAS format, reading a transition shortens what is left of the
file when it succeeds, and never lengthens it. -/
theorem transition_in_rest (s : Cassette) (hfmt : s.cassette_format ≠ CAS_FORMAT) :
    (cas_in_of (transition_in s).2).rest.length ≤ (cas_in_of s).rest.length
    ∧ ((transition_in s).1 ≠ 0 →
        (cas_in_of (transition_in s).2).rest.length < (cas_in_of s).rest.length) := by
  unfold transition_in
  dsimp only
  by_cases h1 : s.cassette_format = DEBUG_FORMAT
  · rw [if_pos h1]
    exact (arm_progress s _ (in_debug_progress s)).2
  · rw [if_neg h1]
    by_cases h2 : s.cassette_format = CPT_FORMAT
    · rw [if_pos h2]
      exact (arm_progress s _ (in_cpt_progress s)).2
    · rw [if_neg h2]
      by_cases h3 : s.cassette_format = DIRECT_FORMAT ∨ s.cassette_format = WAV_FORMAT
      · rw [if_pos h3]
        exact (arm_progress s _ (in_wav_progress s)).2
      · rw [if_neg h3, if_neg hfmt]
        exact ⟨le_refl _, fun hh => absurd rfl hh⟩

/-- Reading a transition keeps the decoder in order and lowers the bound on
the transitions left: strictly when it succeeds. -/
theorem transition_in_progress (s : Cassette) (hok : DecoderOk s) :
    DecoderOk (transition_in s).2
    ∧ decode_bound (transition_in s).2 ≤ decode_bound s
    ∧ ((transition_in s).1 ≠ 0 → decode_bound (transition_in s).2 < decode_bound s) := by
  have hm := transition_in_mode s
  have hf : (transition_in s).2.cassette_format = s.cassette_format := hm.2.2.1
  by_cases hfmt : s.cassette_format = CAS_FORMAT
  · obtain ⟨hhs, hc⟩ := hok hfmt
    obtain ⟨c1, c2⟩ := transition_in_cas_any s hfmt
    unfold decode_bound
    rw [if_pos hfmt, if_pos (hf.trans hfmt)]
    cases hstep : cas_in_step s.cassette_highspeed (cas_in_of s) with
    | none =>
      obtain ⟨r1, _, r3, _, r5⟩ := c1 hstep
      have hb := cas_bound_fail _ _ hstep
      have ho := (cas_in_step_fail_ok _ hhs _ hc hstep).2
      refine ⟨fun _ => ⟨by rw [r5]; exact hhs, ?_⟩, ?_, fun hh => absurd r1 hh⟩
      · rw [r5, r3]
        exact ho
      · rw [r3]
        exact hb
    | some p =>
      obtain ⟨t, a'⟩ := p
      obtain ⟨_, _, r3, _, r5⟩ := c2 t a' hstep
      have hb := cas_bound_step _ hhs _ _ _ hc hstep
      have ho := (cas_in_step_ok _ hhs _ _ _ hc hstep).1
      refine ⟨fun _ => ⟨by rw [r5]; exact hhs, ?_⟩, ?_, fun _ => ?_⟩
      · rw [r5, r3]
        exact ho
      · rw [r3]
        exact le_of_lt hb
      · rw [r3]
        exact hb
  · obtain ⟨q1, q2⟩ := transition_in_rest s hfmt
    unfold decode_bound
    rw [if_neg hfmt, if_neg (by rw [hf]; exact hfmt)]
    exact ⟨fun hh => absurd (hf ▸ hh) hfmt, q1, q2⟩

theorem elapsed_after (t tr d : Nat) (h : d ≤ tsub t tr) :
    tsub t (tadd tr d) = tsub t tr - d := by
  unfold tsub tadd at *
  omega

theorem tsub_lt (a b : Nat) : tsub a b ≤ ULONG_MAX := by
  unfold tsub ULONG_MAX
  omega

theorem deliver_fields (s : Cassette) :
    SameMode s (deliver s) ∧ ReadFrame s { deliver s with cassette_transition := s.cassette_transition }
    ∧ (deliver s).cassette_transition = tadd s.cassette_transition s.cassette_delta
    ∧ (deliver s).t_count = s.t_count
    ∧ cas_in_of (deliver s) = cas_in_of s
    ∧ (deliver s).cassette_highspeed = s.cassette_highspeed
    ∧ (deliver s).cassette_value = s.cassette_next := by
  unfold deliver
  dsimp only
  by_cases h1 : s.cassette_next ≠ 0 ∧ s.cassette_value = 0
  · rw [if_pos h1]
    dsimp only
    by_cases h2 : s.cassette_next ≠ 0
    · rw [if_pos h2]
      exact ⟨⟨rfl, rfl, rfl, rfl⟩, readFrame_of_eq _ _ rfl rfl rfl rfl, rfl, rfl, rfl, rfl, rfl⟩
    · rw [if_neg h2]
      exact ⟨⟨rfl, rfl, rfl, rfl⟩, readFrame_of_eq _ _ rfl rfl rfl rfl, rfl, rfl, rfl, rfl, rfl⟩
  · rw [if_neg h1]
    by_cases h2 : s.cassette_next ≠ 0
    · rw [if_pos h2]
      exact ⟨⟨rfl, rfl, rfl, rfl⟩, readFrame_of_eq _ _ rfl rfl rfl rfl, rfl, rfl, rfl, rfl, rfl⟩
    · rw [if_neg h2]
      exact ⟨⟨rfl, rfl, rfl, rfl⟩, readFrame_of_eq _ _ rfl rfl rfl rfl, rfl, rfl, rfl, rfl, rfl⟩

theorem update_loop_pass (fuel : Nat) (nt : Int) (s : Cassette)
    (h : tsub s.t_count s.cassette_transition ≥ s.cassette_delta) :
    update_loop (fuel + 1) nt s
      = if (transition_in (deliver s)).2.nmi ≠ 0 then some (none, (transition_in (deliver s)).2)
        else update_loop fuel (transition_in (deliver s)).1 (transition_in (deliver s)).2 := by
  rw [update_loop, if_pos h]
  rfl

theorem update_loop_exit (fuel : Nat) (nt : Int) (s : Cassette)
    (h : ¬ tsub s.t_count s.cassette_transition ≥ s.cassette_delta) :
    update_loop (fuel + 1) nt s = some (some nt, s) := by
  rw [update_loop, if_neg h]

/-- A pass through the loop lowers the bound on the passes left. -/
theorem update_bound_pass (s : Cassette) (hok : DecoderOk s)
    (h : tsub s.t_count s.cassette_transition ≥ s.cassette_delta) :
    update_bound (transition_in (deliver s)).2 < update_bound s
    ∧ DecoderOk (transition_in (deliver s)).2 := by
  obtain ⟨d1, d2, d3, d4, d5, d6, _⟩ := deliver_fields s
  have hok1 : DecoderOk (deliver s) := by
    intro hf
    have hf' : s.cassette_format = CAS_FORMAT := d1.2.2.1 ▸ hf
    rw [d6, d5]
    exact hok hf'
  have hb1 : decode_bound (deliver s) = decode_bound s := by
    unfold decode_bound
    rw [d5, d1.2.2.1]
  obtain ⟨p1, p2, p3⟩ := transition_in_progress (deliver s) hok1
  obtain ⟨_, f2, f3⟩ := transition_in_frame (deliver s)
  refine ⟨?_, p1⟩
  rw [hb1] at p2 p3
  have he : tsub (transition_in (deliver s)).2.t_count
      (transition_in (deliver s)).2.cassette_transition
      = tsub s.t_count s.cassette_transition - s.cassette_delta := by
    rw [f2, f3, d3, d4]
    exact elapsed_after _ _ _ h
  unfold update_bound
  rw [he, if_neg (not_lt.mpr h)]
  by_cases h0 : (transition_in (deliver s)).1 = 0
  · have hd := transition_in_fail _ h0
    rw [hd]
    have hlt := tsub_lt s.t_count s.cassette_transition
    have hU : ULONG_MAX = 2 ^ 64 - 1 := rfl
    rw [hU] at hlt ⊢
    split
    · split <;> omega
    · rw [if_neg (fun hh => absurd hh.2 (by decide))]
      rw [if_pos (show tsub s.t_count s.cassette_transition = 2 ^ 64 - 1 ∧ s.cassette_delta = 0
        from ⟨by omega, by omega⟩)]
      omega
  · have := p3 h0
    have ha : ∀ (P Q : Prop) [Decidable P] [Decidable Q],
        (if P then 0 else if Q then 2 else 1 : Nat) ≤ 2 := by
      intro P Q _ _
      split
      · omega
      · split <;> omega
    have hb : ∀ (Q : Prop) [Decidable Q], 1 ≤ (if Q then 2 else 1 : Nat) := by
      intro Q _
      split <;> omega
    refine lt_of_le_of_lt (Nat.add_le_add_left (ha _ _) _) ?_
    refine lt_of_lt_of_le ?_ (Nat.add_le_add_left (hb _) _)
    omega

/-- The loop of `trs_cassette_update` ends: with fuel above the bound it
returns, having left the mode, storage and clock alone and the decoder in
order. -/
theorem update_loop_terminates : ∀ (n : Nat) (s : Cassette) (nt : Int),
    update_bound s ≤ n → DecoderOk s →
    ∃ r, update_loop (n + 1) nt s = some r ∧ SameMode s r.2 ∧ NothingWritten s r.2
      ∧ r.2.t_count = s.t_count ∧ DecoderOk r.2 := by
  intro n
  induction n with
  | zero =>
    intro s nt hb hok
    by_cases h : tsub s.t_count s.cassette_transition ≥ s.cassette_delta
    · exfalso
      unfold update_bound at hb
      rw [if_neg (not_lt.mpr h)] at hb
      split at hb <;> omega
    · exact ⟨_, update_loop_exit 0 nt s h, ⟨rfl, rfl, rfl, rfl⟩, NothingWritten.nw_refl s, rfl,
        hok⟩
  | succ m ih =>
    intro s nt hb hok
    by_cases h : tsub s.t_count s.cassette_transition ≥ s.cassette_delta
    · obtain ⟨b1, b2⟩ := update_bound_pass s hok h
      obtain ⟨d1, d2, _, d4, _⟩ := deliver_fields s
      have hm : SameMode s (transition_in (deliver s)).2 :=
        d1.mode_trans (transition_in_mode _)
      obtain ⟨f1, f2, _⟩ := transition_in_frame (deliver s)
      have hnw : NothingWritten s (transition_in (deliver s)).2 := by
        have e : NothingWritten s (deliver s) := by
          obtain ⟨⟨q1, q2⟩, _⟩ := d2
          exact ⟨q1, q2⟩
        exact e.nw_trans f1
      rw [update_loop_pass _ _ _ h]
      by_cases hn : (transition_in (deliver s)).2.nmi ≠ 0
      · rw [if_pos hn]
        exact ⟨_, rfl, hm, hnw, by rw [f2, d4], b2⟩
      · rw [if_neg hn]
        obtain ⟨r, r1, r2, r3, r4, r5⟩ := ih (transition_in (deliver s)).2
          (transition_in (deliver s)).1 (by omega) b2
        exact ⟨r, r1, hm.mode_trans r2, hnw.nw_trans r3, by rw [r4, f2, d4], r5⟩
    · exact ⟨_, update_loop_exit _ nt s h, ⟨rfl, rfl, rfl, rfl⟩, NothingWritten.nw_refl s, rfl,
        hok⟩

/-- The read-side catch-up of a session in `READ` with the motor on returns,
given fuel above the bound: the mode, storage and clock are as before. -/
theorem update_while_reading (fuel : Nat) (s : Cassette)
    (hm : s.cassette_motor ≠ 0) (hst : s.cassette_state = READ) (hok : DecoderOk s)
    (hfuel : update_bound s < fuel) :
    ∃ u, trs_cassette_update fuel 0 s = some u ∧ SameMode s u ∧ NothingWritten s u
      ∧ u.t_count = s.t_count ∧ DecoderOk u := by
  obtain ⟨n, rfl⟩ : ∃ n, fuel = n + 1 := ⟨fuel - 1, by omega⟩
  obtain ⟨r, r1, r2, r3, r4, r5⟩ := update_loop_terminates n s 0 (by omega) hok
  have ha : assert_state READ s = (1, s) := by
    have := assert_state_current s
    rw [hst] at this
    exact this
  unfold trs_cassette_update
  rw [if_pos (show s.cassette_motor ≠ 0 ∧ s.cassette_state ≠ WRITE from
    ⟨hm, by rw [hst]; decide⟩)]
  dsimp only
  rw [ha]
  dsimp only
  rw [if_pos (show (1 : Int) ≥ 0 by decide), r1]
  obtain ⟨nt, u⟩ := r
  cases nt with
  | none => exact ⟨u, rfl, r2, r3, r4, r5⟩
  | some nt =>
    dsimp only
    have key : ∀ (f : EventFunc) (a c : Int),
        SameMode s (trs_schedule_event f a c u) ∧ NothingWritten s (trs_schedule_event f a c u)
        ∧ (trs_schedule_event f a c u).t_count = s.t_count
        ∧ DecoderOk (trs_schedule_event f a c u) :=
      fun f a c => ⟨r2, r3, r4, r5⟩
    split
    · split
      · exact ⟨_, rfl, key _ _ _⟩
      · split
        · exact ⟨_, rfl, key _ _ _⟩
        · exact ⟨_, rfl, key _ _ _⟩
    · exact ⟨u, rfl, r2, r3, r4, r5⟩

/-- Claim C28 (PortWrite while Reading): for every value `v`, with the motor
on and `cassette_state = READ` (the decoder in order, and fuel above the bound
on the passes of the catch-up loop), `trs_cassette_out v` returns: it first
runs the read-side catch-up `trs_cassette_update`, whose result `u` it hands
back with `cassette_flipflop` set to 0 and nothing else changed.  The state
is still `READ`, the motor is on, and nothing has been written to storage: no
transition has been encoded. -/
theorem port_write_while_reading (fuel : Nat) (v : Int) (s : Cassette)
    (hm : s.cassette_motor ≠ 0) (hst : s.cassette_state = READ) (hok : DecoderOk s)
    (hfuel : update_bound s < fuel) :
    ∃ u s', trs_cassette_update fuel 0 s = some u
      ∧ trs_cassette_out fuel v s = some s'
      ∧ s' = { u with cassette_flipflop := 0 }
      ∧ s'.cassette_state = READ ∧ s'.cassette_flipflop = 0
      ∧ s'.cassette_motor = s.cassette_motor ∧ s'.cassette_format = s.cassette_format
      ∧ NothingWritten s s' := by
  obtain ⟨u, u1, u2, u3, _, _⟩ := update_while_reading fuel s hm hst hok hfuel
  refine ⟨u, { u with cassette_flipflop := 0 }, u1, ?_, rfl, u2.1.trans hst, rfl, u2.2.1,
    u2.2.2.1, u3.nw_trans (readFrame_of_eq _ _ rfl rfl rfl rfl).1⟩
  unfold trs_cassette_out
  rw [if_pos hm]
  dsimp only
  rw [if_pos hst, u1]
  dsimp only [Option.map]
  rw [if_neg (fun hh => hh.1 (u2.1.trans hst))]



theorem port_write_while_reading_witness :
    ∃ u s', trs_cassette_update 400 0 { cas_reader false [0xA5] with t_count := 5000 } = some u
      ∧ trs_cassette_out 400 2 { cas_reader false [0xA5] with t_count := 5000 } = some s'
      ∧ s' = { u with cassette_flipflop := 0 }
      ∧ s'.cassette_state = READ ∧ s'.cassette_flipflop = 0
      ∧ s'.cassette_motor = (cas_reader false [0xA5]).cassette_motor
      ∧ s'.cassette_format = (cas_reader false [0xA5]).cassette_format
      ∧ NothingWritten { cas_reader false [0xA5] with t_count := 5000 } s' :=
  port_write_while_reading 400 2 { cas_reader false [0xA5] with t_count := 5000 }
    (by decide) (by decide) (fun _ => ⟨Or.inl rfl, by decide, by decide, by decide⟩) (by decide)

theorem transition_in_cpt_some (s : Cassette) (d : Nat)
    (hfmt : s.cassette_format = CPT_FORMAT) (h : (get_cpt s).1 = some d) (hd : d < 2 ^ 64)
    (hclk : (get_cpt s).2.clockMHz = 1) (herr : (get_cpt s).2.cassette_roundoff_error = 0) :
    transition_in s = (1, { (get_cpt s).2 with cassette_delta := d }) := by
  have e : in_cpt s = (1, set_delta d (get_cpt s).2) := by
    unfold in_cpt
    rcases hg : get_cpt s with ⟨a, b⟩
    rw [hg] at h
    cases h
    rfl
  have h1 : ¬ s.cassette_format = DEBUG_FORMAT := by rw [hfmt]; decide
  unfold transition_in
  rw [if_neg h1, if_pos hfmt, e]
  show (if (1 : Int) = 0 then _ else _) = _
  rw [if_neg (show ¬ (1 : Int) = 0 by decide), set_delta_mhz d hd _ hclk herr]

theorem transition_in_cpt_none (s : Cassette)
    (hfmt : s.cassette_format = CPT_FORMAT) (h : (get_cpt s).1 = none) :
    transition_in s = (0, { (get_cpt s).2 with cassette_delta := ULONG_MAX }) := by
  have e : in_cpt s = (0, (get_cpt s).2) := by
    unfold in_cpt
    rcases hg : get_cpt s with ⟨a, b⟩
    rw [hg] at h
    cases h
    rfl
  have h1 : ¬ s.cassette_format = DEBUG_FORMAT := by rw [hfmt]; decide
  unfold transition_in
  rw [if_neg h1, if_pos hfmt, e]
  rfl


/-- Counterexample to claim C22: in the CAS format `transition_out FLUSH`
stores FLUSH (4) in `cassette_value`; and a reading session delivers to
`cassette_value` the value its file holds, here 7 from the escape record
ff ff 07 64 00 00 00 of a pulse-train file, read by `trs_cassette_in` at tick
1000 after motor-on. -/
theorem value_outside_levels :
    (demo_writer "out.cas" CAS_FORMAT 1).cassette_value = 0
    ∧ (transition_out FLUSH (demo_writer "out.cas" CAS_FORMAT 1)).cassette_value = 4
    ∧ (trs_cassette_in 5 (motor_on_at "tape.cpt" CPT_FORMAT [0xff, 0xff, 7, 100, 0, 0, 0]
        1000)).map (fun r => (r.2.cassette_state, r.2.cassette_value)) = some (READ, 7) := by
  refine ⟨by decide, cas_flush_value _ (by decide), ?_⟩
  unfold trs_cassette_in
  dsimp only
  unfold trs_cassette_update
  rw [if_pos (by decide)]
  dsimp only
  rw [if_pos (by decide)]
  rw [update_loop_pass _ _ _ (by decide)]
  rw [transition_in_cpt_some _ 100 (by decide) (by decide) (by decide) (by decide) (by decide)]
  rw [if_neg (by decide)]
  dsimp only
  rw [update_loop_pass _ _ _ (by decide)]
  rw [transition_in_cpt_none _ (by decide) (by decide)]
  rw [if_neg (by decide)]
  dsimp only
  rw [update_loop_exit _ _ _ (by decide)]
  decide

theorem flush_keeps_value_witness :
    (transition_out FLUSH (demo_writer "tape" CPT_FORMAT 1)).cassette_value
      = (demo_writer "tape" CPT_FORMAT 1).cassette_value :=
  (flush_keeps_value (demo_writer "tape" CPT_FORMAT 1) (Or.inr (Or.inl (by decide)))).1

/-- Claim C31 (the analog decoder inverts the encoder's amplitude table): at
every noise floor `f` with `1 <= f <= 126` and for every value `v` in
{0, 1, 2}, the wave decoder classifies the sample `value_to_sample v` as `v`;
the samples are 127 for 0, 254 for 1 and 0 for 2. -/
theorem decoder_inverts_amplitude_table (s : Cassette) (v : Int)
    (hf : 1 ≤ s.cassette_noisefloor ∧ s.cassette_noisefloor ≤ 126)
    (hv : v = 0 ∨ v = 1 ∨ v = 2) :
    (classify_sample (value_to_sample v : Int) s).1 = v
    ∧ value_to_sample 0 = 127 ∧ value_to_sample 1 = 254 ∧ value_to_sample 2 = 0 := by
  obtain ⟨h1, h2⟩ := hf
  refine ⟨?_, rfl, rfl, rfl⟩
  rw [classify_sample_fst]
  rcases hv with rfl | rfl | rfl
  · show (if ((127 : Nat) : Int) > 127 + s.cassette_noisefloor then (1 : Int)
      else if ((127 : Nat) : Int) ≤ 127 - s.cassette_noisefloor then 2 else 0) = 0
    rw [if_neg (by omega), if_neg (by omega)]
  · show (if ((254 : Nat) : Int) > 127 + s.cassette_noisefloor then (1 : Int)
      else if ((254 : Nat) : Int) ≤ 127 - s.cassette_noisefloor then 2 else 0) = 1
    rw [if_pos (by omega)]
  · show (if ((0 : Nat) : Int) > 127 + s.cassette_noisefloor then (1 : Int)
      else if ((0 : Nat) : Int) ≤ 127 - s.cassette_noisefloor then 2 else 0) = 2
    rw [if_neg (by omega), if_pos (by omega)]

theorem decoder_inverts_amplitude_table_witness :
    (classify_sample (value_to_sample 1 : Int)
      (trs_cassette_motor 1 (Cassette.initial (demo_host "tape" WAV_FORMAT) 1 1))).1 = 1 :=
  (decoder_inverts_amplitude_table
    (trs_cassette_motor 1 (Cassette.initial (demo_host "tape" WAV_FORMAT) 1 1)) 1
    (by decide) (Or.inr (Or.inl rfl))).1

theorem lseek_indices_high (s : Z80) (h : 8 ≤ s.REG_HL) : lseek_indices s = [] := by
  unfold lseek_indices
  rw [Nat.sub_eq_zero_of_le h]
  rfl

/-- With `REG_HL` at 8 or above neither loop of `do_emt_lseek` runs: the
offset handed to `lseek` is 0, and nothing is stored afterwards. -/
theorem lseek_loops_skipped (o : Outside) (s : Z80) (h : 8 ≤ s.REG_HL) :
    lseek_offset o s = 0 ∧ ∀ (offset : Int) (t : Z80), t.REG_HL = s.REG_HL →
      lseek_store offset t = t := by
  constructor
  · unfold lseek_offset
    rw [lseek_indices_high s h]
    rfl
  · intro offset t ht
    unfold lseek_store
    rw [lseek_indices_high t (by rw [ht]; exact h)]
    rfl

theorem lseek_store_regs (offset : Int) (s : Z80) :
    (lseek_store offset s).REG_A = s.REG_A ∧ (lseek_store offset s).REG_F = s.REG_F := by
  unfold lseek_store
  have key : ∀ (l : List Nat) (p : Int × Z80),
      ((l.foldl (fun (p : Int × Z80) (i : Nat) =>
          (p.1 / 256, mem_write ((s.REG_HL : Int) + i) (p.1 % 256) p.2)) p).2).REG_A = p.2.REG_A
      ∧ ((l.foldl (fun (p : Int × Z80) (i : Nat) =>
          (p.1 / 256, mem_write ((s.REG_HL : Int) + i) (p.1 % 256) p.2)) p).2).REG_F
          = p.2.REG_F := by
    intro l
    induction l with
    | nil => intro p; exact ⟨rfl, rfl⟩
    | cons i l ih =>
      intro p
      rw [List.foldl_cons]
      exact ih _
  exact key _ _

/-- What `do_emt_lseek` reports in `REG_A` and the zero flag, for a buffer
inside memory: 0 and the flag set when `lseek` succeeds, `errno` and the flag
cleared when it returns -1. -/
theorem do_emt_lseek_flags (o : Outside) (s : Z80) (hhl : s.REG_HL + 8 ≤ 0x10000) :
    ((o.lseek s.REG_DE (lseek_offset o s) s.REG_BC).1 ≠ -1 →
        (do_emt_lseek o s).REG_A = 0
        ∧ (do_emt_lseek o s).REG_F = (Int.lor s.REG_F o.ZERO_MASK % 256).toNat)
    ∧ ((o.lseek s.REG_DE (lseek_offset o s) s.REG_BC).1 = -1 →
        (do_emt_lseek o s).REG_A
            = ((o.lseek s.REG_DE (lseek_offset o s) s.REG_BC).2 % 256).toNat
        ∧ (do_emt_lseek o s).REG_F
            = (Int.land s.REG_F (Int.not o.ZERO_MASK) % 256).toNat) := by
  have hg : ¬ s.REG_HL + 8 > 0x10000 := by omega
  constructor
  · intro h
    unfold do_emt_lseek
    rw [if_neg hg]
    dsimp only
    rw [if_pos h]
    obtain ⟨r1, r2⟩ := lseek_store_regs (o.lseek s.REG_DE (lseek_offset o s) s.REG_BC).1
      (zero_set o (set_A 0 s))
    exact ⟨r1.trans rfl, r2.trans rfl⟩
  · intro h
    unfold do_emt_lseek
    rw [if_neg hg]
    dsimp only
    rw [if_neg (not_not.mpr h)]
    obtain ⟨r1, r2⟩ := lseek_store_regs (o.lseek s.REG_DE (lseek_offset o s) s.REG_BC).1
      (zero_clear o (set_A (o.lseek s.REG_DE (lseek_offset o s) s.REG_BC).2 s))
    exact ⟨r1.trans rfl, r2.trans rfl⟩

/-- Claim C33 at a failing input (`do_emt_lseek` marshals an 8-byte
little-endian offset): with `REG_HL = 0x5000`, so that the 8 bytes lie inside
memory, and the bytes 10 00 00 00 00 00 00 00 there, their little-endian value
is 16, but the offset `do_emt_lseek` hands to `lseek` is 0: the loop
`for (i=REG_HL; i<8; i++)` starts at `REG_HL` and does not run.  The host,
which here returns its offset plus 1000, is asked for 0; on return `REG_A` is 0
and the zero flag (0x40) is set, and no byte has been stored at `REG_HL`. -/
theorem lseek_offset_not_marshalled :
    (trap_entry 0 0 3 0x5000).REG_HL + 8 ≤ 0x10000
    ∧ le64_at demo_outside 0x5000 = 16
    ∧ lseek_offset demo_outside (trap_entry 0 0 3 0x5000) = 0
    ∧ do_emt_lseek demo_outside (trap_entry 0 0 3 0x5000)
        = { REG_A := 0, REG_F := 0x40, REG_BC := 0, REG_DE := 3, REG_HL := 0x5000,
            stores := [] } := by
  decide

/-- The stores of `memcpy_to`: byte `k` of the source goes to `address + k`;
the registers are left alone. -/
theorem memcpy_to_stores : ∀ (bs : List Nat) (address : Int) (s : Z80),
    (∀ p ∈ (memcpy_to address bs s).stores, p ∈ s.stores ∨
        (address ≤ p.1 ∧ p.1 < address + bs.length))
    ∧ (memcpy_to address bs s).REG_HL = s.REG_HL
    ∧ (memcpy_to address bs s).REG_BC = s.REG_BC := by
  intro bs
  induction bs with
  | nil => intro address s; exact ⟨fun p hp => Or.inl hp, rfl, rfl⟩
  | cons b bs ih =>
    intro address s
    obtain ⟨i1, i2, i3⟩ := ih (address + 1) (mem_write address b s)
    refine ⟨fun p hp => ?_, i2, i3⟩
    have hlen : (((b :: bs).length : Nat) : Int) = (bs.length : Int) + 1 := by
      rw [List.length_cons]; push_cast; rfl
    rcases i1 p hp with h | h
    · have h' : p ∈ s.stores ++ [(address, (b : Int))] := h
      rcases List.mem_append.mp h' with h1 | h1
      · exact Or.inl h1
      · right
        have : p = (address, (b : Int)) := List.mem_singleton.mp h1
        rw [this]
        show address ≤ address ∧ address < address + (((b :: bs).length : Nat) : Int)
        omega
    · right
      omega

/-- When the message, the carriage return and the NUL fit in the buffer and
`strerror` has set no `errno`, every store of `do_emt_strerror` lies inside
the buffer. -/
theorem strerror_fits (o : Outside) (s : Z80) (hhl : s.REG_HL + s.REG_BC ≤ 0x10000)
    (herr : (o.strerror s.REG_A).2 = 0)
    (hfit : (o.strerror s.REG_A).1.length + 2 ≤ s.REG_BC) (hs : s.stores = []) :
    ∃ t, do_emt_strerror o s = some t
      ∧ ∀ p ∈ t.stores, (s.REG_HL : Int) ≤ p.1 ∧ p.1 < (s.REG_HL : Int) + s.REG_BC := by
  have hg : ¬ s.REG_HL + s.REG_BC > 0x10000 := by omega
  have hlt : ¬ (s.REG_BC : Int) < ((o.strerror s.REG_A).1.length : Int) + 2 := by omega
  have hnn : ¬ ((o.strerror s.REG_A).1.length : Int) < 0 := by omega
  unfold do_emt_strerror
  rw [if_neg hg]
  dsimp only
  rw [if_neg (not_not.mpr herr), if_neg hlt]
  dsimp only
  rw [if_neg hnn, if_pos herr]
  refine ⟨_, rfl, ?_⟩
  obtain ⟨m1, m2, _⟩ := memcpy_to_stores
    (List.take ((o.strerror s.REG_A).1.length : Int).toNat (o.strerror s.REG_A).1) s.REG_HL s
  have hlen : (List.take ((o.strerror s.REG_A).1.length : Int).toNat
      (o.strerror s.REG_A).1).length ≤ (o.strerror s.REG_A).1.length := List.length_take_le _ _
  intro p hp
  have hp' : p ∈ ((memcpy_to s.REG_HL (List.take ((o.strerror s.REG_A).1.length : Int).toNat
      (o.strerror s.REG_A).1) s).stores
        ++ [((s.REG_HL : Int) + ((o.strerror s.REG_A).1.length : Int), (13 : Int))])
        ++ [((s.REG_HL : Int) + (((o.strerror s.REG_A).1.length : Int) + 1), (0 : Int))] := by
    dsimp only [mem_write] at hp
    rw [m2] at hp
    exact hp
  rcases List.mem_append.mp hp' with h | h
  · rcases List.mem_append.mp h with h1 | h1
    · rcases m1 p h1 with h2 | h2
      · rw [hs] at h2
        exact absurd h2 (List.not_mem_nil _)
      · omega
    · have := List.mem_singleton.mp h1
      rw [this]
      show (s.REG_HL : Int) ≤ (s.REG_HL : Int) + ((o.strerror s.REG_A).1.length : Int)
        ∧ (s.REG_HL : Int) + ((o.strerror s.REG_A).1.length : Int) < (s.REG_HL : Int) + s.REG_BC
      omega
  · have := List.mem_singleton.mp h
    rw [this]
    show (s.REG_HL : Int) ≤ (s.REG_HL : Int) + (((o.strerror s.REG_A).1.length : Int) + 1)
      ∧ (s.REG_HL : Int) + (((o.strerror s.REG_A).1.length : Int) + 1)
          < (s.REG_HL : Int) + s.REG_BC
    omega

/-- When the message is truncated (`strerror` has set no `errno`, and
`REG_BC` is at least 1 and below the length of the message plus 2), the NUL
that ends it is stored at `REG_HL + REG_BC`, the first address after the
buffer. -/
theorem strerror_truncated (o : Outside) (s : Z80) (hhl : s.REG_HL + s.REG_BC ≤ 0x10000)
    (herr : (o.strerror s.REG_A).2 = 0)
    (hbc : 1 ≤ s.REG_BC ∧ s.REG_BC < (o.strerror s.REG_A).1.length + 2) :
    ∃ t, do_emt_strerror o s = some t
      ∧ ((s.REG_HL : Int) + s.REG_BC, (0 : Int)) ∈ t.stores := by
  have hg : ¬ s.REG_HL + s.REG_BC > 0x10000 := by omega
  have hlt : (s.REG_BC : Int) < ((o.strerror s.REG_A).1.length : Int) + 2 := by omega
  have hnn : ¬ (s.REG_BC : Int) - 1 < 0 := by omega
  unfold do_emt_strerror
  rw [if_neg hg]
  dsimp only
  rw [if_neg (not_not.mpr herr), if_pos hlt]
  dsimp only
  rw [if_neg hnn, if_pos herr]
  refine ⟨_, rfl, ?_⟩
  dsimp only [mem_write, zero_set, set_A]
  have e : (s.REG_HL : Int) + s.REG_BC
      = ((memcpy_to (s.REG_HL : Int) (List.take ((s.REG_BC : Int) - 1).toNat
          (o.strerror s.REG_A).1)
          { REG_A := (ERANGE % 256).toNat,
            REG_F := (Int.lor (s.REG_F : Int) (o.ZERO_MASK : Int) % 256).toNat,
            REG_BC := s.REG_BC, REG_DE := s.REG_DE, REG_HL := s.REG_HL,
            stores := s.stores }).REG_HL : Int) + ((s.REG_BC : Int) - 1 + 1) := by
    rw [(memcpy_to_stores _ _ _).2.1]
    show (s.REG_HL : Int) + s.REG_BC = (s.REG_HL : Int) + ((s.REG_BC : Int) - 1 + 1)
    omega
  rw [e]
  exact List.mem_append_right _ (List.mem_singleton.mpr rfl)

/-- When `strerror` sets `errno`, `do_emt_strerror` copies the whole message
whatever `REG_BC` is: the NUL is stored at `REG_HL` plus the length of the
message plus 1. -/
theorem strerror_unchecked (o : Outside) (s : Z80) (hhl : s.REG_HL + s.REG_BC ≤ 0x10000)
    (herr : (o.strerror s.REG_A).2 ≠ 0) :
    ∃ t, do_emt_strerror o s = some t
      ∧ ((s.REG_HL : Int) + ((o.strerror s.REG_A).1.length + 1 : Nat), (0 : Int)) ∈ t.stores := by
  have hg : ¬ s.REG_HL + s.REG_BC > 0x10000 := by omega
  have hnn : ¬ ((o.strerror s.REG_A).1.length : Int) < 0 := by omega
  unfold do_emt_strerror
  rw [if_neg hg]
  dsimp only
  rw [if_pos herr]
  dsimp only
  rw [if_neg hnn, if_neg herr]
  refine ⟨_, rfl, ?_⟩
  dsimp only [mem_write, zero_clear, set_A]
  rw [(memcpy_to_stores _ _ _).2.1]
  push_cast
  exact List.mem_append_right _ (List.mem_singleton.mpr rfl)

/-- Claim C32 at a failing input (`do_emt_strerror` never writes outside the
caller's buffer): with `REG_A = 1`, `REG_HL = 0x4000` and `REG_BC = 10`, a
buffer inside memory, and the 23-byte message "Operation not permitted", the
message does not fit and is cut to `REG_BC - 1 = 9` bytes; the carriage return
goes to 0x4009, the last byte of the buffer, and the NUL to 0x400a, which is
`REG_HL + REG_BC`: one byte is stored outside `[REG_HL, REG_HL + REG_BC)`. -/
theorem strerror_stores_past_buffer :
    (trap_entry 1 10 0 0x4000).REG_HL + (trap_entry 1 10 0 0x4000).REG_BC ≤ 0x10000
    ∧ (demo_outside.strerror 1).1.length = 23 ∧ (demo_outside.strerror 1).2 = 0
    ∧ do_emt_strerror demo_outside (trap_entry 1 10 0 0x4000)
        = some { REG_A := 34, REG_F := 0x40, REG_BC := 10, REG_DE := 0, REG_HL := 0x4000,
                 stores := [(0x4000, 79), (0x4001, 112), (0x4002, 101), (0x4003, 114),
                            (0x4004, 97), (0x4005, 116), (0x4006, 105), (0x4007, 111),
                            (0x4008, 110), (0x4009, 13), (0x400a, 0)] }
    ∧ ¬ ((0x400a : Int) < 0x4000 + 10) := by
  decide

theorem getc_unread_nil (f : FILE) (h : unread f = []) : (getc f).1 = EOF := by
  unfold unread at h
  unfold getc
  by_cases hrd : f.rd = true
  · rw [if_pos hrd] at h ⊢
    rw [h]
  · rw [if_neg hrd]

theorem getc_unread_cons (f : FILE) (c : Nat) (cs : List Nat) (h : unread f = c :: cs) :
    (getc f).1 = (c : Int) ∧ unread (getc f).2 = cs := by
  unfold unread at h
  by_cases hrd : f.rd = true
  · rw [if_pos hrd] at h
    have hg : getc f = ((c : Int), { f with pos := f.pos + 1 }) := by
      unfold getc
      rw [if_pos hrd, h]
    rw [hg]
    refine ⟨rfl, ?_⟩
    unfold unread
    show (if f.rd = true then f.data.drop (f.pos + 1) else []) = cs
    rw [if_pos hrd]
    have : f.data.drop (f.pos + 1) = (f.data.drop f.pos).drop 1 := by
      rw [List.drop_drop, Nat.add_comm]
    rw [this, h]
    rfl
  · rw [if_neg hrd] at h
    exact absurd h (by simp)

theorem get_twobyte_short (f : FILE) (h : (unread f).length < 2) : (get_twobyte f).1 = -1 := by
  unfold get_twobyte
  rcases hu : unread f with _ | ⟨c, cs⟩
  · have := getc_unread_nil f hu
    simp only [this, EOF, if_true]
  · obtain ⟨g1, g2⟩ := getc_unread_cons f c cs hu
    have hc : ¬ ((c : Int) = -1) := by omega
    have hcs : cs = [] := by
      rw [hu] at h
      simp only [List.length_cons] at h
      exact List.length_eq_zero.mp (by omega)
    rw [hcs] at g2
    have := getc_unread_nil _ g2
    simp only [g1, hc, if_false, this, EOF, if_true]

theorem get_twobyte_escape (f : FILE) (rest : List Nat) (h : unread f = 0xff :: 0xff :: rest) :
    (get_twobyte f).1 = 0 ∧ (get_twobyte f).2.1 = 0xffff
      ∧ unread (get_twobyte f).2.2 = rest := by
  obtain ⟨g1, g2⟩ := getc_unread_cons f 0xff (0xff :: rest) h
  obtain ⟨g3, g4⟩ := getc_unread_cons (getc f).2 0xff rest g2
  have hne : ¬ (((0xff : Nat) : Int) = -1) := by decide
  unfold get_twobyte
  simp only [g1, g3, hne, if_false]
  refine ⟨?_, ?_, g4⟩
  · trivial
  · trivial

theorem get_fourbyte_short (f : FILE) (h : (unread f).length < 4) :
    (get_fourbyte f).1 = -1 := by
  unfold get_fourbyte
  rcases hu : unread f with _ | ⟨c0, cs0⟩
  · have := getc_unread_nil f hu
    simp only [this, EOF, if_true]
  · obtain ⟨g1, g2⟩ := getc_unread_cons f c0 cs0 hu
    have hc0 : ¬ ((c0 : Int) = -1) := by omega
    simp only [g1, hc0, if_false]
    rcases hu1 : cs0 with _ | ⟨c1, cs1⟩
    · rw [hu1] at g2
      have := getc_unread_nil _ g2
      simp only [this, EOF, if_true]
    · rw [hu1] at g2
      obtain ⟨g3, g4⟩ := getc_unread_cons _ c1 cs1 g2
      have hc1 : ¬ ((c1 : Int) = -1) := by omega
      simp only [g3, hc1, if_false]
      rcases hu2 : cs1 with _ | ⟨c2, cs2⟩
      · rw [hu2] at g4
        have := getc_unread_nil _ g4
        simp only [this, EOF, if_true]
      · rw [hu2] at g4
        obtain ⟨g5, g6⟩ := getc_unread_cons _ c2 cs2 g4
        have hc2 : ¬ ((c2 : Int) = -1) := by omega
        simp only [g5, hc2, if_false]
        have hcs2 : cs2 = [] := by
          rw [hu, hu1, hu2] at h
          simp only [List.length_cons] at h
          exact List.length_eq_zero.mp (by omega)
        rw [hcs2] at g6
        have := getc_unread_nil _ g6
        simp only [this, EOF, if_true]

/-- The pulse-train reader finds no record when fewer than two bytes are
left, or when the escape code ff ff is followed by fewer than five bytes. -/
theorem get_cpt_short (s : Cassette) (f : FILE) (hf : s.cassette_file = some f)
    (h : (unread f).length < 2
      ∨ ((unread f).take 2 = [0xff, 0xff] ∧ (unread f).length < 7)) :
    (get_cpt s).1 = none := by
  unfold get_cpt
  rw [hf]
  simp only
  rcases h with h | ⟨h2, h7⟩
  · rw [if_pos (get_twobyte_short f h)]
  · rcases hu : unread f with _ | ⟨a, _ | ⟨b, rest⟩⟩
    · rw [hu] at h2; exact absurd h2 (by simp)
    · rw [hu] at h2; exact absurd h2 (by simp)
    · rw [hu] at h2 h7
      simp only [List.take_succ_cons, List.take_zero, List.cons.injEq, and_true] at h2
      obtain ⟨ha, hb⟩ := h2
      subst ha; subst hb
      obtain ⟨t1, t2, t3⟩ := get_twobyte_escape f rest hu
      rw [if_neg (by rw [t1]; decide), if_pos t2]
      rcases hr : rest with _ | ⟨c, rest2⟩
      · rw [hr] at t3
        rw [if_pos (getc_unread_nil _ t3)]
      · rw [hr] at t3
        obtain ⟨g1, g2⟩ := getc_unread_cons _ c rest2 t3
        have hc : ¬ ((getc (get_twobyte f).2.2).1 = EOF) := by
          rw [g1]; simp only [EOF]; omega
        rw [if_neg hc]
        have h4 : (unread (getc (get_twobyte f).2.2).2).length < 4 := by
          rw [g2]
          rw [hr] at h7
          simp only [List.length_cons] at h7
          omega
        rw [if_pos (get_fourbyte_short _ h4)]

theorem in_cpt_short (s : Cassette) (f : FILE) (hf : s.cassette_file = some f)
    (h : (unread f).length < 2
      ∨ ((unread f).take 2 = [0xff, 0xff] ∧ (unread f).length < 7)) :
    (in_cpt s).1 = 0 := by
  have hg := get_cpt_short s f hf h
  unfold in_cpt
  split
  · rfl
  · rename_i d s2 heq
    rw [heq] at hg
    exact absurd hg (by simp)

theorem in_debug_fail (s : Cassette) (f : FILE) (hf : s.cassette_file = some f)
    (h : (fscanf_d_lu f).1 = none) : (in_debug s).1 = 0 := by
  unfold in_debug
  rw [hf]
  simp only
  rw [h]

theorem in_wav_fail (s : Cassette) (f : FILE) (hf : s.cassette_file = some f)
    (h : (wav_scan (unread f) 0 (ulong_of_int (Int.tdiv s.cassette_sample_rate 100)) s).1
      = none) : (in_wav s).1 = 0 := by
  unfold unread at h
  unfold in_wav
  simp only [hf, h]

theorem in_cas_fail (s : Cassette) (f : FILE) (hf : s.cassette_file = some f)
    (heof : unread f = []) (hb : s.cassette_byte = 0x100)
    (hp : s.cassette_pulsestate = 0) (hn : s.cassette_bitnumber ≤ 0) : (in_cas s).1 = 0 := by
  have hg : (getc f).1 = EOF := getc_unread_nil f heof
  have hlt : s.cassette_bitnumber - 1 < 0 := by omega
  unfold in_cas
  simp only [hp, if_true, hlt, hf, hg, hb]

/-- Claim C13, amended (end of file on decode is not fatal and halts progress):
`transition_in` returns 0 and sets `cassette_delta` to the largest `unsigned
long` whenever it runs into the end of the file, at the start of the call or
part of the way through a record: in the debug-text format when `fscanf` does
not convert two numbers; in the pulse-train format when fewer than two bytes
are left, or the escape code ff ff is followed by fewer than five bytes; in the
WAV and direct formats when the sampling loop reads the last byte without
finding a transition (a trailing run of samples); in the CAS format when no
byte is left and the extra zero byte has been delivered (`cassette_byte =
0x100`, a new byte due).  It leaves the state, hence `READ`, and the motor
alone; and with the motor on in `READ`, at every later clock value whose
distance to `cassette_transition` is below that maximum, `trs_cassette_update`
changes nothing, so it delivers no transition. -/
theorem eof_halts_decoding (s : Cassette) (f : FILE) (hf : s.cassette_file = some f)
    (heof :
      (s.cassette_format = DEBUG_FORMAT ∧ (fscanf_d_lu f).1 = none)
      ∨ (s.cassette_format = CPT_FORMAT
          ∧ ((unread f).length < 2
              ∨ ((unread f).take 2 = [0xff, 0xff] ∧ (unread f).length < 7)))
      ∨ ((s.cassette_format = WAV_FORMAT ∨ s.cassette_format = DIRECT_FORMAT)
          ∧ (wav_scan (unread f) 0
              (ulong_of_int (Int.tdiv s.cassette_sample_rate 100)) s).1 = none)
      ∨ (s.cassette_format = CAS_FORMAT ∧ unread f = [] ∧ s.cassette_byte = 0x100
          ∧ s.cassette_pulsestate = 0 ∧ s.cassette_bitnumber ≤ 0)) :
    (transition_in s).1 = 0
    ∧ (transition_in s).2.cassette_delta = ULONG_MAX
    ∧ (transition_in s).2.cassette_state = s.cassette_state
    ∧ (transition_in s).2.cassette_motor = s.cassette_motor
    ∧ (∀ t fuel : Nat, s.cassette_motor ≠ 0 → s.cassette_state = READ →
        tsub t (transition_in s).2.cassette_transition < ULONG_MAX →
        trs_cassette_update (fuel + 1) 0 { (transition_in s).2 with t_count := t }
          = some { (transition_in s).2 with t_count := t }) := by
  have h0 : (transition_in s).1 = 0 := by
    apply transition_in_zero s _ rfl
    rcases heof with ⟨h, he⟩ | ⟨h, he⟩ | ⟨h, he⟩ | ⟨h, he, hb, hp, hn⟩
    · rw [if_pos h]; exact in_debug_fail s f hf he
    · rw [if_neg (by rw [h]; decide), if_pos h]; exact in_cpt_short s f hf he
    · have h1 : ¬ s.cassette_format = DEBUG_FORMAT := by rcases h with h | h <;> rw [h] <;> decide
      have h2 : ¬ s.cassette_format = CPT_FORMAT := by rcases h with h | h <;> rw [h] <;> decide
      rw [if_neg h1, if_neg h2, if_pos h.symm]
      exact in_wav_fail s f hf he
    · rw [if_neg (by rw [h]; decide), if_neg (by rw [h]; decide),
        if_neg (by rw [h]; decide), if_pos h]
      exact in_cas_fail s f hf he hb hp hn
  have hd := transition_in_fail s h0
  obtain ⟨m1, m2, _, _⟩ := transition_in_mode s
  refine ⟨h0, hd, m1, m2, ?_⟩
  intro t fuel hm hr ht
  exact update_halted fuel { (transition_in s).2 with t_count := t } (by rw [← m2] at hm; exact hm)
    (by rw [← m1] at hr; exact hr) hd ht

theorem classify_quiet (s : Cassette) (hh : s.cassette_highspeed = 0)
    (hnf : 0 < s.cassette_noisefloor) (henv : 0 ≤ s.cassette_env) :
    classify_sample 127 s
      = (0, { s with cassette_noisefloor :=
                to_int (fl32 (fl32 (s.cassette_avg + s.cassette_env) / 2)) }) := by
  have h1 : ¬ ((127 : Int) > 127 + s.cassette_noisefloor) := by omega
  have h2 : ¬ ((127 : Int) ≤ 127 - s.cassette_noisefloor) := by omega
  have h3 : ¬ (s.cassette_highspeed ≠ 0) := by simp [hh]
  have hcabs : |((127 : Int) - 127)| = 0 := by decide
  have h4 : ¬ ((((0 : Int)) : ℚ) > s.cassette_env) := by
    simp only [Int.cast_zero, gt_iff_lt, not_lt]
    exact henv
  unfold classify_sample
  rw [if_neg h1, if_neg h2, if_neg h3]
  dsimp only
  rw [hcabs, if_neg (show ¬ ((0 : Int) > 1) by decide)]
  rw [if_neg h4, if_neg (show ¬ ((0 : Int) > 10) by decide)]

/-- A trailing run of silence: with value 0 current at low speed, samples that
all sit on the centre line 127 never make a transition, so the sampling loop
of the wave reader runs into the end of the file. -/
theorem wav_scan_quiet (k : Nat) : ∀ (n m : Nat) (s : Cassette), s.nmi = 0 →
    s.cassette_value = 0 → s.cassette_highspeed = 0 → 0 < s.cassette_noisefloor →
    0 ≤ s.cassette_env →
    0 < to_int (fl32 (fl32 (s.cassette_avg + s.cassette_env) / 2)) → k ≤ m →
    (wav_scan (List.replicate k 127) n m s).1 = none := by
  induction k with
  | zero => intro n m s _ _ _ _ _ _ _; rfl
  | succ k ih =>
    intro n m s hnmi hv hh hnf henv hfl hm
    obtain ⟨s1, hs1⟩ : ∃ s1, s1 = on_file (fun f => (0, { f with pos := f.pos + 1 })) s :=
      ⟨_, rfl⟩
    have e1 : s1.cassette_highspeed = 0 := by rw [hs1]; exact hh
    have e2 : s1.cassette_noisefloor = s.cassette_noisefloor := by rw [hs1]; rfl
    have e3 : s1.cassette_env = s.cassette_env := by rw [hs1]; rfl
    have e4 : s1.cassette_avg = s.cassette_avg := by rw [hs1]; rfl
    have e5 : s1.nmi = 0 := by rw [hs1]; exact hnmi
    have e6 : s1.cassette_value = 0 := by rw [hs1]; exact hv
    have hc := classify_quiet s1 e1 (by rw [e2]; exact hnf) (by rw [e3]; exact henv)
    rw [List.replicate_succ]
    unfold wav_scan
    simp only [← hs1]
    have hc2 : classify_sample ((127 : Nat) : Int) s1
        = (0, { s1 with
                  cassette_noisefloor :=
                    to_int (fl32 (fl32 (s1.cassette_avg + s1.cassette_env) / 2)) }) := hc
    rw [hc2]
    simp only
    rw [if_neg (by simp [e5]), if_pos ⟨by simp [e6], by omega⟩]
    apply ih
    · exact e5
    · exact e6
    · exact e1
    · show 0 < to_int _
      rw [e3, e4]; exact hfl
    · show 0 ≤ s1.cassette_env
      rw [e3]; exact henv
    · show 0 < to_int (fl32 (fl32 (s1.cassette_avg + s1.cassette_env) / 2))
      rw [e3, e4]; exact hfl
    · omega

theorem seed_floor : to_int (fl32 (fl32 (64 + 127) / 2)) = 95 := by
  have f1 : fl32 (64 + 127) = 191 :=
    fl32_eq _ _ 7 12517376 (by norm_num) (by norm_num) (by norm_num)
      ⟨by norm_num, by norm_num⟩ (by norm_num)
  have f2 : fl32 (191 / 2) = 191 / 2 :=
    fl32_eq _ _ 6 12517376 (by norm_num) (by norm_num) (by norm_num)
      ⟨by norm_num, by norm_num⟩ (by norm_num)
  rw [f1, f2, to_int_floor _ (by norm_num) (by norm_num)]
  rw [Int.floor_eq_iff]
  constructor <;> norm_num

set_option maxRecDepth 100000 in
theorem eof_halts_decoding_witness :
    ((transition_in (demo_reader CPT_FORMAT [0xff, 0xff, 1, 2])).1 = 0
      ∧ (transition_in (demo_reader CPT_FORMAT [0xff, 0xff, 1, 2])).2.cassette_delta = ULONG_MAX
      ∧ (transition_in (demo_reader CPT_FORMAT [0xff, 0xff, 1, 2])).2.cassette_state = READ)
    ∧ ((transition_in (transition_in (demo_reader CPT_FORMAT [0xa2, 0x0f, 0xff])).2).1 = 0
      ∧ (transition_in (transition_in (demo_reader CPT_FORMAT [0xa2, 0x0f, 0xff])).2).2.cassette_delta
          = ULONG_MAX
      ∧ (transition_in (transition_in (demo_reader CPT_FORMAT [0xa2, 0x0f, 0xff])).2).2.cassette_state
          = READ)
    ∧ ((transition_in (demo_reader DEBUG_FORMAT [49, 32, 10])).1 = 0
      ∧ (transition_in (demo_reader DEBUG_FORMAT [49, 32, 10])).2.cassette_delta = ULONG_MAX
      ∧ (transition_in (demo_reader DEBUG_FORMAT [49, 32, 10])).2.cassette_state = READ)
    ∧ ((transition_in (wav_reader [127, 127, 127])).1 = 0
      ∧ (transition_in (wav_reader [127, 127, 127])).2.cassette_delta = ULONG_MAX
      ∧ (transition_in (wav_reader [127, 127, 127])).2.cassette_state = READ) := by
  have a := eof_halts_decoding (demo_reader CPT_FORMAT [0xff, 0xff, 1, 2])
    (demo_tape [0xff, 0xff, 1, 2]) rfl
    (Or.inr (Or.inl ⟨by decide, Or.inr ⟨by decide, by decide⟩⟩))
  have b := eof_halts_decoding (transition_in (demo_reader CPT_FORMAT [0xa2, 0x0f, 0xff])).2
    { demo_tape [0xa2, 0x0f, 0xff] with pos := 2 } (by decide)
    (Or.inr (Or.inl ⟨by decide, Or.inl (by decide)⟩))
  have c := eof_halts_decoding (demo_reader DEBUG_FORMAT [49, 32, 10])
    (demo_tape [49, 32, 10]) rfl (Or.inl ⟨by decide, by decide⟩)
  have d := eof_halts_decoding (wav_reader [127, 127, 127])
    (FILE.mk 0 "tape.wav" (wav_header 11025 ++ [127, 127, 127]) 44 true false false) (by decide)
    (Or.inr (Or.inr (Or.inl ⟨Or.inl (by decide), by
      have hr : (wav_reader [127, 127, 127]).cassette_sample_rate = 11025 := by decide
      have hu : unread (FILE.mk 0 "tape.wav" (wav_header 11025 ++ [127, 127, 127]) 44 true
          false false) = List.replicate 3 127 := by decide
      rw [hr, hu]
      apply wav_scan_quiet 3 0 _ _ (by decide) (by decide) (by decide) (by decide)
      · have he : (wav_reader [127, 127, 127]).cassette_env = 127 := by decide
        rw [he]; norm_num
      · have ha : (wav_reader [127, 127, 127]).cassette_avg = 64 := by decide
        have he : (wav_reader [127, 127, 127]).cassette_env = 127 := by decide
        rw [ha, he, seed_floor]; decide
      · decide⟩)))
  have r1 : (demo_reader CPT_FORMAT [0xff, 0xff, 1, 2]).cassette_state = READ := by decide
  have r2 : (transition_in (demo_reader CPT_FORMAT [0xa2, 0x0f, 0xff])).2.cassette_state
      = READ := by decide
  have r3 : (demo_reader DEBUG_FORMAT [49, 32, 10]).cassette_state = READ := by decide
  have r4 : (wav_reader [127, 127, 127]).cassette_state = READ := by decide
  exact ⟨⟨a.1, a.2.1, a.2.2.1.trans r1⟩, ⟨b.1, b.2.1, b.2.2.1.trans r2⟩,
    ⟨c.1, c.2.1, c.2.2.1.trans r3⟩, ⟨d.1, d.2.1, d.2.2.1.trans r4⟩⟩



end Xtrs
